import Mathlib

/-!
# The OCaml tag extractor of ctags (`parsers/ocaml.c`)

A shallow embedding of the tokenizer, the context stack and the parsing
automaton of `parsers/ocaml.c`, followed by theorems about them.

Conventions of the embedding.

* A `vString` is the list of its characters.
* A C string pointer (`const unsigned char *`) is the list of the characters
  from the pointed position on; the terminating NUL is the end of the list,
  so `*c` is the head of the list, or NUL when the list is empty, and `c++`
  is the tail.  `NULL` is `none`.  The source moves a pointer that stands on
  the terminating NUL in one place only, the `c++` of `eatComment` after a
  nested comment; what the C code reads from there on lies outside the line
  and is not modelled: the pointer of the embedding stays at the end of the
  line and the step is recorded in `Reader.pastEnd`.
* The line reader `readLineFromInputFile` is the list of the lines not yet
  read, together with the number of lines already handed out.
* Global and function-static variables are the fields of `ParserState`.
* Loops whose trip count is not bounded by the structure of their argument
  take a fuel argument and return `none` when it runs out.
-/

namespace Ocaml

/-! ## Kinds, tokens -/

/-- The C constant `OCAML_MAX_STACK_SIZE`. -/
def OCAML_MAX_STACK_SIZE : Nat := 256

/-- The C enumeration `ocamlKind`. -/
inductive ocamlKind where
  | K_CLASS
  | K_METHOD
  | K_MODULE
  | K_VARIABLE
  | K_VAL
  | K_TYPE
  | K_FUNCTION
  | K_CONSTRUCTOR
  | K_RECORDFIELD
  | K_EXCEPTION
  deriving DecidableEq, Repr

/-- The C enumeration `ocamlKeyword` (also named `ocaToken`). -/
inductive ocamlKeyword where
  | OcaKEYWORD_and
  | OcaKEYWORD_begin
  | OcaKEYWORD_class
  | OcaKEYWORD_do
  | OcaKEYWORD_done
  | OcaKEYWORD_else
  | OcaKEYWORD_end
  | OcaKEYWORD_exception
  | OcaKEYWORD_for
  | OcaKEYWORD_functor
  | OcaKEYWORD_fun
  | OcaKEYWORD_function
  | OcaKEYWORD_if
  | OcaKEYWORD_in
  | OcaKEYWORD_let
  | OcaKEYWORD_value
  | OcaKEYWORD_match
  | OcaKEYWORD_method
  | OcaKEYWORD_module
  | OcaKEYWORD_mutable
  | OcaKEYWORD_object
  | OcaKEYWORD_of
  | OcaKEYWORD_rec
  | OcaKEYWORD_sig
  | OcaKEYWORD_struct
  | OcaKEYWORD_then
  | OcaKEYWORD_try
  | OcaKEYWORD_type
  | OcaKEYWORD_val
  | OcaKEYWORD_virtual
  | OcaKEYWORD_while
  | OcaKEYWORD_with
  | OcaIDENTIFIER
  | Tok_PARL
  | Tok_PARR
  | Tok_BRL
  | Tok_BRR
  | Tok_CurlL
  | Tok_CurlR
  | Tok_Prime
  | Tok_Pipe
  | Tok_EQ
  | Tok_Val
  | Tok_Op
  | Tok_semi
  | Tok_comma
  | Tok_To
  | Tok_Of
  | Tok_Sharp
  | Tok_Backslash
  | Tok_EOF
  deriving DecidableEq, Repr

/-- The C type `ocaToken`. -/
abbrev ocaToken := ocamlKeyword

/-- A `vString`: its characters. -/
abbrev vString := List Char

/-- The NUL character that ends a C string. -/
abbrev chNUL : Char := Char.ofNat 0
/-- The double quote character. -/
abbrev chDQuote : Char := Char.ofNat 34
/-- The single quote character. -/
abbrev chPrime : Char := Char.ofNat 39
/-- The backslash character. -/
abbrev chBackslash : Char := Char.ofNat 92
/-- The opening curly brace. -/
abbrev chCurlL : Char := Char.ofNat 123
/-- The closing curly brace. -/
abbrev chCurlR : Char := Char.ofNat 125

open ocamlKeyword in
/-- The C table `OcamlKeywordTable`, entry by entry. -/
def OcamlKeywordTable : List (String × ocamlKeyword) :=
  [ ("and"       , OcaKEYWORD_and       ),
    ("begin"     , OcaKEYWORD_begin     ),
    ("class"     , OcaKEYWORD_class     ),
    ("do"        , OcaKEYWORD_do        ),
    ("done"      , OcaKEYWORD_done      ),
    ("else"      , OcaKEYWORD_else      ),
    ("end"       , OcaKEYWORD_end       ),
    ("exception" , OcaKEYWORD_exception ),
    ("for"       , OcaKEYWORD_for       ),
    ("fun"       , OcaKEYWORD_fun       ),
    ("function"  , OcaKEYWORD_fun       ),
    ("functor"   , OcaKEYWORD_functor   ),
    ("if"        , OcaKEYWORD_if        ),
    ("in"        , OcaKEYWORD_in        ),
    ("let"       , OcaKEYWORD_let       ),
    ("match"     , OcaKEYWORD_match     ),
    ("method"    , OcaKEYWORD_method    ),
    ("module"    , OcaKEYWORD_module    ),
    ("mutable"   , OcaKEYWORD_mutable   ),
    ("object"    , OcaKEYWORD_object    ),
    ("of"        , OcaKEYWORD_of        ),
    ("rec"       , OcaKEYWORD_rec       ),
    ("sig"       , OcaKEYWORD_sig       ),
    ("struct"    , OcaKEYWORD_struct    ),
    ("then"      , OcaKEYWORD_then      ),
    ("try"       , OcaKEYWORD_try       ),
    ("type"      , OcaKEYWORD_type      ),
    ("val"       , OcaKEYWORD_val       ),
    ("value"     , OcaKEYWORD_value     ),
    ("virtual"   , OcaKEYWORD_virtual   ),
    ("while"     , OcaKEYWORD_while     ),
    ("with"      , OcaKEYWORD_with      ),
    ("or"        , Tok_Op               ),
    ("mod "      , Tok_Op               ),
    ("land "     , Tok_Op               ),
    ("lor "      , Tok_Op               ),
    ("lxor "     , Tok_Op               ),
    ("lsl "      , Tok_Op               ),
    ("lsr "      , Tok_Op               ),
    ("asr"       , Tok_Op               ),
    ("->"        , Tok_To               ),
    (":"         , Tok_Of               ),
    ("true"      , Tok_Val              ),
    ("false"     , Tok_Val              ) ]

/-- Modelled from the spec: `lookupKeyword` of `keyword.h`, which is not part
of this source file.  The spec describes it as a precomputed mapping from
literal lexeme to keyword token kind: the text is looked up against the
table, a hit yields the entry's token kind and a miss yields `none` (the C
function returns `-1`).  The match is on the whole lexeme. -/
def lookupKeywordIn : List (String × ocamlKeyword) → vString → Option ocamlKeyword
  | [], _ => none
  | (k, t) :: rest, name => if k.toList = name then some t else lookupKeywordIn rest name

/-- The call `lookupKeyword (vStringValue (st->name), Lang_Ocaml)`. -/
def lookupKeyword (name : vString) : Option ocamlKeyword :=
  lookupKeywordIn OcamlKeywordTable name

/-! ## Lexing -/

/-- The C structure `lexingState`: `cp = none` is the `NULL` pointer. -/
structure lexingState where
  name : vString
  cp : Option (List Char)
  deriving DecidableEq, Repr

/-- The line reader (`read.h`): the lines still to be read and the number of
lines already returned (`getInputLineNumber`).  `pastEnd` records that the
lexer has moved a pointer past the NUL that ends its line; from then on the C
code reads memory that is not part of the input, and the embedding no longer
tells what it does. -/
structure Reader where
  lines : List (List Char)
  lineNumber : Nat
  pastEnd : Bool := false
  deriving DecidableEq, Repr

/-- The call `readLineFromInputFile ()`: the next line, or `none` (`NULL`)
when the input is exhausted. -/
def readLineFromInputFile (rd : Reader) : Option (List Char) × Reader :=
  match rd.lines with
  | [] => (none, rd)
  | l :: rest => (some l, { rd with lines := rest, lineNumber := rd.lineNumber + 1 })

/-- The character `*c` under a C string pointer. -/
def cur (c : List Char) : Char := c.headD chNUL

/-- The table `isOperator` after `initOperatorTable`. -/
def isOperator (c : Char) : Bool :=
  c == '!' || c == '$' || c == '%' || c == '&' || c == '*' || c == '+' ||
  c == '-' || c == '.' || c == '/' || c == ':' || c == '<' || c == '=' ||
  c == '>' || c == '?' || c == '@' || c == '^' || c == '~' || c == '|'

def isNum (c : Char) : Bool := decide ('0' ≤ c) && decide (c ≤ '9')

def isLowerAlpha (c : Char) : Bool := decide ('a' ≤ c) && decide (c ≤ 'z')

def isUpperAlpha (c : Char) : Bool := decide ('A' ≤ c) && decide (c ≤ 'Z')

def isAlpha (c : Char) : Bool := isLowerAlpha c || isUpperAlpha c

def isIdent (c : Char) : Bool := isNum c || isAlpha c || c == '_' || c == chPrime

def isSpace (c : Char) : Bool :=
  c == ' ' || c == Char.ofNat 9 || c == Char.ofNat 13 || c == Char.ofNat 10

/-- The C function `eatWhiteSpace`, on the pointer `st->cp`. -/
def eatWhiteSpace : List Char → List Char
  | [] => []
  | ch :: cp => if isSpace ch then eatWhiteSpace cp else ch :: cp

/-- The loop of `eatString`: `c` is the pointer, the result is the pointer
the loop ends with. -/
def eatStringLoop : List Char → Bool → List Char
  | [], _ => []
  | ch :: c, lastIsBackSlash =>
    if ch == chNUL then ch :: c
    else if ch == chDQuote && !lastIsBackSlash then c
    else eatStringLoop c (ch == chBackslash)

/-- The C function `eatString`, on the pointer `st->cp` (which is at the
opening quote): the loop starts at `st->cp + 1`. -/
def eatString (cp : List Char) : List Char := eatStringLoop cp.tail false

/-- The loop of `eatComment`, `c` being the pointer and `lastIsStar` the
flag; the result is the final `st->cp` (`none` when the input ran out inside
the comment) and the reader.  A nested comment is a recursive call of the
whole function, which starts two characters further with a fresh flag.
After it the source does `c++` without looking at `*c`: when the nested
comment ended at the end of its line, `c` stands on the terminating NUL and
the step takes it out of the line, which `pastEnd` records. -/
def eatCommentLoop : Nat → Reader → List Char → Bool → Option (Option (List Char) × Reader)
  | 0, _, _, _ => none
  | fuel + 1, rd, c, lastIsStar =>
    if cur c == chNUL then
      match readLineFromInputFile rd with
      | (none, rd1) => some (none, rd1)
      | (some l, rd1) => eatCommentLoop fuel rd1 l lastIsStar
    else if cur c == ')' && lastIsStar then
      some (some c.tail, rd)
    else if cur c == '(' && cur c.tail == '*' then
      match eatCommentLoop fuel rd c.tail.tail false with
      | none => none
      | some (none, rd1) => some (none, rd1)
      | some (some c1, rd1) =>
        eatCommentLoop fuel { rd1 with pastEnd := rd1.pastEnd || cur c1 == chNUL } c1.tail
          false
    else if cur c == chDQuote then
      eatCommentLoop fuel rd (eatString c) lastIsStar
    else
      eatCommentLoop fuel rd c.tail (cur c == '*')

/-- The C function `eatComment`, on the pointer `st->cp` (which is at the
opening marker): the loop starts at `st->cp + 2`. -/
def eatComment (fuel : Nat) (rd : Reader) (cp : List Char) :
    Option (Option (List Char) × Reader) :=
  eatCommentLoop fuel rd cp.tail.tail false

/-- The `for` loop of `readIdentifier`. -/
def readIdentifierLoop : List Char → vString → vString × List Char
  | [], name => (name, [])
  | ch :: p, name =>
    if isIdent ch then readIdentifierLoop p (name ++ [ch]) else (name, ch :: p)

/-- The C function `readIdentifier`: the new name and the new pointer. -/
def readIdentifier (cp : List Char) : vString × List Char :=
  readIdentifierLoop cp.tail
    (if isAlpha (cur cp) || cur cp == '_' then [cur cp] else [])

/-- The C function `eatNumber`, on the pointer. -/
def eatNumber : List Char → List Char
  | [] => []
  | ch :: cp => if isNum ch then eatNumber cp else ch :: cp

/-- The `while` loop of `eatOperator`. -/
def eatOperatorLoop : List Char → vString → vString × List Char
  | [], name => (name, [])
  | ch :: cp, name =>
    if isOperator ch then eatOperatorLoop cp (name ++ [ch]) else (name, ch :: cp)

open ocamlKeyword in
/-- The C function `eatOperator`: the token, the new name, the new pointer. -/
def eatOperator (root : List Char) : ocamlKeyword × vString × List Char :=
  let r := eatOperatorLoop root []
  let count := r.1.length
  let tok :=
    if count ≤ 1 then
      (if cur root == '|' then Tok_Pipe
       else if cur root == '=' then Tok_EQ
       else if cur root == ':' then Tok_Of
       else Tok_Op)
    else if count = 2 && cur root == '-' && cur root.tail == '>' then Tok_To
    else if count = 2 && cur root == '|' && cur root.tail == '>' then Tok_Op
    else Tok_Op
  (tok, r.1, r.2)

/-- The loop at the head of `lex`, entered when `st->cp` is `NULL` or at the
end of its line: lines are read until one is not empty; `none` when the
reader is exhausted (`lex` then returns `Tok_EOF`). -/
def lexLoadLine : List (List Char) → Nat → Bool → Option (List Char) × Reader
  | [], n, b => (none, { lines := [], lineNumber := n, pastEnd := b })
  | l :: rest, n, b =>
    if cur l == chNUL then lexLoadLine rest (n + 1) b
    else (some l, { lines := rest, lineNumber := n + 1, pastEnd := b })

/-- The head of `lex`: `while (st->cp == NULL || st->cp[0] == 0)`. -/
def lexHead (rd : Reader) (cp : Option (List Char)) : Option (List Char) × Reader :=
  match cp with
  | none => lexLoadLine rd.lines rd.lineNumber rd.pastEnd
  | some c =>
    if cur c == chNUL then lexLoadLine rd.lines rd.lineNumber rd.pastEnd else (some c, rd)

open ocamlKeyword in
/-- The C function `lex`: the token returned, the lexing state and the
reader after the call. -/
def lex : Nat → Reader → lexingState → Option (ocamlKeyword × lexingState × Reader)
  | 0, _, _ => none
  | fuel + 1, rd, st =>
    match lexHead rd st.cp with
    | (none, rd1) => some (Tok_EOF, { st with cp := none }, rd1)
    | (some cp, rd1) =>
      if isAlpha (cur cp) then
        let r := readIdentifier cp
        match lookupKeyword r.1 with
        | none => some (OcaIDENTIFIER, { name := r.1, cp := some r.2 }, rd1)
        | some retType => some (retType, { name := r.1, cp := some r.2 }, rd1)
      else if isNum (cur cp) then
        some (Tok_Val, { st with cp := some (eatNumber cp) }, rd1)
      else if isSpace (cur cp) then
        lex fuel rd1 { st with cp := some (eatWhiteSpace cp) }
      else if cur cp == '_' then
        let r := readIdentifier cp
        some (Tok_Val, { name := r.1, cp := some r.2 }, rd1)
      else if isOperator (cur cp) then
        let r := eatOperator cp
        some (r.1, { name := r.2.1, cp := some r.2.2 }, rd1)
      else if cur cp == '(' then
        if cur cp.tail == '*' then
          match eatComment fuel rd1 cp with
          | none => none
          | some (cp2, rd2) => lex fuel rd2 { st with cp := cp2 }
        else some (Tok_PARL, { st with cp := some cp.tail }, rd1)
      else if cur cp == ')' then some (Tok_PARR, { st with cp := some cp.tail }, rd1)
      else if cur cp == '[' then some (Tok_BRL, { st with cp := some cp.tail }, rd1)
      else if cur cp == ']' then some (Tok_BRR, { st with cp := some cp.tail }, rd1)
      else if cur cp == chCurlL then some (Tok_CurlL, { st with cp := some cp.tail }, rd1)
      else if cur cp == chCurlR then some (Tok_CurlR, { st with cp := some cp.tail }, rd1)
      else if cur cp == chPrime then some (Tok_Prime, { st with cp := some cp.tail }, rd1)
      else if cur cp == ',' then some (Tok_comma, { st with cp := some cp.tail }, rd1)
      else if cur cp == '=' then some (Tok_EQ, { st with cp := some cp.tail }, rd1)
      else if cur cp == ';' then some (Tok_semi, { st with cp := some cp.tail }, rd1)
      else if cur cp == chDQuote then some (Tok_Val, { st with cp := some (eatString cp) }, rd1)
      else if cur cp == '#' then some (Tok_Sharp, { st with cp := some cp.tail }, rd1)
      else if cur cp == chBackslash then
        some (Tok_Backslash, { st with cp := some cp.tail }, rd1)
      else some (Tok_Val, { st with cp := some cp.tail }, rd1)

/-! ## The context stack -/

/-- The C enumeration `contextKind`. -/
inductive contextKind where
  | ContextStrong
  | ContextSoft
  deriving DecidableEq, Repr

/-- The C enumeration `contextType`. -/
inductive contextType where
  | ContextType
  | ContextModule
  | ContextClass
  | ContextValue
  | ContextFunction
  | ContextMethod
  | ContextBlock
  | ContextMatch
  deriving DecidableEq, Repr

/-- The values of a `parseNext` function pointer: `null` is `NULL`, every
other value is the address of the state handler of that name. -/
inductive parseNext where
  | null
  | globalScope
  | tillToken
  | contextualTillToken
  | tillTokenOrFallback
  | tillTokenOrTerminatingOrFallback
  | ignoreToken
  | typeRecord
  | exceptionDecl
  | constructorValidation
  | typeDecl
  | val
  | typeSpecification
  | parseLabel
  | parseOptionnal
  | localLet
  | matchPattern
  | mayRedeclare
  | letParam
  | classSpecif
  | methodDecl
  | moduleSpecif
  | moduleDecl
  | classDecl
  | globalLet
  | localScope
  deriving DecidableEq, Repr

/-- The C structure `ocamlContext`, one frame of the context stack. -/
structure ocamlContext where
  kind : contextKind
  type : contextType
  callback : parseNext
  contextName : vString
  deriving DecidableEq, Repr

/-- The part of `tagEntryInfo` this parser fills in.  `scopeKindIndex = none`
is `KIND_GHOST_INDEX` and `scopeName = none` is `NULL`, the values
`initTagEntry` leaves when the tag has no scope.  The C structure holds
pointers to the name and to the scope name; every tag is handed to
`makeTagEntry` before the strings pointed to change, so the strings are
stored here. -/
structure tagEntryInfo where
  name : vString
  kindIndex : ocamlKind
  lineNumber : Nat
  scopeKindIndex : Option ocamlKind
  scopeName : Option vString
  deriving DecidableEq, Repr

/-- The static `exportLocalInfo`, which the file never assigns. -/
def exportLocalInfo : Bool := false

/-- The global and function-static variables of the parser, the `enabled`
column of `OcamlKinds`, and the tags handed to `makeTagEntry` so far (oldest
first).  `stack` is the array `stack[OCAML_MAX_STACK_SIZE]`; `outOfBounds`
records that the array was accessed at an index that is not below
`OCAML_MAX_STACK_SIZE`. -/
structure ParserState where
  toDoNext : parseNext
  comeAfter : parseNext
  terminatingToken : ocaToken
  waitedToken : ocaToken
  lastClass : vString
  lastModule : vString
  stack : Nat → ocamlContext
  stackIndex : Nat
  ocaLineNumber : Nat
  needStrongPoping : Bool
  tempTag : tagEntryInfo
  tempIdent : vString
  dirtySpecialParam : Bool
  /-- The static `previousParser` of `globalScope`. -/
  previousParser : parseNext
  /-- The statics of `contextualTillToken`. -/
  parentheses : Int
  bracket : Int
  curly : Int
  /-- The static `parCount` of `parseLabel`. -/
  parCountLabel : Int
  /-- The static `parCount` of `parseOptionnal`. -/
  parCountOptionnal : Int
  kindEnabled : ocamlKind → Bool
  tags : List tagEntryInfo
  outOfBounds : Bool

/-- The loop of `getLastNamedIndex`, `n` being `i + 1`; `none` is `-1`. -/
def getLastNamedIndexFrom (stack : Nat → ocamlContext) : Nat → Option Nat
  | 0 => none
  | i + 1 =>
    if (stack i).contextName.length > 0 then some i else getLastNamedIndexFrom stack i

/-- The C function `getLastNamedIndex`; `none` is `-1`. -/
def getLastNamedIndex (s : ParserState) : Option Nat :=
  getLastNamedIndexFrom s.stack s.stackIndex

open contextType ocamlKind in
/-- The C function `contextDescription`; `none` is `KIND_GHOST_INDEX`, the
value of the branch that `AssertNotReached` guards. -/
def contextDescription (t : contextType) : Option ocamlKind :=
  match t with
  | ContextFunction => some K_FUNCTION
  | ContextMethod => some K_METHOD
  | ContextValue => some K_VAL
  | ContextModule => some K_MODULE
  | ContextType => some K_TYPE
  | ContextClass => some K_CLASS
  | _ => none

open contextType in
/-- The C function `contextTypeSuffix`.  Its `default` branch (the
character `$`) is taken by no value of the enumeration. -/
def contextTypeSuffix (t : contextType) : Char :=
  match t with
  | ContextFunction => '/'
  | ContextMethod => '/'
  | ContextValue => '/'
  | ContextModule => '/'
  | ContextType => '.'
  | ContextClass => '#'
  | ContextBlock => ' '
  | ContextMatch => '|'

/-- The call `vStringClear (stack[i].contextName)`. -/
def clearName (stack : Nat → ocamlContext) (i : Nat) : Nat → ocamlContext :=
  Function.update stack i { stack i with contextName := [] }

/-- The C function `pushContext`; `contextName = none` is `NULL`. -/
def pushContext (kind : contextKind) (type : contextType) (after : parseNext)
    (contextName : Option vString) (s : ParserState) : ParserState :=
  if s.stackIndex ≥ OCAML_MAX_STACK_SIZE then s
  else
    let parentIndex := getLastNamedIndex s
    let name : vString :=
      match contextName with
      | none => []
      | some n =>
        match parentIndex with
        | some p => (s.stack p).contextName ++ [contextTypeSuffix (s.stack p).type] ++ n
        | none => n
    { s with
      stack := Function.update s.stack s.stackIndex
        { kind := kind, type := type, callback := after, contextName := name }
      stackIndex := s.stackIndex + 1 }

def pushStrongContext (name : vString) (type : contextType) (s : ParserState) : ParserState :=
  pushContext contextKind.ContextStrong type parseNext.globalScope (some name) s

def pushSoftContext (continuation : parseNext) (name : Option vString) (type : contextType)
    (s : ParserState) : ParserState :=
  pushContext contextKind.ContextSoft type continuation name s

def pushEmptyContext (continuation : parseNext) (s : ParserState) : ParserState :=
  pushContext contextKind.ContextSoft contextType.ContextValue continuation none s

/-- The C function `popLastNamed`. -/
def popLastNamed (s : ParserState) : ParserState :=
  match getLastNamedIndex s with
  | some i =>
    { s with stackIndex := i, toDoNext := (s.stack i).callback, stack := clearName s.stack i }
  | none => { s with stackIndex := 0, toDoNext := parseNext.globalScope }

/-- The C function `popSoftContext`. -/
def popSoftContext (s : ParserState) : ParserState :=
  if s.stackIndex ≤ 0 then { s with toDoNext := parseNext.globalScope }
  else
    { s with
      stackIndex := s.stackIndex - 1
      toDoNext := (s.stack (s.stackIndex - 1)).callback
      stack := clearName s.stack (s.stackIndex - 1) }

/-- The loop of `popStrongContext`, `n` being `i + 1`, with the statements
after the loop; the value returned is `none` for `-1`. -/
def popStrongContextFrom (s : ParserState) : Nat → Option contextType × ParserState
  | 0 => (none, { s with stackIndex := 0, toDoNext := parseNext.globalScope })
  | i + 1 =>
    if (s.stack i).kind = contextKind.ContextStrong then
      (some (s.stack i).type,
        { s with stackIndex := i, toDoNext := (s.stack i).callback, stack := clearName s.stack i })
    else popStrongContextFrom s i

/-- The C function `popStrongContext`. -/
def popStrongContext (s : ParserState) : Option contextType × ParserState :=
  popStrongContextFrom s s.stackIndex

/-- The loop of `jumpToMatchContext`, `n` being `i + 1`.  The frame written
is `stack[i + 1]`, which lies outside the array when `i + 1` is
`OCAML_MAX_STACK_SIZE`. -/
def jumpToMatchContextFrom (s : ParserState) : Nat → ParserState
  | 0 => s
  | i + 1 =>
    if (s.stack i).type = contextType.ContextMatch then
      { s with
        stackIndex := i + 1
        toDoNext := (s.stack i).callback
        stack := Function.update s.stack (i + 1)
          { s.stack (i + 1) with callback := parseNext.null, contextName := [] }
        outOfBounds := s.outOfBounds || decide (i + 1 ≥ OCAML_MAX_STACK_SIZE) }
    else jumpToMatchContextFrom s i

/-- The C function `jumpToMatchContext`. -/
def jumpToMatchContext (s : ParserState) : ParserState :=
  jumpToMatchContextFrom s s.stackIndex

/-! ## Tags -/

/-- The C function `prepareTag`: the tag it fills in. -/
def prepareTag (name : vString) (kind : ocamlKind) (s : ParserState) : tagEntryInfo :=
  match getLastNamedIndex s with
  | some parentIndex =>
    { name := name, kindIndex := kind, lineNumber := s.ocaLineNumber,
      scopeKindIndex := contextDescription (s.stack parentIndex).type,
      scopeName := some (s.stack parentIndex).contextName }
  | none =>
    { name := name, kindIndex := kind, lineNumber := s.ocaLineNumber,
      scopeKindIndex := none, scopeName := none }

/-- The call `makeTagEntry (&tag)`: the tag is handed to the sink. -/
def makeTagEntry (tag : tagEntryInfo) (s : ParserState) : ParserState :=
  { s with tags := s.tags ++ [tag] }

/-- The C function `addTag`; every caller passes a non-`NULL` `ident`. -/
def addTag (ident : vString) (kind : ocamlKind) (s : ParserState) : ParserState :=
  if s.kindEnabled kind && decide (ident.length > 0) then
    makeTagEntry (prepareTag ident kind s) s
  else s

def requestStrongPoping (s : ParserState) : ParserState :=
  { s with needStrongPoping := true }

def cleanupPreviousParser (s : ParserState) : ParserState :=
  if s.needStrongPoping then (popStrongContext { s with needStrongPoping := false }).2
  else s

open contextType in
/-- The C function `killCurrentState`. -/
def killCurrentState (s : ParserState) : Option contextType × ParserState :=
  let r := popStrongContext s
  match r.1 with
  | some ContextValue => popStrongContext r.2
  | some ContextFunction => popStrongContext r.2
  | some ContextMethod => popStrongContext r.2
  | some ContextType => popStrongContext r.2
  | some ContextMatch => popStrongContext r.2
  | _ => r

/-! ## The state handlers

Every handler has the C signature `(ident, what, whatNext)`; the parser
state is passed explicitly and the new state is returned. -/

/-- The character `vStringChar (ident, 0)`: NUL for the empty string. -/
def vStringChar0 (ident : vString) : Char := ident.headD chNUL

open ocamlKeyword in
/-- The C function `globalScope`. -/
def globalScope (_ident : vString) (what whatNext : ocaToken) (s : ParserState) :
    ParserState :=
  match what with
  | OcaKEYWORD_and =>
    let s := cleanupPreviousParser s
    { s with toDoNext := s.previousParser }
  | OcaKEYWORD_type =>
    let s := cleanupPreviousParser s
    { s with toDoNext := parseNext.typeDecl, previousParser := parseNext.typeDecl }
  | OcaKEYWORD_class =>
    let s := cleanupPreviousParser s
    { s with toDoNext := parseNext.classDecl, previousParser := parseNext.classDecl }
  | OcaKEYWORD_module =>
    let s := cleanupPreviousParser s
    { s with toDoNext := parseNext.moduleDecl, previousParser := parseNext.moduleDecl }
  | OcaKEYWORD_end =>
    let r := killCurrentState s
    let popped := r.1
    let s := r.2
    let s :=
      if whatNext = Tok_EQ ∧ popped = some contextType.ContextModule then
        { s with previousParser := parseNext.moduleDecl, toDoNext := parseNext.moduleSpecif }
      else if whatNext = OcaKEYWORD_and ∧ popped = some contextType.ContextModule then
        { s with toDoNext := parseNext.moduleDecl }
      else s
    { s with needStrongPoping := false }
  | OcaKEYWORD_method =>
    let s := cleanupPreviousParser s
    { s with toDoNext := parseNext.methodDecl }
  | OcaKEYWORD_val => { s with toDoNext := parseNext.val }
  | OcaKEYWORD_let =>
    let s := cleanupPreviousParser s
    { s with toDoNext := parseNext.globalLet, previousParser := parseNext.globalLet }
  | OcaKEYWORD_exception =>
    let s := cleanupPreviousParser s
    { s with toDoNext := parseNext.exceptionDecl, previousParser := parseNext.globalScope }
  | Tok_Sharp => s
  | _ => s

open ocamlKeyword in
/-- The C function `tillToken`. -/
def tillToken (_ident : vString) (what _whatNext : ocaToken) (s : ParserState) :
    ParserState :=
  if what = s.waitedToken then { s with toDoNext := s.comeAfter }
  else if what = OcaKEYWORD_end then
    { (popStrongContext s).2 with toDoNext := parseNext.globalScope }
  else s

open ocamlKeyword in
/-- The C function `contextualTillToken`. -/
def contextualTillToken (ident : vString) (what whatNext : ocaToken) (s : ParserState) :
    ParserState :=
  let s :=
    match what with
    | Tok_PARL => { s with parentheses := s.parentheses - 1 }
    | Tok_PARR => { s with parentheses := s.parentheses + 1 }
    | Tok_CurlL => { s with curly := s.curly - 1 }
    | Tok_CurlR => { s with curly := s.curly + 1 }
    | Tok_BRL => { s with bracket := s.bracket - 1 }
    | Tok_BRR => { s with bracket := s.bracket + 1 }
    | _ => s
  if what = s.waitedToken ∧ s.parentheses = 0 ∧ s.bracket = 0 ∧ s.curly = 0 then
    { s with toDoNext := s.comeAfter }
  else if what = OcaKEYWORD_end then globalScope ident what whatNext s
  else s

/-- The C function `tillTokenOrFallback`. -/
def tillTokenOrFallback (ident : vString) (what whatNext : ocaToken) (s : ParserState) :
    ParserState :=
  if what = s.waitedToken then { s with toDoNext := s.comeAfter }
  else globalScope ident what whatNext s

/-- The C function `tillTokenOrTerminatingOrFallback`. -/
def tillTokenOrTerminatingOrFallback (ident : vString) (what whatNext : ocaToken)
    (s : ParserState) : ParserState :=
  if what = s.waitedToken then { s with toDoNext := s.comeAfter }
  else if what = s.terminatingToken then { s with toDoNext := parseNext.globalScope }
  else globalScope ident what whatNext s

/-- The C function `ignoreToken`. -/
def ignoreToken (_ident : vString) (_what _whatNext : ocaToken) (s : ParserState) :
    ParserState :=
  { s with toDoNext := s.comeAfter }

open ocamlKeyword in
/-- The C function `typeRecord`. -/
def typeRecord (ident : vString) (what _whatNext : ocaToken) (s : ParserState) :
    ParserState :=
  match what with
  | OcaIDENTIFIER =>
    let s := addTag ident ocamlKind.K_RECORDFIELD s
    { s with
      terminatingToken := Tok_CurlR
      waitedToken := Tok_semi
      comeAfter := parseNext.typeRecord
      toDoNext := parseNext.tillTokenOrTerminatingOrFallback }
  | OcaKEYWORD_mutable => s
  | Tok_CurlR =>
    { (popStrongContext s).2 with needStrongPoping := false, toDoNext := parseNext.globalScope }
  | _ => s

open ocamlKeyword in
/-- The C function `exceptionDecl`. -/
def exceptionDecl (ident : vString) (what whatNext : ocaToken) (s : ParserState) :
    ParserState :=
  let s :=
    if what = OcaIDENTIFIER then addTag ident ocamlKind.K_EXCEPTION s
    else globalScope ident what whatNext s
  { s with toDoNext := parseNext.globalScope }

/-- The statement `if (vStringLength (tempIdent) > 0) ...` that three
branches of `constructorValidation` start with. -/
def emitTempTag (s : ParserState) : ParserState :=
  if s.tempIdent.length > 0 then { makeTagEntry s.tempTag s with tempIdent := [] } else s

open ocamlKeyword in
/-- The C function `constructorValidation`. -/
def constructorValidation (ident : vString) (what whatNext : ocaToken) (s : ParserState) :
    ParserState :=
  match what with
  | Tok_Op =>
    let s := { s with toDoNext := parseNext.globalScope }
    { (popStrongContext s).2 with needStrongPoping := false }
  | OcaKEYWORD_of =>
    let s := emitTempTag s
    { s with
      toDoNext := parseNext.tillTokenOrFallback
      comeAfter := parseNext.typeSpecification
      waitedToken := Tok_Pipe }
  | Tok_Pipe =>
    let s := emitTempTag s
    { s with toDoNext := parseNext.typeSpecification }
  | _ =>
    let s := emitTempTag s
    let s := { s with
      toDoNext := parseNext.tillTokenOrFallback
      comeAfter := parseNext.typeSpecification
      waitedToken := Tok_Pipe }
    let s := { (popStrongContext s).2 with needStrongPoping := false }
    globalScope ident what whatNext s

open ocamlKeyword in
/-- The C function `typeDecl`. -/
def typeDecl (ident : vString) (what whatNext : ocaToken) (s : ParserState) :
    ParserState :=
  match what with
  | Tok_Prime => { s with comeAfter := parseNext.typeDecl, toDoNext := parseNext.ignoreToken }
  | Tok_PARL =>
    { s with
      comeAfter := parseNext.typeDecl
      waitedToken := Tok_PARR
      toDoNext := parseNext.tillToken }
  | OcaIDENTIFIER =>
    let s := addTag ident ocamlKind.K_TYPE s
    if whatNext = Tok_EQ then
      let s := pushStrongContext ident contextType.ContextType s
      let s := requestStrongPoping s
      { s with toDoNext := parseNext.typeSpecification }
    else { s with toDoNext := parseNext.globalScope }
  | _ => globalScope ident what whatNext s

open ocamlKeyword in
/-- The C function `val`. -/
def val (ident : vString) (what _whatNext : ocaToken) (s : ParserState) : ParserState :=
  match what with
  | Tok_PARL => s
  | OcaKEYWORD_rec => s
  | Tok_Op =>
    { addTag ident ocamlKind.K_VAL s with toDoNext := parseNext.globalScope }
  | Tok_Val =>
    { addTag ident ocamlKind.K_VAL s with toDoNext := parseNext.globalScope }
  | OcaIDENTIFIER =>
    { addTag ident ocamlKind.K_VAL s with toDoNext := parseNext.globalScope }
  | _ => { s with toDoNext := parseNext.globalScope }

open ocamlKeyword in
/-- The C function `typeSpecification`. -/
def typeSpecification (ident : vString) (what _whatNext : ocaToken) (s : ParserState) :
    ParserState :=
  match what with
  | OcaIDENTIFIER =>
    if isUpperAlpha (vStringChar0 ident) then
      let s :=
        if !s.kindEnabled ocamlKind.K_CONSTRUCTOR then { s with tempIdent := [] }
        else
          { s with
            tempIdent := ident
            tempTag := prepareTag ident ocamlKind.K_CONSTRUCTOR s }
      { s with toDoNext := parseNext.constructorValidation }
    else
      { s with
        toDoNext := parseNext.tillTokenOrFallback
        comeAfter := parseNext.typeSpecification
        waitedToken := Tok_Pipe }
  | OcaKEYWORD_and => { s with toDoNext := parseNext.typeDecl }
  | OcaKEYWORD_val => { s with toDoNext := parseNext.val }
  | Tok_BRL => s
  | Tok_BRR => s
  | Tok_Pipe => s
  | Tok_CurlL => { s with toDoNext := parseNext.typeRecord }
  | _ => s

open ocamlKeyword in
/-- The C function `letParam`. -/
def letParam (ident : vString) (what _whatNext : ocaToken) (s : ParserState) :
    ParserState :=
  match what with
  | Tok_To => { s with toDoNext := parseNext.mayRedeclare }
  | Tok_EQ => { s with toDoNext := parseNext.mayRedeclare }
  | OcaIDENTIFIER =>
    if exportLocalInfo then addTag ident ocamlKind.K_VARIABLE s else s
  | Tok_Op =>
    if vStringChar0 ident = ':' then
      { s with
        comeAfter := parseNext.mayRedeclare
        toDoNext := parseNext.tillTokenOrFallback
        waitedToken := Tok_EQ }
    else if vStringChar0 ident = '~' then
      { s with toDoNext := parseNext.parseLabel, dirtySpecialParam := false }
    else if vStringChar0 ident = '?' then
      { s with toDoNext := parseNext.parseOptionnal, dirtySpecialParam := false }
    else s
  | _ => s

open ocamlKeyword in
/-- The C function `parseLabel`. -/
def parseLabel (ident : vString) (what whatNext : ocaToken) (s : ParserState) :
    ParserState :=
  match what with
  | OcaIDENTIFIER =>
    if !s.dirtySpecialParam then
      let s := if exportLocalInfo then addTag ident ocamlKind.K_VARIABLE s else s
      { s with dirtySpecialParam := true }
    else s
  | Tok_PARL => { s with parCountLabel := s.parCountLabel + 1 }
  | Tok_PARR =>
    let s := { s with parCountLabel := s.parCountLabel - 1 }
    if s.parCountLabel = 0 then { s with toDoNext := parseNext.letParam } else s
  | Tok_Op =>
    if vStringChar0 ident = ':' then
      { s with toDoNext := parseNext.ignoreToken, comeAfter := parseNext.letParam }
    else if s.parCountLabel = 0 ∧ s.dirtySpecialParam = true then
      letParam ident what whatNext { s with toDoNext := parseNext.letParam }
    else s
  | _ =>
    if s.parCountLabel = 0 ∧ s.dirtySpecialParam = true then
      letParam ident what whatNext { s with toDoNext := parseNext.letParam }
    else s

open ocamlKeyword in
/-- The C function `parseOptionnal`. -/
def parseOptionnal (ident : vString) (what _whatNext : ocaToken) (s : ParserState) :
    ParserState :=
  match what with
  | OcaIDENTIFIER =>
    if !s.dirtySpecialParam then
      let s := if exportLocalInfo then addTag ident ocamlKind.K_VARIABLE s else s
      let s := { s with dirtySpecialParam := true }
      if s.parCountOptionnal = 0 then { s with toDoNext := parseNext.letParam } else s
    else s
  | Tok_PARL => { s with parCountOptionnal := s.parCountOptionnal + 1 }
  | Tok_PARR =>
    let s := { s with parCountOptionnal := s.parCountOptionnal - 1 }
    if s.parCountOptionnal = 0 then { s with toDoNext := parseNext.letParam } else s
  | _ => s

open ocamlKeyword in
/-- The C function `localScope`. -/
def localScope (ident : vString) (what whatNext : ocaToken) (s : ParserState) :
    ParserState :=
  match what with
  | Tok_Pipe => jumpToMatchContext s
  | Tok_PARR => popSoftContext s
  | Tok_BRR => popSoftContext s
  | Tok_CurlR => popSoftContext s
  | OcaKEYWORD_begin =>
    let s := pushContext contextKind.ContextStrong contextType.ContextBlock
      parseNext.mayRedeclare none s
    { s with toDoNext := parseNext.mayRedeclare }
  | OcaKEYWORD_in =>
    let s := popLastNamed s
    let s := pushEmptyContext parseNext.localScope s
    { s with toDoNext := parseNext.mayRedeclare }
  | Tok_CurlL =>
    let s := { s with
      toDoNext := parseNext.contextualTillToken
      waitedToken := Tok_CurlR
      comeAfter := parseNext.localScope }
    contextualTillToken ident what whatNext s
  | Tok_semi =>
    if whatNext = Tok_semi then
      { (popStrongContext s).2 with toDoNext := parseNext.globalScope }
    else { s with toDoNext := parseNext.mayRedeclare }
  | Tok_Op => { s with toDoNext := parseNext.mayRedeclare }
  | Tok_PARL =>
    let s := pushEmptyContext parseNext.localScope s
    { s with toDoNext := parseNext.mayRedeclare }
  | Tok_BRL =>
    let s := pushEmptyContext parseNext.localScope s
    { s with toDoNext := parseNext.mayRedeclare }
  | OcaKEYWORD_and =>
    if s.toDoNext = parseNext.mayRedeclare then
      let s := popSoftContext s
      let s := pushEmptyContext parseNext.localScope s
      { s with toDoNext := parseNext.localLet }
    else
      let s := popLastNamed s
      { s with
        toDoNext := if s.stackIndex = 0 then parseNext.globalLet else parseNext.localLet }
  | OcaKEYWORD_else =>
    let s := popSoftContext s
    let s := pushEmptyContext parseNext.localScope s
    { s with toDoNext := parseNext.mayRedeclare }
  | OcaKEYWORD_then =>
    let s := popSoftContext s
    let s := pushEmptyContext parseNext.localScope s
    { s with toDoNext := parseNext.mayRedeclare }
  | OcaKEYWORD_if =>
    let s := pushEmptyContext parseNext.localScope s
    { s with toDoNext := parseNext.mayRedeclare }
  | OcaKEYWORD_match =>
    let s := pushEmptyContext parseNext.localScope s
    { s with toDoNext := parseNext.mayRedeclare }
  | OcaKEYWORD_with =>
    let s := popSoftContext s
    let s := { s with toDoNext := parseNext.matchPattern }
    pushSoftContext parseNext.matchPattern none contextType.ContextMatch s
  | OcaKEYWORD_fun => { s with toDoNext := parseNext.letParam }
  | OcaKEYWORD_done => s
  | _ =>
    let s := requestStrongPoping s
    globalScope ident what whatNext s

open ocamlKeyword in
/-- The C function `localLet`. -/
def localLet (ident : vString) (what whatNext : ocaToken) (s : ParserState) :
    ParserState :=
  match what with
  | Tok_PARL => s
  | OcaKEYWORD_rec => s
  | Tok_Op =>
    let s := if exportLocalInfo then addTag ident ocamlKind.K_FUNCTION s else s
    let s := pushSoftContext parseNext.mayRedeclare (some ident) contextType.ContextFunction s
    { s with toDoNext := parseNext.letParam }
  | Tok_Val | OcaIDENTIFIER =>
    let s :=
      if whatNext = OcaIDENTIFIER ∨ whatNext = Tok_PARL then
        let s := if exportLocalInfo then addTag ident ocamlKind.K_FUNCTION s else s
        pushSoftContext parseNext.mayRedeclare (some ident) contextType.ContextFunction s
      else
        let s := if exportLocalInfo then addTag ident ocamlKind.K_VARIABLE s else s
        pushSoftContext parseNext.mayRedeclare (some ident) contextType.ContextValue s
    { s with toDoNext := parseNext.letParam }
  | OcaKEYWORD_end => localScope ident what whatNext s
  | _ => { s with toDoNext := parseNext.localScope }

open ocamlKeyword in
/-- The C function `matchPattern`. -/
def matchPattern (ident : vString) (what whatNext : ocaToken) (s : ParserState) :
    ParserState :=
  match what with
  | Tok_To =>
    let s := pushEmptyContext parseNext.matchPattern s
    { s with toDoNext := parseNext.mayRedeclare }
  | OcaKEYWORD_value => localScope ident what whatNext (popLastNamed s)
  | OcaKEYWORD_and => localScope ident what whatNext s
  | OcaKEYWORD_end => localScope ident what whatNext s
  | OcaKEYWORD_in => popLastNamed s
  | _ => s

open ocamlKeyword in
/-- The C function `mayRedeclare`.  The case of `OcaKEYWORD_value` has no
`break` and runs on into the case of `OcaKEYWORD_let`. -/
def mayRedeclare (ident : vString) (what whatNext : ocaToken) (s : ParserState) :
    ParserState :=
  match what with
  | OcaKEYWORD_value =>
    { globalScope ident what whatNext s with toDoNext := parseNext.localLet }
  | OcaKEYWORD_let => { s with toDoNext := parseNext.localLet }
  | OcaKEYWORD_val => { s with toDoNext := parseNext.val }
  | OcaKEYWORD_object =>
    let s := { s with lastClass := [] }
    let s := pushContext contextKind.ContextStrong contextType.ContextClass
      parseNext.localScope none s
    { s with needStrongPoping := false, toDoNext := parseNext.globalScope }
  | OcaKEYWORD_for | OcaKEYWORD_while =>
    { s with
      toDoNext := parseNext.tillToken
      waitedToken := OcaKEYWORD_do
      comeAfter := parseNext.mayRedeclare }
  | OcaKEYWORD_try =>
    let s := { s with toDoNext := parseNext.mayRedeclare }
    pushSoftContext parseNext.matchPattern (some ident) contextType.ContextFunction s
  | OcaKEYWORD_function =>
    let s := { s with toDoNext := parseNext.matchPattern }
    pushSoftContext parseNext.matchPattern none contextType.ContextMatch s
  | OcaKEYWORD_fun => { s with toDoNext := parseNext.letParam }
  | _ => localScope ident what whatNext { s with toDoNext := parseNext.localScope }

open ocamlKeyword in
/-- The C function `classSpecif`. -/
def classSpecif (_ident : vString) (what _whatNext : ocaToken) (s : ParserState) :
    ParserState :=
  match what with
  | OcaKEYWORD_object =>
    let s := pushStrongContext s.lastClass contextType.ContextClass s
    { s with toDoNext := parseNext.globalScope }
  | _ => { s with lastClass := [], toDoNext := parseNext.globalScope }

open ocamlKeyword in
/-- The C function `methodDecl`. -/
def methodDecl (ident : vString) (what whatNext : ocaToken) (s : ParserState) :
    ParserState :=
  match what with
  | Tok_PARL => s
  | OcaKEYWORD_mutable | OcaKEYWORD_virtual | OcaKEYWORD_rec => s
  | OcaIDENTIFIER =>
    let s := addTag ident ocamlKind.K_METHOD s
    let s := pushStrongContext ident contextType.ContextMethod s
    { s with toDoNext := parseNext.letParam }
  | OcaKEYWORD_end => localScope ident what whatNext s
  | _ => { s with toDoNext := parseNext.globalScope }

open ocamlKeyword in
/-- The C function `moduleSpecif`. -/
def moduleSpecif (ident : vString) (what whatNext : ocaToken) (s : ParserState) :
    ParserState :=
  match what with
  | OcaKEYWORD_functor =>
    { s with
      toDoNext := parseNext.contextualTillToken
      waitedToken := Tok_To
      comeAfter := parseNext.moduleSpecif }
  | OcaKEYWORD_struct | OcaKEYWORD_sig =>
    let s := pushStrongContext s.lastModule contextType.ContextModule s
    { s with toDoNext := parseNext.globalScope, needStrongPoping := false }
  | Tok_PARL =>
    let s := { s with
      toDoNext := parseNext.contextualTillToken
      comeAfter := parseNext.globalScope
      waitedToken := Tok_PARR }
    contextualTillToken ident what whatNext s
  | Tok_Of | Tok_EQ => s
  | _ => { s with lastModule := [], toDoNext := parseNext.globalScope }

open ocamlKeyword in
/-- The C function `moduleDecl`. -/
def moduleDecl (ident : vString) (what whatNext : ocaToken) (s : ParserState) :
    ParserState :=
  match what with
  | OcaKEYWORD_rec | OcaKEYWORD_type => s
  | OcaIDENTIFIER =>
    let s := addTag ident ocamlKind.K_MODULE s
    let s := { s with lastModule := ident }
    if whatNext = Tok_Of ∨ whatNext = Tok_EQ then { s with toDoNext := parseNext.moduleSpecif }
    else
      { s with
        waitedToken := Tok_EQ
        comeAfter := parseNext.moduleSpecif
        toDoNext := parseNext.contextualTillToken }
  | _ => s

open ocamlKeyword in
/-- The C function `classDecl`. -/
def classDecl (ident : vString) (what _whatNext : ocaToken) (s : ParserState) :
    ParserState :=
  match what with
  | OcaIDENTIFIER =>
    let s := addTag ident ocamlKind.K_CLASS s
    { s with
      lastClass := ident
      toDoNext := parseNext.contextualTillToken
      waitedToken := Tok_EQ
      comeAfter := parseNext.classSpecif }
  | Tok_BRL =>
    { s with
      toDoNext := parseNext.tillToken
      waitedToken := Tok_BRR
      comeAfter := parseNext.classDecl }
  | _ => s

open ocamlKeyword in
/-- The C function `globalLet`. -/
def globalLet (ident : vString) (what whatNext : ocaToken) (s : ParserState) :
    ParserState :=
  match what with
  | Tok_PARL =>
    if whatNext = Tok_PARR then
      let fakeIdent : vString := ['(', ')']
      let s := addTag fakeIdent ocamlKind.K_FUNCTION s
      let s := pushStrongContext fakeIdent contextType.ContextFunction s
      let s := requestStrongPoping s
      { s with toDoNext := parseNext.letParam }
    else s
  | OcaKEYWORD_mutable | OcaKEYWORD_virtual | OcaKEYWORD_rec => s
  | Tok_Op =>
    let s := addTag ident ocamlKind.K_FUNCTION s
    let s := pushStrongContext ident contextType.ContextFunction s
    { s with toDoNext := parseNext.letParam }
  | Tok_Val =>
    let s := if vStringChar0 ident = '_' then addTag ident ocamlKind.K_FUNCTION s else s
    let s := pushStrongContext ident contextType.ContextFunction s
    let s := requestStrongPoping s
    { s with toDoNext := parseNext.letParam }
  | OcaIDENTIFIER =>
    let s :=
      if whatNext = OcaIDENTIFIER ∨ whatNext = Tok_PARL then
        let s := addTag ident ocamlKind.K_FUNCTION s
        pushStrongContext ident contextType.ContextFunction s
      else
        let s := addTag ident ocamlKind.K_VARIABLE s
        pushStrongContext ident contextType.ContextValue s
    let s := requestStrongPoping s
    { s with toDoNext := parseNext.letParam }
  | OcaKEYWORD_end => globalScope ident what whatNext s
  | _ => { s with toDoNext := parseNext.globalScope }

/-! ## The main loop -/

/-- The call `(*toDoNext) (ident, what, whatNext)` of the main loop.  A call
through the `NULL` pointer is not modelled: it leaves the state as it is. -/
def callToDoNext (ident : vString) (what whatNext : ocaToken) (s : ParserState) :
    ParserState :=
  match s.toDoNext with
  | parseNext.null => s
  | parseNext.globalScope => globalScope ident what whatNext s
  | parseNext.tillToken => tillToken ident what whatNext s
  | parseNext.contextualTillToken => contextualTillToken ident what whatNext s
  | parseNext.tillTokenOrFallback => tillTokenOrFallback ident what whatNext s
  | parseNext.tillTokenOrTerminatingOrFallback =>
    tillTokenOrTerminatingOrFallback ident what whatNext s
  | parseNext.ignoreToken => ignoreToken ident what whatNext s
  | parseNext.typeRecord => typeRecord ident what whatNext s
  | parseNext.exceptionDecl => exceptionDecl ident what whatNext s
  | parseNext.constructorValidation => constructorValidation ident what whatNext s
  | parseNext.typeDecl => typeDecl ident what whatNext s
  | parseNext.val => val ident what whatNext s
  | parseNext.typeSpecification => typeSpecification ident what whatNext s
  | parseNext.parseLabel => parseLabel ident what whatNext s
  | parseNext.parseOptionnal => parseOptionnal ident what whatNext s
  | parseNext.localLet => localLet ident what whatNext s
  | parseNext.matchPattern => matchPattern ident what whatNext s
  | parseNext.mayRedeclare => mayRedeclare ident what whatNext s
  | parseNext.letParam => letParam ident what whatNext s
  | parseNext.classSpecif => classSpecif ident what whatNext s
  | parseNext.methodDecl => methodDecl ident what whatNext s
  | parseNext.moduleSpecif => moduleSpecif ident what whatNext s
  | parseNext.moduleDecl => moduleDecl ident what whatNext s
  | parseNext.classDecl => classDecl ident what whatNext s
  | parseNext.globalLet => globalLet ident what whatNext s
  | parseNext.localScope => localScope ident what whatNext s

/-- The main loop of `findOcamlTags` on a stretch of tokens that is already
lexed: every token comes with the name buffer `st.name` the loop passes for
it, the lookahead is the kind of the next token, and `last` is the kind of
the token that follows the stretch. -/
def runTokensThen : List (vString × ocaToken) → ocaToken → ParserState → ParserState
  | [], _, s => s
  | [(ident, what)], last, s => callToDoNext ident what last s
  | (ident, what) :: (identNext, whatNext) :: rest, last, s =>
    runTokensThen ((identNext, whatNext) :: rest) last (callToDoNext ident what whatNext s)

/-- The main loop on a whole token sequence: `Tok_EOF` follows it. -/
def runTokens (toks : List (vString × ocaToken)) (s : ParserState) : ParserState :=
  runTokensThen toks ocamlKeyword.Tok_EOF s

/-- The first loop of `computeModuleName`, from `endIndex = n`. -/
def moduleNameEnd (filename : List Char) : Nat → Nat
  | 0 => 0
  | e + 1 => if filename.getD (e + 1) chNUL != '.' then moduleNameEnd filename e else e + 1

/-- The second loop of `computeModuleName`, from `beginIndex = n`. -/
def moduleNameBegin (filename : List Char) : Nat → Nat
  | 0 => 0
  | b + 1 =>
    if filename.getD (b + 1) chNUL == chBackslash || filename.getD (b + 1) chNUL == '/'
    then b + 2
    else moduleNameBegin filename b

/-- The C function `computeModuleName`; `filename` is the value of
`getInputFileName ()`, taken not to be the empty string. -/
def computeModuleName (filename : List Char) (s : ParserState) : ParserState :=
  let endIndex := moduleNameEnd filename (filename.length - 1)
  let beginIndex := moduleNameBegin filename endIndex
  let moduleName : vString := (filename.drop beginIndex).take (endIndex - beginIndex)
  let moduleName : vString :=
    if isLowerAlpha (vStringChar0 moduleName) then
      Char.ofNat ((vStringChar0 moduleName).toNat + 'A'.toNat - 'a'.toNat) :: moduleName.tail
    else moduleName
  addTag moduleName ocamlKind.K_MODULE s

/-- The C function `initStack`. -/
def initStack (s : ParserState) : ParserState :=
  { s with
    stack := fun i =>
      if i < OCAML_MAX_STACK_SIZE then { s.stack i with contextName := [] } else s.stack i
    stackIndex := 0 }

/-- The local variables of `findOcamlTags` that live across the iterations
of its main loop, with the parser state and the reader. -/
structure LoopState where
  parser : ParserState
  stName : vString
  nextSt : lexingState
  rd : Reader
  tok : ocaToken
  nextTok : ocaToken

open ocamlKeyword in
/-- The main loop of `findOcamlTags`; `fuel` bounds the number of
iterations and is the fuel of every call of `lex`. -/
def mainLoop (lexFuel : Nat) : Nat → LoopState → Option ParserState
  | 0, _ => none
  | fuel + 1, l =>
    if l.tok = Tok_EOF then some l.parser
    else
      let p := callToDoNext l.stName l.tok l.nextTok l.parser
      let p := { p with ocaLineNumber := l.rd.lineNumber }
      if l.nextTok ≠ Tok_EOF then
        match lex lexFuel l.rd l.nextSt with
        | none => none
        | some (t, nst, rd) =>
          mainLoop lexFuel fuel
            { parser := p, stName := l.nextSt.name, nextSt := nst, rd := rd,
              tok := l.nextTok, nextTok := t }
      else some p

open ocamlKeyword in
/-- The C function `findOcamlTags` on the input `lines` of the file named
`filename`, started with the statics as `s` holds them: the parser state when
the function returns (its `tags` are the records handed to the sink). -/
def findOcamlTags (fuel : Nat) (filename : List Char) (lines : List (List Char))
    (s : ParserState) : Option ParserState :=
  let s := initStack s
  let s := { s with tempIdent := [], lastModule := [], lastClass := [] }
  let r := readLineFromInputFile { lines := lines, lineNumber := 0 }
  let s := { s with ocaLineNumber := r.2.lineNumber, toDoNext := parseNext.globalScope }
  match lex fuel r.2 { name := [], cp := r.1 } with
  | none => none
  | some (tok, nextSt, rd) =>
    let s := if tok ≠ Tok_EOF then computeModuleName filename s else s
    let s := { s with ocaLineNumber := rd.lineNumber }
    match lex fuel rd nextSt with
    | none => none
    | some (nextTok, nextSt2, rd2) =>
      mainLoop fuel fuel
        { parser := s, stName := nextSt.name, nextSt := nextSt2, rd := rd2,
          tok := tok, nextTok := nextTok }

/-- The `enabled` column of the table `OcamlKinds` as the source gives it:
every kind is enabled. -/
def OcamlKinds : ocamlKind → Bool := fun _ => true

/-- The statics of the file as the program starts: zero-initialised, except
`previousParser`, whose initialiser is `&globalScope`.  The kinds enabled are
a parameter, the `enabled` column being settable from outside. -/
def initialStatics (kindEnabled : ocamlKind → Bool) : ParserState :=
  { toDoNext := parseNext.null
    comeAfter := parseNext.null
    terminatingToken := ocamlKeyword.OcaKEYWORD_and
    waitedToken := ocamlKeyword.OcaKEYWORD_and
    lastClass := []
    lastModule := []
    stack := fun _ =>
      { kind := contextKind.ContextStrong, type := contextType.ContextType,
        callback := parseNext.null, contextName := [] }
    stackIndex := 0
    ocaLineNumber := 0
    needStrongPoping := false
    tempTag :=
      { name := [], kindIndex := ocamlKind.K_CLASS, lineNumber := 0,
        scopeKindIndex := none, scopeName := none }
    tempIdent := []
    dirtySpecialParam := false
    previousParser := parseNext.globalScope
    parentheses := 0
    bracket := 0
    curly := 0
    parCountLabel := 0
    parCountOptionnal := 0
    kindEnabled := kindEnabled
    tags := []
    outOfBounds := false }

/-- The state in which `findOcamlTags` enters its main loop in a fresh
process: the stack is empty and the active handler is `globalScope`. -/
def initialState (kindEnabled : ocamlKind → Bool) : ParserState :=
  { initStack (initialStatics kindEnabled) with toDoNext := parseNext.globalScope }

/-! ## Token streams of the examples

The streams are what `lex` yields for the texts, call after call, each token
with the name buffer as `lex` leaves it; the identifiers are parameters. -/

open ocamlKeyword in
/-- The tokens of `module M = struct let f x = x end`. -/
def moduleExampleTokens (M f x : vString) : List (vString × ocaToken) :=
  [ ("module".toList, OcaKEYWORD_module), (M, OcaIDENTIFIER), ("=".toList, Tok_EQ),
    ("struct".toList, OcaKEYWORD_struct), ("let".toList, OcaKEYWORD_let),
    (f, OcaIDENTIFIER), (x, OcaIDENTIFIER), ("=".toList, Tok_EQ), (x, OcaIDENTIFIER),
    ("end".toList, OcaKEYWORD_end) ]

open ocamlKeyword in
/-- The tokens of `class c = object method m`, the start of the class
example up to the name of the method. -/
def classExampleHead (c m : vString) : List (vString × ocaToken) :=
  [ ("class".toList, OcaKEYWORD_class), (c, OcaIDENTIFIER), ("=".toList, Tok_EQ),
    ("object".toList, OcaKEYWORD_object), ("method".toList, OcaKEYWORD_method),
    (m, OcaIDENTIFIER) ]

open ocamlKeyword in
/-- The tokens of `class c = object method m x = x end`. -/
def classExampleTokens (c m x : vString) : List (vString × ocaToken) :=
  classExampleHead c m ++
    [ (x, OcaIDENTIFIER), ("=".toList, Tok_EQ), (x, OcaIDENTIFIER),
      ("end".toList, OcaKEYWORD_end) ]

open ocamlKeyword in
/-- The tokens of `let name`, the start of a binding. -/
def letHeadTokens (name : vString) : List (vString × ocaToken) :=
  [ ("let".toList, OcaKEYWORD_let), (name, OcaIDENTIFIER) ]

open ocamlKeyword in
/-- The tokens of `let name p1 ... pk =` when every parameter is an
identifier. -/
def letIdentParamsTokens (name : vString) (params : List vString) :
    List (vString × ocaToken) :=
  letHeadTokens name ++ (params.map fun p => (p, OcaIDENTIFIER)) ++ [("=".toList, Tok_EQ)]

/-- The name and the kind of every tag a run of `findOcamlTags` handed to the
sink, in order. -/
def tagNamesAndKinds (r : Option ParserState) : Option (List (String × ocamlKind)) :=
  r.map fun s => s.tags.map fun t => (String.mk t.name, t.kindIndex)

/-- The tokens `lex` returns call after call until `Tok_EOF`, each with the
name buffer after the call: the pairs the main loop passes to the handlers. -/
def lexAll (lexFuel : Nat) : Nat → Reader → lexingState → Option (List (vString × ocaToken))
  | 0, _, _ => none
  | fuel + 1, rd, st =>
    match lex lexFuel rd st with
    | none => none
    | some (tok, st1, rd1) =>
      if tok = ocamlKeyword.Tok_EOF then some []
      else (lexAll lexFuel fuel rd1 st1).map fun rest => (st1.name, tok) :: rest

/-- The tokens of a one-line text. -/
def lexLine (text : String) : Option (List (vString × ocaToken)) :=
  lexAll 100 100 { lines := [text.toList], lineNumber := 0 } { name := [], cp := none }

/-! ## Definitions the statements on the tokenizer use -/

open ocamlKeyword in
/-- The token kind of an operator run `r` in the words of the
specification: a one-character run is `Tok_Pipe` for `|`, `Tok_EQ` for `=`,
`Tok_Of` for `:` and `Tok_Op` for anything else; the two-character run `->`
is `Tok_To`; every other run is `Tok_Op`. -/
def operatorRunToken (r : vString) : ocamlKeyword :=
  if r = ['|'] then Tok_Pipe
  else if r = ['='] then Tok_EQ
  else if r = [':'] then Tok_Of
  else if r = ['-', '>'] then Tok_To
  else Tok_Op

/-- The amount of input left to `lex`: the characters from the pointer to the
end of its line, and every line still to be read (each counted with its end
of line). -/
def inputSize (rd : Reader) (cp : Option (List Char)) : Nat :=
  (match cp with
    | some c => c.length
    | none => 0) + (rd.lines.map fun l => l.length + 1).sum

/-! ## States the statements on the context stack use -/

/-- A state whose stack is full: the initial state of a fresh process with
`stackIndex` at `OCAML_MAX_STACK_SIZE`. -/
def fullStackState : ParserState :=
  { initialState OcamlKinds with stackIndex := OCAML_MAX_STACK_SIZE }

/-- The state after `let f =`, an opening parenthesis and the opening of a
match (`pushSoftContext (&matchPattern, NULL, ContextMatch)`, as `localScope`
does on `with`), from the initial state of a fresh process: three frames, the
top one of role Match. -/
def matchOnTopState : ParserState :=
  pushSoftContext parseNext.matchPattern none contextType.ContextMatch
    (pushEmptyContext parseNext.localScope
      (pushStrongContext ['f'] contextType.ContextValue (initialState OcamlKinds)))

/-- A line that nests deeper than the stack is high and then opens a match:
`let x =`, 254 opening parentheses, `match y with A -> 1 | B -> 2`. -/
def deepMatchLine : List Char :=
  "let x = ".toList ++ List.replicate 254 '(' ++ " match y with A -> 1 | B -> 2".toList

/-- The line `deepMatchLine` up to the token before its first `|`. -/
def deepMatchLineHead : List Char :=
  "let x = ".toList ++ List.replicate 254 '(' ++ " match y with A -> 1".toList

/-! ## Inputs and runs the statements on the automaton use -/

/-- The name, the kind and the scope name of every tag a run of
`findOcamlTags` handed to the sink, in order. -/
def tagNamesAndScopes (r : Option ParserState) :
    Option (List (String × ocamlKind × Option String)) :=
  r.map fun s => s.tags.map fun t => (String.mk t.name, t.kindIndex, t.scopeName.map String.mk)

/-- The run of `findOcamlTags` on the one-line file `t.ml` in a fresh
process. -/
def firstRun (line : String) : Option ParserState :=
  findOcamlTags 400 "t.ml".toList [line.toList] (initialStatics OcamlKinds)

/-- A second run of `findOcamlTags` on the same one-line file `t.ml`, in the
process that made the first run: the statics are as the first run left them,
the sink starts empty. -/
def secondRun (line : String) : Option ParserState :=
  (firstRun line).bind fun s =>
    findOcamlTags 400 "t.ml".toList [line.toList] { s with tags := [] }

/-- A line that fills the stack and then declares a type alias: `let x =`,
254 opening parentheses, `object type t = M.u`. -/
def deepObjectTypeLine : List Char :=
  "let x = ".toList ++ List.replicate 254 '(' ++ " object type t = M.u".toList

/-- The stack of `module M = struct let f`: the Strong frame of the module
`M` and above it the Strong frame of the function `f`. -/
def moduleLetState : ParserState :=
  pushStrongContext ['f'] contextType.ContextFunction
    (pushStrongContext ['M'] contextType.ContextModule (initialState OcamlKinds))

/-! ## Token streams of record types -/

/-- The tokens of a text with the name buffer `lex` leaves at each of them:
a token that comes with `some` lexeme (identifier, keyword, underscore,
operator) sets the buffer, any other token leaves the buffer as the token
before it left it.  `prev` is the buffer before the first token. -/
def nameBuffers : vString → List (Option vString × ocaToken) → List (vString × ocaToken)
  | _, [] => []
  | _, (some n, t) :: rest => (n, t) :: nameBuffers n rest
  | prev, (none, t) :: rest => (prev, t) :: nameBuffers prev rest

/-- A field of a record type as written: `[mutable] name : t1 ... tk`, the
type being a sequence of identifiers. -/
structure recordField where
  isMutable : Bool
  name : vString
  types : List vString

open ocamlKeyword in
/-- The tokens of one field of a record type. -/
def fieldTokens (f : recordField) : List (Option vString × ocaToken) :=
  (if f.isMutable then [(some "mutable".toList, OcaKEYWORD_mutable)] else []) ++
    [(some f.name, OcaIDENTIFIER), (some ":".toList, Tok_Of)] ++
    f.types.map fun t => (some t, OcaIDENTIFIER)

open ocamlKeyword in
/-- The tokens of the fields of a record type up to the closing brace: the
fields are separated by `;`, and `trailing` tells whether a `;` follows the
last one. -/
def recordBodyTokens : List recordField → Bool → List (Option vString × ocaToken)
  | [], _ => [(none, Tok_CurlR)]
  | [f], trailing =>
    fieldTokens f ++ ((if trailing then [(none, Tok_semi)] else []) ++ [(none, Tok_CurlR)])
  | f :: g :: rest, trailing =>
    fieldTokens f ++ ((none, Tok_semi) :: recordBodyTokens (g :: rest) trailing)

open ocamlKeyword in
/-- The tokens of `type r = { fields }`. -/
def recordTypeTokens (r : vString) (fields : List recordField) (trailing : Bool) :
    List (Option vString × ocaToken) :=
  [(some "type".toList, OcaKEYWORD_type), (some r, OcaIDENTIFIER), (some "=".toList, Tok_EQ),
    (none, Tok_CurlL)] ++ recordBodyTokens fields trailing

/-- The RecordField record of the field `f` of the top-level type `r`. -/
def recordFieldTag (r : vString) (line : Nat) (f : recordField) : tagEntryInfo :=
  { name := f.name, kindIndex := ocamlKind.K_RECORDFIELD, lineNumber := line,
    scopeKindIndex := some ocamlKind.K_TYPE, scopeName := some r }

/-- The state `typeRecord` leaves on the name of the field `f`: the record of
the field is emitted and the skip to `;` (or to the closing brace) starts. -/
def afterFieldName (r : vString) (f : recordField) (s : ParserState) : ParserState :=
  { s with
    tags := s.tags ++ [recordFieldTag r s.ocaLineNumber f]
    terminatingToken := ocamlKeyword.Tok_CurlR
    waitedToken := ocamlKeyword.Tok_semi
    comeAfter := parseNext.typeRecord
    toDoNext := parseNext.tillTokenOrTerminatingOrFallback }

/-- The state the automaton is in after `type r = {` when it started with
`globalScope` as handler and an empty stack: the Type record of `r` is
emitted, the stack holds the frame of `r`, `typeRecord` is the handler. -/
def afterRecordHeader (r : vString) (s : ParserState) : ParserState :=
  { s with
    toDoNext := parseNext.typeRecord
    previousParser := parseNext.typeDecl
    needStrongPoping := true
    stackIndex := 1
    stack := Function.update s.stack 0
      { kind := contextKind.ContextStrong, type := contextType.ContextType,
        callback := parseNext.globalScope, contextName := r }
    tags := s.tags ++
      [{ name := r, kindIndex := ocamlKind.K_TYPE, lineNumber := s.ocaLineNumber,
         scopeKindIndex := none, scopeName := none }] }

/-- The automaton is between two fields of the top-level record type `r`:
`typeRecord` is the handler, the stack holds the one frame of `r`. -/
def InRecordBody (r : vString) (s : ParserState) : Prop :=
  s.toDoNext = parseNext.typeRecord ∧ s.stackIndex = 1 ∧
  (s.stack 0).contextName = r ∧ (s.stack 0).type = contextType.ContextType ∧
  (s.stack 0).kind = contextKind.ContextStrong ∧
  s.kindEnabled ocamlKind.K_RECORDFIELD = true

/-! ## Runs with a kind disabled -/

/-- The state of the run in which the kind `k` is disabled, seen from the
state `s` of the run on the same tokens in which it is not: `k` is disabled,
the sink holds the tags of `s` that are not of kind `k`, and, when `k` is
`K_CONSTRUCTOR`, nothing is staged (`tempIdent` is empty and `tempTag` is
still `t0`, its value at the start).  Every other variable is as in `s`. -/
def disabledView (k : ocamlKind) (t0 : tagEntryInfo) (s : ParserState) : ParserState :=
  { s with
    kindEnabled := fun j => s.kindEnabled j && decide (j ≠ k)
    tags := s.tags.filter fun t => decide (t.kindIndex ≠ k)
    tempIdent := if k = ocamlKind.K_CONSTRUCTOR then [] else s.tempIdent
    tempTag := if k = ocamlKind.K_CONSTRUCTOR then t0 else s.tempTag }

/-- The state `s` with the kind `k` disabled: `OcamlKinds [k].enabled` is set
to false, and the other kinds are left as they are. -/
def disableKind (k : ocamlKind) (s : ParserState) : ParserState :=
  { s with kindEnabled := fun j => s.kindEnabled j && decide (j ≠ k) }

/-- The tag staged in `tempTag`, when one is staged, is a Constructor tag. -/
def StagedIsConstructor (s : ParserState) : Prop :=
  s.tempIdent ≠ [] → s.tempTag.kindIndex = ocamlKind.K_CONSTRUCTOR

/-! ## The calls of the main loop -/

/-- One call `(*toDoNext) (st.name, tok, nextTok)` of the main loop of
`findOcamlTags`: its three arguments, and the value of `getInputLineNumber ()`
the loop stores in `ocaLineNumber` right after the call. -/
structure handlerCall where
  ident : vString
  what : ocaToken
  whatNext : ocaToken
  lineAfter : Nat
  deriving DecidableEq, Repr

open ocamlKeyword in
/-- The statements of `findOcamlTags` before its main loop: the locals and the
parser state the loop starts with. -/
def loopStart (fuel : Nat) (filename : List Char) (lines : List (List Char))
    (s : ParserState) : Option LoopState :=
  let s := initStack s
  let s := { s with tempIdent := [], lastModule := [], lastClass := [] }
  let r := readLineFromInputFile { lines := lines, lineNumber := 0 }
  let s := { s with ocaLineNumber := r.2.lineNumber, toDoNext := parseNext.globalScope }
  match lex fuel r.2 { name := [], cp := r.1 } with
  | none => none
  | some (tok, nextSt, rd) =>
    let s := if tok ≠ Tok_EOF then computeModuleName filename s else s
    let s := { s with ocaLineNumber := rd.lineNumber }
    match lex fuel rd nextSt with
    | none => none
    | some (nextTok, nextSt2, rd2) =>
      some { parser := s, stName := nextSt.name, nextSt := nextSt2, rd := rd2,
             tok := tok, nextTok := nextTok }

open ocamlKeyword in
/-- The main loop of `findOcamlTags` with the calls of the active handler
listed, in order, instead of made: the control flow and the calls of `lex`
are those of `mainLoop`. -/
def mainLoopCalls (lexFuel : Nat) : Nat → LoopState → Option (List handlerCall)
  | 0, _ => none
  | fuel + 1, l =>
    if l.tok = Tok_EOF then some []
    else
      let c : handlerCall :=
        { ident := l.stName, what := l.tok, whatNext := l.nextTok,
          lineAfter := l.rd.lineNumber }
      if l.nextTok ≠ Tok_EOF then
        match lex lexFuel l.rd l.nextSt with
        | none => none
        | some (t, nst, rd) =>
          (mainLoopCalls lexFuel fuel
            { parser := l.parser, stName := l.nextSt.name, nextSt := nst, rd := rd,
              tok := l.nextTok, nextTok := t }).map fun cs => c :: cs
      else some [c]

/-- The calls of the active handler a run of `findOcamlTags` makes. -/
def handlerCalls (fuel : Nat) (filename : List Char) (lines : List (List Char))
    (s : ParserState) : Option (List handlerCall) :=
  (loopStart fuel filename lines s).bind (mainLoopCalls fuel fuel)

/-- One iteration of the main loop on the parser state: the call, then the
assignment of `ocaLineNumber`. -/
def makeCall (c : handlerCall) (p : ParserState) : ParserState :=
  { callToDoNext c.ident c.what c.whatNext p with ocaLineNumber := c.lineAfter }

/-- The calls `cs` made one after the other. -/
def makeCalls (cs : List handlerCall) (p : ParserState) : ParserState :=
  cs.foldl (fun p c => makeCall c p) p

/-- The results of the calls of `lex`, one after the other, until `Tok_EOF`:
every token with the lexing state the call left. -/
def lexCalls (lexFuel : Nat) :
    Nat → Reader → lexingState → Option (List (ocaToken × lexingState))
  | 0, _, _ => none
  | fuel + 1, rd, st =>
    match lex lexFuel rd st with
    | none => none
    | some (tok, st1, rd1) =>
      if tok = ocamlKeyword.Tok_EOF then some []
      else (lexCalls lexFuel fuel rd1 st1).map fun rest => (tok, st1) :: rest

/-- The tokens of the input `lines`, from the first call of `lex` in
`findOcamlTags` on: the first line is read before the call. -/
def inputTokens (fuel : Nat) (lines : List (List Char)) :
    Option (List (ocaToken × lexingState)) :=
  lexCalls fuel fuel (readLineFromInputFile { lines := lines, lineNumber := 0 }).2
    { name := [], cp := (readLineFromInputFile { lines := lines, lineNumber := 0 }).1 }

/-- The pairing of the specification: every token with the kind of the token
that follows it, `Tok_EOF` for the last one, and with its own name buffer. -/
def pairWithNext : List (ocaToken × lexingState) → List (vString × ocaToken × ocaToken)
  | [] => []
  | [(t, st)] => [(st.name, t, ocamlKeyword.Tok_EOF)]
  | (t, st) :: (t2, st2) :: rest => (st.name, t, t2) :: pairWithNext ((t2, st2) :: rest)

open ocamlKeyword in
/-- The tokens whose text `lex` reads into `st->name`: the words (identifiers
and keywords) and the operator runs.  The others are `Tok_EOF`, `Tok_Val` and
the punctuation. -/
def carriesLexeme (t : ocaToken) : Bool :=
  !(t == Tok_EOF || t == Tok_Val || t == Tok_PARL || t == Tok_PARR || t == Tok_BRL ||
    t == Tok_BRR || t == Tok_CurlL || t == Tok_CurlR || t == Tok_Prime || t == Tok_comma ||
    t == Tok_semi || t == Tok_Sharp || t == Tok_Backslash)

/-- The lexeme of the word or operator that starts at `c`: the longest run
of identifier characters when `c` starts with a letter, of operator
characters otherwise. -/
def lexemeAt (c : List Char) : vString :=
  if isAlpha (cur c) then c.takeWhile isIdent else c.takeWhile isOperator

/-- The text `c` lies in the input left to `lex`: it is the end of the line
the pointer is in, or of a line still to be read. -/
def InInput (rd : Reader) (cp : Option (List Char)) (c : List Char) : Prop :=
  (∃ c0, cp = some c0 ∧ List.IsSuffix c c0) ∨ (∃ l ∈ rd.lines, List.IsSuffix c l)

/-! ## The context stack and the tags through a run -/

/-- The variables the stack primitives and the tag functions assign: the
context stack, the tags handed to the sink, and the staged constructor. -/
structure stackAndTags where
  stack : Nat → ocamlContext
  stackIndex : Nat
  tags : List tagEntryInfo
  tempIdent : vString
  tempTag : tagEntryInfo

/-- The stack, the tags and the staged constructor of a parser state. -/
def core (s : ParserState) : stackAndTags :=
  { stack := s.stack, stackIndex := s.stackIndex, tags := s.tags,
    tempIdent := s.tempIdent, tempTag := s.tempTag }

/-- The name and the role of a call of `pushContext` are of the shape the
handlers use: the name is `NULL`, or the role is one `contextDescription`
describes (Type, Module, Class, Value, Function or Method). -/
def describableName (name : Option vString) (type : contextType) : Bool :=
  name.isNone || (contextDescription type).isSome

/-- One call of a stack primitive or of a tag function, as the handlers make
them, seen on the stack and the tags; the other variables of the state the
call is made in are arbitrary. -/
inductive stackStep : stackAndTags → stackAndTags → Prop
  | push (s : ParserState) (kind : contextKind) (type : contextType) (after : parseNext)
      (name : Option vString) :
      describableName name type = true →
      stackStep (core s) (core (pushContext kind type after name s))
  | popLastNamed (s : ParserState) : stackStep (core s) (core (popLastNamed s))
  | popSoftContext (s : ParserState) : stackStep (core s) (core (popSoftContext s))
  | popStrongContext (s : ParserState) : stackStep (core s) (core (popStrongContext s).2)
  | jumpToMatchContext (s : ParserState) :
      stackStep (core s) (core (jumpToMatchContext s))
  | addTag (s : ParserState) (ident : vString) (kind : ocamlKind) :
      stackStep (core s) (core (addTag ident kind s))
  | stage (s : ParserState) (ident : vString) :
      stackStep (core s)
        (core { s with
          tempIdent := ident
          tempTag := prepareTag ident ocamlKind.K_CONSTRUCTOR s })
  | unstage (s : ParserState) : stackStep (core s) (core { s with tempIdent := [] })
  | emitTempTag (s : ParserState) : stackStep (core s) (core (emitTempTag s))

/-- The stack and tags `b` are reached from `a` by calls of the stack
primitives and the tag functions. -/
inductive stackReach (a : stackAndTags) : stackAndTags → Prop
  | refl : stackReach a a
  | step {b c : stackAndTags} : stackReach a b → stackStep b c → stackReach a c

/-- One call of a function that moves `stackIndex`, with its arguments. -/
inductive stackCall where
  | pushContext (kind : contextKind) (type : contextType) (after : parseNext)
      (contextName : Option vString)
  | popLastNamed
  | popSoftContext
  | popStrongContext
  | jumpToMatchContext

/-- The call `c` made in the state `s`. -/
def doStackCall (c : stackCall) (s : ParserState) : ParserState :=
  match c with
  | stackCall.pushContext kind type after contextName =>
    pushContext kind type after contextName s
  | stackCall.popLastNamed => popLastNamed s
  | stackCall.popSoftContext => popSoftContext s
  | stackCall.popStrongContext => (popStrongContext s).2
  | stackCall.jumpToMatchContext => jumpToMatchContext s

/-- The calls `cs` made one after the other, from the state `s`. -/
def doStackCalls (cs : List stackCall) (s : ParserState) : ParserState :=
  cs.foldl (fun s c => doStackCall c s) s

/-- The state of the statics after the first statements of `findOcamlTags`
that matter to the stack and the tags: `initStack ()` and
`tempIdent = vStringNew ()`. -/
def runStart (s : ParserState) : ParserState :=
  { initStack s with tempIdent := [] }

open ocamlKind in
/-- The kinds `contextDescription` returns outside of its `AssertNotReached`
branch: function, method, val, module, type and class. -/
def describedKinds : List ocamlKind :=
  [K_FUNCTION, K_METHOD, K_VAL, K_MODULE, K_TYPE, K_CLASS]

/-- A tag that has an enclosing scope has a scope kind among
`describedKinds`. -/
def wellScoped (t : tagEntryInfo) : Prop :=
  t.scopeName ≠ none → ∃ k ∈ describedKinds, t.scopeKindIndex = some k

open contextType in
/-- The statement of C33 on a state `r`, `old` being the tags the sink held
before the run: every frame below `stackIndex` with a non-empty name has a
role among Type, Module, Class, Value, Function and Method; `prepareTag`
does not reach the `AssertNotReached` branch of `contextDescription`, and the
tag it prepares is well scoped; every tag handed to the sink in the run is
well scoped. -/
def describableState (old : List tagEntryInfo) (r : ParserState) : Prop :=
  (∀ i, i < r.stackIndex → (r.stack i).contextName ≠ [] →
    (r.stack i).type ∈ [ContextType, ContextModule, ContextClass, ContextValue,
      ContextFunction, ContextMethod]) ∧
  (∀ p, getLastNamedIndex r = some p → contextDescription (r.stack p).type ≠ none) ∧
  (∀ name kind, wellScoped (prepareTag name kind r)) ∧
  (∀ t ∈ r.tags, t ∈ old ∨ wellScoped t)

/-- The statement of C34 on a state `r`: if frame `j` below `stackIndex` has
a non-empty name and `p` is the highest index below `j` of a frame with a
non-empty name, the name of frame `j` starts with the name of frame `p`
followed by `contextTypeSuffix` of the role of frame `p`. -/
def scopePathsNested (r : ParserState) : Prop :=
  ∀ j p, j < r.stackIndex → (r.stack j).contextName ≠ [] →
    p < j → (r.stack p).contextName ≠ [] →
    (∀ i, p < i → i < j → (r.stack i).contextName = []) →
    List.IsPrefix ((r.stack p).contextName ++ [contextTypeSuffix (r.stack p).type])
      (r.stack j).contextName

/-! ## Texts of words separated by blanks

The words of a one-line text and, in the words of the specification, the
token `lex` returns for each of them; `lexText_spaced` shows that this is
what the embedded `lex` yields. -/

/-- The names `lex` returns as the token `OcaIDENTIFIER` (`lex_word`): they
start with a letter, are made of identifier characters (letters, digits, `_`
and the quote mark) and are not an entry of the keyword table.  A name that
starts with `_` is not one of them (it is a `Tok_Val`), nor is `value`. -/
def isIdentifierToken (w : vString) : Bool :=
  isAlpha (cur w) && w.all isIdent && (lookupKeyword w).isNone

/-- The words of the texts below: a letter followed by identifier
characters, a non-empty run of operator characters, or one of the braces and
the semicolon. -/
def isWord (w : vString) : Bool :=
  (isAlpha (cur w) && w.all isIdent) || (!w.isEmpty && w.all isOperator) ||
    w == [chCurlL] || w == [chCurlR] || w == [';']

open ocamlKeyword in
/-- The token of a word and the lexeme it comes with, in the words of the
specification: a brace or a semicolon is its punctuation token and has no
lexeme; a word that starts with a letter is the token of its keyword table
entry, or `OcaIDENTIFIER` when it has none; an operator run is the token
`operatorRunToken` gives. -/
def wordEntry (w : vString) : Option vString × ocaToken :=
  if w = [chCurlL] then (none, Tok_CurlL)
  else if w = [chCurlR] then (none, Tok_CurlR)
  else if w = [';'] then (none, Tok_semi)
  else if isAlpha (cur w) then (some w, (lookupKeyword w).getD OcaIDENTIFIER)
  else (some w, operatorRunToken w)

/-- The words `ws`, each with one blank before it. -/
def spacedTail : List vString → List Char
  | [] => []
  | w :: ws => ' ' :: (w ++ spacedTail ws)

/-- The line made of the words `ws` with one blank between two of them. -/
def spaced : List vString → List Char
  | [] => []
  | w :: ws => w ++ spacedTail ws

/-- The tokens of the file whose only line is `text`, from the first call of
`lex` to the one that returns `Tok_EOF`, each with the name buffer after the
call. -/
def lexText (text : List Char) : Option (List (vString × ocaToken)) :=
  lexAll (text.length + 2) (text.length + 2) { lines := [text], lineNumber := 0 }
    { name := [], cp := none }

/-- The words of `module M = struct let f x = x end`. -/
def moduleExampleWords (M f x : vString) : List vString :=
  [ "module".toList, M, "=".toList, "struct".toList, "let".toList, f, x, "=".toList, x,
    "end".toList ]

/-- The words of `class c = object method m x = x end`. -/
def classExampleWords (c m x : vString) : List vString :=
  [ "class".toList, c, "=".toList, "object".toList, "method".toList, m, x, "=".toList, x,
    "end".toList ]

/-- The words of `let name p1 ... pk =`. -/
def letBindingWords (name : vString) (params : List vString) : List vString :=
  ["let".toList, name] ++ params ++ ["=".toList]

/-- The words of one field of a record type. -/
def fieldWords (f : recordField) : List vString :=
  (if f.isMutable then ["mutable".toList] else []) ++ [f.name, ":".toList] ++ f.types

/-- The words of the fields of a record type up to the closing brace. -/
def recordBodyWords : List recordField → Bool → List vString
  | [], _ => [[chCurlR]]
  | [f], trailing => fieldWords f ++ ((if trailing then [[';']] else []) ++ [[chCurlR]])
  | f :: g :: rest, trailing => fieldWords f ++ ([';'] :: recordBodyWords (g :: rest) trailing)

/-- The words of a record type, the braces and the semicolons being words
of their own. -/
def recordTypeWords (r : vString) (fields : List recordField) (trailing : Bool) :
    List vString :=
  ["type".toList, r, "=".toList, [chCurlL]] ++ recordBodyWords fields trailing

/-- The names of a record field as written are identifier tokens: the name
of the field and the words its type is made of. -/
def isIdentifierField (f : recordField) : Bool :=
  isIdentifierToken f.name && f.types.all isIdentifierToken

/-- The automaton run from the initial state of a fresh process on the
tokens `lex` yields for a one-line text. -/
def automatonOnLine (text : String) : Option ParserState :=
  (lexLine text).map fun toks => runTokens toks (initialState OcamlKinds)

/-! ## Lemmas on the context stack -/

theorem getLastNamedIndexFrom_eq_some (stack : Nat → ocamlContext) (n p : Nat)
    (hp : p < n) (hname : (stack p).contextName ≠ [])
    (hgap : ∀ j, p < j → j < n → (stack j).contextName = []) :
    getLastNamedIndexFrom stack n = some p := by
  induction n with
  | zero => omega
  | succ i ih =>
    unfold getLastNamedIndexFrom
    by_cases hip : i = p
    · subst hip
      have : 0 < (stack i).contextName.length := List.length_pos.mpr hname
      simp [this]
    · have hlt : p < i := by omega
      have hi : (stack i).contextName = [] := hgap i hlt (by omega)
      simp only [hi, List.length_nil, gt_iff_lt, lt_self_iff_false, if_false]
      exact ih hlt (fun j h1 h2 => hgap j h1 (by omega))

theorem getLastNamedIndexFrom_eq_none (stack : Nat → ocamlContext) (n : Nat)
    (hall : ∀ j, j < n → (stack j).contextName = []) :
    getLastNamedIndexFrom stack n = none := by
  induction n with
  | zero => rfl
  | succ i ih =>
    unfold getLastNamedIndexFrom
    have hi : (stack i).contextName = [] := hall i (by omega)
    simp only [hi, List.length_nil, gt_iff_lt, lt_self_iff_false, if_false]
    exact ih (fun j h => hall j (by omega))

/-! ## The name a pushed frame gets -/

/-- C1. For a stack holding fewer than `OCAML_MAX_STACK_SIZE` frames,
`pushContext` with the own name `n` makes the stack one frame higher, and the
name stored in the new top frame is `P ++ [sep] ++ n`, where `P` is the name
of the nearest lower frame with a non-empty name (the frame
`getLastNamedIndex` finds before the push) and `sep` is `contextTypeSuffix`
of that frame's role; it is `n` alone when no lower frame has a non-empty
name.  The separators are those of the table. -/
theorem pushContext_stored_name (kind : contextKind) (type : contextType)
    (after : parseNext) (n : vString) (s : ParserState)
    (hcap : s.stackIndex < OCAML_MAX_STACK_SIZE) (hn : n ≠ []) :
    (pushContext kind type after (some n) s).stackIndex = s.stackIndex + 1 ∧
    (∀ p, p < s.stackIndex → (s.stack p).contextName ≠ [] →
      (∀ j, p < j → j < s.stackIndex → (s.stack j).contextName = []) →
      getLastNamedIndex s = some p ∧
      ((pushContext kind type after (some n) s).stack s.stackIndex).contextName
        = (s.stack p).contextName ++ [contextTypeSuffix (s.stack p).type] ++ n) ∧
    ((∀ j, j < s.stackIndex → (s.stack j).contextName = []) →
      getLastNamedIndex s = none ∧
      ((pushContext kind type after (some n) s).stack s.stackIndex).contextName = n) ∧
    (contextTypeSuffix contextType.ContextModule = '/' ∧
     contextTypeSuffix contextType.ContextFunction = '/' ∧
     contextTypeSuffix contextType.ContextValue = '/' ∧
     contextTypeSuffix contextType.ContextMethod = '/' ∧
     contextTypeSuffix contextType.ContextType = '.' ∧
     contextTypeSuffix contextType.ContextClass = '#' ∧
     contextTypeSuffix contextType.ContextBlock = ' ' ∧
     contextTypeSuffix contextType.ContextMatch = '|') := by
  have hnot : ¬ s.stackIndex ≥ OCAML_MAX_STACK_SIZE := by omega
  have _hn := hn
  refine ⟨?_, ?_, ?_, ?_⟩
  · simp [pushContext, hnot]
  · intro p hp hname hgap
    have hidx : getLastNamedIndex s = some p :=
      getLastNamedIndexFrom_eq_some s.stack s.stackIndex p hp hname hgap
    refine ⟨hidx, ?_⟩
    simp [pushContext, hnot, hidx]
  · intro hall
    have hidx : getLastNamedIndex s = none :=
      getLastNamedIndexFrom_eq_none s.stack s.stackIndex hall
    refine ⟨hidx, ?_⟩
    simp [pushContext, hnot, hidx]
  · exact ⟨rfl, rfl, rfl, rfl, rfl, rfl, rfl, rfl⟩

/-- A witness of C1: in the stack that holds the one frame of a module `M`,
the frame pushed for `f` is named `M/f`. -/
theorem pushContext_stored_name_witness :
    ((pushContext contextKind.ContextStrong contextType.ContextFunction parseNext.globalScope
        (some ['f'])
        (pushStrongContext ['M'] contextType.ContextModule (initialState OcamlKinds))).stack
      1).contextName = ['M', '/', 'f'] :=
  ((pushContext_stored_name contextKind.ContextStrong contextType.ContextFunction
      parseNext.globalScope ['f']
      (pushStrongContext ['M'] contextType.ContextModule (initialState OcamlKinds))
      (by decide) (by decide)).2.1 0 (by decide) (by decide)
      (fun j h1 h2 => absurd h2 (by
        have : (pushStrongContext ['M'] contextType.ContextModule
          (initialState OcamlKinds)).stackIndex = 1 := by decide
        omega))).2

/-! ## The examples of the specification -/

open ocamlKeyword ocamlKind in
/-- The module example on its tokens, the three names being tokens of kind
`OcaIDENTIFIER`.  From a state whose active handler is `globalScope` and whose
stack is empty, the tokens of `module M = struct let f x = x end` make the
automaton emit exactly a Module record `M` without scope and then a Function
record `f` whose scope is the module `M`; the stack is empty at the end. -/
theorem module_example_on_tokens (M f x : vString) (s : ParserState)
    (hM : M ≠ []) (hf : f ≠ [])
    (hstate : s.toDoNext = parseNext.globalScope) (hempty : s.stackIndex = 0)
    (hkm : s.kindEnabled K_MODULE = true) (hkf : s.kindEnabled K_FUNCTION = true) :
    (runTokens (moduleExampleTokens M f x) s).tags = s.tags ++
      [ { name := M, kindIndex := K_MODULE, lineNumber := s.ocaLineNumber,
          scopeKindIndex := none, scopeName := none },
        { name := f, kindIndex := K_FUNCTION, lineNumber := s.ocaLineNumber,
          scopeKindIndex := some K_MODULE, scopeName := some M } ] ∧
    (runTokens (moduleExampleTokens M f x) s).stackIndex = 0 := by
  have hM1 : 0 < M.length := List.length_pos.mpr hM
  have hf1 : 0 < f.length := List.length_pos.mpr hf
  cases hnp : s.needStrongPoping <;>
  simp [runTokens, runTokensThen, moduleExampleTokens, callToDoNext, globalScope, moduleDecl,
    moduleSpecif, globalLet, letParam, mayRedeclare, localScope, cleanupPreviousParser, addTag,
    prepareTag, makeTagEntry, getLastNamedIndex, getLastNamedIndexFrom, pushStrongContext,
    pushContext, requestStrongPoping, killCurrentState, popStrongContext, popStrongContextFrom,
    clearName, contextDescription, exportLocalInfo, OCAML_MAX_STACK_SIZE,
    hstate, hempty, hkm, hkf, hM1, hf1, hnp]

/-- C3. The run of `findOcamlTags` on the file `t.ml` whose only line is
`type t = A | B of int | C` hands four tags to the sink: the module of the
file, the type `t` and the constructors `A` and `B`.  The constructor `C` is
staged (`tempIdent`) with `constructorValidation` as the next handler when
the input ends, and is never emitted. -/
theorem sum_type_last_constructor_not_emitted :
    tagNamesAndKinds (findOcamlTags 100 "t.ml".toList ["type t = A | B of int | C".toList]
        (initialStatics OcamlKinds))
      = some [("T", ocamlKind.K_MODULE), ("t", ocamlKind.K_TYPE),
              ("A", ocamlKind.K_CONSTRUCTOR), ("B", ocamlKind.K_CONSTRUCTOR)] ∧
    (findOcamlTags 100 "t.ml".toList ["type t = A | B of int | C".toList]
        (initialStatics OcamlKinds)).map (fun s => (s.tempIdent, s.toDoNext))
      = some (['C'], parseNext.constructorValidation) := by
  decide

/-- The token stream of the module example is the one `lex` yields. -/
theorem moduleExampleTokens_lexed :
    lexLine "module M = struct let f x = x end" =
      some (moduleExampleTokens ['M'] ['f'] ['x']) := by
  decide

/-- The token stream of the class example is the one `lex` yields. -/
theorem classExampleTokens_lexed :
    lexLine "class c = object method m x = x end" =
      some (classExampleTokens ['c'] ['m'] ['x']) := by
  decide

/-- The whole run of `findOcamlTags` on the module example and on the class
example: the records are those of the automaton on the token streams, after
the record of the module that the file `t.ml` is. -/
theorem examples_full_run :
    tagNamesAndKinds (findOcamlTags 100 "t.ml".toList
        ["module M = struct let f x = x end".toList] (initialStatics OcamlKinds))
      = some [("T", ocamlKind.K_MODULE), ("M", ocamlKind.K_MODULE),
              ("f", ocamlKind.K_FUNCTION)] ∧
    tagNamesAndKinds (findOcamlTags 100 "t.ml".toList
        ["class c = object method m x = x end".toList] (initialStatics OcamlKinds))
      = some [("T", ocamlKind.K_MODULE), ("c", ocamlKind.K_CLASS),
              ("m", ocamlKind.K_METHOD)] := by
  decide

open ocamlKeyword ocamlKind in
/-- The class example on its tokens, the three names being tokens of kind
`OcaIDENTIFIER`.  From a state whose active handler is `globalScope`, whose
stack is empty and whose bracket counters are zero, the tokens of
`class c = object method m x = x end` make the automaton emit exactly a Class
record `c` and then a Method record `m` whose scope is the class `c`; the
frame pushed for `m` (the second frame, once `m` is read) is named `c#m`. -/
theorem class_example_on_tokens (c m x : vString) (s : ParserState)
    (hc : c ≠ []) (hm : m ≠ [])
    (hstate : s.toDoNext = parseNext.globalScope) (hempty : s.stackIndex = 0)
    (hpar : s.parentheses = 0) (hbr : s.bracket = 0) (hcu : s.curly = 0)
    (hkc : s.kindEnabled K_CLASS = true) (hkm : s.kindEnabled K_METHOD = true) :
    (runTokens (classExampleTokens c m x) s).tags = s.tags ++
      [ { name := c, kindIndex := K_CLASS, lineNumber := s.ocaLineNumber,
          scopeKindIndex := none, scopeName := none },
        { name := m, kindIndex := K_METHOD, lineNumber := s.ocaLineNumber,
          scopeKindIndex := some K_CLASS, scopeName := some c } ] ∧
    (runTokensThen (classExampleHead c m) OcaIDENTIFIER s).stackIndex = 2 ∧
    (runTokensThen (classExampleHead c m) OcaIDENTIFIER s).stack 1 =
      { kind := contextKind.ContextStrong, type := contextType.ContextMethod,
        callback := parseNext.globalScope, contextName := c ++ ['#'] ++ m } := by
  have hc1 : 0 < c.length := List.length_pos.mpr hc
  have hm1 : 0 < m.length := List.length_pos.mpr hm
  cases hnp : s.needStrongPoping <;>
  simp [runTokens, runTokensThen, classExampleTokens, classExampleHead, callToDoNext,
    globalScope, classDecl, classSpecif, contextualTillToken, methodDecl, letParam,
    mayRedeclare, localScope, cleanupPreviousParser, addTag, prepareTag, makeTagEntry,
    getLastNamedIndex, getLastNamedIndexFrom, pushStrongContext, pushContext,
    requestStrongPoping, killCurrentState, popStrongContext, popStrongContextFrom, clearName,
    contextDescription, contextTypeSuffix, exportLocalInfo, OCAML_MAX_STACK_SIZE,
    hstate, hempty, hpar, hbr, hcu, hkc, hkm, hc1, hm1, hnp]

/-! ## Top-level bindings -/

/-- In the state `letParam`, identifier parameters followed by `=` emit no
record and change nothing but the active handler, which becomes
`mayRedeclare`. -/
theorem letParam_identifiers (params : List vString) (nxt : ocaToken) (s : ParserState)
    (hstate : s.toDoNext = parseNext.letParam) :
    runTokensThen ((params.map fun p => (p, ocamlKeyword.OcaIDENTIFIER)) ++
        [("=".toList, ocamlKeyword.Tok_EQ)]) nxt s
      = { s with toDoNext := parseNext.mayRedeclare } := by
  induction params with
  | nil => simp [runTokensThen, callToDoNext, hstate, letParam]
  | cons p ps ih =>
    cases ps with
    | nil =>
      simp [runTokensThen, callToDoNext, hstate, letParam, exportLocalInfo]
    | cons q qs =>
      simp only [List.map_cons, List.cons_append, runTokensThen] at ih ⊢
      have hstep : callToDoNext p ocamlKeyword.OcaIDENTIFIER ocamlKeyword.OcaIDENTIFIER s = s := by
        simp [callToDoNext, hstate, letParam, exportLocalInfo]
      rw [hstep]
      exact ih

/-- C5, counterexample. The runs of `findOcamlTags` on `let f _ = 1`,
`let f ~x = 1` and `let f ?x = 1` each emit, besides the module of the file,
one record `f` of kind Variable, although the binding has one parameter. -/
theorem toplevel_let_special_parameter_is_variable :
    tagNamesAndKinds (findOcamlTags 100 "t.ml".toList ["let f _ = 1".toList]
        (initialStatics OcamlKinds))
      = some [("T", ocamlKind.K_MODULE), ("f", ocamlKind.K_VARIABLE)] ∧
    tagNamesAndKinds (findOcamlTags 100 "t.ml".toList ["let f ~x = 1".toList]
        (initialStatics OcamlKinds))
      = some [("T", ocamlKind.K_MODULE), ("f", ocamlKind.K_VARIABLE)] ∧
    tagNamesAndKinds (findOcamlTags 100 "t.ml".toList ["let f ?x = 1".toList]
        (initialStatics OcamlKinds))
      = some [("T", ocamlKind.K_MODULE), ("f", ocamlKind.K_VARIABLE)] := by
  decide

open ocamlKeyword ocamlKind in
/-- Top-level bindings on their tokens, the name and the parameters being
tokens of kind `OcaIDENTIFIER`.  From a state whose active handler is
`globalScope` and whose stack is empty, `let name` followed by a token of kind
`L` emits exactly one record, named `name` and without scope, whose kind is
Function if and only if `L` is an identifier or an opening parenthesis, and
Variable otherwise.  When the `k` parameters are identifier tokens,
`let name p1 ... pk =` emits exactly that one record, and its kind is
Function if and only if `k` is not zero. -/
theorem toplevel_let_kind_on_tokens (name : vString) (s : ParserState)
    (hname : name ≠ [])
    (hstate : s.toDoNext = parseNext.globalScope) (hempty : s.stackIndex = 0)
    (hkf : s.kindEnabled K_FUNCTION = true) (hkv : s.kindEnabled K_VARIABLE = true) :
    (∀ L : ocaToken, (runTokensThen (letHeadTokens name) L s).tags = s.tags ++
      [ { name := name,
          kindIndex := if L = OcaIDENTIFIER ∨ L = Tok_PARL then K_FUNCTION else K_VARIABLE,
          lineNumber := s.ocaLineNumber, scopeKindIndex := none, scopeName := none } ]) ∧
    (∀ (params : List vString) (nxt : ocaToken),
      (runTokensThen (letIdentParamsTokens name params) nxt s).tags = s.tags ++
      [ { name := name,
          kindIndex := if params ≠ [] then K_FUNCTION else K_VARIABLE,
          lineNumber := s.ocaLineNumber, scopeKindIndex := none, scopeName := none } ]) := by
  have hn1 : 0 < name.length := List.length_pos.mpr hname
  constructor
  · intro L
    cases hnp : s.needStrongPoping <;> by_cases hL : L = OcaIDENTIFIER ∨ L = Tok_PARL <;>
    simp [runTokensThen, letHeadTokens, callToDoNext, globalScope, globalLet,
      cleanupPreviousParser, addTag, prepareTag, makeTagEntry, getLastNamedIndex,
      getLastNamedIndexFrom, pushStrongContext, pushContext, requestStrongPoping,
      popStrongContext, popStrongContextFrom, OCAML_MAX_STACK_SIZE,
      hstate, hempty, hkf, hkv, hn1, hnp, hL]
  · intro params nxt
    cases params with
    | nil =>
      cases hnp : s.needStrongPoping <;>
      simp [runTokensThen, letIdentParamsTokens, letHeadTokens, callToDoNext, globalScope,
        globalLet, letParam, cleanupPreviousParser, addTag, prepareTag, makeTagEntry,
        getLastNamedIndex, getLastNamedIndexFrom, pushStrongContext, pushContext,
        requestStrongPoping, popStrongContext, popStrongContextFrom, OCAML_MAX_STACK_SIZE,
        hstate, hempty, hkf, hkv, hn1, hnp]
    | cons p ps =>
      have hrest := fun t (h : t.toDoNext = parseNext.letParam) =>
        letParam_identifiers (p :: ps) nxt t h
      simp only [List.map_cons, List.cons_append] at hrest
      simp only [letIdentParamsTokens, letHeadTokens, List.map_cons, List.cons_append,
        List.nil_append, List.append_eq, runTokensThen]
      rw [hrest]
      · cases hnp : s.needStrongPoping <;>
        simp [callToDoNext, globalScope, globalLet, cleanupPreviousParser, addTag, prepareTag,
          makeTagEntry, getLastNamedIndex, getLastNamedIndexFrom, pushStrongContext,
          pushContext, requestStrongPoping, popStrongContext, popStrongContextFrom,
          OCAML_MAX_STACK_SIZE, hstate, hempty, hkf, hkv, hn1, hnp]
      · cases hnp : s.needStrongPoping <;>
        simp [callToDoNext, globalScope, globalLet, cleanupPreviousParser, addTag, prepareTag,
          makeTagEntry, getLastNamedIndex, getLastNamedIndexFrom, pushStrongContext,
          pushContext, requestStrongPoping, popStrongContext, popStrongContextFrom,
          OCAML_MAX_STACK_SIZE, hstate, hempty, hkf, hkv, hn1, hnp]

open ocamlKeyword ocamlKind contextType in
/-- C6. When `globalLet` receives an identifier with lexeme `n` and the
lookahead `L`, it emits exactly one record, named `n`, of kind Function when
`L` is an identifier or an opening parenthesis and of kind Variable
otherwise; it calls the push of one Strong frame of role Function (resp.
Value) whose resume handler is `globalScope` and whose name derives from `n`
(the push adds that one frame when the stack is not full and leaves the stack
as it is when it is full); it sets `needStrongPoping` and makes `letParam`
the next handler.  When it receives an opening parenthesis with a closing
one as lookahead, it does the same with a Function record named `()`. -/
theorem globalLet_decision_rule (n ident : vString) (L : ocaToken) (s : ParserState)
    (hn : n ≠ [])
    (hkf : s.kindEnabled K_FUNCTION = true) (hkv : s.kindEnabled K_VARIABLE = true) :
    ((globalLet n OcaIDENTIFIER L s).tags = s.tags ++
        [prepareTag n (if L = OcaIDENTIFIER ∨ L = Tok_PARL then K_FUNCTION else K_VARIABLE) s] ∧
      (prepareTag n (if L = OcaIDENTIFIER ∨ L = Tok_PARL then K_FUNCTION else K_VARIABLE)
        s).name = n ∧
      (prepareTag n (if L = OcaIDENTIFIER ∨ L = Tok_PARL then K_FUNCTION else K_VARIABLE)
        s).kindIndex = (if L = OcaIDENTIFIER ∨ L = Tok_PARL then K_FUNCTION else K_VARIABLE) ∧
      (globalLet n OcaIDENTIFIER L s).needStrongPoping = true ∧
      (globalLet n OcaIDENTIFIER L s).toDoNext = parseNext.letParam ∧
      (s.stackIndex < OCAML_MAX_STACK_SIZE →
        (globalLet n OcaIDENTIFIER L s).stackIndex = s.stackIndex + 1 ∧
        (globalLet n OcaIDENTIFIER L s).stack s.stackIndex =
          { kind := contextKind.ContextStrong,
            type := if L = OcaIDENTIFIER ∨ L = Tok_PARL then ContextFunction else ContextValue,
            callback := parseNext.globalScope,
            contextName :=
              match getLastNamedIndex s with
              | some p => (s.stack p).contextName ++ [contextTypeSuffix (s.stack p).type] ++ n
              | none => n } ∧
        ∀ j, j ≠ s.stackIndex → (globalLet n OcaIDENTIFIER L s).stack j = s.stack j) ∧
      (OCAML_MAX_STACK_SIZE ≤ s.stackIndex →
        (globalLet n OcaIDENTIFIER L s).stackIndex = s.stackIndex ∧
        (globalLet n OcaIDENTIFIER L s).stack = s.stack)) ∧
    ((globalLet ident Tok_PARL Tok_PARR s).tags = s.tags ++ [prepareTag ['(', ')'] K_FUNCTION s] ∧
      (prepareTag ['(', ')'] K_FUNCTION s).name = ['(', ')'] ∧
      (prepareTag ['(', ')'] K_FUNCTION s).kindIndex = K_FUNCTION ∧
      (globalLet ident Tok_PARL Tok_PARR s).needStrongPoping = true ∧
      (globalLet ident Tok_PARL Tok_PARR s).toDoNext = parseNext.letParam ∧
      (s.stackIndex < OCAML_MAX_STACK_SIZE →
        (globalLet ident Tok_PARL Tok_PARR s).stackIndex = s.stackIndex + 1 ∧
        (globalLet ident Tok_PARL Tok_PARR s).stack s.stackIndex =
          { kind := contextKind.ContextStrong, type := ContextFunction,
            callback := parseNext.globalScope,
            contextName :=
              match getLastNamedIndex s with
              | some p =>
                (s.stack p).contextName ++ [contextTypeSuffix (s.stack p).type] ++ ['(', ')']
              | none => ['(', ')'] } ∧
        ∀ j, j ≠ s.stackIndex → (globalLet ident Tok_PARL Tok_PARR s).stack j = s.stack j) ∧
      (OCAML_MAX_STACK_SIZE ≤ s.stackIndex →
        (globalLet ident Tok_PARL Tok_PARR s).stackIndex = s.stackIndex ∧
        (globalLet ident Tok_PARL Tok_PARR s).stack = s.stack)) := by
  have hn1 : 0 < n.length := List.length_pos.mpr hn
  have hname : ∀ (a : vString) (k : ocamlKind), (prepareTag a k s).name = a ∧
      (prepareTag a k s).kindIndex = k := by
    intro a k
    unfold prepareTag
    cases getLastNamedIndex s <;> exact ⟨rfl, rfl⟩
  refine ⟨⟨?_, (hname _ _).1, (hname _ _).2, ?_, ?_, ?_, ?_⟩,
    ⟨?_, (hname _ _).1, (hname _ _).2, ?_, ?_, ?_, ?_⟩⟩
  · by_cases hL : L = OcaIDENTIFIER ∨ L = Tok_PARL <;>
    by_cases hcap : s.stackIndex < OCAML_MAX_STACK_SIZE <;>
    simp [globalLet, addTag, makeTagEntry, pushStrongContext, pushContext,
      requestStrongPoping, hkf, hkv, hn1, hL, hcap, Nat.not_lt.mp, Nat.not_le.mpr]
  · by_cases hL : L = OcaIDENTIFIER ∨ L = Tok_PARL <;> simp [globalLet, requestStrongPoping, hL]
  · by_cases hL : L = OcaIDENTIFIER ∨ L = Tok_PARL <;> simp [globalLet, requestStrongPoping, hL]
  · intro hcap
    have hnot : ¬ OCAML_MAX_STACK_SIZE ≤ s.stackIndex := Nat.not_le.mpr hcap
    by_cases hL : L = OcaIDENTIFIER ∨ L = Tok_PARL <;>
    · refine ⟨?_, ?_, ?_⟩
      · simp [globalLet, addTag, makeTagEntry, pushStrongContext, pushContext,
          requestStrongPoping, hkf, hkv, hn1, hL, hnot]
      · simp [globalLet, addTag, makeTagEntry, pushStrongContext, pushContext,
          requestStrongPoping, getLastNamedIndex, hkf, hkv, hn1, hL, hnot]
      · intro j hj
        simp [globalLet, addTag, makeTagEntry, pushStrongContext, pushContext,
          requestStrongPoping, hkf, hkv, hn1, hL, hnot, Function.update_noteq hj]
  · intro hcap
    by_cases hL : L = OcaIDENTIFIER ∨ L = Tok_PARL <;>
    simp [globalLet, addTag, makeTagEntry, pushStrongContext, pushContext,
      requestStrongPoping, hkf, hkv, hn1, hL, hcap]
  · by_cases hcap : s.stackIndex < OCAML_MAX_STACK_SIZE <;>
    simp [globalLet, addTag, makeTagEntry, pushStrongContext, pushContext,
      requestStrongPoping, hkf, hcap, Nat.not_lt.mp, Nat.not_le.mpr]
  · simp [globalLet, requestStrongPoping]
  · simp [globalLet, requestStrongPoping]
  · intro hcap
    have hnot : ¬ OCAML_MAX_STACK_SIZE ≤ s.stackIndex := Nat.not_le.mpr hcap
    refine ⟨?_, ?_, ?_⟩
    · simp [globalLet, addTag, makeTagEntry, pushStrongContext, pushContext,
        requestStrongPoping, hkf, hnot]
    · simp [globalLet, addTag, makeTagEntry, pushStrongContext, pushContext,
        requestStrongPoping, getLastNamedIndex, hkf, hnot]
    · intro j hj
      simp [globalLet, addTag, makeTagEntry, pushStrongContext, pushContext,
        requestStrongPoping, hkf, hnot, Function.update_noteq hj]
  · intro hcap
    simp [globalLet, addTag, makeTagEntry, pushStrongContext, pushContext,
      requestStrongPoping, hkf, hcap]

open ocamlKeyword ocamlKind in
/-- A witness of C6: in the initial state of a fresh process, `globalLet` on
the identifier `f` before another identifier emits one Function record `f`,
sets the flag and hands over to `letParam`. -/
theorem globalLet_decision_rule_witness :
    (globalLet ['f'] OcaIDENTIFIER OcaIDENTIFIER (initialState OcamlKinds)).tags =
        [] ++ [prepareTag ['f']
          (if OcaIDENTIFIER = OcaIDENTIFIER ∨ OcaIDENTIFIER = Tok_PARL then K_FUNCTION
            else K_VARIABLE) (initialState OcamlKinds)] ∧
    (globalLet ['f'] OcaIDENTIFIER OcaIDENTIFIER (initialState OcamlKinds)).needStrongPoping
      = true ∧
    (globalLet ['f'] OcaIDENTIFIER OcaIDENTIFIER (initialState OcamlKinds)).toDoNext
      = parseNext.letParam :=
  ⟨(globalLet_decision_rule ['f'] [] OcaIDENTIFIER (initialState OcamlKinds)
      (by decide) rfl rfl).1.1,
   (globalLet_decision_rule ['f'] [] OcaIDENTIFIER (initialState OcamlKinds)
      (by decide) rfl rfl).1.2.2.2.1,
   (globalLet_decision_rule ['f'] [] OcaIDENTIFIER (initialState OcamlKinds)
      (by decide) rfl rfl).1.2.2.2.2.1⟩

/-! ## Comments and strings -/

/-- C7. On the line `(*(* *)*)`, a properly nested comment, `eatComment` does
not stop after the last closing marker: the character after the inner comment
is skipped, the closing parenthesis is met with `lastIsStar` false, the line
is exhausted and the next line is asked for; with no line left the pointer
ends as `NULL`, and a following line is swallowed by the comment. -/
theorem eatComment_nested_then_close :
    eatComment 100 { lines := [], lineNumber := 1 } "(*(* *)*)".toList
      = some (none, { lines := [], lineNumber := 1 }) ∧
    eatComment 100 { lines := ["let x = 1".toList], lineNumber := 1 } "(*(* *)*)".toList
      = some (none, { lines := [], lineNumber := 2 }) ∧
    eatComment 100 { lines := [], lineNumber := 1 } "(* a (* b *) c *) x".toList
      = some (some " x".toList, { lines := [], lineNumber := 1 }) := by
  decide

/-- C8. On the line `(* *"a") b *)`, `eatComment` ends the comment at the
closing parenthesis that follows the string literal: `lastIsStar`, set by the
star before the literal, is still set after `eatString`.  On `(* "*)" *)` the
marker inside the literal is skipped. -/
theorem eatComment_star_string_paren :
    eatComment 100 { lines := [], lineNumber := 1 } "(* *\"a\") b *)".toList
      = some (some " b *)".toList, { lines := [], lineNumber := 1 }) ∧
    eatComment 100 { lines := [], lineNumber := 1 } "(* \"*)\" *) x".toList
      = some (some " x".toList, { lines := [], lineNumber := 1 }) := by
  decide

/-- C9. On the line made of the literal quote, backslash, backslash, quote
followed by ` x`, `eatString` does not stop after the fourth character: the
second backslash sets `lastIsBackSlash` again, the closing quote is taken for
an escaped one, and the pointer ends at the end of the line. -/
theorem eatString_escaped_backslash :
    eatString [chDQuote, chBackslash, chBackslash, chDQuote, ' ', 'x'] = [] ∧
    eatString [chDQuote, 'a', chBackslash, chDQuote, 'b', chDQuote, ' ', 'x'] = [' ', 'x'] := by
  decide

/-! ## Identifiers -/

theorem readIdentifierLoop_eq (p : List Char) (name : vString) :
    readIdentifierLoop p name = (name ++ p.takeWhile isIdent, p.dropWhile isIdent) := by
  induction p generalizing name with
  | nil => simp [readIdentifierLoop]
  | cons ch p ih =>
    unfold readIdentifierLoop
    by_cases h : isIdent ch = true
    · simp [h, ih, List.takeWhile_cons, List.dropWhile_cons]
    · simp [h, List.takeWhile_cons, List.dropWhile_cons]

theorem isIdent_of_isAlpha (ch : Char) (h : isAlpha ch = true) : isIdent ch = true := by
  simp [isIdent, h]

theorem isIdent_cur_dropWhile (c : List Char) : isIdent (cur (c.dropWhile isIdent)) = false := by
  induction c with
  | nil => decide
  | cons ch c ih =>
    by_cases h : isIdent ch = true
    · simpa [List.dropWhile_cons, h] using ih
    · simp [List.dropWhile_cons, h, cur]

theorem lookupKeywordIn_of_mem (tbl : List (String × ocamlKeyword))
    (hnodup : (tbl.map fun e => e.1.toList).Nodup) (k : String) (t : ocamlKeyword)
    (hmem : (k, t) ∈ tbl) : lookupKeywordIn tbl k.toList = some t := by
  induction tbl with
  | nil => cases hmem
  | cons e rest ih =>
    obtain ⟨k1, t1⟩ := e
    simp only [List.map_cons, List.nodup_cons] at hnodup
    unfold lookupKeywordIn
    rcases List.mem_cons.mp hmem with heq | hin
    · cases heq
      simp
    · have hne : k1.toList ≠ k.toList := by
        intro hcontra
        apply hnodup.1
        rw [hcontra]
        exact List.mem_map.mpr ⟨(k, t), hin, rfl⟩
      simp only [hne, if_false]
      exact ih hnodup.2 hin

theorem lookupKeywordIn_eq_none (tbl : List (String × ocamlKeyword)) (name : vString)
    (hmiss : ∀ e ∈ tbl, e.1.toList ≠ name) : lookupKeywordIn tbl name = none := by
  induction tbl with
  | nil => rfl
  | cons e rest ih =>
    obtain ⟨k1, t1⟩ := e
    unfold lookupKeywordIn
    have hne : k1.toList ≠ name := hmiss (k1, t1) (List.mem_cons_self _ _)
    simp only [hne, if_false]
    exact ih (fun e he => hmiss e (List.mem_cons_of_mem _ he))

theorem OcamlKeywordTable_nodup : (OcamlKeywordTable.map fun e => e.1.toList).Nodup := by
  decide

open ocamlKeyword in
/-- C10. When the current character is a letter, `lex` stores as lexeme the
longest run of identifier characters (letters, digits, `_`, quote mark) the
position starts with, moves the position past exactly that run, and returns
the token kind of the keyword table entry whose text is the lexeme, or
`OcaIDENTIFIER` when the table has no such entry. -/
theorem lex_identifier (fuel : Nat) (rd : Reader) (name : vString) (c : List Char)
    (hletter : isAlpha (cur c) = true) :
    lex (fuel + 1) rd { name := name, cp := some c } =
      some ((lookupKeyword (c.takeWhile isIdent)).getD OcaIDENTIFIER,
        { name := c.takeWhile isIdent, cp := some (c.dropWhile isIdent) }, rd) ∧
    c.takeWhile isIdent ++ c.dropWhile isIdent = c ∧
    (∀ ch ∈ c.takeWhile isIdent, isIdent ch = true) ∧
    isIdent (cur (c.dropWhile isIdent)) = false ∧
    (∀ k t, (k, t) ∈ OcamlKeywordTable → k.toList = c.takeWhile isIdent →
      lookupKeyword (c.takeWhile isIdent) = some t) ∧
    ((∀ e ∈ OcamlKeywordTable, e.1.toList ≠ c.takeWhile isIdent) →
      lookupKeyword (c.takeWhile isIdent) = none) := by
  refine ⟨?_, List.takeWhile_append_dropWhile _ _, ?_, isIdent_cur_dropWhile c, ?_, ?_⟩
  · cases c with
    | nil => exact absurd hletter (by decide)
    | cons ch tl =>
      have hch : isAlpha ch = true := by simpa [cur] using hletter
      have hid : isIdent ch = true := isIdent_of_isAlpha ch hch
      have hnul : (ch == chNUL) = false := by
        cases hz : (ch == chNUL)
        · rfl
        · have : ch = chNUL := by simpa using hz
          rw [this] at hch
          exact absurd hch (by decide)
      have hcur : cur (ch :: tl) = ch := rfl
      unfold lex
      simp only [lexHead, hcur, hnul, hch, if_true, Bool.false_eq_true, if_false]
      simp only [readIdentifier, hcur, hch, Bool.true_or, if_true, List.tail_cons,
        readIdentifierLoop_eq, List.takeWhile_cons, List.dropWhile_cons, hid,
        List.singleton_append]
      cases lookupKeyword (ch :: List.takeWhile isIdent tl) <;> rfl
  · intro ch hmem
    exact (List.mem_takeWhile_imp hmem)
  · intro k t hmem hk
    rw [← hk]
    exact lookupKeywordIn_of_mem OcamlKeywordTable OcamlKeywordTable_nodup k t hmem
  · intro hmiss
    exact lookupKeywordIn_eq_none OcamlKeywordTable _ hmiss

open ocamlKeyword in
/-- A witness of C10: at the start of `let' = 3` the current character is a
letter, and `lex` reads the lexeme up to the space. -/
theorem lex_identifier_witness :
    isAlpha (cur "let' = 3".toList) = true ∧
    lex (0 + 1) { lines := [], lineNumber := 1 } { name := [], cp := some "let' = 3".toList } =
      some ((lookupKeyword ("let' = 3".toList.takeWhile isIdent)).getD OcaIDENTIFIER,
        { name := "let' = 3".toList.takeWhile isIdent,
          cp := some ("let' = 3".toList.dropWhile isIdent) },
        { lines := [], lineNumber := 1 }) :=
  ⟨by decide,
   (lex_identifier 0 { lines := [], lineNumber := 1 } [] "let' = 3".toList (by decide)).1⟩

/-! ## Underscores, operators, keyword aliases -/

theorem eatOperatorLoop_eq (p : List Char) (name : vString) :
    eatOperatorLoop p name = (name ++ p.takeWhile isOperator, p.dropWhile isOperator) := by
  induction p generalizing name with
  | nil => simp [eatOperatorLoop]
  | cons ch p ih =>
    unfold eatOperatorLoop
    by_cases h : isOperator ch = true
    · simp [h, ih, List.takeWhile_cons, List.dropWhile_cons]
    · simp [h, List.takeWhile_cons, List.dropWhile_cons]

theorem isOperator_cur_dropWhile (c : List Char) :
    isOperator (cur (c.dropWhile isOperator)) = false := by
  induction c with
  | nil => decide
  | cons ch c ih =>
    by_cases h : isOperator ch = true
    · simpa [List.dropWhile_cons, h] using ih
    · simp [List.dropWhile_cons, h, cur]

theorem isOperator_not_other (ch : Char) (h : isOperator ch = true) :
    isAlpha ch = false ∧ isNum ch = false ∧ isSpace ch = false ∧ (ch == '_') = false ∧
      (ch == chNUL) = false := by
  simp only [isOperator, Bool.or_eq_true, beq_iff_eq] at h
  casesm* _ ∨ _ <;> subst_vars <;> decide

theorem eatOperator_token (ch : Char) (tl : List Char) (hop : isOperator ch = true) :
    (eatOperator (ch :: tl)).1 = operatorRunToken ((ch :: tl).takeWhile isOperator) := by
  have hcur : cur (ch :: tl) = ch := rfl
  cases tl with
  | nil =>
    simp only [eatOperator, eatOperatorLoop_eq, List.nil_append, List.takeWhile_cons, hop,
      if_true, List.takeWhile_nil, List.length_singleton, le_refl, hcur, operatorRunToken]
    by_cases h1 : ch = '|'
    · subst h1; decide
    · by_cases h2 : ch = '='
      · subst h2; decide
      · by_cases h3 : ch = ':'
        · subst h3; decide
        · simp [h1, h2, h3]
  | cons ch2 tl2 =>
    by_cases hop2 : isOperator ch2 = true
    · have hlen : ¬ (List.takeWhile isOperator tl2).length + 1 + 1 ≤ 1 := by omega
      simp only [eatOperator, eatOperatorLoop_eq, List.nil_append, List.takeWhile_cons, hop,
        hop2, if_true, List.length_cons, hlen, if_false, hcur, List.tail_cons, cur,
        List.headD_cons, operatorRunToken]
      by_cases h1 : ch = '-' <;> by_cases h2 : ch2 = '>' <;>
        cases hr : List.takeWhile isOperator tl2 <;> simp [h1, h2]
    · simp only [eatOperator, eatOperatorLoop_eq, List.nil_append, List.takeWhile_cons, hop,
        hop2, if_true, Bool.false_eq_true, if_false, List.length_singleton, le_refl, hcur,
        operatorRunToken]
      by_cases h1 : ch = '|'
      · subst h1; decide
      · by_cases h2 : ch = '='
        · subst h2; decide
        · by_cases h3 : ch = ':'
          · subst h3; decide
          · simp [h1, h2, h3]
open ocamlKeyword in
/-- C12. When the current character is an operator character, `eatOperator`
(and `lex`, which calls it) consumes the longest run `r` of operator
characters, stores `r` as the lexeme and returns `Tok_Pipe` if `r` is `|`,
`Tok_EQ` if `r` is `=`, `Tok_Of` if `r` is `:`, `Tok_Op` for any other run of
one character, `Tok_To` if `r` is `->` and `Tok_Op` for every other run of two
characters or more. -/
theorem eatOperator_classification (fuel : Nat) (rd : Reader) (name : vString)
    (c : List Char) (hop : isOperator (cur c) = true) :
    eatOperator c =
      (operatorRunToken (c.takeWhile isOperator), c.takeWhile isOperator,
        c.dropWhile isOperator) ∧
    lex (fuel + 1) rd { name := name, cp := some c } =
      some (operatorRunToken (c.takeWhile isOperator),
        { name := c.takeWhile isOperator, cp := some (c.dropWhile isOperator) }, rd) ∧
    c.takeWhile isOperator ++ c.dropWhile isOperator = c ∧
    1 ≤ (c.takeWhile isOperator).length ∧
    (∀ ch ∈ c.takeWhile isOperator, isOperator ch = true) ∧
    isOperator (cur (c.dropWhile isOperator)) = false ∧
    (operatorRunToken ['|'] = Tok_Pipe ∧ operatorRunToken ['='] = Tok_EQ ∧
      operatorRunToken [':'] = Tok_Of ∧ operatorRunToken ['-', '>'] = Tok_To ∧
      (∀ ch : Char, ch ≠ '|' → ch ≠ '=' → ch ≠ ':' → operatorRunToken [ch] = Tok_Op) ∧
      (∀ r : vString, 2 ≤ r.length → r ≠ ['-', '>'] → operatorRunToken r = Tok_Op)) := by
  cases c with
  | nil => exact absurd hop (by decide)
  | cons ch tl =>
    have hch : isOperator ch = true := by simpa [cur] using hop
    have heat : eatOperator (ch :: tl) =
        (operatorRunToken ((ch :: tl).takeWhile isOperator), (ch :: tl).takeWhile isOperator,
          (ch :: tl).dropWhile isOperator) := by
      have h1 := eatOperator_token ch tl hch
      have h2 : (eatOperator (ch :: tl)).2 =
          ((ch :: tl).takeWhile isOperator, (ch :: tl).dropWhile isOperator) := by
        simp [eatOperator, eatOperatorLoop_eq]
      exact Prod.ext h1 h2
    refine ⟨heat, ?_, List.takeWhile_append_dropWhile _ _, ?_, ?_,
      isOperator_cur_dropWhile _, ?_⟩
    · obtain ⟨ha, hn, hs, hu, hz⟩ := isOperator_not_other ch hch
      have hcur : cur (ch :: tl) = ch := rfl
      unfold lex
      simp only [lexHead, hcur, hz, ha, hn, hs, hu, hch, Bool.false_eq_true, if_false, if_true,
        heat]
    · simp [List.takeWhile_cons, hch]
    · intro x hx
      exact List.mem_takeWhile_imp hx
    · refine ⟨by decide, by decide, by decide, by decide, ?_, ?_⟩
      · intro x h1 h2 h3
        simp [operatorRunToken, h1, h2, h3]
      · intro r hlen hne
        have e1 : r ≠ ['|'] := by intro h; rw [h] at hlen; simp at hlen
        have e2 : r ≠ ['='] := by intro h; rw [h] at hlen; simp at hlen
        have e3 : r ≠ [':'] := by intro h; rw [h] at hlen; simp at hlen
        simp [operatorRunToken, e1, e2, e3, hne]

open ocamlKeyword in
/-- A witness of C12, at the arrow of `-> x`. -/
theorem eatOperator_classification_witness :
    isOperator (cur "-> x".toList) = true ∧
    eatOperator "-> x".toList =
      (operatorRunToken ("-> x".toList.takeWhile isOperator),
        "-> x".toList.takeWhile isOperator, "-> x".toList.dropWhile isOperator) ∧
    operatorRunToken ("-> x".toList.takeWhile isOperator) = Tok_To :=
  ⟨by decide,
   (eatOperator_classification 0 { lines := [], lineNumber := 1 } [] "-> x".toList
      (by decide)).1,
   by decide⟩

/-- C13. The words `or` and `asr` lex as `Tok_Op`, but `mod`, `land`, `lor`,
`lxor`, `lsl` and `lsr` lex as `OcaIDENTIFIER`: their entries in
`OcamlKeywordTable` are written with a space after the word, and no lexeme
`readIdentifier` builds ends with a space. -/
theorem textual_operator_aliases_lexed :
    lexLine "or" = some [("or".toList, ocamlKeyword.Tok_Op)] ∧
    lexLine "asr" = some [("asr".toList, ocamlKeyword.Tok_Op)] ∧
    lexLine "mod" = some [("mod".toList, ocamlKeyword.OcaIDENTIFIER)] ∧
    lexLine "land" = some [("land".toList, ocamlKeyword.OcaIDENTIFIER)] ∧
    lexLine "lor" = some [("lor".toList, ocamlKeyword.OcaIDENTIFIER)] ∧
    lexLine "lxor" = some [("lxor".toList, ocamlKeyword.OcaIDENTIFIER)] ∧
    lexLine "lsl" = some [("lsl".toList, ocamlKeyword.OcaIDENTIFIER)] ∧
    lexLine "lsr" = some [("lsr".toList, ocamlKeyword.OcaIDENTIFIER)] ∧
    lexLine "x mod y" = some [("x".toList, ocamlKeyword.OcaIDENTIFIER),
      ("mod".toList, ocamlKeyword.OcaIDENTIFIER), ("y".toList, ocamlKeyword.OcaIDENTIFIER)] := by
  refine ⟨?_, ?_, ?_, ?_, ?_, ?_, ?_, ?_, ?_⟩ <;> decide

/-! ## Pushing at capacity, popping -/

/-- C15. When the stack holds `OCAML_MAX_STACK_SIZE` frames, `pushContext`
with any arguments leaves the whole state as it is, `stackIndex` and every
frame included; when it holds fewer, `pushContext` increases `stackIndex` by
exactly one and changes no frame below the new top. -/
theorem pushContext_capacity (kind : contextKind) (type : contextType) (after : parseNext)
    (contextName : Option vString) (s : ParserState) :
    (s.stackIndex = OCAML_MAX_STACK_SIZE →
      pushContext kind type after contextName s = s ∧
      (pushContext kind type after contextName s).stackIndex = s.stackIndex ∧
      (pushContext kind type after contextName s).stack = s.stack) ∧
    (s.stackIndex < OCAML_MAX_STACK_SIZE →
      (pushContext kind type after contextName s).stackIndex = s.stackIndex + 1 ∧
      ∀ j, j < s.stackIndex →
        (pushContext kind type after contextName s).stack j = s.stack j) := by
  constructor
  · intro hfull
    have hge : s.stackIndex ≥ OCAML_MAX_STACK_SIZE := by omega
    simp [pushContext, hge]
  · intro hcap
    have hnot : ¬ s.stackIndex ≥ OCAML_MAX_STACK_SIZE := by omega
    refine ⟨by simp [pushContext, hnot], ?_⟩
    intro j hj
    have hne : j ≠ s.stackIndex := by omega
    simp [pushContext, hnot, Function.update_noteq hne]

/-- A witness of C15: a push on the full stack changes nothing, a push on
the empty stack of the initial state makes it one frame high. -/
theorem pushContext_capacity_witness :
    pushContext contextKind.ContextSoft contextType.ContextMatch parseNext.matchPattern
        (some ['x']) fullStackState = fullStackState ∧
    (pushContext contextKind.ContextSoft contextType.ContextMatch parseNext.matchPattern
        (some ['x']) (initialState OcamlKinds)).stackIndex
      = (initialState OcamlKinds).stackIndex + 1 :=
  ⟨((pushContext_capacity contextKind.ContextSoft contextType.ContextMatch
      parseNext.matchPattern (some ['x']) fullStackState).1 rfl).1,
   ((pushContext_capacity contextKind.ContextSoft contextType.ContextMatch
      parseNext.matchPattern (some ['x']) (initialState OcamlKinds)).2 (by decide)).1⟩

theorem popStrongContextFrom_found (s : ParserState) (n i : Nat) (hi : i < n)
    (hstrong : (s.stack i).kind = contextKind.ContextStrong)
    (hgap : ∀ j, i < j → j < n → (s.stack j).kind ≠ contextKind.ContextStrong) :
    popStrongContextFrom s n =
      (some (s.stack i).type,
        { s with stackIndex := i, toDoNext := (s.stack i).callback,
                 stack := clearName s.stack i }) := by
  induction n with
  | zero => omega
  | succ k ih =>
    unfold popStrongContextFrom
    by_cases hk : k = i
    · subst hk
      simp [hstrong]
    · have hlt : i < k := by omega
      have hsoft : (s.stack k).kind ≠ contextKind.ContextStrong := hgap k hlt (by omega)
      simp only [hsoft, if_false]
      exact ih hlt (fun j h1 h2 => hgap j h1 (by omega))

theorem popStrongContextFrom_none (s : ParserState) (n : Nat)
    (hall : ∀ j, j < n → (s.stack j).kind ≠ contextKind.ContextStrong) :
    popStrongContextFrom s n =
      (none, { s with stackIndex := 0, toDoNext := parseNext.globalScope }) := by
  induction n with
  | zero => rfl
  | succ k ih =>
    unfold popStrongContextFrom
    have hsoft : (s.stack k).kind ≠ contextKind.ContextStrong := hall k (by omega)
    simp only [hsoft, if_false]
    exact ih (fun j h => hall j (by omega))

/-- C17. If some frame below `stackIndex` is Strong and `i` is the highest
such index, `popStrongContext` sets `stackIndex` to `i`, makes the callback
of frame `i` the next handler, clears the name of frame `i` (its other
fields, and every other frame, stay as they are: so do frames `0..i-1`) and
returns the role of frame `i`.  If no frame is Strong it sets `stackIndex` to
0, makes `globalScope` the next handler and returns `-1` (`none`), which is
no context role. -/
theorem popStrongContext_spec (s : ParserState) :
    (∀ i, i < s.stackIndex → (s.stack i).kind = contextKind.ContextStrong →
      (∀ j, i < j → j < s.stackIndex → (s.stack j).kind ≠ contextKind.ContextStrong) →
      (popStrongContext s).1 = some (s.stack i).type ∧
      (popStrongContext s).2.stackIndex = i ∧
      (popStrongContext s).2.toDoNext = (s.stack i).callback ∧
      (popStrongContext s).2.stack i = { s.stack i with contextName := [] } ∧
      (∀ j, j ≠ i → (popStrongContext s).2.stack j = s.stack j) ∧
      (∀ j, j < i → (popStrongContext s).2.stack j = s.stack j)) ∧
    ((∀ j, j < s.stackIndex → (s.stack j).kind ≠ contextKind.ContextStrong) →
      (popStrongContext s).1 = none ∧
      (popStrongContext s).2.stackIndex = 0 ∧
      (popStrongContext s).2.toDoNext = parseNext.globalScope ∧
      (popStrongContext s).2.stack = s.stack) := by
  constructor
  · intro i hi hstrong hgap
    have h := popStrongContextFrom_found s s.stackIndex i hi hstrong hgap
    unfold popStrongContext
    rw [h]
    refine ⟨rfl, rfl, rfl, by simp [clearName], ?_, ?_⟩
    · intro j hj
      simp [clearName, Function.update_noteq hj]
    · intro j hj
      have hne : j ≠ i := by omega
      simp [clearName, Function.update_noteq hne]
  · intro hall
    have h := popStrongContextFrom_none s s.stackIndex hall
    unfold popStrongContext
    rw [h]
    exact ⟨rfl, rfl, rfl, rfl⟩

/-- A witness of C17: in the stack of `let f = ( match`, frame 0 is the
highest Strong frame; `popStrongContext` returns its role and empties the
stack. -/
theorem popStrongContext_spec_witness :
    (popStrongContext matchOnTopState).1 = some (matchOnTopState.stack 0).type ∧
    (popStrongContext matchOnTopState).2.stackIndex = 0 ∧
    (popStrongContext matchOnTopState).2.toDoNext = (matchOnTopState.stack 0).callback :=
  ⟨((popStrongContext_spec matchOnTopState).1 0 (by decide) (by decide)
      (fun j h1 h2 => by
        have h3 : matchOnTopState.stackIndex = 3 := by decide
        have hj : j = 1 ∨ j = 2 := by omega
        rcases hj with rfl | rfl <;> decide)).1,
   ((popStrongContext_spec matchOnTopState).1 0 (by decide) (by decide)
      (fun j h1 h2 => by
        have h3 : matchOnTopState.stackIndex = 3 := by decide
        have hj : j = 1 ∨ j = 2 := by omega
        rcases hj with rfl | rfl <;> decide)).2.1,
   ((popStrongContext_spec matchOnTopState).1 0 (by decide) (by decide)
      (fun j h1 h2 => by
        have h3 : matchOnTopState.stackIndex = 3 := by decide
        have hj : j = 1 ∨ j = 2 := by omega
        rcases hj with rfl | rfl <;> decide)).2.2.1⟩

/-- C18. If some frame below `stackIndex` has a non-empty name and `i` is the
highest such index, `popLastNamed` sets `stackIndex` to `i`, makes the
callback of frame `i` the next handler, clears the name of frame `i` and
leaves every other frame, so frames `0..i-1`, as it is.  If no frame has a
non-empty name it sets `stackIndex` to 0 and makes `globalScope` the next
handler. -/
theorem popLastNamed_spec (s : ParserState) :
    (∀ i, i < s.stackIndex → (s.stack i).contextName ≠ [] →
      (∀ j, i < j → j < s.stackIndex → (s.stack j).contextName = []) →
      (popLastNamed s).stackIndex = i ∧
      (popLastNamed s).toDoNext = (s.stack i).callback ∧
      (popLastNamed s).stack i = { s.stack i with contextName := [] } ∧
      (∀ j, j ≠ i → (popLastNamed s).stack j = s.stack j) ∧
      (∀ j, j < i → (popLastNamed s).stack j = s.stack j)) ∧
    ((∀ j, j < s.stackIndex → (s.stack j).contextName = []) →
      (popLastNamed s).stackIndex = 0 ∧
      (popLastNamed s).toDoNext = parseNext.globalScope ∧
      (popLastNamed s).stack = s.stack) := by
  constructor
  · intro i hi hname hgap
    have h : getLastNamedIndex s = some i :=
      getLastNamedIndexFrom_eq_some s.stack s.stackIndex i hi hname hgap
    unfold popLastNamed
    rw [h]
    refine ⟨rfl, rfl, by simp [clearName], ?_, ?_⟩
    · intro j hj
      simp [clearName, Function.update_noteq hj]
    · intro j hj
      have hne : j ≠ i := by omega
      simp [clearName, Function.update_noteq hne]
  · intro hall
    have h : getLastNamedIndex s = none :=
      getLastNamedIndexFrom_eq_none s.stack s.stackIndex hall
    unfold popLastNamed
    rw [h]
    exact ⟨rfl, rfl, rfl⟩

/-- A witness of C18: in the stack of `let f = ( match`, frame 0 (named `f`)
is the highest named frame; `popLastNamed` empties the stack and resumes at
its callback. -/
theorem popLastNamed_spec_witness :
    (popLastNamed matchOnTopState).stackIndex = 0 ∧
    (popLastNamed matchOnTopState).toDoNext = (matchOnTopState.stack 0).callback :=
  ⟨((popLastNamed_spec matchOnTopState).1 0 (by decide) (by decide)
      (fun j h1 h2 => by
        have h3 : matchOnTopState.stackIndex = 3 := by decide
        have hj : j = 1 ∨ j = 2 := by omega
        rcases hj with rfl | rfl <;> decide)).1,
   ((popLastNamed_spec matchOnTopState).1 0 (by decide) (by decide)
      (fun j h1 h2 => by
        have h3 : matchOnTopState.stackIndex = 3 := by decide
        have hj : j = 1 ∨ j = 2 := by omega
        rcases hj with rfl | rfl <;> decide)).2.1⟩

/-- C19. On a non-empty stack `popSoftContext` decreases `stackIndex` by
exactly one, whatever the kind, the role and the name of the top frame, makes
the callback of the removed frame the next handler and leaves every lower
frame as it is (the removed frame keeps everything but its name).  On an
empty stack it leaves `stackIndex` at 0, the frames as they are, and makes
`globalScope` the next handler. -/
theorem popSoftContext_spec (s : ParserState) :
    (0 < s.stackIndex →
      (popSoftContext s).stackIndex + 1 = s.stackIndex ∧
      (popSoftContext s).toDoNext = (s.stack (s.stackIndex - 1)).callback ∧
      (∀ j, j < s.stackIndex - 1 → (popSoftContext s).stack j = s.stack j) ∧
      (popSoftContext s).stack (s.stackIndex - 1) =
        { s.stack (s.stackIndex - 1) with contextName := [] }) ∧
    (s.stackIndex = 0 →
      (popSoftContext s).stackIndex = 0 ∧
      (popSoftContext s).toDoNext = parseNext.globalScope ∧
      (popSoftContext s).stack = s.stack) := by
  constructor
  · intro hpos
    have hnot : ¬ s.stackIndex ≤ 0 := by omega
    refine ⟨?_, ?_, ?_, ?_⟩
    · simp only [popSoftContext, hnot, if_false]
      omega
    · simp [popSoftContext, hnot]
    · intro j hj
      have hne : j ≠ s.stackIndex - 1 := by omega
      simp [popSoftContext, hnot, clearName, Function.update_noteq hne]
    · simp [popSoftContext, hnot, clearName]
  · intro hzero
    simp [popSoftContext, hzero]

/-- A witness of C19: one frame is removed from the stack of
`let f = ( match`, whose top frame is a Match frame. -/
theorem popSoftContext_spec_witness :
    (popSoftContext matchOnTopState).stackIndex + 1 = matchOnTopState.stackIndex ∧
    (popSoftContext (initialState OcamlKinds)).toDoNext = parseNext.globalScope :=
  ⟨((popSoftContext_spec matchOnTopState).1 (by decide)).1,
   ((popSoftContext_spec (initialState OcamlKinds)).2 rfl).2.1⟩

/-! ## Jumping to the last match -/

theorem jumpToMatchContextFrom_found (s : ParserState) (n i : Nat) (hi : i < n)
    (hmatch : (s.stack i).type = contextType.ContextMatch)
    (hgap : ∀ j, i < j → j < n → (s.stack j).type ≠ contextType.ContextMatch) :
    jumpToMatchContextFrom s n =
      { s with
        stackIndex := i + 1
        toDoNext := (s.stack i).callback
        stack := Function.update s.stack (i + 1)
          { s.stack (i + 1) with callback := parseNext.null, contextName := [] }
        outOfBounds := s.outOfBounds || decide (i + 1 ≥ OCAML_MAX_STACK_SIZE) } := by
  induction n with
  | zero => omega
  | succ k ih =>
    unfold jumpToMatchContextFrom
    by_cases hk : k = i
    · subst hk
      simp [hmatch]
    · have hlt : i < k := by omega
      have hother : (s.stack k).type ≠ contextType.ContextMatch := hgap k hlt (by omega)
      simp only [hother, if_false]
      exact ih hlt (fun j h1 h2 => hgap j h1 (by omega))

theorem jumpToMatchContextFrom_none (s : ParserState) (n : Nat)
    (hall : ∀ j, j < n → (s.stack j).type ≠ contextType.ContextMatch) :
    jumpToMatchContextFrom s n = s := by
  induction n with
  | zero => rfl
  | succ k ih =>
    unfold jumpToMatchContextFrom
    have hother : (s.stack k).type ≠ contextType.ContextMatch := hall k (by omega)
    simp only [hother, if_false]
    exact ih (fun j h => hall j (by omega))

/-- C20, counterexample. In the stack of `let f = ( match`, three frames
high, the highest frame of role Match is frame 2; after `jumpToMatchContext`
the value of `stackIndex` is 3 and not 2, and frame 2, still of role Match,
is the top frame of the stack. -/
theorem jumpToMatchContext_keeps_match_frame :
    matchOnTopState.stackIndex = 3 ∧
    (matchOnTopState.stack 2).type = contextType.ContextMatch ∧
    (jumpToMatchContext matchOnTopState).stackIndex = 3 ∧
    ((jumpToMatchContext matchOnTopState).stack 2).type = contextType.ContextMatch := by
  decide

/-- C20, amended. If some frame below `stackIndex` has role Match and `i` is
the highest such index, `jumpToMatchContext` sets `stackIndex` to `i + 1`:
the frames above the Match frame are dropped and the Match frame itself
stays, as the top frame; the callback of frame `i` becomes the next handler
and the frames `0..i` are as they were.  If no frame has role Match, nothing
changes. -/
theorem jumpToMatchContext_spec (s : ParserState) :
    (∀ i, i < s.stackIndex → (s.stack i).type = contextType.ContextMatch →
      (∀ j, i < j → j < s.stackIndex → (s.stack j).type ≠ contextType.ContextMatch) →
      (jumpToMatchContext s).stackIndex = i + 1 ∧
      (jumpToMatchContext s).toDoNext = (s.stack i).callback ∧
      (∀ j, j ≤ i → (jumpToMatchContext s).stack j = s.stack j)) ∧
    ((∀ j, j < s.stackIndex → (s.stack j).type ≠ contextType.ContextMatch) →
      jumpToMatchContext s = s) := by
  constructor
  · intro i hi hmatch hgap
    have h := jumpToMatchContextFrom_found s s.stackIndex i hi hmatch hgap
    unfold jumpToMatchContext
    rw [h]
    refine ⟨rfl, rfl, ?_⟩
    intro j hj
    have hne : j ≠ i + 1 := by omega
    simp [Function.update_noteq hne]
  · intro hall
    exact jumpToMatchContextFrom_none s s.stackIndex hall

/-- A witness of the amended C20, in the stack of `let f = ( match`. -/
theorem jumpToMatchContext_spec_witness :
    (jumpToMatchContext matchOnTopState).stackIndex = 2 + 1 ∧
    (jumpToMatchContext matchOnTopState).toDoNext = (matchOnTopState.stack 2).callback :=
  ⟨((jumpToMatchContext_spec matchOnTopState).1 2 (by decide) (by decide)
      (fun j h1 h2 => by
        have h3 : matchOnTopState.stackIndex = 3 := by decide
        omega)).1,
   ((jumpToMatchContext_spec matchOnTopState).1 2 (by decide) (by decide)
      (fun j h1 h2 => by
        have h3 : matchOnTopState.stackIndex = 3 := by decide
        omega)).2.1⟩

/-! ## The tokenizer always returns -/

theorem cur_ne_nul_ne_nil (c : List Char) (h : (cur c == chNUL) = false) : c ≠ [] := by
  intro hc
  subst hc
  exact absurd h (by decide)

theorem length_tail_lt (c : List Char) (h : c ≠ []) : c.tail.length < c.length := by
  cases c with
  | nil => exact absurd rfl h
  | cons ch tl => simp

theorem eatStringLoop_length (c : List Char) (b : Bool) :
    (eatStringLoop c b).length ≤ c.length := by
  induction c generalizing b with
  | nil => simp [eatStringLoop]
  | cons ch tl ih =>
    unfold eatStringLoop
    split_ifs
    · exact le_refl _
    · simp
    · exact le_trans (ih _) (by simp)

theorem eatString_length (c : List Char) (h : c ≠ []) : (eatString c).length < c.length :=
  lt_of_le_of_lt (eatStringLoop_length _ _) (length_tail_lt c h)

theorem eatWhiteSpace_length (c : List Char) : (eatWhiteSpace c).length ≤ c.length := by
  induction c with
  | nil => simp [eatWhiteSpace]
  | cons ch tl ih =>
    unfold eatWhiteSpace
    split_ifs
    · exact le_trans ih (by simp)
    · exact le_refl _

theorem eatWhiteSpace_length_lt (c : List Char) (h : isSpace (cur c) = true) :
    (eatWhiteSpace c).length < c.length := by
  cases c with
  | nil => exact absurd h (by decide)
  | cons ch tl =>
    have hch : isSpace ch = true := by simpa [cur] using h
    unfold eatWhiteSpace
    simp only [hch, if_true]
    exact lt_of_le_of_lt (eatWhiteSpace_length tl) (by simp)

theorem eatNumber_length (c : List Char) : (eatNumber c).length ≤ c.length := by
  induction c with
  | nil => simp [eatNumber]
  | cons ch tl ih =>
    unfold eatNumber
    split_ifs
    · exact le_trans ih (by simp)
    · exact le_refl _

theorem eatNumber_length_lt (c : List Char) (h : isNum (cur c) = true) :
    (eatNumber c).length < c.length := by
  cases c with
  | nil => exact absurd h (by decide)
  | cons ch tl =>
    have hch : isNum ch = true := by simpa [cur] using h
    unfold eatNumber
    simp only [hch, if_true]
    exact lt_of_le_of_lt (eatNumber_length tl) (by simp)

theorem readIdentifier_length_lt (c : List Char) (h : c ≠ []) :
    (readIdentifier c).2.length < c.length := by
  unfold readIdentifier
  rw [readIdentifierLoop_eq]
  exact lt_of_le_of_lt (List.Sublist.length_le (List.dropWhile_sublist _))
    (length_tail_lt c h)

theorem eatOperator_length_lt (c : List Char) (h : isOperator (cur c) = true) :
    (eatOperator c).2.2.length < c.length := by
  cases c with
  | nil => exact absurd h (by decide)
  | cons ch tl =>
    have hch : isOperator ch = true := by simpa [cur] using h
    simp only [eatOperator, eatOperatorLoop_eq, List.dropWhile_cons, hch, if_true]
    exact lt_of_le_of_lt (List.Sublist.length_le (List.dropWhile_sublist _)) (by simp)

theorem inputSize_some (rd : Reader) (c : List Char) :
    inputSize rd (some c) = c.length + (rd.lines.map fun l => l.length + 1).sum := rfl

theorem inputSize_none (rd : Reader) :
    inputSize rd none = (rd.lines.map fun l => l.length + 1).sum := by
  simp [inputSize]

theorem inputSize_mono (rd : Reader) (c d : List Char) (h : d.length ≤ c.length) :
    inputSize rd (some d) ≤ inputSize rd (some c) := by
  simp only [inputSize_some]
  omega

theorem eatCommentLoop_returns (fuel : Nat) :
    ∀ (rd : Reader) (c : List Char) (b : Bool), inputSize rd (some c) < fuel →
      ∃ cp1 rd1, eatCommentLoop fuel rd c b = some (cp1, rd1) ∧
        inputSize rd1 cp1 ≤ inputSize rd (some c) := by
  induction fuel with
  | zero => intro rd c b h; omega
  | succ fuel ih =>
    intro rd c b h
    unfold eatCommentLoop
    by_cases hnul : (cur c == chNUL) = true
    · simp only [hnul, if_true]
      cases hl : rd.lines with
      | nil =>
        refine ⟨none, rd, by simp [readLineFromInputFile, hl], ?_⟩
        simp only [inputSize_some, inputSize_none]
        omega
      | cons l rest =>
        have hsz : inputSize { rd with lines := rest, lineNumber := rd.lineNumber + 1 }
            (some l) < inputSize rd (some c) := by
          simp only [inputSize_some, hl, List.map_cons, List.sum_cons]
          omega
        obtain ⟨cp1, rd1, h1, h2⟩ :=
          ih { rd with lines := rest, lineNumber := rd.lineNumber + 1 } l b (by omega)
        refine ⟨cp1, rd1, by simp [readLineFromInputFile, hl, h1], by omega⟩
    · have hnul2 : (cur c == chNUL) = false := by simpa using hnul
      have hne : c ≠ [] := cur_ne_nul_ne_nil c hnul2
      have htail : c.tail.length < c.length := length_tail_lt c hne
      simp only [hnul2, Bool.false_eq_true, if_false]
      split_ifs with h1 h2 h3
      · exact ⟨some c.tail, rd, rfl, inputSize_mono rd c c.tail (by omega)⟩
      · have htt : c.tail.tail.length ≤ c.tail.length := by simp
        have hsz : inputSize rd (some c.tail.tail) < inputSize rd (some c) := by
          simp only [inputSize_some]; omega
        obtain ⟨cp1, rd1, e1, e2⟩ := ih rd c.tail.tail false (by omega)
        rw [e1]
        cases cp1 with
        | none => exact ⟨none, rd1, rfl, by omega⟩
        | some c1 =>
          have hc1 : inputSize { rd1 with pastEnd := rd1.pastEnd || cur c1 == chNUL }
              (some c1.tail) ≤ inputSize rd1 (some c1) :=
            inputSize_mono rd1 c1 c1.tail (by simp)
          obtain ⟨cp2, rd2, e3, e4⟩ :=
            ih { rd1 with pastEnd := rd1.pastEnd || cur c1 == chNUL } c1.tail false
              (by omega)
          exact ⟨cp2, rd2, e3, by omega⟩
      · have hs : (eatString c).length < c.length := eatString_length c hne
        have hsz : inputSize rd (some (eatString c)) < inputSize rd (some c) := by
          simp only [inputSize_some]; omega
        obtain ⟨cp1, rd1, e1, e2⟩ := ih rd (eatString c) b (by omega)
        exact ⟨cp1, rd1, e1, by omega⟩
      · have hsz : inputSize rd (some c.tail) < inputSize rd (some c) := by
          simp only [inputSize_some]; omega
        obtain ⟨cp1, rd1, e1, e2⟩ := ih rd c.tail (cur c == '*') (by omega)
        exact ⟨cp1, rd1, e1, by omega⟩
theorem lexLoadLine_spec (lines : List (List Char)) (n : Nat) (b : Bool) :
    inputSize (lexLoadLine lines n b).2 (lexLoadLine lines n b).1 ≤
      (lines.map fun l => l.length + 1).sum ∧
    ((lexLoadLine lines n b).1 = none → (lexLoadLine lines n b).2.lines = []) ∧
    (∀ c, (lexLoadLine lines n b).1 = some c → (cur c == chNUL) = false) := by
  induction lines generalizing n with
  | nil => simp [lexLoadLine, inputSize]
  | cons l rest ih =>
    unfold lexLoadLine
    by_cases h : (cur l == chNUL) = true
    · simp only [h, if_true]
      obtain ⟨h1, h2, h3⟩ := ih (n + 1)
      refine ⟨?_, h2, h3⟩
      simp only [List.map_cons, List.sum_cons]
      omega
    · have h0 : (cur l == chNUL) = false := by simpa using h
      simp only [h0, Bool.false_eq_true, if_false]
      refine ⟨?_, by simp, ?_⟩
      · simp only [inputSize_some, List.map_cons, List.sum_cons]
        omega
      · intro c hc
        have : l = c := by simpa using hc
        rw [← this]
        exact h0

theorem lexHead_spec (rd : Reader) (cp : Option (List Char)) :
    inputSize (lexHead rd cp).2 (lexHead rd cp).1 ≤ inputSize rd cp ∧
    ((lexHead rd cp).1 = none → (lexHead rd cp).2.lines = []) ∧
    (∀ c, (lexHead rd cp).1 = some c → (cur c == chNUL) = false) := by
  obtain ⟨h1, h2, h3⟩ := lexLoadLine_spec rd.lines rd.lineNumber rd.pastEnd
  cases cp with
  | none =>
    simp only [lexHead]
    exact ⟨by rw [inputSize_none]; exact h1, h2, h3⟩
  | some c =>
    simp only [lexHead]
    by_cases h : (cur c == chNUL) = true
    · simp only [h, if_true]
      exact ⟨by rw [inputSize_some]; omega, h2, h3⟩
    · have h0 : (cur c == chNUL) = false := by simpa using h
      simp only [h0, Bool.false_eq_true, if_false]
      refine ⟨le_refl _, by simp, ?_⟩
      intro d hd
      have : c = d := by simpa using hd
      rw [← this]
      exact h0

theorem lookupKeywordIn_mem (tbl : List (String × ocamlKeyword)) (name : vString)
    (t : ocamlKeyword) (h : lookupKeywordIn tbl name = some t) : ∃ k, (k, t) ∈ tbl := by
  induction tbl with
  | nil => simp [lookupKeywordIn] at h
  | cons e rest ih =>
    obtain ⟨k1, t1⟩ := e
    unfold lookupKeywordIn at h
    split_ifs at h with hk
    · have : t1 = t := by simpa using h
      exact ⟨k1, by simp [this]⟩
    · obtain ⟨k, hk2⟩ := ih h
      exact ⟨k, List.mem_cons_of_mem _ hk2⟩

theorem lookupKeyword_ne_EOF (name : vString) (t : ocamlKeyword)
    (h : lookupKeyword name = some t) : t ≠ ocamlKeyword.Tok_EOF := by
  obtain ⟨k, hk⟩ := lookupKeywordIn_mem OcamlKeywordTable name t h
  have hall : ∀ e ∈ OcamlKeywordTable, e.2 ≠ ocamlKeyword.Tok_EOF := by decide
  exact hall (k, t) hk

theorem eatOperator_ne_EOF (c : List Char) : (eatOperator c).1 ≠ ocamlKeyword.Tok_EOF := by
  simp only [eatOperator]
  split_ifs <;> decide

open ocamlKeyword in
theorem lex_step_post (rd : Reader) (cp0 : Option (List Char)) (rd1 : Reader)
    (cp : List Char) (hle : inputSize rd1 (some cp) ≤ inputSize rd cp0)
    (tok : ocamlKeyword) (nm : vString) (cp1 : List Char)
    (htok : tok ≠ Tok_EOF) (hlen : cp1.length < cp.length) :
    ∃ t st1 rd2, (some (tok, ({ name := nm, cp := some cp1 } : lexingState), rd1) :
        Option (ocamlKeyword × lexingState × Reader)) = some (t, st1, rd2) ∧
      inputSize rd2 st1.cp ≤ inputSize rd cp0 ∧
      (t ≠ Tok_EOF → inputSize rd2 st1.cp < inputSize rd cp0) ∧
      (t = Tok_EOF → st1.cp = none ∧ rd2.lines = []) := by
  have hlt : inputSize rd1 (some cp1) < inputSize rd cp0 := by
    have : inputSize rd1 (some cp1) < inputSize rd1 (some cp) := by
      simp only [inputSize_some]; omega
    omega
  exact ⟨tok, _, rd1, rfl, le_of_lt hlt, fun _ => hlt, fun h => absurd h htok⟩

open ocamlKeyword in
theorem lex_returns (fuel : Nat) :
    ∀ (rd : Reader) (st : lexingState), inputSize rd st.cp < fuel →
      ∃ tok st1 rd1, lex fuel rd st = some (tok, st1, rd1) ∧
        inputSize rd1 st1.cp ≤ inputSize rd st.cp ∧
        (tok ≠ Tok_EOF → inputSize rd1 st1.cp < inputSize rd st.cp) ∧
        (tok = Tok_EOF → st1.cp = none ∧ rd1.lines = []) := by
  induction fuel with
  | zero => intro rd st h; omega
  | succ fuel ih =>
    intro rd st h
    obtain ⟨hsz, hnone, hsome⟩ := lexHead_spec rd st.cp
    unfold lex
    rcases hh : lexHead rd st.cp with ⟨_ | cp, rd1⟩
    · rw [hh] at hsz hnone
      simp only
      refine ⟨Tok_EOF, _, rd1, rfl, ?_, fun hc => absurd rfl hc, fun _ => ⟨rfl, hnone rfl⟩⟩
      exact hsz
    · rw [hh] at hsz hsome
      have hnul : (cur cp == chNUL) = false := hsome cp rfl
      have hne : cp ≠ [] := cur_ne_nul_ne_nil cp hnul
      have htail : cp.tail.length < cp.length := length_tail_lt cp hne
      have hsz1 : inputSize rd1 (some cp) ≤ inputSize rd st.cp := hsz
      simp only
      by_cases ha : isAlpha (cur cp) = true
      · simp only [ha, if_true]
        cases hlk : lookupKeyword (readIdentifier cp).1 with
        | none =>
          exact lex_step_post rd st.cp rd1 cp hsz1 _ _ _ (by decide)
            (readIdentifier_length_lt cp hne)
        | some t =>
          exact lex_step_post rd st.cp rd1 cp hsz1 _ _ _ (lookupKeyword_ne_EOF _ t hlk)
            (readIdentifier_length_lt cp hne)
      · simp only [ha, if_false]
        by_cases hn : isNum (cur cp) = true
        · simp only [hn, if_true]
          exact lex_step_post rd st.cp rd1 cp hsz1 _ _ _ (by decide)
            (eatNumber_length_lt cp hn)
        · simp only [hn, if_false]
          by_cases hs : isSpace (cur cp) = true
          · simp only [hs, if_true]
            have hl := eatWhiteSpace_length_lt cp hs
            have hlt : inputSize rd1 (some (eatWhiteSpace cp)) < inputSize rd1 (some cp) := by
              simp only [inputSize_some]; omega
            obtain ⟨t, st1, rd2, e1, e2, e3, e4⟩ :=
              ih rd1 { st with cp := some (eatWhiteSpace cp) } (by simp only; omega)
            exact ⟨t, st1, rd2, e1, by simp only at e2; omega,
              fun _ => by simp only at e2; omega, e4⟩
          · simp only [hs, if_false]
            by_cases hu : (cur cp == '_') = true
            · simp only [hu, if_true]
              exact lex_step_post rd st.cp rd1 cp hsz1 _ _ _ (by decide)
                (readIdentifier_length_lt cp hne)
            · simp only [hu, if_false]
              by_cases ho : isOperator (cur cp) = true
              · simp only [ho, if_true]
                exact lex_step_post rd st.cp rd1 cp hsz1 _ _ _ (eatOperator_ne_EOF cp)
                  (eatOperator_length_lt cp ho)
              · simp only [ho, if_false]
                by_cases hp : (cur cp == '(') = true
                · simp only [hp, if_true]
                  by_cases hstar : (cur cp.tail == '*') = true
                  · simp only [hstar, if_true]
                    have htt : cp.tail.tail.length ≤ cp.tail.length := by simp
                    have hlt :
                        inputSize rd1 (some cp.tail.tail) < inputSize rd1 (some cp) := by
                      simp only [inputSize_some]; omega
                    obtain ⟨cp2, rd2, c1, c2⟩ :=
                      eatCommentLoop_returns fuel rd1 cp.tail.tail false (by omega)
                    simp only [eatComment, c1]
                    obtain ⟨t, st1, rd3, e1, e2, e3, e4⟩ :=
                      ih rd2 { st with cp := cp2 } (by simp only; omega)
                    exact ⟨t, st1, rd3, e1, by simp only at e2; omega,
                      fun _ => by simp only at e2; omega, e4⟩
                  · simp only [hstar, if_false]
                    exact lex_step_post rd st.cp rd1 cp hsz1 _ _ _ (by decide) htail
                · simp only [hp, if_false]
                  by_cases hc0 : (cur cp == ')') = true
                  · simp only [hc0, if_true]
                    exact lex_step_post rd st.cp rd1 cp hsz1 _ _ _ (by decide) htail
                  · simp only [hc0, if_false]
                    by_cases hc1 : (cur cp == '[') = true
                    · simp only [hc1, if_true]
                      exact lex_step_post rd st.cp rd1 cp hsz1 _ _ _ (by decide) htail
                    · simp only [hc1, if_false]
                      by_cases hc2 : (cur cp == ']') = true
                      · simp only [hc2, if_true]
                        exact lex_step_post rd st.cp rd1 cp hsz1 _ _ _ (by decide) htail
                      · simp only [hc2, if_false]
                        by_cases hc3 : (cur cp == chCurlL) = true
                        · simp only [hc3, if_true]
                          exact lex_step_post rd st.cp rd1 cp hsz1 _ _ _ (by decide) htail
                        · simp only [hc3, if_false]
                          by_cases hc4 : (cur cp == chCurlR) = true
                          · simp only [hc4, if_true]
                            exact lex_step_post rd st.cp rd1 cp hsz1 _ _ _ (by decide) htail
                          · simp only [hc4, if_false]
                            by_cases hc5 : (cur cp == chPrime) = true
                            · simp only [hc5, if_true]
                              exact lex_step_post rd st.cp rd1 cp hsz1 _ _ _ (by decide) htail
                            · simp only [hc5, if_false]
                              by_cases hc6 : (cur cp == ',') = true
                              · simp only [hc6, if_true]
                                exact lex_step_post rd st.cp rd1 cp hsz1 _ _ _ (by decide) htail
                              · simp only [hc6, if_false]
                                by_cases hc7 : (cur cp == '=') = true
                                · simp only [hc7, if_true]
                                  exact lex_step_post rd st.cp rd1 cp hsz1 _ _ _ (by decide) htail
                                · simp only [hc7, if_false]
                                  by_cases hc8 : (cur cp == ';') = true
                                  · simp only [hc8, if_true]
                                    exact lex_step_post rd st.cp rd1 cp hsz1 _ _ _ (by decide) htail
                                  · simp only [hc8, if_false]
                                    by_cases hc9 : (cur cp == chDQuote) = true
                                    · simp only [hc9, if_true]
                                      exact lex_step_post rd st.cp rd1 cp hsz1 _ _ _ (by decide) (eatString_length cp hne)
                                    · simp only [hc9, if_false]
                                      by_cases hc10 : (cur cp == '#') = true
                                      · simp only [hc10, if_true]
                                        exact lex_step_post rd st.cp rd1 cp hsz1 _ _ _ (by decide) htail
                                      · simp only [hc10, if_false]
                                        by_cases hc11 : (cur cp == chBackslash) = true
                                        · simp only [hc11, if_true]
                                          exact lex_step_post rd st.cp rd1 cp hsz1 _ _ _ (by decide) htail
                                        · simp only [hc11, if_false]
                                          exact lex_step_post rd st.cp rd1 cp hsz1 _ _ _ (by decide) htail
open ocamlKeyword in
theorem lexAll_returns (lexFuel fuel : Nat) :
    ∀ (rd : Reader) (st : lexingState), inputSize rd st.cp < fuel →
      inputSize rd st.cp < lexFuel →
      ∃ toks, lexAll lexFuel fuel rd st = some toks ∧
        toks.length ≤ inputSize rd st.cp ∧ ∀ e ∈ toks, e.2 ≠ Tok_EOF := by
  induction fuel with
  | zero => intro rd st h; omega
  | succ fuel ih =>
    intro rd st h hl
    obtain ⟨tok, st1, rd1, e1, e2, e3, _⟩ := lex_returns lexFuel rd st hl
    unfold lexAll
    rw [e1]
    by_cases ht : tok = Tok_EOF
    · exact ⟨[], by simp [ht], by simp, by simp⟩
    · have hlt := e3 ht
      obtain ⟨rest, r1, r2, r3⟩ := ih rd1 st1 (by omega) (by omega)
      refine ⟨(st1.name, tok) :: rest, by simp [ht, r1], ?_, ?_⟩
      · simp only [List.length_cons]
        omega
      · intro e he
        rcases List.mem_cons.mp he with rfl | hin
        · exact ht
        · exact r3 e hin

theorem lex_at_end (fuel : Nat) (rd : Reader) (st : lexingState)
    (hcp : st.cp = none) (hlines : rd.lines = []) :
    lex (fuel + 1) rd st = some (ocamlKeyword.Tok_EOF, st, rd) := by
  obtain ⟨name, cp⟩ := st
  obtain ⟨lines, n⟩ := rd
  simp only at hcp hlines
  subst hcp hlines
  simp [lex, lexHead, lexLoadLine]

open ocamlKeyword in
/-- Totality of the embedded tokenizer.  Whatever the lines of the input and
the position in them, a call of the embedded `lex` with more fuel than the
input left has characters and lines returns a token; when the token is not
`Tok_EOF` the input left has become smaller; when it is `Tok_EOF` the pointer
is `NULL`, no line is left, and every later call returns `Tok_EOF` again
without changing anything; calling `lex` until `Tok_EOF` yields a finite
sequence of tokens, none of them `Tok_EOF`, no longer than the input.  This
tells what the C function does only as long as `Reader.pastEnd` stays
`false`: once the pointer has been moved past the end of its line (the
`c++` of `eatComment` after a nested comment that ends with its line) the C
function reads memory outside the input. -/
theorem lex_total (fuel : Nat) (rd : Reader) (st : lexingState)
    (hfuel : inputSize rd st.cp < fuel) :
    (∃ tok st1 rd1, lex fuel rd st = some (tok, st1, rd1) ∧
      (tok ≠ Tok_EOF → inputSize rd1 st1.cp < inputSize rd st.cp) ∧
      (tok = Tok_EOF → st1.cp = none ∧ rd1.lines = [] ∧
        ∀ fuel2, lex (fuel2 + 1) rd1 st1 = some (Tok_EOF, st1, rd1))) ∧
    (∃ toks, lexAll fuel fuel rd st = some toks ∧
      toks.length ≤ inputSize rd st.cp ∧ ∀ e ∈ toks, e.2 ≠ Tok_EOF) := by
  constructor
  · obtain ⟨tok, st1, rd1, e1, _, e3, e4⟩ := lex_returns fuel rd st hfuel
    refine ⟨tok, st1, rd1, e1, e3, ?_⟩
    intro ht
    obtain ⟨h1, h2⟩ := e4 ht
    exact ⟨h1, h2, fun fuel2 => lex_at_end fuel2 rd1 st1 h1 h2⟩
  · exact lexAll_returns fuel fuel rd st hfuel hfuel

open ocamlKeyword in
/-- An instance of `lex_total` on two lines: an unterminated comment follows
an unterminated string and an unrecognised character. -/
theorem lex_total_witness :
    ∃ toks,
      lexAll 100 100 { lines := ["x ` \"abc".toList, "y (* z".toList], lineNumber := 0 }
        { name := [], cp := none } = some toks ∧
      toks.length ≤ inputSize
        { lines := ["x ` \"abc".toList, "y (* z".toList], lineNumber := 0 } none ∧
      ∀ e ∈ toks, e.2 ≠ Tok_EOF :=
  (lex_total 100 { lines := ["x ` \"abc".toList, "y (* z".toList], lineNumber := 0 }
    { name := [], cp := none } (by decide)).2
/-! ## The array at capacity -/

set_option maxRecDepth 100000 in
/-- C16. On the file whose only line is `deepMatchLine`, the run of
`findOcamlTags` reaches, just before the first `|`, a state in which the
stack holds `OCAML_MAX_STACK_SIZE` frames, the top frame (index 255) has role
Match and `localScope` is the next handler, no access outside the array
having happened; `localScope` then receives `|`, and `jumpToMatchContext`
writes the frame of index 256, outside the array. -/
theorem jumpToMatchContext_writes_past_array :
    (findOcamlTags 400 "t.ml".toList [deepMatchLineHead] (initialStatics OcamlKinds)).map
        (fun s => (s.stackIndex, (s.stack 255).type, s.toDoNext, s.outOfBounds))
      = some (256, contextType.ContextMatch, parseNext.localScope, false) ∧
    (findOcamlTags 400 "t.ml".toList [deepMatchLine] (initialStatics OcamlKinds)).map
        (fun s => s.outOfBounds) = some true := by
  constructor <;> decide

/-! ## Frames pushed with an empty name -/

/-- C21. A push with no name at all stores the empty name, but a push with a
name of length zero above a named frame stores the name of that frame
followed by its separator: on the empty `lastModule` that `moduleSpecif`
passes after `module A = struct module M : sig module N : S end =`, the frame
pushed for `struct` is named `A/`; `getLastNamedIndex` selects it, and the
record of the following `let f` has the scope name `A/`. -/
theorem empty_name_push_not_empty :
    ((pushContext contextKind.ContextStrong contextType.ContextModule parseNext.globalScope
        none (pushStrongContext ['A'] contextType.ContextModule
          (initialState OcamlKinds))).stack 1).contextName = [] ∧
    ((pushStrongContext [] contextType.ContextModule
        (pushStrongContext ['A'] contextType.ContextModule
          (initialState OcamlKinds))).stack 1).contextName = ['A', '/'] ∧
    getLastNamedIndex (pushStrongContext [] contextType.ContextModule
        (pushStrongContext ['A'] contextType.ContextModule (initialState OcamlKinds)))
      = some 1 ∧
    tagNamesAndScopes (firstRun
        "module A = struct module M : sig module N : S end = struct let f = 1 end end")
      = some [("T", ocamlKind.K_MODULE, none), ("A", ocamlKind.K_MODULE, none),
              ("M", ocamlKind.K_MODULE, some "A"), ("N", ocamlKind.K_MODULE, some "A/M"),
              ("f", ocamlKind.K_VARIABLE, some "A/")] := by
  refine ⟨?_, ?_, ?_, ?_⟩ <;> decide

/-! ## Two runs in one process -/

/-- C22. On the file whose only line is
`module F (X : S) = struct let y = 1 end module M = (struct let x = 1 end : S)`
the first run emits the records `T`, `F`, `y`, `M` and leaves the counter
`parentheses` of `contextualTillToken` at -1; the second run on the same
input starts with that counter, does not see the `=` after `F (X : S)` as
balanced, and emits `T`, `F`, `M` only. -/
theorem second_run_differs :
    tagNamesAndKinds (firstRun
        "module F (X : S) = struct let y = 1 end module M = (struct let x = 1 end : S)")
      = some [("T", ocamlKind.K_MODULE), ("F", ocamlKind.K_MODULE),
              ("y", ocamlKind.K_VARIABLE), ("M", ocamlKind.K_MODULE)] ∧
    (firstRun
        "module F (X : S) = struct let y = 1 end module M = (struct let x = 1 end : S)").map
        (fun s => s.parentheses) = some (-1) ∧
    tagNamesAndKinds (secondRun
        "module F (X : S) = struct let y = 1 end module M = (struct let x = 1 end : S)")
      = some [("T", ocamlKind.K_MODULE), ("F", ocamlKind.K_MODULE),
              ("M", ocamlKind.K_MODULE)] := by
  refine ⟨?_, ?_, ?_⟩ <;> decide

/-! ## Chains with `and` -/

/-- C25. At the top level of the file, `let f x = 1 and g y = 2` emits the
Function records `f` and `g`; inside a module body,
`module M = struct let f x = 1 and g y = 2 end` emits `M` and `f` only: at
`and` the stack still holds the frame of `M`, `stackIndex` is not 0 after
`popLastNamed`, and `localScope` hands over to `localLet`, which emits
nothing.  After a type declaration, `and` resumes `typeDecl`. -/
theorem and_inside_module_is_local :
    tagNamesAndScopes (firstRun "let f x = 1 and g y = 2")
      = some [("T", ocamlKind.K_MODULE, none), ("f", ocamlKind.K_FUNCTION, none),
              ("g", ocamlKind.K_FUNCTION, none)] ∧
    tagNamesAndScopes (firstRun "module M = struct let f x = 1 and g y = 2 end")
      = some [("T", ocamlKind.K_MODULE, none), ("M", ocamlKind.K_MODULE, none),
              ("f", ocamlKind.K_FUNCTION, some "M")] ∧
    (firstRun "module M = struct let f x = 1 and").map (fun s => (s.toDoNext, s.stackIndex))
      = some (parseNext.localLet, 1) ∧
    (firstRun "type t = a and").map (fun s => s.toDoNext) = some parseNext.typeDecl := by
  refine ⟨?_, ?_, ?_, ?_⟩ <;> decide

/-! ## Staged constructors -/

set_option maxRecDepth 100000 in
/-- C27. On `type t = M.u` at the top level, the staged `M` is not emitted,
the frame of `t` is popped and `globalScope` is the next handler.  On the
file whose only line is `deepObjectTypeLine`, the push of the frame of `t`
is refused (the stack holds 256 frames), the nearest Strong frame is the one
of `object`, whose callback is `localScope`, and after the `.` the next
handler is `localScope`: `constructorValidation` assigns `globalScope` before
`popStrongContext`, which assigns the callback of the popped frame. -/
theorem constructorValidation_operator_next_handler :
    (firstRun "type t = M.").map (fun s => (s.toDoNext, s.stackIndex, s.tags.length))
      = some (parseNext.globalScope, 0, 2) ∧
    (findOcamlTags 400 "t.ml".toList [deepObjectTypeLine] (initialStatics OcamlKinds)).map
        (fun s => (s.toDoNext, s.stackIndex))
      = some (parseNext.localScope, 255) := by
  constructor <;> decide

/-! ## The word `function` -/

/-- C28. The word `function` lexes as `OcaKEYWORD_fun` (the entry of the
keyword table), not as `OcaKEYWORD_function`; after `let f = function` the
next handler is `letParam` and the stack holds the one frame of `f`, no Match
frame.  The case of `mayRedeclare` for `OcaKEYWORD_function`, which the lexer
never produces, would have pushed a nameless Soft Match frame and made
`matchPattern` the next handler, as `with` does. -/
theorem function_keyword_is_fun :
    lexLine "function" = some [("function".toList, ocamlKeyword.OcaKEYWORD_fun)] ∧
    (firstRun "let f = function").map (fun s => (s.toDoNext, s.stackIndex))
      = some (parseNext.letParam, 1) ∧
    (firstRun "let f = ").map
        (fun s =>
          let s1 := mayRedeclare "function".toList ocamlKeyword.OcaKEYWORD_function
            ocamlKeyword.Tok_EOF s
          (s1.toDoNext, s1.stackIndex, s1.stack 1))
      = some (parseNext.matchPattern, 2,
          { kind := contextKind.ContextSoft, type := contextType.ContextMatch,
            callback := parseNext.matchPattern, contextName := [] }) ∧
    (firstRun "let f x = match x with").map
        (fun s => (s.toDoNext, s.stackIndex, s.stack 1))
      = some (parseNext.matchPattern, 2,
          { kind := contextKind.ContextSoft, type := contextType.ContextMatch,
            callback := parseNext.matchPattern, contextName := [] }) := by
  refine ⟨?_, ?_, ?_, ?_⟩ <;> decide

/-! ## Skipping with balanced brackets -/

/-- C30. Alone, `class c = object method m = 1 end` emits the Class record
`c` and the Method record `m`.  After
`module M = (struct let x = 1 end : S)`, whose skip to the closing
parenthesis is left through `end` with the counter `parentheses` at -1, the
`=` that follows the class name is not taken as balanced: the next handler is
still `contextualTillToken` after it, and `m` is not emitted. -/
theorem contextualTillToken_counters_carry_over :
    tagNamesAndKinds (firstRun "class c = object method m = 1 end")
      = some [("T", ocamlKind.K_MODULE), ("c", ocamlKind.K_CLASS),
              ("m", ocamlKind.K_METHOD)] ∧
    tagNamesAndKinds (firstRun
        "module M = (struct let x = 1 end : S) class c = object method m = 1 end")
      = some [("T", ocamlKind.K_MODULE), ("M", ocamlKind.K_MODULE),
              ("c", ocamlKind.K_CLASS)] ∧
    (firstRun "module M = (struct let x = 1 end : S) class c =").map
        (fun s => (s.toDoNext, s.parentheses))
      = some (parseNext.contextualTillToken, -1) ∧
    (firstRun "class c =").map (fun s => (s.toDoNext, s.parentheses))
      = some (parseNext.classSpecif, 0) := by
  refine ⟨?_, ?_, ?_, ?_⟩ <;> decide

/-! ## Tokens a handler has no case for -/

/-- C24, counterexample. After `let f`, `letParam` is the handler; on the
keyword `let` it leaves the state as it is, whereas `globalScope` on the same
token in the same state makes `globalLet` the next handler.  After `module`,
`moduleDecl` ignores the keyword `let` in the same way: the run on
`module let g x = 1` emits `g` as a Module record. -/
theorem letParam_ignores_let :
    (firstRun "let f").map (fun s => s.toDoNext) = some parseNext.letParam ∧
    (firstRun "let f").map
        (fun s => (letParam "let".toList ocamlKeyword.OcaKEYWORD_let
          ocamlKeyword.OcaIDENTIFIER s).toDoNext) = some parseNext.letParam ∧
    (firstRun "let f").map
        (fun s => (globalScope "let".toList ocamlKeyword.OcaKEYWORD_let
          ocamlKeyword.OcaIDENTIFIER s).toDoNext) = some parseNext.globalLet ∧
    tagNamesAndKinds (firstRun "module let g x = 1")
      = some [("T", ocamlKind.K_MODULE), ("g", ocamlKind.K_MODULE)] := by
  refine ⟨?_, ?_, ?_, ?_⟩ <;> decide

open ocamlKeyword in
/-- C24, amended. On a token kind `t` for which the handler has no case of
its own: `typeDecl`, `tillTokenOrFallback` and
`tillTokenOrTerminatingOrFallback` do exactly what `globalScope` does on `t`;
`exceptionDecl` calls `globalScope` on `t` and then makes `globalScope` the
next handler; `constructorValidation` emits the staged constructor, pops the
nearest Strong frame and then calls `globalScope` on `t`.  The other handlers
do not call `globalScope`: `typeRecord`, `typeSpecification`, `letParam`,
`matchPattern`, `moduleDecl`, `classDecl` and `tillToken` leave the state as
it is; `localLet` only makes `localScope` the next handler; `methodDecl`,
`val` and `moduleSpecif` only make `globalScope` the next handler
(`moduleSpecif` clears `lastModule` too). -/
theorem fallback_by_handler (ident : vString) (t nxt : ocaToken) (s : ParserState) :
    (t ≠ Tok_Prime → t ≠ Tok_PARL → t ≠ OcaIDENTIFIER →
      typeDecl ident t nxt s = globalScope ident t nxt s) ∧
    (t ≠ s.waitedToken → tillTokenOrFallback ident t nxt s = globalScope ident t nxt s) ∧
    (t ≠ s.waitedToken → t ≠ s.terminatingToken →
      tillTokenOrTerminatingOrFallback ident t nxt s = globalScope ident t nxt s) ∧
    (t ≠ OcaIDENTIFIER →
      exceptionDecl ident t nxt s =
        { globalScope ident t nxt s with toDoNext := parseNext.globalScope }) ∧
    (t ≠ Tok_Op → t ≠ OcaKEYWORD_of → t ≠ Tok_Pipe →
      constructorValidation ident t nxt s =
        globalScope ident t nxt
          { (popStrongContext
              { emitTempTag s with
                toDoNext := parseNext.tillTokenOrFallback
                comeAfter := parseNext.typeSpecification
                waitedToken := Tok_Pipe }).2 with needStrongPoping := false }) ∧
    (t ≠ OcaIDENTIFIER → t ≠ OcaKEYWORD_mutable → t ≠ Tok_CurlR →
      typeRecord ident t nxt s = s) ∧
    (t ≠ OcaIDENTIFIER → t ≠ OcaKEYWORD_and → t ≠ OcaKEYWORD_val → t ≠ Tok_CurlL →
      typeSpecification ident t nxt s = s) ∧
    (t ≠ Tok_To → t ≠ Tok_EQ → t ≠ OcaIDENTIFIER → t ≠ Tok_Op → letParam ident t nxt s = s) ∧
    (t ≠ Tok_To → t ≠ OcaKEYWORD_value → t ≠ OcaKEYWORD_and → t ≠ OcaKEYWORD_end →
      t ≠ OcaKEYWORD_in → matchPattern ident t nxt s = s) ∧
    (t ≠ OcaIDENTIFIER → moduleDecl ident t nxt s = s) ∧
    (t ≠ OcaIDENTIFIER → t ≠ Tok_BRL → classDecl ident t nxt s = s) ∧
    (t ≠ s.waitedToken → t ≠ OcaKEYWORD_end → tillToken ident t nxt s = s) ∧
    (t ≠ Tok_PARL → t ≠ OcaKEYWORD_rec → t ≠ Tok_Op → t ≠ Tok_Val → t ≠ OcaIDENTIFIER →
      t ≠ OcaKEYWORD_end →
      localLet ident t nxt s = { s with toDoNext := parseNext.localScope }) ∧
    (t ≠ Tok_PARL → t ≠ OcaKEYWORD_mutable → t ≠ OcaKEYWORD_virtual → t ≠ OcaKEYWORD_rec →
      t ≠ OcaIDENTIFIER → t ≠ OcaKEYWORD_end →
      methodDecl ident t nxt s = { s with toDoNext := parseNext.globalScope }) ∧
    (t ≠ Tok_PARL → t ≠ OcaKEYWORD_rec → t ≠ Tok_Op → t ≠ Tok_Val → t ≠ OcaIDENTIFIER →
      val ident t nxt s = { s with toDoNext := parseNext.globalScope }) ∧
    (t ≠ OcaKEYWORD_functor → t ≠ OcaKEYWORD_struct → t ≠ OcaKEYWORD_sig → t ≠ Tok_PARL →
      t ≠ Tok_Of → t ≠ Tok_EQ →
      moduleSpecif ident t nxt s =
        { s with lastModule := [], toDoNext := parseNext.globalScope }) := by
  refine ⟨?_, ?_, ?_, ?_, ?_, ?_, ?_, ?_, ?_, ?_, ?_, ?_, ?_, ?_, ?_, ?_⟩
  · intro h1 h2 h3
    cases t <;> first | rfl | contradiction
  · intro h1
    simp [tillTokenOrFallback, h1]
  · intro h1 h2
    simp [tillTokenOrTerminatingOrFallback, h1, h2]
  · intro h1
    simp [exceptionDecl, h1]
  · intro h1 h2 h3
    cases t <;> first | rfl | contradiction
  · intro h1 h2 h3
    cases t <;> first | rfl | contradiction
  · intro h1 h2 h3 h4
    cases t <;> first | rfl | contradiction
  · intro h1 h2 h3 h4
    cases t <;> first | rfl | contradiction
  · intro h1 h2 h3 h4 h5
    cases t <;> first | rfl | contradiction
  · intro h1
    cases t <;> first | rfl | contradiction
  · intro h1 h2
    cases t <;> first | rfl | contradiction
  · intro h1 h2
    simp [tillToken, h1, h2]
  · intro h1 h2 h3 h4 h5 h6
    cases t <;> first | rfl | contradiction
  · intro h1 h2 h3 h4 h5 h6
    cases t <;> first | rfl | contradiction
  · intro h1 h2 h3 h4 h5
    cases t <;> first | rfl | contradiction
  · intro h1 h2 h3 h4 h5 h6
    cases t <;> first | rfl | contradiction

open ocamlKeyword in
/-- A witness of the amended C24, on the keyword `let` after `let f`:
`tillTokenOrFallback` (waiting for `|`) does what `globalScope` does,
`letParam` leaves the state as it is. -/
theorem fallback_by_handler_witness :
    tillTokenOrFallback [] OcaKEYWORD_let OcaIDENTIFIER
        { initialState OcamlKinds with waitedToken := Tok_Pipe }
      = globalScope [] OcaKEYWORD_let OcaIDENTIFIER
        { initialState OcamlKinds with waitedToken := Tok_Pipe } ∧
    letParam [] OcaKEYWORD_let OcaIDENTIFIER (initialState OcamlKinds)
      = initialState OcamlKinds :=
  ⟨(fallback_by_handler [] OcaKEYWORD_let OcaIDENTIFIER
      { initialState OcamlKinds with waitedToken := Tok_Pipe }).2.1 (by decide),
   (fallback_by_handler [] OcaKEYWORD_let OcaIDENTIFIER
      (initialState OcamlKinds)).2.2.2.2.2.2.2.1 (by decide) (by decide) (by decide)
      (by decide)⟩
/-! ## `end` at the top level -/

/-- C26, counterexample. After `module M = struct let f x = x` the stack
holds two frames, both Strong: the one of `M` and above it the one of `f`,
the highest Strong frame.  On `end`, `globalScope` leaves `stackIndex` at 0,
not at 1: the frame of `f` and then the frame of `M` are popped. -/
theorem globalScope_end_pops_twice :
    (firstRun "module M = struct let f x = x").map
        (fun s => (s.stackIndex, (s.stack 0).kind, (s.stack 0).type, (s.stack 1).kind,
          (s.stack 1).type))
      = some (2, contextKind.ContextStrong, contextType.ContextModule,
          contextKind.ContextStrong, contextType.ContextFunction) ∧
    (firstRun "module M = struct let f x = x").map
        (fun s => (globalScope "end".toList ocamlKeyword.OcaKEYWORD_end
          ocamlKeyword.Tok_EOF s).stackIndex) = some 0 := by
  constructor <;> decide

open ocamlKeyword contextType in
/-- C26, amended. When `globalScope` receives `end`, the stack is popped to
the nearest Strong frame and, when the role of that frame is Value, Function,
Method, Type or Match, once more to the next Strong frame below it.  With
`p` the index of the frame popped last, `stackIndex` becomes `p`; the next
handler is `moduleSpecif` if the role of frame `p` is Module and the
lookahead is `=`, `moduleDecl` if it is Module and the lookahead is `and`,
and the callback of frame `p` otherwise.  If there is no Strong frame, or
none below a first frame popped of role Value, Function, Method, Type or
Match, `stackIndex` becomes 0 and `globalScope` is the next handler.
`needStrongPoping` is cleared in every case. -/
theorem globalScope_end_spec (ident : vString) (nxt : ocaToken) (s : ParserState) :
    (globalScope ident OcaKEYWORD_end nxt s).needStrongPoping = false ∧
    (∀ i, i < s.stackIndex → (s.stack i).kind = contextKind.ContextStrong →
      (∀ j, i < j → j < s.stackIndex → (s.stack j).kind ≠ contextKind.ContextStrong) →
      ((s.stack i).type = ContextBlock ∨ (s.stack i).type = ContextModule ∨
        (s.stack i).type = ContextClass) →
      (globalScope ident OcaKEYWORD_end nxt s).stackIndex = i ∧
      (globalScope ident OcaKEYWORD_end nxt s).toDoNext =
        (if (s.stack i).type = ContextModule ∧ nxt = Tok_EQ then parseNext.moduleSpecif
         else if (s.stack i).type = ContextModule ∧ nxt = OcaKEYWORD_and then
           parseNext.moduleDecl
         else (s.stack i).callback)) ∧
    (∀ i p, i < s.stackIndex → (s.stack i).kind = contextKind.ContextStrong →
      (∀ j, i < j → j < s.stackIndex → (s.stack j).kind ≠ contextKind.ContextStrong) →
      ((s.stack i).type = ContextValue ∨ (s.stack i).type = ContextFunction ∨
        (s.stack i).type = ContextMethod ∨ (s.stack i).type = ContextType ∨
        (s.stack i).type = ContextMatch) →
      p < i → (s.stack p).kind = contextKind.ContextStrong →
      (∀ j, p < j → j < i → (s.stack j).kind ≠ contextKind.ContextStrong) →
      (globalScope ident OcaKEYWORD_end nxt s).stackIndex = p ∧
      (globalScope ident OcaKEYWORD_end nxt s).toDoNext =
        (if (s.stack p).type = ContextModule ∧ nxt = Tok_EQ then parseNext.moduleSpecif
         else if (s.stack p).type = ContextModule ∧ nxt = OcaKEYWORD_and then
           parseNext.moduleDecl
         else (s.stack p).callback)) ∧
    (∀ i, i < s.stackIndex → (s.stack i).kind = contextKind.ContextStrong →
      (∀ j, i < j → j < s.stackIndex → (s.stack j).kind ≠ contextKind.ContextStrong) →
      ((s.stack i).type = ContextValue ∨ (s.stack i).type = ContextFunction ∨
        (s.stack i).type = ContextMethod ∨ (s.stack i).type = ContextType ∨
        (s.stack i).type = ContextMatch) →
      (∀ j, j < i → (s.stack j).kind ≠ contextKind.ContextStrong) →
      (globalScope ident OcaKEYWORD_end nxt s).stackIndex = 0 ∧
      (globalScope ident OcaKEYWORD_end nxt s).toDoNext = parseNext.globalScope) ∧
    ((∀ j, j < s.stackIndex → (s.stack j).kind ≠ contextKind.ContextStrong) →
      (globalScope ident OcaKEYWORD_end nxt s).stackIndex = 0 ∧
      (globalScope ident OcaKEYWORD_end nxt s).toDoNext = parseNext.globalScope) := by
  refine ⟨?_, ?_, ?_, ?_, ?_⟩
  · simp only [globalScope]
  · intro i hi hstrong hgap htype
    have h := popStrongContextFrom_found s s.stackIndex i hi hstrong hgap
    have hk : killCurrentState s = popStrongContext s := by
      simp only [killCurrentState, popStrongContext, h]
      rcases htype with h1 | h1 | h1 <;> simp [h1]
    simp only [globalScope, hk, popStrongContext, h]
    by_cases c1 : nxt = Tok_EQ ∧ (s.stack i).type = ContextModule
    · simp [c1]
    · by_cases c2 : nxt = OcaKEYWORD_and ∧ (s.stack i).type = ContextModule
      · have c3 : ¬ nxt = Tok_EQ := by
          intro hc
          rw [hc] at c2
          exact absurd c2.1 (by decide)
        simp [c2, c3]
      · have e1 : ¬ ((s.stack i).type = ContextModule ∧ nxt = Tok_EQ) :=
          fun hc => c1 ⟨hc.2, hc.1⟩
        have e2 : ¬ ((s.stack i).type = ContextModule ∧ nxt = OcaKEYWORD_and) :=
          fun hc => c2 ⟨hc.2, hc.1⟩
        simp [c1, c2, e1, e2]
  · intro i p hi hstrong hgap htype hp hpstrong hpgap
    have h := popStrongContextFrom_found s s.stackIndex i hi hstrong hgap
    have hne : p ≠ i := by omega
    have h2 := popStrongContextFrom_found
      { s with stackIndex := i, toDoNext := (s.stack i).callback, stack := clearName s.stack i }
      i p hp (by simpa [clearName, Function.update_noteq hne] using hpstrong)
      (fun j h1 h2 => by
        have hj : j ≠ i := by omega
        simpa [clearName, Function.update_noteq hj] using hpgap j h1 h2)
    have hk : killCurrentState s =
        popStrongContext
          { s with stackIndex := i, toDoNext := (s.stack i).callback,
                   stack := clearName s.stack i } := by
      simp only [killCurrentState, popStrongContext, h]
      rcases htype with h1 | h1 | h1 | h1 | h1 <;> simp [h1]
    simp only [globalScope, hk, popStrongContext, h2]
    simp only [clearName, Function.update_noteq hne]
    by_cases c1 : nxt = Tok_EQ ∧ (s.stack p).type = ContextModule
    · simp [c1]
    · by_cases c2 : nxt = OcaKEYWORD_and ∧ (s.stack p).type = ContextModule
      · have c3 : ¬ nxt = Tok_EQ := by
          intro hc
          rw [hc] at c2
          exact absurd c2.1 (by decide)
        simp [c2, c3]
      · have e1 : ¬ ((s.stack p).type = ContextModule ∧ nxt = Tok_EQ) :=
          fun hc => c1 ⟨hc.2, hc.1⟩
        have e2 : ¬ ((s.stack p).type = ContextModule ∧ nxt = OcaKEYWORD_and) :=
          fun hc => c2 ⟨hc.2, hc.1⟩
        simp [c1, c2, e1, e2]
  · intro i hi hstrong hgap htype hbelow
    have h := popStrongContextFrom_found s s.stackIndex i hi hstrong hgap
    have h2 := popStrongContextFrom_none
      { s with stackIndex := i, toDoNext := (s.stack i).callback, stack := clearName s.stack i }
      i (fun j hj => by
        have hji : j ≠ i := by omega
        simpa [clearName, Function.update_noteq hji] using hbelow j hj)
    have hk : killCurrentState s =
        popStrongContext
          { s with stackIndex := i, toDoNext := (s.stack i).callback,
                   stack := clearName s.stack i } := by
      simp only [killCurrentState, popStrongContext, h]
      rcases htype with h1 | h1 | h1 | h1 | h1 <;> simp [h1]
    simp only [globalScope, hk, popStrongContext, h2]
    simp
  · intro hall
    have h := popStrongContextFrom_none s s.stackIndex hall
    have hk : killCurrentState s = popStrongContext s := by
      simp only [killCurrentState, popStrongContext, h]
    simp only [globalScope, hk, popStrongContext, h]
    simp

open ocamlKeyword contextType in
/-- A witness of the amended C26: on `end` before `=`, in the stack of
`module M = struct let f`, the frame of `f` and then the frame of `M` are
popped, and `moduleSpecif` is the next handler. -/
theorem globalScope_end_spec_witness :
    (globalScope [] OcaKEYWORD_end Tok_EQ moduleLetState).stackIndex = 0 ∧
    (globalScope [] OcaKEYWORD_end Tok_EQ moduleLetState).toDoNext =
      (if (moduleLetState.stack 0).type = ContextModule ∧ Tok_EQ = Tok_EQ then
         parseNext.moduleSpecif
       else if (moduleLetState.stack 0).type = ContextModule ∧ Tok_EQ = OcaKEYWORD_and then
         parseNext.moduleDecl
       else (moduleLetState.stack 0).callback) :=
  (globalScope_end_spec [] Tok_EQ moduleLetState).2.2.1 1 0 (by decide) (by decide)
    (fun j h1 h2 => by
      have h3 : moduleLetState.stackIndex = 2 := by decide
      omega)
    (Or.inr (Or.inl (by decide))) (by decide) (by decide)
    (fun j h1 h2 => by omega)

/-! ## Record types -/

theorem runTokensThen_step (ident : vString) (what : ocaToken)
    (rest : List (vString × ocaToken)) (last : ocaToken) (s s1 : ParserState)
    (h : ∀ nxt, callToDoNext ident what nxt s = s1) :
    runTokensThen ((ident, what) :: rest) last s = runTokensThen rest last s1 := by
  cases rest with
  | nil => simp [runTokensThen, h]
  | cons b q =>
    obtain ⟨bi, bt⟩ := b
    simp [runTokensThen, h]

open ocamlKeyword in
theorem record_types_skipped (tys : List vString) :
    ∀ (prev : vString) (rest : List (Option vString × ocaToken)) (last : ocaToken)
      (s : ParserState),
      s.toDoNext = parseNext.tillTokenOrTerminatingOrFallback →
      s.waitedToken = Tok_semi → s.terminatingToken = Tok_CurlR →
      ∃ prev1, runTokensThen
          (nameBuffers prev ((tys.map fun t => (some t, OcaIDENTIFIER)) ++ rest)) last s
        = runTokensThen (nameBuffers prev1 rest) last s := by
  induction tys with
  | nil => intro prev rest last s _ _ _; exact ⟨prev, rfl⟩
  | cons t ts ih =>
    intro prev rest last s h1 h2 h3
    obtain ⟨prev1, hp⟩ := ih t rest last s h1 h2 h3
    refine ⟨prev1, ?_⟩
    simp only [List.map_cons, List.cons_append, nameBuffers]
    rw [runTokensThen_step t OcaIDENTIFIER _ last s s
      (fun nxt => by
        simp [callToDoNext, h1, tillTokenOrTerminatingOrFallback, h2, h3, globalScope])]
    exact hp

open ocamlKeyword in
theorem record_field_step (r : vString) (f : recordField) (prev : vString)
    (rest : List (Option vString × ocaToken)) (last : ocaToken) (s : ParserState)
    (hr : r ≠ []) (hf : f.name ≠ []) (hs : InRecordBody r s) :
    ∃ prev1, runTokensThen (nameBuffers prev (fieldTokens f ++ rest)) last s
      = runTokensThen (nameBuffers prev1 rest) last (afterFieldName r f s) := by
  obtain ⟨h1, h2, h3, h4, h5, h6⟩ := hs
  have hr1 : 0 < r.length := List.length_pos.mpr hr
  have hf1 : 0 < f.name.length := List.length_pos.mpr hf
  have hname : ∀ nxt, callToDoNext f.name OcaIDENTIFIER nxt s = afterFieldName r f s := by
    intro nxt
    simp [callToDoNext, h1, typeRecord, addTag, h6, hf1, makeTagEntry, prepareTag,
      getLastNamedIndex, getLastNamedIndexFrom, h2, h3, hr1, h4, contextDescription,
      afterFieldName, recordFieldTag]
  have hcolon : ∀ nxt, callToDoNext ":".toList Tok_Of nxt (afterFieldName r f s)
      = afterFieldName r f s := by
    intro nxt
    simp [callToDoNext, afterFieldName, tillTokenOrTerminatingOrFallback, globalScope]
  obtain ⟨prev1, hp⟩ := record_types_skipped f.types ":".toList rest last
    (afterFieldName r f s) rfl rfl rfl
  refine ⟨prev1, ?_⟩
  cases hm : f.isMutable with
  | false =>
    simp only [fieldTokens, hm, Bool.false_eq_true, if_false, List.nil_append,
      List.cons_append, List.append_assoc, nameBuffers]
    rw [runTokensThen_step _ _ _ last s _ hname, runTokensThen_step _ _ _ last _ _ hcolon]
    exact hp
  | true =>
    have hmut : ∀ nxt, callToDoNext "mutable".toList OcaKEYWORD_mutable nxt s = s := by
      intro nxt
      simp [callToDoNext, h1, typeRecord]
    simp only [fieldTokens, hm, if_true, List.nil_append, List.singleton_append,
      List.cons_append, List.append_assoc, nameBuffers]
    rw [runTokensThen_step _ _ _ last s _ hmut, runTokensThen_step _ _ _ last s _ hname,
      runTokensThen_step _ _ _ last _ _ hcolon]
    exact hp
open ocamlKeyword in
theorem record_body_run (r : vString) (hr : r ≠ []) (trailing : Bool)
    (fields : List recordField) :
    fields ≠ [] → (∀ f ∈ fields, f.name ≠ []) →
    ∀ (prev : vString) (last : ocaToken) (s : ParserState), InRecordBody r s →
      (runTokensThen (nameBuffers prev (recordBodyTokens fields trailing)) last s).tags
        = s.tags ++ fields.map (recordFieldTag r s.ocaLineNumber) ∧
      (runTokensThen (nameBuffers prev (recordBodyTokens fields trailing)) last s).toDoNext
        = parseNext.globalScope := by
  induction fields with
  | nil => intro h; exact absurd rfl h
  | cons f rest ih =>
    intro _ hnames prev last s hs
    have hf : f.name ≠ [] := hnames f (List.mem_cons_self _ _)
    obtain ⟨h1, h2, h3, h4, h5, h6⟩ := hs
    cases rest with
    | nil =>
      obtain ⟨prev1, hp⟩ := record_field_step r f prev
        ((if trailing then [(none, Tok_semi)] else []) ++ [(none, Tok_CurlR)]) last s hr hf
        ⟨h1, h2, h3, h4, h5, h6⟩
      simp only [recordBodyTokens]
      rw [hp]
      cases trailing with
      | false =>
        simp [nameBuffers, runTokensThen, callToDoNext, afterFieldName,
          tillTokenOrTerminatingOrFallback]
      | true =>
        simp [nameBuffers, runTokensThen, callToDoNext, afterFieldName,
          tillTokenOrTerminatingOrFallback, typeRecord, popStrongContext,
          popStrongContextFrom, h2, h5]
    | cons g rest2 =>
      obtain ⟨prev1, hp⟩ := record_field_step r f prev
        ((none, Tok_semi) :: recordBodyTokens (g :: rest2) trailing) last s hr hf
        ⟨h1, h2, h3, h4, h5, h6⟩
      simp only [recordBodyTokens]
      rw [hp]
      simp only [nameBuffers]
      rw [runTokensThen_step prev1 Tok_semi _ last (afterFieldName r f s)
        { afterFieldName r f s with toDoNext := parseNext.typeRecord }
        (fun nxt => by
          simp [callToDoNext, afterFieldName, tillTokenOrTerminatingOrFallback])]
      have hih := ih (by simp) (fun x hx => hnames x (List.mem_cons_of_mem _ hx)) prev1 last
        { afterFieldName r f s with toDoNext := parseNext.typeRecord }
        ⟨rfl, h2, h3, h4, h5, h6⟩
      refine ⟨?_, hih.2⟩
      rw [hih.1]
      simp [afterFieldName]

open ocamlKeyword ocamlKind in
theorem record_header_run (r b : vString) (rest : List (vString × ocaToken))
    (last : ocaToken) (s : ParserState) (hr : r ≠ [])
    (hstate : s.toDoNext = parseNext.globalScope) (hempty : s.stackIndex = 0)
    (hkt : s.kindEnabled K_TYPE = true) :
    runTokensThen (("type".toList, OcaKEYWORD_type) :: (r, OcaIDENTIFIER) ::
        ("=".toList, Tok_EQ) :: (b, Tok_CurlL) :: rest) last s
      = runTokensThen rest last (afterRecordHeader r s) := by
  have hr1 : 0 < r.length := List.length_pos.mpr hr
  simp only [runTokensThen]
  apply runTokensThen_step
  intro nxt
  cases hnp : s.needStrongPoping <;>
  simp [callToDoNext, globalScope, typeDecl, typeSpecification, cleanupPreviousParser, addTag,
    prepareTag, makeTagEntry, getLastNamedIndex, getLastNamedIndexFrom, pushStrongContext,
    pushContext, requestStrongPoping, popStrongContext, popStrongContextFrom,
    OCAML_MAX_STACK_SIZE, afterRecordHeader, hstate, hempty, hkt, hr1, hnp]

open ocamlKeyword ocamlKind in
/-- Record types on their tokens, the name of the type, the names of the
fields and the words of their types being tokens of kind `OcaIDENTIFIER`.
From a state whose handler is `globalScope` and whose stack is empty, the
tokens of a record type `type r = { [mutable] f1 : t1; ...; fn : tn [;] }`
with at least one field make the automaton emit exactly the Type record `r`
and then the RecordField records `f1` ... `fn` in order, each with scope kind
type and scope name `r`; `mutable` emits nothing; after the closing brace
`globalScope` is the next handler. -/
theorem record_type_fields_on_tokens (r : vString) (fields : List recordField)
    (trailing : Bool) (s : ParserState) (hr : r ≠ []) (hfields : fields ≠ [])
    (hnames : ∀ f ∈ fields, f.name ≠ [])
    (hstate : s.toDoNext = parseNext.globalScope) (hempty : s.stackIndex = 0)
    (hkt : s.kindEnabled K_TYPE = true) (hkr : s.kindEnabled K_RECORDFIELD = true) :
    (runTokens (nameBuffers [] (recordTypeTokens r fields trailing)) s).tags =
      s.tags ++
        { name := r, kindIndex := K_TYPE, lineNumber := s.ocaLineNumber,
          scopeKindIndex := none, scopeName := none } ::
        fields.map (recordFieldTag r s.ocaLineNumber) ∧
    (runTokens (nameBuffers [] (recordTypeTokens r fields trailing)) s).toDoNext =
      parseNext.globalScope := by
  have hbody := record_body_run r hr trailing fields hfields hnames "=".toList Tok_EOF
    (afterRecordHeader r s)
    ⟨rfl, rfl, by simp [afterRecordHeader], by simp [afterRecordHeader],
      by simp [afterRecordHeader], hkr⟩
  have hrun : runTokens (nameBuffers [] (recordTypeTokens r fields trailing)) s
      = runTokensThen (nameBuffers "=".toList (recordBodyTokens fields trailing)) Tok_EOF
          (afterRecordHeader r s) := by
    simp only [runTokens, recordTypeTokens, List.cons_append, List.nil_append, nameBuffers]
    exact record_header_run r _ _ Tok_EOF s hr hstate hempty hkt
  rw [hrun]
  refine ⟨?_, hbody.2⟩
  rw [hbody.1]
  simp [afterRecordHeader]

/-- The token stream of a record type is the one `lex` yields. -/
theorem recordTypeTokens_lexed :
    lexLine "type r = { mutable a : int; b : string list }" =
      some (nameBuffers [] (recordTypeTokens ['r']
        [{ isMutable := true, name := ['a'], types := ["int".toList] },
         { isMutable := false, name := ['b'], types := ["string".toList, "list".toList] }]
        false)) ∧
    lexLine "type r = { a : int; }" =
      some (nameBuffers [] (recordTypeTokens ['r']
        [{ isMutable := false, name := ['a'], types := ["int".toList] }] true)) := by
  constructor <;> decide

/-! ## Disabling a kind

`disabledView k t0` commutes with every primitive and every handler, so the
run with `k` disabled is the view of the run without. -/

set_option linter.unreachableTactic false
set_option linter.unusedTactic false
set_option linter.unnecessarySeqFocus false

theorem view_toDoNext (k : ocamlKind) (t0 : tagEntryInfo)
    (s : ParserState) (x : parseNext) :
    ({ disabledView k t0 s with toDoNext := x } : ParserState)
      = disabledView k t0 { s with toDoNext := x } := rfl

theorem view_waiting (k : ocamlKind) (t0 : tagEntryInfo)
    (s : ParserState) (x y : parseNext) (w : ocaToken) :
    ({ disabledView k t0 s with toDoNext := x, comeAfter := y, waitedToken := w } : ParserState)
      = disabledView k t0 { s with toDoNext := x, comeAfter := y, waitedToken := w } := rfl

theorem view_needStrongPoping (k : ocamlKind) (t0 : tagEntryInfo)
    (s : ParserState) (b : Bool) :
    ({ disabledView k t0 s with needStrongPoping := b } : ParserState)
      = disabledView k t0 { s with needStrongPoping := b } := rfl

theorem view_lastClass (k : ocamlKind) (t0 : tagEntryInfo)
    (s : ParserState) (x : vString) :
    ({ disabledView k t0 s with lastClass := x } : ParserState)
      = disabledView k t0 { s with lastClass := x } := rfl

theorem pushContext_view (k : ocamlKind) (t0 : tagEntryInfo)
    (kind : contextKind) (type : contextType) (after : parseNext)
    (name : Option vString) (s : ParserState) :
    pushContext kind type after name (disabledView k t0 s)
      = disabledView k t0 (pushContext kind type after name s) := by
  by_cases h : s.stackIndex ≥ OCAML_MAX_STACK_SIZE
  · simp [pushContext, disabledView, h]
  · simp [pushContext, disabledView, h, getLastNamedIndex]

theorem pushStrongContext_view (k : ocamlKind) (t0 : tagEntryInfo)
    (name : vString) (type : contextType) (s : ParserState) :
    pushStrongContext name type (disabledView k t0 s)
      = disabledView k t0 (pushStrongContext name type s) :=
  pushContext_view k t0 _ _ _ _ s

theorem pushSoftContext_view (k : ocamlKind) (t0 : tagEntryInfo)
    (c : parseNext) (name : Option vString) (type : contextType)
    (s : ParserState) :
    pushSoftContext c name type (disabledView k t0 s)
      = disabledView k t0 (pushSoftContext c name type s) :=
  pushContext_view k t0 _ _ _ _ s

theorem pushEmptyContext_view (k : ocamlKind) (t0 : tagEntryInfo)
    (c : parseNext) (s : ParserState) :
    pushEmptyContext c (disabledView k t0 s) = disabledView k t0 (pushEmptyContext c s) :=
  pushContext_view k t0 _ _ _ _ s

theorem popLastNamed_view (k : ocamlKind) (t0 : tagEntryInfo)
    (s : ParserState) :
    popLastNamed (disabledView k t0 s) = disabledView k t0 (popLastNamed s) := by
  have h : getLastNamedIndex (disabledView k t0 s) = getLastNamedIndex s := rfl
  unfold popLastNamed
  rw [h]
  cases getLastNamedIndex s <;> rfl

theorem popSoftContext_view (k : ocamlKind) (t0 : tagEntryInfo)
    (s : ParserState) :
    popSoftContext (disabledView k t0 s) = disabledView k t0 (popSoftContext s) := by
  by_cases h : s.stackIndex ≤ 0
  · simp [popSoftContext, disabledView, h]
  · simp [popSoftContext, disabledView, h]

theorem popStrongContextFrom_view (k : ocamlKind) (t0 : tagEntryInfo)
    (s : ParserState) (n : Nat) :
    popStrongContextFrom (disabledView k t0 s) n
      = ((popStrongContextFrom s n).1, disabledView k t0 (popStrongContextFrom s n).2) := by
  induction n with
  | zero => rfl
  | succ i ih =>
    unfold popStrongContextFrom
    by_cases h : (s.stack i).kind = contextKind.ContextStrong
    · have h1 : ((disabledView k t0 s).stack i).kind = contextKind.ContextStrong := h
      simp only [h, h1, if_true]
      rfl
    · have h1 : ¬ ((disabledView k t0 s).stack i).kind = contextKind.ContextStrong := h
      simp only [h, h1, if_false]
      exact ih

theorem popStrongContext_view (k : ocamlKind) (t0 : tagEntryInfo)
    (s : ParserState) :
    popStrongContext (disabledView k t0 s)
      = ((popStrongContext s).1, disabledView k t0 (popStrongContext s).2) :=
  popStrongContextFrom_view k t0 s s.stackIndex

theorem jumpToMatchContextFrom_view (k : ocamlKind) (t0 : tagEntryInfo)
    (s : ParserState) (n : Nat) :
    jumpToMatchContextFrom (disabledView k t0 s) n
      = disabledView k t0 (jumpToMatchContextFrom s n) := by
  induction n with
  | zero => rfl
  | succ i ih =>
    unfold jumpToMatchContextFrom
    by_cases h : (s.stack i).type = contextType.ContextMatch
    · have h1 : ((disabledView k t0 s).stack i).type = contextType.ContextMatch := h
      simp only [h, h1, if_true]
      rfl
    · have h1 : ¬ ((disabledView k t0 s).stack i).type = contextType.ContextMatch := h
      simp only [h, h1, if_false]
      exact ih

theorem jumpToMatchContext_view (k : ocamlKind) (t0 : tagEntryInfo)
    (s : ParserState) :
    jumpToMatchContext (disabledView k t0 s) = disabledView k t0 (jumpToMatchContext s) :=
  jumpToMatchContextFrom_view k t0 s s.stackIndex

theorem prepareTag_view (k : ocamlKind) (t0 : tagEntryInfo)
    (name : vString) (kind : ocamlKind) (s : ParserState) :
    prepareTag name kind (disabledView k t0 s) = prepareTag name kind s := rfl

theorem prepareTag_kindIndex (name : vString) (kind : ocamlKind) (s : ParserState) :
    (prepareTag name kind s).kindIndex = kind := by
  unfold prepareTag
  cases getLastNamedIndex s <;> rfl

theorem addTag_view (k : ocamlKind) (t0 : tagEntryInfo)
    (ident : vString) (kind : ocamlKind) (s : ParserState) :
    addTag ident kind (disabledView k t0 s) = disabledView k t0 (addTag ident kind s) := by
  have hp := prepareTag_kindIndex ident kind s
  have hv : prepareTag ident kind (disabledView k t0 s) = prepareTag ident kind s := rfl
  have hen : (disabledView k t0 s).kindEnabled kind
      = (s.kindEnabled kind && decide (kind ≠ k)) := rfl
  unfold addTag
  rw [hv, hen]
  by_cases hk : kind = k
  · subst hk
    by_cases he : (s.kindEnabled kind && decide (ident.length > 0)) = true
    · simp only [he, if_true]
      simp [makeTagEntry, disabledView, List.filter_append, hp]
    · simp only [he]
      simp
  · by_cases he : (s.kindEnabled kind && decide (ident.length > 0)) = true
    · have h1 : ((s.kindEnabled kind && decide (kind ≠ k)) && decide (ident.length > 0))
          = true := by
        simpa [hk] using he
      simp only [he, h1, if_true]
      simp [makeTagEntry, disabledView, List.filter_append, hp, hk]
    · have h1 : ¬ ((s.kindEnabled kind && decide (kind ≠ k)) && decide (ident.length > 0))
          = true := by
        simpa [hk] using he
      simp only [he, h1, if_false, Bool.false_eq_true]

theorem requestStrongPoping_view (k : ocamlKind) (t0 : tagEntryInfo)
    (s : ParserState) :
    requestStrongPoping (disabledView k t0 s) = disabledView k t0 (requestStrongPoping s) :=
  rfl

theorem cleanupPreviousParser_view (k : ocamlKind) (t0 : tagEntryInfo)
    (s : ParserState) :
    cleanupPreviousParser (disabledView k t0 s)
      = disabledView k t0 (cleanupPreviousParser s) := by
  unfold cleanupPreviousParser
  have h1 : (disabledView k t0 s).needStrongPoping = s.needStrongPoping := rfl
  rw [h1]
  cases s.needStrongPoping
  · rfl
  · simp only [if_true, view_needStrongPoping, popStrongContext_view]

theorem emitTempTag_view (k : ocamlKind) (t0 : tagEntryInfo)
    (s : ParserState) (h : StagedIsConstructor s) :
    emitTempTag (disabledView k t0 s) = disabledView k t0 (emitTempTag s) := by
  unfold emitTempTag
  by_cases he : s.tempIdent = []
  · simp [he, disabledView]
  · have hk := h he
    have hl : s.tempIdent.length > 0 := List.length_pos.mpr he
    by_cases hc : k = ocamlKind.K_CONSTRUCTOR
    · subst hc
      simp [hl, disabledView, makeTagEntry, List.filter_append, hk]
    · have hc2 : ¬ ocamlKind.K_CONSTRUCTOR = k := fun e => hc e.symm
      simp [hl, disabledView, makeTagEntry, List.filter_append, hk, hc, hc2]

theorem view_proj_toDoNext (k : ocamlKind) (t0 : tagEntryInfo)
    (s : ParserState) :
    (disabledView k t0 s).toDoNext = s.toDoNext := rfl

theorem view_proj_comeAfter (k : ocamlKind) (t0 : tagEntryInfo)
    (s : ParserState) :
    (disabledView k t0 s).comeAfter = s.comeAfter := rfl

theorem view_proj_terminatingToken (k : ocamlKind) (t0 : tagEntryInfo)
    (s : ParserState) :
    (disabledView k t0 s).terminatingToken = s.terminatingToken := rfl

theorem view_proj_waitedToken (k : ocamlKind) (t0 : tagEntryInfo)
    (s : ParserState) :
    (disabledView k t0 s).waitedToken = s.waitedToken := rfl

theorem view_proj_lastClass (k : ocamlKind) (t0 : tagEntryInfo)
    (s : ParserState) :
    (disabledView k t0 s).lastClass = s.lastClass := rfl

theorem view_proj_lastModule (k : ocamlKind) (t0 : tagEntryInfo)
    (s : ParserState) :
    (disabledView k t0 s).lastModule = s.lastModule := rfl

theorem view_proj_stack (k : ocamlKind) (t0 : tagEntryInfo)
    (s : ParserState) :
    (disabledView k t0 s).stack = s.stack := rfl

theorem view_proj_stackIndex (k : ocamlKind) (t0 : tagEntryInfo)
    (s : ParserState) :
    (disabledView k t0 s).stackIndex = s.stackIndex := rfl

theorem view_proj_ocaLineNumber (k : ocamlKind) (t0 : tagEntryInfo)
    (s : ParserState) :
    (disabledView k t0 s).ocaLineNumber = s.ocaLineNumber := rfl

theorem view_proj_needStrongPoping (k : ocamlKind) (t0 : tagEntryInfo)
    (s : ParserState) :
    (disabledView k t0 s).needStrongPoping = s.needStrongPoping := rfl

theorem view_proj_dirtySpecialParam (k : ocamlKind) (t0 : tagEntryInfo)
    (s : ParserState) :
    (disabledView k t0 s).dirtySpecialParam = s.dirtySpecialParam := rfl

theorem view_proj_previousParser (k : ocamlKind) (t0 : tagEntryInfo)
    (s : ParserState) :
    (disabledView k t0 s).previousParser = s.previousParser := rfl

theorem view_proj_parentheses (k : ocamlKind) (t0 : tagEntryInfo)
    (s : ParserState) :
    (disabledView k t0 s).parentheses = s.parentheses := rfl

theorem view_proj_bracket (k : ocamlKind) (t0 : tagEntryInfo)
    (s : ParserState) :
    (disabledView k t0 s).bracket = s.bracket := rfl

theorem view_proj_curly (k : ocamlKind) (t0 : tagEntryInfo)
    (s : ParserState) :
    (disabledView k t0 s).curly = s.curly := rfl

theorem view_proj_parCountLabel (k : ocamlKind) (t0 : tagEntryInfo)
    (s : ParserState) :
    (disabledView k t0 s).parCountLabel = s.parCountLabel := rfl

theorem view_proj_parCountOptionnal (k : ocamlKind) (t0 : tagEntryInfo)
    (s : ParserState) :
    (disabledView k t0 s).parCountOptionnal = s.parCountOptionnal := rfl

theorem view_proj_outOfBounds (k : ocamlKind) (t0 : tagEntryInfo)
    (s : ParserState) :
    (disabledView k t0 s).outOfBounds = s.outOfBounds := rfl

theorem view_parentheses (k : ocamlKind) (t0 : tagEntryInfo)
    (s : ParserState) (x : Int) :
    ({ disabledView k t0 s with parentheses := x } : ParserState)
      = disabledView k t0 { s with parentheses := x } := rfl

theorem view_bracket (k : ocamlKind) (t0 : tagEntryInfo)
    (s : ParserState) (x : Int) :
    ({ disabledView k t0 s with bracket := x } : ParserState)
      = disabledView k t0 { s with bracket := x } := rfl

theorem view_curly (k : ocamlKind) (t0 : tagEntryInfo)
    (s : ParserState) (x : Int) :
    ({ disabledView k t0 s with curly := x } : ParserState)
      = disabledView k t0 { s with curly := x } := rfl

theorem view_parCountLabel (k : ocamlKind) (t0 : tagEntryInfo)
    (s : ParserState) (x : Int) :
    ({ disabledView k t0 s with parCountLabel := x } : ParserState)
      = disabledView k t0 { s with parCountLabel := x } := rfl

theorem view_parCountOptionnal (k : ocamlKind) (t0 : tagEntryInfo)
    (s : ParserState) (x : Int) :
    ({ disabledView k t0 s with parCountOptionnal := x } : ParserState)
      = disabledView k t0 { s with parCountOptionnal := x } := rfl

theorem view_dirtySpecialParam (k : ocamlKind) (t0 : tagEntryInfo)
    (s : ParserState) (x : Bool) :
    ({ disabledView k t0 s with dirtySpecialParam := x } : ParserState)
      = disabledView k t0 { s with dirtySpecialParam := x } := rfl

theorem view_lastModule (k : ocamlKind) (t0 : tagEntryInfo)
    (s : ParserState) (x : vString) :
    ({ disabledView k t0 s with lastModule := x } : ParserState)
      = disabledView k t0 { s with lastModule := x } := rfl

theorem view_previousParser (k : ocamlKind) (t0 : tagEntryInfo)
    (s : ParserState) (x : parseNext) :
    ({ disabledView k t0 s with previousParser := x } : ParserState)
      = disabledView k t0 { s with previousParser := x } := rfl

theorem view_comeAfter (k : ocamlKind) (t0 : tagEntryInfo)
    (s : ParserState) (x : parseNext) :
    ({ disabledView k t0 s with comeAfter := x } : ParserState)
      = disabledView k t0 { s with comeAfter := x } := rfl

theorem view_ite (k : ocamlKind) (t0 : tagEntryInfo)
    (c : Prop) [Decidable c] (a b : ParserState) :
    (if c then disabledView k t0 a else disabledView k t0 b)
      = disabledView k t0 (if c then a else b) :=
  (apply_ite (disabledView k t0) c a b).symm

theorem killCurrentState_view (k : ocamlKind) (t0 : tagEntryInfo)
    (s : ParserState) :
    killCurrentState (disabledView k t0 s)
      = ((killCurrentState s).1, disabledView k t0 (killCurrentState s).2) := by
  unfold killCurrentState
  simp only [popStrongContext_view]
  generalize popStrongContext s = r
  rcases r with ⟨_ | c, s1⟩
  · rfl
  · cases c <;> simp only [popStrongContext_view]

theorem globalScope_view (k : ocamlKind) (t0 : tagEntryInfo)
    (ident : vString) (what whatNext : ocaToken) (s : ParserState) :
    globalScope ident what whatNext (disabledView k t0 s)
      = disabledView k t0 (globalScope ident what whatNext s) := by
  cases what <;>
    (try simp only [globalScope, exportLocalInfo, Bool.false_eq_true, if_false, view_ite,
      view_toDoNext, view_waiting, view_needStrongPoping, view_lastClass, view_parentheses,
      view_bracket, view_curly, view_parCountLabel, view_parCountOptionnal,
      view_dirtySpecialParam, view_lastModule, view_previousParser, view_comeAfter,
      pushContext_view, pushStrongContext_view, pushSoftContext_view, pushEmptyContext_view,
      popLastNamed_view, popSoftContext_view, popStrongContext_view, jumpToMatchContext_view,
      addTag_view, requestStrongPoping_view, cleanupPreviousParser_view, killCurrentState_view])
      <;>
    (try simp only [view_proj_toDoNext, view_proj_comeAfter, view_proj_terminatingToken,
      view_proj_waitedToken, view_proj_lastClass, view_proj_lastModule, view_proj_stack,
      view_proj_stackIndex, view_proj_ocaLineNumber, view_proj_needStrongPoping,
      view_proj_dirtySpecialParam, view_proj_previousParser, view_proj_parentheses,
      view_proj_bracket, view_proj_curly, view_proj_parCountLabel, view_proj_parCountOptionnal,
      view_proj_outOfBounds, apply_ite (disabledView k t0)]) <;>
    (try first
      | rfl
      | (split_ifs <;> rfl))

theorem tillToken_view (k : ocamlKind) (t0 : tagEntryInfo)
    (ident : vString) (what whatNext : ocaToken) (s : ParserState) :
    tillToken ident what whatNext (disabledView k t0 s)
      = disabledView k t0 (tillToken ident what whatNext s) := by
  cases what <;>
    (try simp only [tillToken, exportLocalInfo, Bool.false_eq_true, if_false, view_ite,
      view_toDoNext, view_waiting, view_needStrongPoping, view_lastClass, view_parentheses,
      view_bracket, view_curly, view_parCountLabel, view_parCountOptionnal,
      view_dirtySpecialParam, view_lastModule, view_previousParser, view_comeAfter,
      pushContext_view, pushStrongContext_view, pushSoftContext_view, pushEmptyContext_view,
      popLastNamed_view, popSoftContext_view, popStrongContext_view, jumpToMatchContext_view,
      addTag_view, requestStrongPoping_view, cleanupPreviousParser_view, killCurrentState_view])
      <;>
    (try simp only [view_proj_toDoNext, view_proj_comeAfter, view_proj_terminatingToken,
      view_proj_waitedToken, view_proj_lastClass, view_proj_lastModule, view_proj_stack,
      view_proj_stackIndex, view_proj_ocaLineNumber, view_proj_needStrongPoping,
      view_proj_dirtySpecialParam, view_proj_previousParser, view_proj_parentheses,
      view_proj_bracket, view_proj_curly, view_proj_parCountLabel, view_proj_parCountOptionnal,
      view_proj_outOfBounds, apply_ite (disabledView k t0)]) <;>
    (try first
      | rfl
      | (split_ifs <;> rfl))

theorem contextualTillToken_view (k : ocamlKind) (t0 : tagEntryInfo)
    (ident : vString) (what whatNext : ocaToken) (s : ParserState) :
    contextualTillToken ident what whatNext (disabledView k t0 s)
      = disabledView k t0 (contextualTillToken ident what whatNext s) := by
  cases what <;>
    (try simp only [contextualTillToken, exportLocalInfo, Bool.false_eq_true, if_false,
      view_ite, view_toDoNext, view_waiting, view_needStrongPoping, view_lastClass,
      view_parentheses, view_bracket, view_curly, view_parCountLabel, view_parCountOptionnal,
      view_dirtySpecialParam, view_lastModule, view_previousParser, view_comeAfter,
      pushContext_view, pushStrongContext_view, pushSoftContext_view, pushEmptyContext_view,
      popLastNamed_view, popSoftContext_view, popStrongContext_view, jumpToMatchContext_view,
      addTag_view, requestStrongPoping_view, cleanupPreviousParser_view, killCurrentState_view,
      globalScope_view]) <;>
    (try simp only [view_proj_toDoNext, view_proj_comeAfter, view_proj_terminatingToken,
      view_proj_waitedToken, view_proj_lastClass, view_proj_lastModule, view_proj_stack,
      view_proj_stackIndex, view_proj_ocaLineNumber, view_proj_needStrongPoping,
      view_proj_dirtySpecialParam, view_proj_previousParser, view_proj_parentheses,
      view_proj_bracket, view_proj_curly, view_proj_parCountLabel, view_proj_parCountOptionnal,
      view_proj_outOfBounds, apply_ite (disabledView k t0)]) <;>
    (try first
      | rfl
      | (split_ifs <;> rfl))

theorem tillTokenOrFallback_view (k : ocamlKind) (t0 : tagEntryInfo)
    (ident : vString) (what whatNext : ocaToken) (s : ParserState) :
    tillTokenOrFallback ident what whatNext (disabledView k t0 s)
      = disabledView k t0 (tillTokenOrFallback ident what whatNext s) := by
  cases what <;>
    (try simp only [tillTokenOrFallback, exportLocalInfo, Bool.false_eq_true, if_false,
      view_ite, view_toDoNext, view_waiting, view_needStrongPoping, view_lastClass,
      view_parentheses, view_bracket, view_curly, view_parCountLabel, view_parCountOptionnal,
      view_dirtySpecialParam, view_lastModule, view_previousParser, view_comeAfter,
      pushContext_view, pushStrongContext_view, pushSoftContext_view, pushEmptyContext_view,
      popLastNamed_view, popSoftContext_view, popStrongContext_view, jumpToMatchContext_view,
      addTag_view, requestStrongPoping_view, cleanupPreviousParser_view, killCurrentState_view,
      globalScope_view]) <;>
    (try simp only [view_proj_toDoNext, view_proj_comeAfter, view_proj_terminatingToken,
      view_proj_waitedToken, view_proj_lastClass, view_proj_lastModule, view_proj_stack,
      view_proj_stackIndex, view_proj_ocaLineNumber, view_proj_needStrongPoping,
      view_proj_dirtySpecialParam, view_proj_previousParser, view_proj_parentheses,
      view_proj_bracket, view_proj_curly, view_proj_parCountLabel, view_proj_parCountOptionnal,
      view_proj_outOfBounds, apply_ite (disabledView k t0)]) <;>
    (try first
      | rfl
      | (split_ifs <;> rfl))

theorem tillTokenOrTerminatingOrFallback_view (k : ocamlKind) (t0 : tagEntryInfo)
    (ident : vString) (what whatNext : ocaToken) (s : ParserState) :
    tillTokenOrTerminatingOrFallback ident what whatNext (disabledView k t0 s)
      = disabledView k t0 (tillTokenOrTerminatingOrFallback ident what whatNext s) := by
  cases what <;>
    (try simp only [tillTokenOrTerminatingOrFallback, exportLocalInfo, Bool.false_eq_true,
      if_false, view_ite, view_toDoNext, view_waiting, view_needStrongPoping, view_lastClass,
      view_parentheses, view_bracket, view_curly, view_parCountLabel, view_parCountOptionnal,
      view_dirtySpecialParam, view_lastModule, view_previousParser, view_comeAfter,
      pushContext_view, pushStrongContext_view, pushSoftContext_view, pushEmptyContext_view,
      popLastNamed_view, popSoftContext_view, popStrongContext_view, jumpToMatchContext_view,
      addTag_view, requestStrongPoping_view, cleanupPreviousParser_view, killCurrentState_view,
      globalScope_view]) <;>
    (try simp only [view_proj_toDoNext, view_proj_comeAfter, view_proj_terminatingToken,
      view_proj_waitedToken, view_proj_lastClass, view_proj_lastModule, view_proj_stack,
      view_proj_stackIndex, view_proj_ocaLineNumber, view_proj_needStrongPoping,
      view_proj_dirtySpecialParam, view_proj_previousParser, view_proj_parentheses,
      view_proj_bracket, view_proj_curly, view_proj_parCountLabel, view_proj_parCountOptionnal,
      view_proj_outOfBounds, apply_ite (disabledView k t0)]) <;>
    (try first
      | rfl
      | (split_ifs <;> rfl))

theorem ignoreToken_view (k : ocamlKind) (t0 : tagEntryInfo)
    (ident : vString) (what whatNext : ocaToken) (s : ParserState) :
    ignoreToken ident what whatNext (disabledView k t0 s)
      = disabledView k t0 (ignoreToken ident what whatNext s) := by
  cases what <;>
    (try simp only [ignoreToken, exportLocalInfo, Bool.false_eq_true, if_false, view_ite,
      view_toDoNext, view_waiting, view_needStrongPoping, view_lastClass, view_parentheses,
      view_bracket, view_curly, view_parCountLabel, view_parCountOptionnal,
      view_dirtySpecialParam, view_lastModule, view_previousParser, view_comeAfter,
      pushContext_view, pushStrongContext_view, pushSoftContext_view, pushEmptyContext_view,
      popLastNamed_view, popSoftContext_view, popStrongContext_view, jumpToMatchContext_view,
      addTag_view, requestStrongPoping_view, cleanupPreviousParser_view, killCurrentState_view])
      <;>
    (try simp only [view_proj_toDoNext, view_proj_comeAfter, view_proj_terminatingToken,
      view_proj_waitedToken, view_proj_lastClass, view_proj_lastModule, view_proj_stack,
      view_proj_stackIndex, view_proj_ocaLineNumber, view_proj_needStrongPoping,
      view_proj_dirtySpecialParam, view_proj_previousParser, view_proj_parentheses,
      view_proj_bracket, view_proj_curly, view_proj_parCountLabel, view_proj_parCountOptionnal,
      view_proj_outOfBounds, apply_ite (disabledView k t0)]) <;>
    (try first
      | rfl
      | (split_ifs <;> rfl))

theorem typeRecord_view (k : ocamlKind) (t0 : tagEntryInfo)
    (ident : vString) (what whatNext : ocaToken) (s : ParserState) :
    typeRecord ident what whatNext (disabledView k t0 s)
      = disabledView k t0 (typeRecord ident what whatNext s) := by
  cases what <;>
    (try simp only [typeRecord, exportLocalInfo, Bool.false_eq_true, if_false, view_ite,
      view_toDoNext, view_waiting, view_needStrongPoping, view_lastClass, view_parentheses,
      view_bracket, view_curly, view_parCountLabel, view_parCountOptionnal,
      view_dirtySpecialParam, view_lastModule, view_previousParser, view_comeAfter,
      pushContext_view, pushStrongContext_view, pushSoftContext_view, pushEmptyContext_view,
      popLastNamed_view, popSoftContext_view, popStrongContext_view, jumpToMatchContext_view,
      addTag_view, requestStrongPoping_view, cleanupPreviousParser_view, killCurrentState_view])
      <;>
    (try simp only [view_proj_toDoNext, view_proj_comeAfter, view_proj_terminatingToken,
      view_proj_waitedToken, view_proj_lastClass, view_proj_lastModule, view_proj_stack,
      view_proj_stackIndex, view_proj_ocaLineNumber, view_proj_needStrongPoping,
      view_proj_dirtySpecialParam, view_proj_previousParser, view_proj_parentheses,
      view_proj_bracket, view_proj_curly, view_proj_parCountLabel, view_proj_parCountOptionnal,
      view_proj_outOfBounds, apply_ite (disabledView k t0)]) <;>
    (try first
      | rfl
      | (split_ifs <;> rfl))

theorem exceptionDecl_view (k : ocamlKind) (t0 : tagEntryInfo)
    (ident : vString) (what whatNext : ocaToken) (s : ParserState) :
    exceptionDecl ident what whatNext (disabledView k t0 s)
      = disabledView k t0 (exceptionDecl ident what whatNext s) := by
  cases what <;>
    (try simp only [exceptionDecl, exportLocalInfo, Bool.false_eq_true, if_false, view_ite,
      view_toDoNext, view_waiting, view_needStrongPoping, view_lastClass, view_parentheses,
      view_bracket, view_curly, view_parCountLabel, view_parCountOptionnal,
      view_dirtySpecialParam, view_lastModule, view_previousParser, view_comeAfter,
      pushContext_view, pushStrongContext_view, pushSoftContext_view, pushEmptyContext_view,
      popLastNamed_view, popSoftContext_view, popStrongContext_view, jumpToMatchContext_view,
      addTag_view, requestStrongPoping_view, cleanupPreviousParser_view, killCurrentState_view,
      globalScope_view]) <;>
    (try simp only [view_proj_toDoNext, view_proj_comeAfter, view_proj_terminatingToken,
      view_proj_waitedToken, view_proj_lastClass, view_proj_lastModule, view_proj_stack,
      view_proj_stackIndex, view_proj_ocaLineNumber, view_proj_needStrongPoping,
      view_proj_dirtySpecialParam, view_proj_previousParser, view_proj_parentheses,
      view_proj_bracket, view_proj_curly, view_proj_parCountLabel, view_proj_parCountOptionnal,
      view_proj_outOfBounds, apply_ite (disabledView k t0)]) <;>
    (try first
      | rfl
      | (split_ifs <;> rfl))

theorem constructorValidation_view (k : ocamlKind) (t0 : tagEntryInfo)
    (ident : vString) (what whatNext : ocaToken) (s : ParserState) (h : StagedIsConstructor s) :
    constructorValidation ident what whatNext (disabledView k t0 s)
      = disabledView k t0 (constructorValidation ident what whatNext s) := by
  cases what <;>
    (try simp only [constructorValidation, exportLocalInfo, Bool.false_eq_true, if_false,
      view_ite, view_toDoNext, view_waiting, view_needStrongPoping, view_lastClass,
      view_parentheses, view_bracket, view_curly, view_parCountLabel, view_parCountOptionnal,
      view_dirtySpecialParam, view_lastModule, view_previousParser, view_comeAfter,
      pushContext_view, pushStrongContext_view, pushSoftContext_view, pushEmptyContext_view,
      popLastNamed_view, popSoftContext_view, popStrongContext_view, jumpToMatchContext_view,
      addTag_view, requestStrongPoping_view, cleanupPreviousParser_view, killCurrentState_view,
      globalScope_view, emitTempTag_view k t0 s h]) <;>
    (try simp only [view_proj_toDoNext, view_proj_comeAfter, view_proj_terminatingToken,
      view_proj_waitedToken, view_proj_lastClass, view_proj_lastModule, view_proj_stack,
      view_proj_stackIndex, view_proj_ocaLineNumber, view_proj_needStrongPoping,
      view_proj_dirtySpecialParam, view_proj_previousParser, view_proj_parentheses,
      view_proj_bracket, view_proj_curly, view_proj_parCountLabel, view_proj_parCountOptionnal,
      view_proj_outOfBounds, apply_ite (disabledView k t0)]) <;>
    (try first
      | rfl
      | (split_ifs <;> rfl))

theorem typeDecl_view (k : ocamlKind) (t0 : tagEntryInfo)
    (ident : vString) (what whatNext : ocaToken) (s : ParserState) :
    typeDecl ident what whatNext (disabledView k t0 s)
      = disabledView k t0 (typeDecl ident what whatNext s) := by
  cases what <;>
    (try simp only [typeDecl, exportLocalInfo, Bool.false_eq_true, if_false, view_ite,
      view_toDoNext, view_waiting, view_needStrongPoping, view_lastClass, view_parentheses,
      view_bracket, view_curly, view_parCountLabel, view_parCountOptionnal,
      view_dirtySpecialParam, view_lastModule, view_previousParser, view_comeAfter,
      pushContext_view, pushStrongContext_view, pushSoftContext_view, pushEmptyContext_view,
      popLastNamed_view, popSoftContext_view, popStrongContext_view, jumpToMatchContext_view,
      addTag_view, requestStrongPoping_view, cleanupPreviousParser_view, killCurrentState_view,
      globalScope_view]) <;>
    (try simp only [view_proj_toDoNext, view_proj_comeAfter, view_proj_terminatingToken,
      view_proj_waitedToken, view_proj_lastClass, view_proj_lastModule, view_proj_stack,
      view_proj_stackIndex, view_proj_ocaLineNumber, view_proj_needStrongPoping,
      view_proj_dirtySpecialParam, view_proj_previousParser, view_proj_parentheses,
      view_proj_bracket, view_proj_curly, view_proj_parCountLabel, view_proj_parCountOptionnal,
      view_proj_outOfBounds, apply_ite (disabledView k t0)]) <;>
    (try first
      | rfl
      | (split_ifs <;> rfl))

theorem val_view (k : ocamlKind) (t0 : tagEntryInfo)
    (ident : vString) (what whatNext : ocaToken) (s : ParserState) :
    val ident what whatNext (disabledView k t0 s)
      = disabledView k t0 (val ident what whatNext s) := by
  cases what <;>
    (try simp only [val, exportLocalInfo, Bool.false_eq_true, if_false, view_ite, view_toDoNext,
      view_waiting, view_needStrongPoping, view_lastClass, view_parentheses, view_bracket,
      view_curly, view_parCountLabel, view_parCountOptionnal, view_dirtySpecialParam,
      view_lastModule, view_previousParser, view_comeAfter, pushContext_view,
      pushStrongContext_view, pushSoftContext_view, pushEmptyContext_view, popLastNamed_view,
      popSoftContext_view, popStrongContext_view, jumpToMatchContext_view, addTag_view,
      requestStrongPoping_view, cleanupPreviousParser_view, killCurrentState_view]) <;>
    (try simp only [view_proj_toDoNext, view_proj_comeAfter, view_proj_terminatingToken,
      view_proj_waitedToken, view_proj_lastClass, view_proj_lastModule, view_proj_stack,
      view_proj_stackIndex, view_proj_ocaLineNumber, view_proj_needStrongPoping,
      view_proj_dirtySpecialParam, view_proj_previousParser, view_proj_parentheses,
      view_proj_bracket, view_proj_curly, view_proj_parCountLabel, view_proj_parCountOptionnal,
      view_proj_outOfBounds, apply_ite (disabledView k t0)]) <;>
    (try first
      | rfl
      | (split_ifs <;> rfl))

theorem letParam_view (k : ocamlKind) (t0 : tagEntryInfo)
    (ident : vString) (what whatNext : ocaToken) (s : ParserState) :
    letParam ident what whatNext (disabledView k t0 s)
      = disabledView k t0 (letParam ident what whatNext s) := by
  cases what <;>
    (try simp only [letParam, exportLocalInfo, Bool.false_eq_true, if_false, view_ite,
      view_toDoNext, view_waiting, view_needStrongPoping, view_lastClass, view_parentheses,
      view_bracket, view_curly, view_parCountLabel, view_parCountOptionnal,
      view_dirtySpecialParam, view_lastModule, view_previousParser, view_comeAfter,
      pushContext_view, pushStrongContext_view, pushSoftContext_view, pushEmptyContext_view,
      popLastNamed_view, popSoftContext_view, popStrongContext_view, jumpToMatchContext_view,
      addTag_view, requestStrongPoping_view, cleanupPreviousParser_view, killCurrentState_view])
      <;>
    (try simp only [view_proj_toDoNext, view_proj_comeAfter, view_proj_terminatingToken,
      view_proj_waitedToken, view_proj_lastClass, view_proj_lastModule, view_proj_stack,
      view_proj_stackIndex, view_proj_ocaLineNumber, view_proj_needStrongPoping,
      view_proj_dirtySpecialParam, view_proj_previousParser, view_proj_parentheses,
      view_proj_bracket, view_proj_curly, view_proj_parCountLabel, view_proj_parCountOptionnal,
      view_proj_outOfBounds, apply_ite (disabledView k t0)]) <;>
    (try first
      | rfl
      | (split_ifs <;> rfl))

theorem parseLabel_view (k : ocamlKind) (t0 : tagEntryInfo)
    (ident : vString) (what whatNext : ocaToken) (s : ParserState) :
    parseLabel ident what whatNext (disabledView k t0 s)
      = disabledView k t0 (parseLabel ident what whatNext s) := by
  cases what <;>
    (try simp only [parseLabel, exportLocalInfo, Bool.false_eq_true, if_false, view_ite,
      view_toDoNext, view_waiting, view_needStrongPoping, view_lastClass, view_parentheses,
      view_bracket, view_curly, view_parCountLabel, view_parCountOptionnal,
      view_dirtySpecialParam, view_lastModule, view_previousParser, view_comeAfter,
      pushContext_view, pushStrongContext_view, pushSoftContext_view, pushEmptyContext_view,
      popLastNamed_view, popSoftContext_view, popStrongContext_view, jumpToMatchContext_view,
      addTag_view, requestStrongPoping_view, cleanupPreviousParser_view, killCurrentState_view,
      letParam_view]) <;>
    (try simp only [view_proj_toDoNext, view_proj_comeAfter, view_proj_terminatingToken,
      view_proj_waitedToken, view_proj_lastClass, view_proj_lastModule, view_proj_stack,
      view_proj_stackIndex, view_proj_ocaLineNumber, view_proj_needStrongPoping,
      view_proj_dirtySpecialParam, view_proj_previousParser, view_proj_parentheses,
      view_proj_bracket, view_proj_curly, view_proj_parCountLabel, view_proj_parCountOptionnal,
      view_proj_outOfBounds, apply_ite (disabledView k t0)]) <;>
    (try first
      | rfl
      | (split_ifs <;> rfl))

theorem parseOptionnal_view (k : ocamlKind) (t0 : tagEntryInfo)
    (ident : vString) (what whatNext : ocaToken) (s : ParserState) :
    parseOptionnal ident what whatNext (disabledView k t0 s)
      = disabledView k t0 (parseOptionnal ident what whatNext s) := by
  cases what <;>
    (try simp only [parseOptionnal, exportLocalInfo, Bool.false_eq_true, if_false, view_ite,
      view_toDoNext, view_waiting, view_needStrongPoping, view_lastClass, view_parentheses,
      view_bracket, view_curly, view_parCountLabel, view_parCountOptionnal,
      view_dirtySpecialParam, view_lastModule, view_previousParser, view_comeAfter,
      pushContext_view, pushStrongContext_view, pushSoftContext_view, pushEmptyContext_view,
      popLastNamed_view, popSoftContext_view, popStrongContext_view, jumpToMatchContext_view,
      addTag_view, requestStrongPoping_view, cleanupPreviousParser_view, killCurrentState_view])
      <;>
    (try simp only [view_proj_toDoNext, view_proj_comeAfter, view_proj_terminatingToken,
      view_proj_waitedToken, view_proj_lastClass, view_proj_lastModule, view_proj_stack,
      view_proj_stackIndex, view_proj_ocaLineNumber, view_proj_needStrongPoping,
      view_proj_dirtySpecialParam, view_proj_previousParser, view_proj_parentheses,
      view_proj_bracket, view_proj_curly, view_proj_parCountLabel, view_proj_parCountOptionnal,
      view_proj_outOfBounds, apply_ite (disabledView k t0)]) <;>
    (try first
      | rfl
      | (split_ifs <;> rfl))

theorem localScope_view (k : ocamlKind) (t0 : tagEntryInfo)
    (ident : vString) (what whatNext : ocaToken) (s : ParserState) :
    localScope ident what whatNext (disabledView k t0 s)
      = disabledView k t0 (localScope ident what whatNext s) := by
  cases what <;>
    (try simp only [localScope, exportLocalInfo, Bool.false_eq_true, if_false, view_ite,
      view_toDoNext, view_waiting, view_needStrongPoping, view_lastClass, view_parentheses,
      view_bracket, view_curly, view_parCountLabel, view_parCountOptionnal,
      view_dirtySpecialParam, view_lastModule, view_previousParser, view_comeAfter,
      pushContext_view, pushStrongContext_view, pushSoftContext_view, pushEmptyContext_view,
      popLastNamed_view, popSoftContext_view, popStrongContext_view, jumpToMatchContext_view,
      addTag_view, requestStrongPoping_view, cleanupPreviousParser_view, killCurrentState_view,
      globalScope_view, contextualTillToken_view]) <;>
    (try simp only [view_proj_toDoNext, view_proj_comeAfter, view_proj_terminatingToken,
      view_proj_waitedToken, view_proj_lastClass, view_proj_lastModule, view_proj_stack,
      view_proj_stackIndex, view_proj_ocaLineNumber, view_proj_needStrongPoping,
      view_proj_dirtySpecialParam, view_proj_previousParser, view_proj_parentheses,
      view_proj_bracket, view_proj_curly, view_proj_parCountLabel, view_proj_parCountOptionnal,
      view_proj_outOfBounds, apply_ite (disabledView k t0)]) <;>
    (try first
      | rfl
      | (split_ifs <;> rfl))

theorem localLet_view (k : ocamlKind) (t0 : tagEntryInfo)
    (ident : vString) (what whatNext : ocaToken) (s : ParserState) :
    localLet ident what whatNext (disabledView k t0 s)
      = disabledView k t0 (localLet ident what whatNext s) := by
  cases what <;>
    (try simp only [localLet, exportLocalInfo, Bool.false_eq_true, if_false, view_ite,
      view_toDoNext, view_waiting, view_needStrongPoping, view_lastClass, view_parentheses,
      view_bracket, view_curly, view_parCountLabel, view_parCountOptionnal,
      view_dirtySpecialParam, view_lastModule, view_previousParser, view_comeAfter,
      pushContext_view, pushStrongContext_view, pushSoftContext_view, pushEmptyContext_view,
      popLastNamed_view, popSoftContext_view, popStrongContext_view, jumpToMatchContext_view,
      addTag_view, requestStrongPoping_view, cleanupPreviousParser_view, killCurrentState_view,
      localScope_view]) <;>
    (try simp only [view_proj_toDoNext, view_proj_comeAfter, view_proj_terminatingToken,
      view_proj_waitedToken, view_proj_lastClass, view_proj_lastModule, view_proj_stack,
      view_proj_stackIndex, view_proj_ocaLineNumber, view_proj_needStrongPoping,
      view_proj_dirtySpecialParam, view_proj_previousParser, view_proj_parentheses,
      view_proj_bracket, view_proj_curly, view_proj_parCountLabel, view_proj_parCountOptionnal,
      view_proj_outOfBounds, apply_ite (disabledView k t0)]) <;>
    (try first
      | rfl
      | (split_ifs <;> rfl))

theorem matchPattern_view (k : ocamlKind) (t0 : tagEntryInfo)
    (ident : vString) (what whatNext : ocaToken) (s : ParserState) :
    matchPattern ident what whatNext (disabledView k t0 s)
      = disabledView k t0 (matchPattern ident what whatNext s) := by
  cases what <;>
    (try simp only [matchPattern, exportLocalInfo, Bool.false_eq_true, if_false, view_ite,
      view_toDoNext, view_waiting, view_needStrongPoping, view_lastClass, view_parentheses,
      view_bracket, view_curly, view_parCountLabel, view_parCountOptionnal,
      view_dirtySpecialParam, view_lastModule, view_previousParser, view_comeAfter,
      pushContext_view, pushStrongContext_view, pushSoftContext_view, pushEmptyContext_view,
      popLastNamed_view, popSoftContext_view, popStrongContext_view, jumpToMatchContext_view,
      addTag_view, requestStrongPoping_view, cleanupPreviousParser_view, killCurrentState_view,
      localScope_view]) <;>
    (try simp only [view_proj_toDoNext, view_proj_comeAfter, view_proj_terminatingToken,
      view_proj_waitedToken, view_proj_lastClass, view_proj_lastModule, view_proj_stack,
      view_proj_stackIndex, view_proj_ocaLineNumber, view_proj_needStrongPoping,
      view_proj_dirtySpecialParam, view_proj_previousParser, view_proj_parentheses,
      view_proj_bracket, view_proj_curly, view_proj_parCountLabel, view_proj_parCountOptionnal,
      view_proj_outOfBounds, apply_ite (disabledView k t0)]) <;>
    (try first
      | rfl
      | (split_ifs <;> rfl))

theorem mayRedeclare_view (k : ocamlKind) (t0 : tagEntryInfo)
    (ident : vString) (what whatNext : ocaToken) (s : ParserState) :
    mayRedeclare ident what whatNext (disabledView k t0 s)
      = disabledView k t0 (mayRedeclare ident what whatNext s) := by
  cases what <;>
    (try simp only [mayRedeclare, exportLocalInfo, Bool.false_eq_true, if_false, view_ite,
      view_toDoNext, view_waiting, view_needStrongPoping, view_lastClass, view_parentheses,
      view_bracket, view_curly, view_parCountLabel, view_parCountOptionnal,
      view_dirtySpecialParam, view_lastModule, view_previousParser, view_comeAfter,
      pushContext_view, pushStrongContext_view, pushSoftContext_view, pushEmptyContext_view,
      popLastNamed_view, popSoftContext_view, popStrongContext_view, jumpToMatchContext_view,
      addTag_view, requestStrongPoping_view, cleanupPreviousParser_view, killCurrentState_view,
      globalScope_view, localScope_view]) <;>
    (try simp only [view_proj_toDoNext, view_proj_comeAfter, view_proj_terminatingToken,
      view_proj_waitedToken, view_proj_lastClass, view_proj_lastModule, view_proj_stack,
      view_proj_stackIndex, view_proj_ocaLineNumber, view_proj_needStrongPoping,
      view_proj_dirtySpecialParam, view_proj_previousParser, view_proj_parentheses,
      view_proj_bracket, view_proj_curly, view_proj_parCountLabel, view_proj_parCountOptionnal,
      view_proj_outOfBounds, apply_ite (disabledView k t0)]) <;>
    (try first
      | rfl
      | (split_ifs <;> rfl))

theorem classSpecif_view (k : ocamlKind) (t0 : tagEntryInfo)
    (ident : vString) (what whatNext : ocaToken) (s : ParserState) :
    classSpecif ident what whatNext (disabledView k t0 s)
      = disabledView k t0 (classSpecif ident what whatNext s) := by
  cases what <;>
    (try simp only [classSpecif, exportLocalInfo, Bool.false_eq_true, if_false, view_ite,
      view_toDoNext, view_waiting, view_needStrongPoping, view_lastClass, view_parentheses,
      view_bracket, view_curly, view_parCountLabel, view_parCountOptionnal,
      view_dirtySpecialParam, view_lastModule, view_previousParser, view_comeAfter,
      pushContext_view, pushStrongContext_view, pushSoftContext_view, pushEmptyContext_view,
      popLastNamed_view, popSoftContext_view, popStrongContext_view, jumpToMatchContext_view,
      addTag_view, requestStrongPoping_view, cleanupPreviousParser_view, killCurrentState_view])
      <;>
    (try simp only [view_proj_toDoNext, view_proj_comeAfter, view_proj_terminatingToken,
      view_proj_waitedToken, view_proj_lastClass, view_proj_lastModule, view_proj_stack,
      view_proj_stackIndex, view_proj_ocaLineNumber, view_proj_needStrongPoping,
      view_proj_dirtySpecialParam, view_proj_previousParser, view_proj_parentheses,
      view_proj_bracket, view_proj_curly, view_proj_parCountLabel, view_proj_parCountOptionnal,
      view_proj_outOfBounds, apply_ite (disabledView k t0)]) <;>
    (try first
      | rfl
      | (split_ifs <;> rfl))

theorem methodDecl_view (k : ocamlKind) (t0 : tagEntryInfo)
    (ident : vString) (what whatNext : ocaToken) (s : ParserState) :
    methodDecl ident what whatNext (disabledView k t0 s)
      = disabledView k t0 (methodDecl ident what whatNext s) := by
  cases what <;>
    (try simp only [methodDecl, exportLocalInfo, Bool.false_eq_true, if_false, view_ite,
      view_toDoNext, view_waiting, view_needStrongPoping, view_lastClass, view_parentheses,
      view_bracket, view_curly, view_parCountLabel, view_parCountOptionnal,
      view_dirtySpecialParam, view_lastModule, view_previousParser, view_comeAfter,
      pushContext_view, pushStrongContext_view, pushSoftContext_view, pushEmptyContext_view,
      popLastNamed_view, popSoftContext_view, popStrongContext_view, jumpToMatchContext_view,
      addTag_view, requestStrongPoping_view, cleanupPreviousParser_view, killCurrentState_view,
      localScope_view]) <;>
    (try simp only [view_proj_toDoNext, view_proj_comeAfter, view_proj_terminatingToken,
      view_proj_waitedToken, view_proj_lastClass, view_proj_lastModule, view_proj_stack,
      view_proj_stackIndex, view_proj_ocaLineNumber, view_proj_needStrongPoping,
      view_proj_dirtySpecialParam, view_proj_previousParser, view_proj_parentheses,
      view_proj_bracket, view_proj_curly, view_proj_parCountLabel, view_proj_parCountOptionnal,
      view_proj_outOfBounds, apply_ite (disabledView k t0)]) <;>
    (try first
      | rfl
      | (split_ifs <;> rfl))

theorem moduleSpecif_view (k : ocamlKind) (t0 : tagEntryInfo)
    (ident : vString) (what whatNext : ocaToken) (s : ParserState) :
    moduleSpecif ident what whatNext (disabledView k t0 s)
      = disabledView k t0 (moduleSpecif ident what whatNext s) := by
  cases what <;>
    (try simp only [moduleSpecif, exportLocalInfo, Bool.false_eq_true, if_false, view_ite,
      view_toDoNext, view_waiting, view_needStrongPoping, view_lastClass, view_parentheses,
      view_bracket, view_curly, view_parCountLabel, view_parCountOptionnal,
      view_dirtySpecialParam, view_lastModule, view_previousParser, view_comeAfter,
      pushContext_view, pushStrongContext_view, pushSoftContext_view, pushEmptyContext_view,
      popLastNamed_view, popSoftContext_view, popStrongContext_view, jumpToMatchContext_view,
      addTag_view, requestStrongPoping_view, cleanupPreviousParser_view, killCurrentState_view,
      contextualTillToken_view]) <;>
    (try simp only [view_proj_toDoNext, view_proj_comeAfter, view_proj_terminatingToken,
      view_proj_waitedToken, view_proj_lastClass, view_proj_lastModule, view_proj_stack,
      view_proj_stackIndex, view_proj_ocaLineNumber, view_proj_needStrongPoping,
      view_proj_dirtySpecialParam, view_proj_previousParser, view_proj_parentheses,
      view_proj_bracket, view_proj_curly, view_proj_parCountLabel, view_proj_parCountOptionnal,
      view_proj_outOfBounds, apply_ite (disabledView k t0)]) <;>
    (try first
      | rfl
      | (split_ifs <;> rfl))

theorem moduleDecl_view (k : ocamlKind) (t0 : tagEntryInfo)
    (ident : vString) (what whatNext : ocaToken) (s : ParserState) :
    moduleDecl ident what whatNext (disabledView k t0 s)
      = disabledView k t0 (moduleDecl ident what whatNext s) := by
  cases what <;>
    (try simp only [moduleDecl, exportLocalInfo, Bool.false_eq_true, if_false, view_ite,
      view_toDoNext, view_waiting, view_needStrongPoping, view_lastClass, view_parentheses,
      view_bracket, view_curly, view_parCountLabel, view_parCountOptionnal,
      view_dirtySpecialParam, view_lastModule, view_previousParser, view_comeAfter,
      pushContext_view, pushStrongContext_view, pushSoftContext_view, pushEmptyContext_view,
      popLastNamed_view, popSoftContext_view, popStrongContext_view, jumpToMatchContext_view,
      addTag_view, requestStrongPoping_view, cleanupPreviousParser_view, killCurrentState_view])
      <;>
    (try simp only [view_proj_toDoNext, view_proj_comeAfter, view_proj_terminatingToken,
      view_proj_waitedToken, view_proj_lastClass, view_proj_lastModule, view_proj_stack,
      view_proj_stackIndex, view_proj_ocaLineNumber, view_proj_needStrongPoping,
      view_proj_dirtySpecialParam, view_proj_previousParser, view_proj_parentheses,
      view_proj_bracket, view_proj_curly, view_proj_parCountLabel, view_proj_parCountOptionnal,
      view_proj_outOfBounds, apply_ite (disabledView k t0)]) <;>
    (try first
      | rfl
      | (split_ifs <;> rfl))

theorem classDecl_view (k : ocamlKind) (t0 : tagEntryInfo)
    (ident : vString) (what whatNext : ocaToken) (s : ParserState) :
    classDecl ident what whatNext (disabledView k t0 s)
      = disabledView k t0 (classDecl ident what whatNext s) := by
  cases what <;>
    (try simp only [classDecl, exportLocalInfo, Bool.false_eq_true, if_false, view_ite,
      view_toDoNext, view_waiting, view_needStrongPoping, view_lastClass, view_parentheses,
      view_bracket, view_curly, view_parCountLabel, view_parCountOptionnal,
      view_dirtySpecialParam, view_lastModule, view_previousParser, view_comeAfter,
      pushContext_view, pushStrongContext_view, pushSoftContext_view, pushEmptyContext_view,
      popLastNamed_view, popSoftContext_view, popStrongContext_view, jumpToMatchContext_view,
      addTag_view, requestStrongPoping_view, cleanupPreviousParser_view, killCurrentState_view])
      <;>
    (try simp only [view_proj_toDoNext, view_proj_comeAfter, view_proj_terminatingToken,
      view_proj_waitedToken, view_proj_lastClass, view_proj_lastModule, view_proj_stack,
      view_proj_stackIndex, view_proj_ocaLineNumber, view_proj_needStrongPoping,
      view_proj_dirtySpecialParam, view_proj_previousParser, view_proj_parentheses,
      view_proj_bracket, view_proj_curly, view_proj_parCountLabel, view_proj_parCountOptionnal,
      view_proj_outOfBounds, apply_ite (disabledView k t0)]) <;>
    (try first
      | rfl
      | (split_ifs <;> rfl))

theorem globalLet_view (k : ocamlKind) (t0 : tagEntryInfo)
    (ident : vString) (what whatNext : ocaToken) (s : ParserState) :
    globalLet ident what whatNext (disabledView k t0 s)
      = disabledView k t0 (globalLet ident what whatNext s) := by
  cases what <;>
    (try simp only [globalLet, exportLocalInfo, Bool.false_eq_true, if_false, view_ite,
      view_toDoNext, view_waiting, view_needStrongPoping, view_lastClass, view_parentheses,
      view_bracket, view_curly, view_parCountLabel, view_parCountOptionnal,
      view_dirtySpecialParam, view_lastModule, view_previousParser, view_comeAfter,
      pushContext_view, pushStrongContext_view, pushSoftContext_view, pushEmptyContext_view,
      popLastNamed_view, popSoftContext_view, popStrongContext_view, jumpToMatchContext_view,
      addTag_view, requestStrongPoping_view, cleanupPreviousParser_view, killCurrentState_view,
      globalScope_view]) <;>
    (try simp only [view_proj_toDoNext, view_proj_comeAfter, view_proj_terminatingToken,
      view_proj_waitedToken, view_proj_lastClass, view_proj_lastModule, view_proj_stack,
      view_proj_stackIndex, view_proj_ocaLineNumber, view_proj_needStrongPoping,
      view_proj_dirtySpecialParam, view_proj_previousParser, view_proj_parentheses,
      view_proj_bracket, view_proj_curly, view_proj_parCountLabel, view_proj_parCountOptionnal,
      view_proj_outOfBounds, apply_ite (disabledView k t0)]) <;>
    (try first
      | rfl
      | (split_ifs <;> rfl))

theorem typeSpecification_view (k : ocamlKind) (t0 : tagEntryInfo)
    (ident : vString) (what whatNext : ocaToken) (s : ParserState) :
    typeSpecification ident what whatNext (disabledView k t0 s)
      = disabledView k t0 (typeSpecification ident what whatNext s) := by
  cases what <;> try rfl
  simp only [typeSpecification]
  by_cases hu : isUpperAlpha (vStringChar0 ident) = true
  · simp only [hu, if_true]
    by_cases hc : k = ocamlKind.K_CONSTRUCTOR
    · subst hc
      cases he : s.kindEnabled ocamlKind.K_CONSTRUCTOR <;> simp [disabledView, he]
    · have hc2 : ¬ ocamlKind.K_CONSTRUCTOR = k := fun e => hc e.symm
      have hp : prepareTag ident ocamlKind.K_CONSTRUCTOR (disabledView k t0 s)
          = prepareTag ident ocamlKind.K_CONSTRUCTOR s := rfl
      cases he : s.kindEnabled ocamlKind.K_CONSTRUCTOR
      · simp [disabledView, he, hc]
      · rw [hp]
        simp [disabledView, he, hc, hc2]
  · simp only [hu]
    rfl

theorem callToDoNext_view (k : ocamlKind) (t0 : tagEntryInfo)
    (ident : vString) (what whatNext : ocaToken) (s : ParserState)
    (h : StagedIsConstructor s) :
    callToDoNext ident what whatNext (disabledView k t0 s)
      = disabledView k t0 (callToDoNext ident what whatNext s) := by
  unfold callToDoNext
  rw [view_proj_toDoNext]
  cases s.toDoNext
  case null => rfl
  case constructorValidation => exact constructorValidation_view k t0 ident what whatNext s h
  all_goals first
    | exact globalScope_view k t0 ident what whatNext s
    | exact tillToken_view k t0 ident what whatNext s
    | exact contextualTillToken_view k t0 ident what whatNext s
    | exact tillTokenOrFallback_view k t0 ident what whatNext s
    | exact tillTokenOrTerminatingOrFallback_view k t0 ident what whatNext s
    | exact ignoreToken_view k t0 ident what whatNext s
    | exact typeRecord_view k t0 ident what whatNext s
    | exact exceptionDecl_view k t0 ident what whatNext s
    | exact typeDecl_view k t0 ident what whatNext s
    | exact val_view k t0 ident what whatNext s
    | exact typeSpecification_view k t0 ident what whatNext s
    | exact parseLabel_view k t0 ident what whatNext s
    | exact parseOptionnal_view k t0 ident what whatNext s
    | exact localLet_view k t0 ident what whatNext s
    | exact matchPattern_view k t0 ident what whatNext s
    | exact mayRedeclare_view k t0 ident what whatNext s
    | exact letParam_view k t0 ident what whatNext s
    | exact classSpecif_view k t0 ident what whatNext s
    | exact methodDecl_view k t0 ident what whatNext s
    | exact moduleSpecif_view k t0 ident what whatNext s
    | exact moduleDecl_view k t0 ident what whatNext s
    | exact classDecl_view k t0 ident what whatNext s
    | exact globalLet_view k t0 ident what whatNext s
    | exact localScope_view k t0 ident what whatNext s

theorem pushContext_tempIdent (kind : contextKind) (type : contextType) (after : parseNext)
    (name : Option vString) (s : ParserState) :
    (pushContext kind type after name s).tempIdent = s.tempIdent := by
  unfold pushContext
  split_ifs <;> rfl

theorem pushStrongContext_tempIdent (name : vString) (type : contextType) (s : ParserState) :
    (pushStrongContext name type s).tempIdent = s.tempIdent :=
  pushContext_tempIdent _ _ _ _ s

theorem pushSoftContext_tempIdent (c : parseNext) (name : Option vString) (type : contextType)
    (s : ParserState) :
    (pushSoftContext c name type s).tempIdent = s.tempIdent :=
  pushContext_tempIdent _ _ _ _ s

theorem pushEmptyContext_tempIdent (c : parseNext) (s : ParserState) :
    (pushEmptyContext c s).tempIdent = s.tempIdent :=
  pushContext_tempIdent _ _ _ _ s

theorem popLastNamed_tempIdent (s : ParserState) : (popLastNamed s).tempIdent = s.tempIdent := by
  unfold popLastNamed
  cases getLastNamedIndex s <;> rfl

theorem popSoftContext_tempIdent (s : ParserState) : (popSoftContext s).tempIdent = s.tempIdent
  := by
  unfold popSoftContext
  split_ifs <;> rfl

theorem popStrongContextFrom_tempIdent (s : ParserState) (n : Nat) :
    (popStrongContextFrom s n).2.tempIdent = s.tempIdent := by
  induction n with
  | zero => rfl
  | succ i ih =>
    unfold popStrongContextFrom
    split_ifs
    · rfl
    · exact ih

theorem popStrongContext_tempIdent (s : ParserState) : (popStrongContext s).2.tempIdent =
  s.tempIdent :=
  popStrongContextFrom_tempIdent s s.stackIndex

theorem jumpToMatchContextFrom_tempIdent (s : ParserState) (n : Nat) :
    (jumpToMatchContextFrom s n).tempIdent = s.tempIdent := by
  induction n with
  | zero => rfl
  | succ i ih =>
    unfold jumpToMatchContextFrom
    split_ifs
    · rfl
    · exact ih

theorem jumpToMatchContext_tempIdent (s : ParserState) : (jumpToMatchContext s).tempIdent =
  s.tempIdent :=
  jumpToMatchContextFrom_tempIdent s s.stackIndex

theorem addTag_tempIdent (ident : vString) (kind : ocamlKind) (s : ParserState) :
    (addTag ident kind s).tempIdent = s.tempIdent := by
  unfold addTag
  split_ifs <;> rfl

theorem requestStrongPoping_tempIdent (s : ParserState) :
    (requestStrongPoping s).tempIdent = s.tempIdent := rfl

theorem cleanupPreviousParser_tempIdent (s : ParserState) :
    (cleanupPreviousParser s).tempIdent = s.tempIdent := by
  unfold cleanupPreviousParser
  split_ifs
  · exact popStrongContext_tempIdent _
  · rfl

theorem killCurrentState_tempIdent (s : ParserState) : (killCurrentState s).2.tempIdent =
  s.tempIdent := by
  unfold killCurrentState
  have h1 := popStrongContext_tempIdent s
  have h2 := popStrongContext_tempIdent (popStrongContext s).2
  cases hr : (popStrongContext s).1 with
  | none =>
    simp only [hr]
    exact h1
  | some c => cases c <;> simp only [hr] <;> first | exact h1 | exact h2.trans h1

theorem globalScope_tempIdent (ident : vString) (what whatNext : ocaToken) (s : ParserState) :
    (globalScope ident what whatNext s).tempIdent = s.tempIdent := by
  cases what <;>
    (try simp only [globalScope, exportLocalInfo, Bool.false_eq_true, if_false,
      apply_ite ParserState.tempIdent, pushContext_tempIdent, pushStrongContext_tempIdent,
        pushSoftContext_tempIdent, pushEmptyContext_tempIdent, popLastNamed_tempIdent,
        popSoftContext_tempIdent, popStrongContext_tempIdent, jumpToMatchContext_tempIdent,
        addTag_tempIdent, requestStrongPoping_tempIdent, cleanupPreviousParser_tempIdent,
        killCurrentState_tempIdent, ite_self]) <;>
    (try first
      | rfl
      | (split_ifs <;> rfl))

theorem tillToken_tempIdent (ident : vString) (what whatNext : ocaToken) (s : ParserState) :
    (tillToken ident what whatNext s).tempIdent = s.tempIdent := by
  cases what <;>
    (try simp only [tillToken, exportLocalInfo, Bool.false_eq_true, if_false,
      apply_ite ParserState.tempIdent, pushContext_tempIdent, pushStrongContext_tempIdent,
        pushSoftContext_tempIdent, pushEmptyContext_tempIdent, popLastNamed_tempIdent,
        popSoftContext_tempIdent, popStrongContext_tempIdent, jumpToMatchContext_tempIdent,
        addTag_tempIdent, requestStrongPoping_tempIdent, cleanupPreviousParser_tempIdent,
        killCurrentState_tempIdent, ite_self]) <;>
    (try first
      | rfl
      | (split_ifs <;> rfl))

theorem contextualTillToken_tempIdent (ident : vString) (what whatNext : ocaToken) (s :
  ParserState) :
    (contextualTillToken ident what whatNext s).tempIdent = s.tempIdent := by
  cases what <;>
    (try simp only [contextualTillToken, exportLocalInfo, Bool.false_eq_true, if_false,
      apply_ite ParserState.tempIdent, pushContext_tempIdent, pushStrongContext_tempIdent,
        pushSoftContext_tempIdent, pushEmptyContext_tempIdent, popLastNamed_tempIdent,
        popSoftContext_tempIdent, popStrongContext_tempIdent, jumpToMatchContext_tempIdent,
        addTag_tempIdent, requestStrongPoping_tempIdent, cleanupPreviousParser_tempIdent,
        killCurrentState_tempIdent, globalScope_tempIdent, ite_self]) <;>
    (try first
      | rfl
      | (split_ifs <;> rfl))

theorem tillTokenOrFallback_tempIdent (ident : vString) (what whatNext : ocaToken) (s :
  ParserState) :
    (tillTokenOrFallback ident what whatNext s).tempIdent = s.tempIdent := by
  cases what <;>
    (try simp only [tillTokenOrFallback, exportLocalInfo, Bool.false_eq_true, if_false,
      apply_ite ParserState.tempIdent, pushContext_tempIdent, pushStrongContext_tempIdent,
        pushSoftContext_tempIdent, pushEmptyContext_tempIdent, popLastNamed_tempIdent,
        popSoftContext_tempIdent, popStrongContext_tempIdent, jumpToMatchContext_tempIdent,
        addTag_tempIdent, requestStrongPoping_tempIdent, cleanupPreviousParser_tempIdent,
        killCurrentState_tempIdent, globalScope_tempIdent, ite_self]) <;>
    (try first
      | rfl
      | (split_ifs <;> rfl))

theorem tillTokenOrTerminatingOrFallback_tempIdent (ident : vString) (what whatNext : ocaToken)
  (s : ParserState) :
    (tillTokenOrTerminatingOrFallback ident what whatNext s).tempIdent = s.tempIdent := by
  cases what <;>
    (try simp only [tillTokenOrTerminatingOrFallback, exportLocalInfo, Bool.false_eq_true, if_false,
      apply_ite ParserState.tempIdent, pushContext_tempIdent, pushStrongContext_tempIdent,
        pushSoftContext_tempIdent, pushEmptyContext_tempIdent, popLastNamed_tempIdent,
        popSoftContext_tempIdent, popStrongContext_tempIdent, jumpToMatchContext_tempIdent,
        addTag_tempIdent, requestStrongPoping_tempIdent, cleanupPreviousParser_tempIdent,
        killCurrentState_tempIdent, globalScope_tempIdent, ite_self]) <;>
    (try first
      | rfl
      | (split_ifs <;> rfl))

theorem ignoreToken_tempIdent (ident : vString) (what whatNext : ocaToken) (s : ParserState) :
    (ignoreToken ident what whatNext s).tempIdent = s.tempIdent := by
  cases what <;>
    (try simp only [ignoreToken, exportLocalInfo, Bool.false_eq_true, if_false,
      apply_ite ParserState.tempIdent, pushContext_tempIdent, pushStrongContext_tempIdent,
        pushSoftContext_tempIdent, pushEmptyContext_tempIdent, popLastNamed_tempIdent,
        popSoftContext_tempIdent, popStrongContext_tempIdent, jumpToMatchContext_tempIdent,
        addTag_tempIdent, requestStrongPoping_tempIdent, cleanupPreviousParser_tempIdent,
        killCurrentState_tempIdent, ite_self]) <;>
    (try first
      | rfl
      | (split_ifs <;> rfl))

theorem typeRecord_tempIdent (ident : vString) (what whatNext : ocaToken) (s : ParserState) :
    (typeRecord ident what whatNext s).tempIdent = s.tempIdent := by
  cases what <;>
    (try simp only [typeRecord, exportLocalInfo, Bool.false_eq_true, if_false,
      apply_ite ParserState.tempIdent, pushContext_tempIdent, pushStrongContext_tempIdent,
        pushSoftContext_tempIdent, pushEmptyContext_tempIdent, popLastNamed_tempIdent,
        popSoftContext_tempIdent, popStrongContext_tempIdent, jumpToMatchContext_tempIdent,
        addTag_tempIdent, requestStrongPoping_tempIdent, cleanupPreviousParser_tempIdent,
        killCurrentState_tempIdent, ite_self]) <;>
    (try first
      | rfl
      | (split_ifs <;> rfl))

theorem exceptionDecl_tempIdent (ident : vString) (what whatNext : ocaToken) (s : ParserState) :
    (exceptionDecl ident what whatNext s).tempIdent = s.tempIdent := by
  cases what <;>
    (try simp only [exceptionDecl, exportLocalInfo, Bool.false_eq_true, if_false,
      apply_ite ParserState.tempIdent, pushContext_tempIdent, pushStrongContext_tempIdent,
        pushSoftContext_tempIdent, pushEmptyContext_tempIdent, popLastNamed_tempIdent,
        popSoftContext_tempIdent, popStrongContext_tempIdent, jumpToMatchContext_tempIdent,
        addTag_tempIdent, requestStrongPoping_tempIdent, cleanupPreviousParser_tempIdent,
        killCurrentState_tempIdent, globalScope_tempIdent, ite_self]) <;>
    (try first
      | rfl
      | (split_ifs <;> rfl))

theorem typeDecl_tempIdent (ident : vString) (what whatNext : ocaToken) (s : ParserState) :
    (typeDecl ident what whatNext s).tempIdent = s.tempIdent := by
  cases what <;>
    (try simp only [typeDecl, exportLocalInfo, Bool.false_eq_true, if_false,
      apply_ite ParserState.tempIdent, pushContext_tempIdent, pushStrongContext_tempIdent,
        pushSoftContext_tempIdent, pushEmptyContext_tempIdent, popLastNamed_tempIdent,
        popSoftContext_tempIdent, popStrongContext_tempIdent, jumpToMatchContext_tempIdent,
        addTag_tempIdent, requestStrongPoping_tempIdent, cleanupPreviousParser_tempIdent,
        killCurrentState_tempIdent, globalScope_tempIdent, ite_self]) <;>
    (try first
      | rfl
      | (split_ifs <;> rfl))

theorem val_tempIdent (ident : vString) (what whatNext : ocaToken) (s : ParserState) :
    (val ident what whatNext s).tempIdent = s.tempIdent := by
  cases what <;>
    (try simp only [val, exportLocalInfo, Bool.false_eq_true, if_false,
      apply_ite ParserState.tempIdent, pushContext_tempIdent, pushStrongContext_tempIdent,
        pushSoftContext_tempIdent, pushEmptyContext_tempIdent, popLastNamed_tempIdent,
        popSoftContext_tempIdent, popStrongContext_tempIdent, jumpToMatchContext_tempIdent,
        addTag_tempIdent, requestStrongPoping_tempIdent, cleanupPreviousParser_tempIdent,
        killCurrentState_tempIdent, ite_self]) <;>
    (try first
      | rfl
      | (split_ifs <;> rfl))

theorem letParam_tempIdent (ident : vString) (what whatNext : ocaToken) (s : ParserState) :
    (letParam ident what whatNext s).tempIdent = s.tempIdent := by
  cases what <;>
    (try simp only [letParam, exportLocalInfo, Bool.false_eq_true, if_false,
      apply_ite ParserState.tempIdent, pushContext_tempIdent, pushStrongContext_tempIdent,
        pushSoftContext_tempIdent, pushEmptyContext_tempIdent, popLastNamed_tempIdent,
        popSoftContext_tempIdent, popStrongContext_tempIdent, jumpToMatchContext_tempIdent,
        addTag_tempIdent, requestStrongPoping_tempIdent, cleanupPreviousParser_tempIdent,
        killCurrentState_tempIdent, ite_self]) <;>
    (try first
      | rfl
      | (split_ifs <;> rfl))

theorem parseLabel_tempIdent (ident : vString) (what whatNext : ocaToken) (s : ParserState) :
    (parseLabel ident what whatNext s).tempIdent = s.tempIdent := by
  cases what <;>
    (try simp only [parseLabel, exportLocalInfo, Bool.false_eq_true, if_false,
      apply_ite ParserState.tempIdent, pushContext_tempIdent, pushStrongContext_tempIdent,
        pushSoftContext_tempIdent, pushEmptyContext_tempIdent, popLastNamed_tempIdent,
        popSoftContext_tempIdent, popStrongContext_tempIdent, jumpToMatchContext_tempIdent,
        addTag_tempIdent, requestStrongPoping_tempIdent, cleanupPreviousParser_tempIdent,
        killCurrentState_tempIdent, letParam_tempIdent, ite_self]) <;>
    (try first
      | rfl
      | (split_ifs <;> rfl))

theorem parseOptionnal_tempIdent (ident : vString) (what whatNext : ocaToken) (s : ParserState) :
    (parseOptionnal ident what whatNext s).tempIdent = s.tempIdent := by
  cases what <;>
    (try simp only [parseOptionnal, exportLocalInfo, Bool.false_eq_true, if_false,
      apply_ite ParserState.tempIdent, pushContext_tempIdent, pushStrongContext_tempIdent,
        pushSoftContext_tempIdent, pushEmptyContext_tempIdent, popLastNamed_tempIdent,
        popSoftContext_tempIdent, popStrongContext_tempIdent, jumpToMatchContext_tempIdent,
        addTag_tempIdent, requestStrongPoping_tempIdent, cleanupPreviousParser_tempIdent,
        killCurrentState_tempIdent, ite_self]) <;>
    (try first
      | rfl
      | (split_ifs <;> rfl))

theorem localScope_tempIdent (ident : vString) (what whatNext : ocaToken) (s : ParserState) :
    (localScope ident what whatNext s).tempIdent = s.tempIdent := by
  cases what <;>
    (try simp only [localScope, exportLocalInfo, Bool.false_eq_true, if_false,
      apply_ite ParserState.tempIdent, pushContext_tempIdent, pushStrongContext_tempIdent,
        pushSoftContext_tempIdent, pushEmptyContext_tempIdent, popLastNamed_tempIdent,
        popSoftContext_tempIdent, popStrongContext_tempIdent, jumpToMatchContext_tempIdent,
        addTag_tempIdent, requestStrongPoping_tempIdent, cleanupPreviousParser_tempIdent,
        killCurrentState_tempIdent, globalScope_tempIdent, contextualTillToken_tempIdent,
        ite_self]) <;>
    (try first
      | rfl
      | (split_ifs <;> rfl))

theorem localLet_tempIdent (ident : vString) (what whatNext : ocaToken) (s : ParserState) :
    (localLet ident what whatNext s).tempIdent = s.tempIdent := by
  cases what <;>
    (try simp only [localLet, exportLocalInfo, Bool.false_eq_true, if_false,
      apply_ite ParserState.tempIdent, pushContext_tempIdent, pushStrongContext_tempIdent,
        pushSoftContext_tempIdent, pushEmptyContext_tempIdent, popLastNamed_tempIdent,
        popSoftContext_tempIdent, popStrongContext_tempIdent, jumpToMatchContext_tempIdent,
        addTag_tempIdent, requestStrongPoping_tempIdent, cleanupPreviousParser_tempIdent,
        killCurrentState_tempIdent, localScope_tempIdent, ite_self]) <;>
    (try first
      | rfl
      | (split_ifs <;> rfl))

theorem matchPattern_tempIdent (ident : vString) (what whatNext : ocaToken) (s : ParserState) :
    (matchPattern ident what whatNext s).tempIdent = s.tempIdent := by
  cases what <;>
    (try simp only [matchPattern, exportLocalInfo, Bool.false_eq_true, if_false,
      apply_ite ParserState.tempIdent, pushContext_tempIdent, pushStrongContext_tempIdent,
        pushSoftContext_tempIdent, pushEmptyContext_tempIdent, popLastNamed_tempIdent,
        popSoftContext_tempIdent, popStrongContext_tempIdent, jumpToMatchContext_tempIdent,
        addTag_tempIdent, requestStrongPoping_tempIdent, cleanupPreviousParser_tempIdent,
        killCurrentState_tempIdent, localScope_tempIdent, ite_self]) <;>
    (try first
      | rfl
      | (split_ifs <;> rfl))

theorem mayRedeclare_tempIdent (ident : vString) (what whatNext : ocaToken) (s : ParserState) :
    (mayRedeclare ident what whatNext s).tempIdent = s.tempIdent := by
  cases what <;>
    (try simp only [mayRedeclare, exportLocalInfo, Bool.false_eq_true, if_false,
      apply_ite ParserState.tempIdent, pushContext_tempIdent, pushStrongContext_tempIdent,
        pushSoftContext_tempIdent, pushEmptyContext_tempIdent, popLastNamed_tempIdent,
        popSoftContext_tempIdent, popStrongContext_tempIdent, jumpToMatchContext_tempIdent,
        addTag_tempIdent, requestStrongPoping_tempIdent, cleanupPreviousParser_tempIdent,
        killCurrentState_tempIdent, globalScope_tempIdent, localScope_tempIdent, ite_self]) <;>
    (try first
      | rfl
      | (split_ifs <;> rfl))

theorem classSpecif_tempIdent (ident : vString) (what whatNext : ocaToken) (s : ParserState) :
    (classSpecif ident what whatNext s).tempIdent = s.tempIdent := by
  cases what <;>
    (try simp only [classSpecif, exportLocalInfo, Bool.false_eq_true, if_false,
      apply_ite ParserState.tempIdent, pushContext_tempIdent, pushStrongContext_tempIdent,
        pushSoftContext_tempIdent, pushEmptyContext_tempIdent, popLastNamed_tempIdent,
        popSoftContext_tempIdent, popStrongContext_tempIdent, jumpToMatchContext_tempIdent,
        addTag_tempIdent, requestStrongPoping_tempIdent, cleanupPreviousParser_tempIdent,
        killCurrentState_tempIdent, ite_self]) <;>
    (try first
      | rfl
      | (split_ifs <;> rfl))

theorem methodDecl_tempIdent (ident : vString) (what whatNext : ocaToken) (s : ParserState) :
    (methodDecl ident what whatNext s).tempIdent = s.tempIdent := by
  cases what <;>
    (try simp only [methodDecl, exportLocalInfo, Bool.false_eq_true, if_false,
      apply_ite ParserState.tempIdent, pushContext_tempIdent, pushStrongContext_tempIdent,
        pushSoftContext_tempIdent, pushEmptyContext_tempIdent, popLastNamed_tempIdent,
        popSoftContext_tempIdent, popStrongContext_tempIdent, jumpToMatchContext_tempIdent,
        addTag_tempIdent, requestStrongPoping_tempIdent, cleanupPreviousParser_tempIdent,
        killCurrentState_tempIdent, localScope_tempIdent, ite_self]) <;>
    (try first
      | rfl
      | (split_ifs <;> rfl))

theorem moduleSpecif_tempIdent (ident : vString) (what whatNext : ocaToken) (s : ParserState) :
    (moduleSpecif ident what whatNext s).tempIdent = s.tempIdent := by
  cases what <;>
    (try simp only [moduleSpecif, exportLocalInfo, Bool.false_eq_true, if_false,
      apply_ite ParserState.tempIdent, pushContext_tempIdent, pushStrongContext_tempIdent,
        pushSoftContext_tempIdent, pushEmptyContext_tempIdent, popLastNamed_tempIdent,
        popSoftContext_tempIdent, popStrongContext_tempIdent, jumpToMatchContext_tempIdent,
        addTag_tempIdent, requestStrongPoping_tempIdent, cleanupPreviousParser_tempIdent,
        killCurrentState_tempIdent, contextualTillToken_tempIdent, ite_self]) <;>
    (try first
      | rfl
      | (split_ifs <;> rfl))

theorem moduleDecl_tempIdent (ident : vString) (what whatNext : ocaToken) (s : ParserState) :
    (moduleDecl ident what whatNext s).tempIdent = s.tempIdent := by
  cases what <;>
    (try simp only [moduleDecl, exportLocalInfo, Bool.false_eq_true, if_false,
      apply_ite ParserState.tempIdent, pushContext_tempIdent, pushStrongContext_tempIdent,
        pushSoftContext_tempIdent, pushEmptyContext_tempIdent, popLastNamed_tempIdent,
        popSoftContext_tempIdent, popStrongContext_tempIdent, jumpToMatchContext_tempIdent,
        addTag_tempIdent, requestStrongPoping_tempIdent, cleanupPreviousParser_tempIdent,
        killCurrentState_tempIdent, ite_self]) <;>
    (try first
      | rfl
      | (split_ifs <;> rfl))

theorem classDecl_tempIdent (ident : vString) (what whatNext : ocaToken) (s : ParserState) :
    (classDecl ident what whatNext s).tempIdent = s.tempIdent := by
  cases what <;>
    (try simp only [classDecl, exportLocalInfo, Bool.false_eq_true, if_false,
      apply_ite ParserState.tempIdent, pushContext_tempIdent, pushStrongContext_tempIdent,
        pushSoftContext_tempIdent, pushEmptyContext_tempIdent, popLastNamed_tempIdent,
        popSoftContext_tempIdent, popStrongContext_tempIdent, jumpToMatchContext_tempIdent,
        addTag_tempIdent, requestStrongPoping_tempIdent, cleanupPreviousParser_tempIdent,
        killCurrentState_tempIdent, ite_self]) <;>
    (try first
      | rfl
      | (split_ifs <;> rfl))

theorem globalLet_tempIdent (ident : vString) (what whatNext : ocaToken) (s : ParserState) :
    (globalLet ident what whatNext s).tempIdent = s.tempIdent := by
  cases what <;>
    (try simp only [globalLet, exportLocalInfo, Bool.false_eq_true, if_false,
      apply_ite ParserState.tempIdent, pushContext_tempIdent, pushStrongContext_tempIdent,
        pushSoftContext_tempIdent, pushEmptyContext_tempIdent, popLastNamed_tempIdent,
        popSoftContext_tempIdent, popStrongContext_tempIdent, jumpToMatchContext_tempIdent,
        addTag_tempIdent, requestStrongPoping_tempIdent, cleanupPreviousParser_tempIdent,
        killCurrentState_tempIdent, globalScope_tempIdent, ite_self]) <;>
    (try first
      | rfl
      | (split_ifs <;> rfl))

theorem pushContext_tempTag (kind : contextKind) (type : contextType) (after : parseNext)
    (name : Option vString) (s : ParserState) :
    (pushContext kind type after name s).tempTag = s.tempTag := by
  unfold pushContext
  split_ifs <;> rfl

theorem pushStrongContext_tempTag (name : vString) (type : contextType) (s : ParserState) :
    (pushStrongContext name type s).tempTag = s.tempTag :=
  pushContext_tempTag _ _ _ _ s

theorem pushSoftContext_tempTag (c : parseNext) (name : Option vString) (type : contextType)
    (s : ParserState) :
    (pushSoftContext c name type s).tempTag = s.tempTag :=
  pushContext_tempTag _ _ _ _ s

theorem pushEmptyContext_tempTag (c : parseNext) (s : ParserState) :
    (pushEmptyContext c s).tempTag = s.tempTag :=
  pushContext_tempTag _ _ _ _ s

theorem popLastNamed_tempTag (s : ParserState) : (popLastNamed s).tempTag = s.tempTag := by
  unfold popLastNamed
  cases getLastNamedIndex s <;> rfl

theorem popSoftContext_tempTag (s : ParserState) : (popSoftContext s).tempTag = s.tempTag := by
  unfold popSoftContext
  split_ifs <;> rfl

theorem popStrongContextFrom_tempTag (s : ParserState) (n : Nat) :
    (popStrongContextFrom s n).2.tempTag = s.tempTag := by
  induction n with
  | zero => rfl
  | succ i ih =>
    unfold popStrongContextFrom
    split_ifs
    · rfl
    · exact ih

theorem popStrongContext_tempTag (s : ParserState) : (popStrongContext s).2.tempTag = s.tempTag :=
  popStrongContextFrom_tempTag s s.stackIndex

theorem jumpToMatchContextFrom_tempTag (s : ParserState) (n : Nat) :
    (jumpToMatchContextFrom s n).tempTag = s.tempTag := by
  induction n with
  | zero => rfl
  | succ i ih =>
    unfold jumpToMatchContextFrom
    split_ifs
    · rfl
    · exact ih

theorem jumpToMatchContext_tempTag (s : ParserState) : (jumpToMatchContext s).tempTag = s.tempTag :=
  jumpToMatchContextFrom_tempTag s s.stackIndex

theorem addTag_tempTag (ident : vString) (kind : ocamlKind) (s : ParserState) :
    (addTag ident kind s).tempTag = s.tempTag := by
  unfold addTag
  split_ifs <;> rfl

theorem requestStrongPoping_tempTag (s : ParserState) :
    (requestStrongPoping s).tempTag = s.tempTag := rfl

theorem cleanupPreviousParser_tempTag (s : ParserState) :
    (cleanupPreviousParser s).tempTag = s.tempTag := by
  unfold cleanupPreviousParser
  split_ifs
  · exact popStrongContext_tempTag _
  · rfl

theorem killCurrentState_tempTag (s : ParserState) : (killCurrentState s).2.tempTag = s.tempTag
  := by
  unfold killCurrentState
  have h1 := popStrongContext_tempTag s
  have h2 := popStrongContext_tempTag (popStrongContext s).2
  cases hr : (popStrongContext s).1 with
  | none =>
    simp only [hr]
    exact h1
  | some c => cases c <;> simp only [hr] <;> first | exact h1 | exact h2.trans h1

theorem globalScope_tempTag (ident : vString) (what whatNext : ocaToken) (s : ParserState) :
    (globalScope ident what whatNext s).tempTag = s.tempTag := by
  cases what <;>
    (try simp only [globalScope, exportLocalInfo, Bool.false_eq_true, if_false,
      apply_ite ParserState.tempTag, pushContext_tempTag, pushStrongContext_tempTag,
        pushSoftContext_tempTag, pushEmptyContext_tempTag, popLastNamed_tempTag,
        popSoftContext_tempTag, popStrongContext_tempTag, jumpToMatchContext_tempTag,
        addTag_tempTag, requestStrongPoping_tempTag, cleanupPreviousParser_tempTag,
        killCurrentState_tempTag, ite_self]) <;>
    (try first
      | rfl
      | (split_ifs <;> rfl))

theorem tillToken_tempTag (ident : vString) (what whatNext : ocaToken) (s : ParserState) :
    (tillToken ident what whatNext s).tempTag = s.tempTag := by
  cases what <;>
    (try simp only [tillToken, exportLocalInfo, Bool.false_eq_true, if_false,
      apply_ite ParserState.tempTag, pushContext_tempTag, pushStrongContext_tempTag,
        pushSoftContext_tempTag, pushEmptyContext_tempTag, popLastNamed_tempTag,
        popSoftContext_tempTag, popStrongContext_tempTag, jumpToMatchContext_tempTag,
        addTag_tempTag, requestStrongPoping_tempTag, cleanupPreviousParser_tempTag,
        killCurrentState_tempTag, ite_self]) <;>
    (try first
      | rfl
      | (split_ifs <;> rfl))

theorem contextualTillToken_tempTag (ident : vString) (what whatNext : ocaToken) (s : ParserState) :
    (contextualTillToken ident what whatNext s).tempTag = s.tempTag := by
  cases what <;>
    (try simp only [contextualTillToken, exportLocalInfo, Bool.false_eq_true, if_false,
      apply_ite ParserState.tempTag, pushContext_tempTag, pushStrongContext_tempTag,
        pushSoftContext_tempTag, pushEmptyContext_tempTag, popLastNamed_tempTag,
        popSoftContext_tempTag, popStrongContext_tempTag, jumpToMatchContext_tempTag,
        addTag_tempTag, requestStrongPoping_tempTag, cleanupPreviousParser_tempTag,
        killCurrentState_tempTag, globalScope_tempTag, ite_self]) <;>
    (try first
      | rfl
      | (split_ifs <;> rfl))

theorem tillTokenOrFallback_tempTag (ident : vString) (what whatNext : ocaToken) (s : ParserState) :
    (tillTokenOrFallback ident what whatNext s).tempTag = s.tempTag := by
  cases what <;>
    (try simp only [tillTokenOrFallback, exportLocalInfo, Bool.false_eq_true, if_false,
      apply_ite ParserState.tempTag, pushContext_tempTag, pushStrongContext_tempTag,
        pushSoftContext_tempTag, pushEmptyContext_tempTag, popLastNamed_tempTag,
        popSoftContext_tempTag, popStrongContext_tempTag, jumpToMatchContext_tempTag,
        addTag_tempTag, requestStrongPoping_tempTag, cleanupPreviousParser_tempTag,
        killCurrentState_tempTag, globalScope_tempTag, ite_self]) <;>
    (try first
      | rfl
      | (split_ifs <;> rfl))

theorem tillTokenOrTerminatingOrFallback_tempTag (ident : vString) (what whatNext : ocaToken) (s
  : ParserState) :
    (tillTokenOrTerminatingOrFallback ident what whatNext s).tempTag = s.tempTag := by
  cases what <;>
    (try simp only [tillTokenOrTerminatingOrFallback, exportLocalInfo, Bool.false_eq_true, if_false,
      apply_ite ParserState.tempTag, pushContext_tempTag, pushStrongContext_tempTag,
        pushSoftContext_tempTag, pushEmptyContext_tempTag, popLastNamed_tempTag,
        popSoftContext_tempTag, popStrongContext_tempTag, jumpToMatchContext_tempTag,
        addTag_tempTag, requestStrongPoping_tempTag, cleanupPreviousParser_tempTag,
        killCurrentState_tempTag, globalScope_tempTag, ite_self]) <;>
    (try first
      | rfl
      | (split_ifs <;> rfl))

theorem ignoreToken_tempTag (ident : vString) (what whatNext : ocaToken) (s : ParserState) :
    (ignoreToken ident what whatNext s).tempTag = s.tempTag := by
  cases what <;>
    (try simp only [ignoreToken, exportLocalInfo, Bool.false_eq_true, if_false,
      apply_ite ParserState.tempTag, pushContext_tempTag, pushStrongContext_tempTag,
        pushSoftContext_tempTag, pushEmptyContext_tempTag, popLastNamed_tempTag,
        popSoftContext_tempTag, popStrongContext_tempTag, jumpToMatchContext_tempTag,
        addTag_tempTag, requestStrongPoping_tempTag, cleanupPreviousParser_tempTag,
        killCurrentState_tempTag, ite_self]) <;>
    (try first
      | rfl
      | (split_ifs <;> rfl))

theorem typeRecord_tempTag (ident : vString) (what whatNext : ocaToken) (s : ParserState) :
    (typeRecord ident what whatNext s).tempTag = s.tempTag := by
  cases what <;>
    (try simp only [typeRecord, exportLocalInfo, Bool.false_eq_true, if_false,
      apply_ite ParserState.tempTag, pushContext_tempTag, pushStrongContext_tempTag,
        pushSoftContext_tempTag, pushEmptyContext_tempTag, popLastNamed_tempTag,
        popSoftContext_tempTag, popStrongContext_tempTag, jumpToMatchContext_tempTag,
        addTag_tempTag, requestStrongPoping_tempTag, cleanupPreviousParser_tempTag,
        killCurrentState_tempTag, ite_self]) <;>
    (try first
      | rfl
      | (split_ifs <;> rfl))

theorem exceptionDecl_tempTag (ident : vString) (what whatNext : ocaToken) (s : ParserState) :
    (exceptionDecl ident what whatNext s).tempTag = s.tempTag := by
  cases what <;>
    (try simp only [exceptionDecl, exportLocalInfo, Bool.false_eq_true, if_false,
      apply_ite ParserState.tempTag, pushContext_tempTag, pushStrongContext_tempTag,
        pushSoftContext_tempTag, pushEmptyContext_tempTag, popLastNamed_tempTag,
        popSoftContext_tempTag, popStrongContext_tempTag, jumpToMatchContext_tempTag,
        addTag_tempTag, requestStrongPoping_tempTag, cleanupPreviousParser_tempTag,
        killCurrentState_tempTag, globalScope_tempTag, ite_self]) <;>
    (try first
      | rfl
      | (split_ifs <;> rfl))

theorem typeDecl_tempTag (ident : vString) (what whatNext : ocaToken) (s : ParserState) :
    (typeDecl ident what whatNext s).tempTag = s.tempTag := by
  cases what <;>
    (try simp only [typeDecl, exportLocalInfo, Bool.false_eq_true, if_false,
      apply_ite ParserState.tempTag, pushContext_tempTag, pushStrongContext_tempTag,
        pushSoftContext_tempTag, pushEmptyContext_tempTag, popLastNamed_tempTag,
        popSoftContext_tempTag, popStrongContext_tempTag, jumpToMatchContext_tempTag,
        addTag_tempTag, requestStrongPoping_tempTag, cleanupPreviousParser_tempTag,
        killCurrentState_tempTag, globalScope_tempTag, ite_self]) <;>
    (try first
      | rfl
      | (split_ifs <;> rfl))

theorem val_tempTag (ident : vString) (what whatNext : ocaToken) (s : ParserState) :
    (val ident what whatNext s).tempTag = s.tempTag := by
  cases what <;>
    (try simp only [val, exportLocalInfo, Bool.false_eq_true, if_false,
      apply_ite ParserState.tempTag, pushContext_tempTag, pushStrongContext_tempTag,
        pushSoftContext_tempTag, pushEmptyContext_tempTag, popLastNamed_tempTag,
        popSoftContext_tempTag, popStrongContext_tempTag, jumpToMatchContext_tempTag,
        addTag_tempTag, requestStrongPoping_tempTag, cleanupPreviousParser_tempTag,
        killCurrentState_tempTag, ite_self]) <;>
    (try first
      | rfl
      | (split_ifs <;> rfl))

theorem letParam_tempTag (ident : vString) (what whatNext : ocaToken) (s : ParserState) :
    (letParam ident what whatNext s).tempTag = s.tempTag := by
  cases what <;>
    (try simp only [letParam, exportLocalInfo, Bool.false_eq_true, if_false,
      apply_ite ParserState.tempTag, pushContext_tempTag, pushStrongContext_tempTag,
        pushSoftContext_tempTag, pushEmptyContext_tempTag, popLastNamed_tempTag,
        popSoftContext_tempTag, popStrongContext_tempTag, jumpToMatchContext_tempTag,
        addTag_tempTag, requestStrongPoping_tempTag, cleanupPreviousParser_tempTag,
        killCurrentState_tempTag, ite_self]) <;>
    (try first
      | rfl
      | (split_ifs <;> rfl))

theorem parseLabel_tempTag (ident : vString) (what whatNext : ocaToken) (s : ParserState) :
    (parseLabel ident what whatNext s).tempTag = s.tempTag := by
  cases what <;>
    (try simp only [parseLabel, exportLocalInfo, Bool.false_eq_true, if_false,
      apply_ite ParserState.tempTag, pushContext_tempTag, pushStrongContext_tempTag,
        pushSoftContext_tempTag, pushEmptyContext_tempTag, popLastNamed_tempTag,
        popSoftContext_tempTag, popStrongContext_tempTag, jumpToMatchContext_tempTag,
        addTag_tempTag, requestStrongPoping_tempTag, cleanupPreviousParser_tempTag,
        killCurrentState_tempTag, letParam_tempTag, ite_self]) <;>
    (try first
      | rfl
      | (split_ifs <;> rfl))

theorem parseOptionnal_tempTag (ident : vString) (what whatNext : ocaToken) (s : ParserState) :
    (parseOptionnal ident what whatNext s).tempTag = s.tempTag := by
  cases what <;>
    (try simp only [parseOptionnal, exportLocalInfo, Bool.false_eq_true, if_false,
      apply_ite ParserState.tempTag, pushContext_tempTag, pushStrongContext_tempTag,
        pushSoftContext_tempTag, pushEmptyContext_tempTag, popLastNamed_tempTag,
        popSoftContext_tempTag, popStrongContext_tempTag, jumpToMatchContext_tempTag,
        addTag_tempTag, requestStrongPoping_tempTag, cleanupPreviousParser_tempTag,
        killCurrentState_tempTag, ite_self]) <;>
    (try first
      | rfl
      | (split_ifs <;> rfl))

theorem localScope_tempTag (ident : vString) (what whatNext : ocaToken) (s : ParserState) :
    (localScope ident what whatNext s).tempTag = s.tempTag := by
  cases what <;>
    (try simp only [localScope, exportLocalInfo, Bool.false_eq_true, if_false,
      apply_ite ParserState.tempTag, pushContext_tempTag, pushStrongContext_tempTag,
        pushSoftContext_tempTag, pushEmptyContext_tempTag, popLastNamed_tempTag,
        popSoftContext_tempTag, popStrongContext_tempTag, jumpToMatchContext_tempTag,
        addTag_tempTag, requestStrongPoping_tempTag, cleanupPreviousParser_tempTag,
        killCurrentState_tempTag, globalScope_tempTag, contextualTillToken_tempTag, ite_self]) <;>
    (try first
      | rfl
      | (split_ifs <;> rfl))

theorem localLet_tempTag (ident : vString) (what whatNext : ocaToken) (s : ParserState) :
    (localLet ident what whatNext s).tempTag = s.tempTag := by
  cases what <;>
    (try simp only [localLet, exportLocalInfo, Bool.false_eq_true, if_false,
      apply_ite ParserState.tempTag, pushContext_tempTag, pushStrongContext_tempTag,
        pushSoftContext_tempTag, pushEmptyContext_tempTag, popLastNamed_tempTag,
        popSoftContext_tempTag, popStrongContext_tempTag, jumpToMatchContext_tempTag,
        addTag_tempTag, requestStrongPoping_tempTag, cleanupPreviousParser_tempTag,
        killCurrentState_tempTag, localScope_tempTag, ite_self]) <;>
    (try first
      | rfl
      | (split_ifs <;> rfl))

theorem matchPattern_tempTag (ident : vString) (what whatNext : ocaToken) (s : ParserState) :
    (matchPattern ident what whatNext s).tempTag = s.tempTag := by
  cases what <;>
    (try simp only [matchPattern, exportLocalInfo, Bool.false_eq_true, if_false,
      apply_ite ParserState.tempTag, pushContext_tempTag, pushStrongContext_tempTag,
        pushSoftContext_tempTag, pushEmptyContext_tempTag, popLastNamed_tempTag,
        popSoftContext_tempTag, popStrongContext_tempTag, jumpToMatchContext_tempTag,
        addTag_tempTag, requestStrongPoping_tempTag, cleanupPreviousParser_tempTag,
        killCurrentState_tempTag, localScope_tempTag, ite_self]) <;>
    (try first
      | rfl
      | (split_ifs <;> rfl))

theorem mayRedeclare_tempTag (ident : vString) (what whatNext : ocaToken) (s : ParserState) :
    (mayRedeclare ident what whatNext s).tempTag = s.tempTag := by
  cases what <;>
    (try simp only [mayRedeclare, exportLocalInfo, Bool.false_eq_true, if_false,
      apply_ite ParserState.tempTag, pushContext_tempTag, pushStrongContext_tempTag,
        pushSoftContext_tempTag, pushEmptyContext_tempTag, popLastNamed_tempTag,
        popSoftContext_tempTag, popStrongContext_tempTag, jumpToMatchContext_tempTag,
        addTag_tempTag, requestStrongPoping_tempTag, cleanupPreviousParser_tempTag,
        killCurrentState_tempTag, globalScope_tempTag, localScope_tempTag, ite_self]) <;>
    (try first
      | rfl
      | (split_ifs <;> rfl))

theorem classSpecif_tempTag (ident : vString) (what whatNext : ocaToken) (s : ParserState) :
    (classSpecif ident what whatNext s).tempTag = s.tempTag := by
  cases what <;>
    (try simp only [classSpecif, exportLocalInfo, Bool.false_eq_true, if_false,
      apply_ite ParserState.tempTag, pushContext_tempTag, pushStrongContext_tempTag,
        pushSoftContext_tempTag, pushEmptyContext_tempTag, popLastNamed_tempTag,
        popSoftContext_tempTag, popStrongContext_tempTag, jumpToMatchContext_tempTag,
        addTag_tempTag, requestStrongPoping_tempTag, cleanupPreviousParser_tempTag,
        killCurrentState_tempTag, ite_self]) <;>
    (try first
      | rfl
      | (split_ifs <;> rfl))

theorem methodDecl_tempTag (ident : vString) (what whatNext : ocaToken) (s : ParserState) :
    (methodDecl ident what whatNext s).tempTag = s.tempTag := by
  cases what <;>
    (try simp only [methodDecl, exportLocalInfo, Bool.false_eq_true, if_false,
      apply_ite ParserState.tempTag, pushContext_tempTag, pushStrongContext_tempTag,
        pushSoftContext_tempTag, pushEmptyContext_tempTag, popLastNamed_tempTag,
        popSoftContext_tempTag, popStrongContext_tempTag, jumpToMatchContext_tempTag,
        addTag_tempTag, requestStrongPoping_tempTag, cleanupPreviousParser_tempTag,
        killCurrentState_tempTag, localScope_tempTag, ite_self]) <;>
    (try first
      | rfl
      | (split_ifs <;> rfl))

theorem moduleSpecif_tempTag (ident : vString) (what whatNext : ocaToken) (s : ParserState) :
    (moduleSpecif ident what whatNext s).tempTag = s.tempTag := by
  cases what <;>
    (try simp only [moduleSpecif, exportLocalInfo, Bool.false_eq_true, if_false,
      apply_ite ParserState.tempTag, pushContext_tempTag, pushStrongContext_tempTag,
        pushSoftContext_tempTag, pushEmptyContext_tempTag, popLastNamed_tempTag,
        popSoftContext_tempTag, popStrongContext_tempTag, jumpToMatchContext_tempTag,
        addTag_tempTag, requestStrongPoping_tempTag, cleanupPreviousParser_tempTag,
        killCurrentState_tempTag, contextualTillToken_tempTag, ite_self]) <;>
    (try first
      | rfl
      | (split_ifs <;> rfl))

theorem moduleDecl_tempTag (ident : vString) (what whatNext : ocaToken) (s : ParserState) :
    (moduleDecl ident what whatNext s).tempTag = s.tempTag := by
  cases what <;>
    (try simp only [moduleDecl, exportLocalInfo, Bool.false_eq_true, if_false,
      apply_ite ParserState.tempTag, pushContext_tempTag, pushStrongContext_tempTag,
        pushSoftContext_tempTag, pushEmptyContext_tempTag, popLastNamed_tempTag,
        popSoftContext_tempTag, popStrongContext_tempTag, jumpToMatchContext_tempTag,
        addTag_tempTag, requestStrongPoping_tempTag, cleanupPreviousParser_tempTag,
        killCurrentState_tempTag, ite_self]) <;>
    (try first
      | rfl
      | (split_ifs <;> rfl))

theorem classDecl_tempTag (ident : vString) (what whatNext : ocaToken) (s : ParserState) :
    (classDecl ident what whatNext s).tempTag = s.tempTag := by
  cases what <;>
    (try simp only [classDecl, exportLocalInfo, Bool.false_eq_true, if_false,
      apply_ite ParserState.tempTag, pushContext_tempTag, pushStrongContext_tempTag,
        pushSoftContext_tempTag, pushEmptyContext_tempTag, popLastNamed_tempTag,
        popSoftContext_tempTag, popStrongContext_tempTag, jumpToMatchContext_tempTag,
        addTag_tempTag, requestStrongPoping_tempTag, cleanupPreviousParser_tempTag,
        killCurrentState_tempTag, ite_self]) <;>
    (try first
      | rfl
      | (split_ifs <;> rfl))

theorem globalLet_tempTag (ident : vString) (what whatNext : ocaToken) (s : ParserState) :
    (globalLet ident what whatNext s).tempTag = s.tempTag := by
  cases what <;>
    (try simp only [globalLet, exportLocalInfo, Bool.false_eq_true, if_false,
      apply_ite ParserState.tempTag, pushContext_tempTag, pushStrongContext_tempTag,
        pushSoftContext_tempTag, pushEmptyContext_tempTag, popLastNamed_tempTag,
        popSoftContext_tempTag, popStrongContext_tempTag, jumpToMatchContext_tempTag,
        addTag_tempTag, requestStrongPoping_tempTag, cleanupPreviousParser_tempTag,
        killCurrentState_tempTag, globalScope_tempTag, ite_self]) <;>
    (try first
      | rfl
      | (split_ifs <;> rfl))

theorem emitTempTag_tempIdent (s : ParserState) : (emitTempTag s).tempIdent = [] := by
  unfold emitTempTag
  split_ifs with h
  · rfl
  · exact List.length_eq_zero.mp (Nat.eq_zero_of_not_pos h)

theorem constructorValidation_tempIdent (ident : vString) (what whatNext : ocaToken)
    (s : ParserState) :
    (constructorValidation ident what whatNext s).tempIdent = s.tempIdent ∨
      (constructorValidation ident what whatNext s).tempIdent = [] := by
  cases what <;>
    simp only [constructorValidation, popStrongContext_tempIdent, globalScope_tempIdent,
      emitTempTag_tempIdent, or_true, true_or]

theorem constructorValidation_tempTag (ident : vString) (what whatNext : ocaToken)
    (s : ParserState) :
    (constructorValidation ident what whatNext s).tempTag = s.tempTag := by
  have he : (emitTempTag s).tempTag = s.tempTag := by
    unfold emitTempTag
    split_ifs <;> rfl
  cases what <;>
    simp only [constructorValidation, popStrongContext_tempTag, globalScope_tempTag, he]

theorem typeSpecification_staged (ident : vString) (what whatNext : ocaToken)
    (s : ParserState) (h : StagedIsConstructor s) :
    StagedIsConstructor (typeSpecification ident what whatNext s) := by
  cases what <;> try exact h
  unfold StagedIsConstructor typeSpecification
  by_cases hu : isUpperAlpha (vStringChar0 ident) = true
  · cases he : s.kindEnabled ocamlKind.K_CONSTRUCTOR
    · simp [hu, he]
    · simp [hu, he, prepareTag_kindIndex]
  · simp only [hu]
    exact h

theorem callToDoNext_staged (ident : vString) (what whatNext : ocaToken) (s : ParserState)
    (h : StagedIsConstructor s) :
    StagedIsConstructor (callToDoNext ident what whatNext s) := by
  unfold callToDoNext
  cases s.toDoNext
  case null => exact h
  case typeSpecification => exact typeSpecification_staged ident what whatNext s h
  case constructorValidation =>
    intro hne
    rw [constructorValidation_tempTag]
    rcases constructorValidation_tempIdent ident what whatNext s with h1 | h1
    · exact h (h1 ▸ hne)
    · exact absurd h1 hne
  all_goals
    intro hne
    simp only [globalScope_tempIdent, tillToken_tempIdent, contextualTillToken_tempIdent,
      tillTokenOrFallback_tempIdent, tillTokenOrTerminatingOrFallback_tempIdent,
      ignoreToken_tempIdent, typeRecord_tempIdent, exceptionDecl_tempIdent, typeDecl_tempIdent,
      val_tempIdent, parseLabel_tempIdent, parseOptionnal_tempIdent, localLet_tempIdent,
      matchPattern_tempIdent, mayRedeclare_tempIdent, letParam_tempIdent,
      classSpecif_tempIdent, methodDecl_tempIdent, moduleSpecif_tempIdent,
      moduleDecl_tempIdent, classDecl_tempIdent, globalLet_tempIdent,
      localScope_tempIdent] at hne
    simp only [globalScope_tempTag, tillToken_tempTag, contextualTillToken_tempTag,
      tillTokenOrFallback_tempTag, tillTokenOrTerminatingOrFallback_tempTag,
      ignoreToken_tempTag, typeRecord_tempTag, exceptionDecl_tempTag, typeDecl_tempTag,
      val_tempTag, parseLabel_tempTag, parseOptionnal_tempTag, localLet_tempTag,
      matchPattern_tempTag, mayRedeclare_tempTag, letParam_tempTag,
      classSpecif_tempTag, methodDecl_tempTag, moduleSpecif_tempTag,
      moduleDecl_tempTag, classDecl_tempTag, globalLet_tempTag,
      localScope_tempTag]
    exact h hne

theorem runTokensThen_view (k : ocamlKind) (t0 : tagEntryInfo)
    (toks : List (vString × ocaToken)) (last : ocaToken) :
    ∀ s : ParserState, StagedIsConstructor s →
      runTokensThen toks last (disabledView k t0 s)
        = disabledView k t0 (runTokensThen toks last s) := by
  induction toks with
  | nil => intro s _; rfl
  | cons a rest ih =>
    intro s h
    obtain ⟨ident, what⟩ := a
    cases rest with
    | nil =>
      simp only [runTokensThen]
      exact callToDoNext_view k t0 ident what last s h
    | cons b q =>
      obtain ⟨bi, bt⟩ := b
      simp only [runTokensThen]
      rw [callToDoNext_view k t0 ident what bt s h]
      exact ih _ (callToDoNext_staged ident what bt s h)

theorem disabledView_start (k : ocamlKind) (s : ParserState) (hstaged : s.tempIdent = [])
    (htags : s.tags = []) :
    disableKind k s = disabledView k s.tempTag s := by
  simp [disableKind, disabledView, hstaged, htags]

/-- C23. Kind enablement.  Take any state `s` of the automaton in which no
constructor is staged and the sink is empty (the state a run starts in), any
kind `k`, and any token sequence `toks` followed by a token of kind `last`.
The run from `s` with `k` disabled and the run from `s` itself end with the
same next handler, the same `stackIndex` and the same stack frames, as well as
the same continuation, awaited tokens, `previousParser` and `needStrongPoping`;
and the tags of the first run are the tags of the second one without those of
kind `k`, in the same order.  As `toks` and `last` are arbitrary, this holds
after every token.  With every kind enabled in `s`, the first run is the run
with exactly `k` disabled. -/
theorem kind_disabled_only_drops_its_tags (k : ocamlKind)
    (toks : List (vString × ocaToken)) (last : ocaToken) (s : ParserState)
    (hstaged : s.tempIdent = []) (htags : s.tags = []) :
    (runTokensThen toks last (disableKind k s)).toDoNext = (runTokensThen toks last s).toDoNext ∧
    (runTokensThen toks last (disableKind k s)).stackIndex = (runTokensThen toks last
      s).stackIndex ∧
    (runTokensThen toks last (disableKind k s)).stack = (runTokensThen toks last s).stack ∧
    (runTokensThen toks last (disableKind k s)).tags =
        (runTokensThen toks last s).tags.filter (fun t => decide (t.kindIndex ≠ k)) ∧
    (runTokensThen toks last (disableKind k s)).comeAfter = (runTokensThen toks last s).comeAfter ∧
    (runTokensThen toks last (disableKind k s)).waitedToken = (runTokensThen toks last
      s).waitedToken ∧
    (runTokensThen toks last (disableKind k s)).terminatingToken = (runTokensThen toks last
      s).terminatingToken ∧
    (runTokensThen toks last (disableKind k s)).previousParser = (runTokensThen toks last
      s).previousParser ∧
    (runTokensThen toks last (disableKind k s)).needStrongPoping = (runTokensThen toks last
      s).needStrongPoping := by
  have hs : StagedIsConstructor s := fun hne => absurd hstaged hne
  rw [disabledView_start k s hstaged htags, runTokensThen_view k s.tempTag toks last s hs]
  exact ⟨rfl, rfl, rfl, rfl, rfl, rfl, rfl, rfl, rfl⟩

open ocamlKeyword ocamlKind in
theorem kind_disabled_only_drops_its_tags_witness :
    (initialState OcamlKinds).tempIdent = [] ∧ (initialState OcamlKinds).tags = [] ∧
    (runTokensThen (moduleExampleTokens ['M'] ['f'] ['x']) Tok_EOF (disableKind K_FUNCTION
      (initialState OcamlKinds))).toDoNext = (runTokensThen (moduleExampleTokens ['M'] ['f']
      ['x']) Tok_EOF (initialState OcamlKinds)).toDoNext ∧
    (runTokensThen (moduleExampleTokens ['M'] ['f'] ['x']) Tok_EOF (disableKind K_FUNCTION
      (initialState OcamlKinds))).stackIndex = (runTokensThen (moduleExampleTokens ['M'] ['f']
      ['x']) Tok_EOF (initialState OcamlKinds)).stackIndex ∧
    (runTokensThen (moduleExampleTokens ['M'] ['f'] ['x']) Tok_EOF (disableKind K_FUNCTION
      (initialState OcamlKinds))).stack = (runTokensThen (moduleExampleTokens ['M'] ['f'] ['x'])
      Tok_EOF (initialState OcamlKinds)).stack ∧
    (runTokensThen (moduleExampleTokens ['M'] ['f'] ['x']) Tok_EOF (disableKind K_FUNCTION
      (initialState OcamlKinds))).tags =
        (runTokensThen (moduleExampleTokens ['M'] ['f'] ['x']) Tok_EOF (initialState
          OcamlKinds)).tags.filter (fun t => decide (t.kindIndex ≠ K_FUNCTION)) ∧
    (runTokensThen (moduleExampleTokens ['M'] ['f'] ['x']) Tok_EOF (disableKind K_FUNCTION
      (initialState OcamlKinds))).comeAfter = (runTokensThen (moduleExampleTokens ['M'] ['f']
      ['x']) Tok_EOF (initialState OcamlKinds)).comeAfter ∧
    (runTokensThen (moduleExampleTokens ['M'] ['f'] ['x']) Tok_EOF (disableKind K_FUNCTION
      (initialState OcamlKinds))).waitedToken = (runTokensThen (moduleExampleTokens ['M'] ['f']
      ['x']) Tok_EOF (initialState OcamlKinds)).waitedToken ∧
    (runTokensThen (moduleExampleTokens ['M'] ['f'] ['x']) Tok_EOF (disableKind K_FUNCTION
      (initialState OcamlKinds))).terminatingToken = (runTokensThen (moduleExampleTokens ['M']
      ['f'] ['x']) Tok_EOF (initialState OcamlKinds)).terminatingToken ∧
    (runTokensThen (moduleExampleTokens ['M'] ['f'] ['x']) Tok_EOF (disableKind K_FUNCTION
      (initialState OcamlKinds))).previousParser = (runTokensThen (moduleExampleTokens ['M'] ['f']
      ['x']) Tok_EOF (initialState OcamlKinds)).previousParser ∧
    (runTokensThen (moduleExampleTokens ['M'] ['f'] ['x']) Tok_EOF (disableKind K_FUNCTION
      (initialState OcamlKinds))).needStrongPoping = (runTokensThen (moduleExampleTokens ['M']
      ['f'] ['x']) Tok_EOF (initialState OcamlKinds)).needStrongPoping :=
  ⟨rfl, rfl,
    kind_disabled_only_drops_its_tags K_FUNCTION (moduleExampleTokens ['M'] ['f'] ['x'])
      Tok_EOF (initialState OcamlKinds) rfl rfl⟩

/-! ## The lookahead of the main loop -/

theorem findOcamlTags_eq_loopStart (fuel : Nat) (filename : List Char)
    (lines : List (List Char)) (s : ParserState) :
    findOcamlTags fuel filename lines s
      = (loopStart fuel filename lines s).bind (mainLoop fuel fuel) := by
  unfold findOcamlTags loopStart
  simp only
  rcases lex fuel (readLineFromInputFile { lines := lines, lineNumber := 0 }).2
      { name := [], cp := (readLineFromInputFile { lines := lines, lineNumber := 0 }).1 }
    with _ | ⟨tok, nextSt, rd⟩
  · rfl
  · simp only
    rcases lex fuel rd nextSt with _ | ⟨nextTok, nextSt2, rd2⟩
    · rfl
    · rfl

theorem mainLoopCalls_any_state (lexFuel : Nat) :
    ∀ (fuel : Nat) (l : LoopState) (p : ParserState),
      mainLoopCalls lexFuel fuel { l with parser := p } = mainLoopCalls lexFuel fuel l := by
  intro fuel
  induction fuel with
  | zero => intro l p; rfl
  | succ fuel ih =>
    intro l p
    unfold mainLoopCalls
    by_cases h1 : l.tok = ocamlKeyword.Tok_EOF
    · simp [h1]
    · simp only [h1, if_false]
      by_cases h2 : l.nextTok = ocamlKeyword.Tok_EOF
      · simp [h2]
      · simp only [h2, ne_eq, not_false_eq_true, if_true]
        rcases lex lexFuel l.rd l.nextSt with _ | ⟨t, nst, rd⟩
        · rfl
        · simp only
          exact congrArg _ (ih ⟨l.parser, l.nextSt.name, nst, rd, l.nextTok, t⟩ p)

theorem mainLoop_eq_makeCalls (lexFuel : Nat) :
    ∀ (fuel : Nat) (l : LoopState),
      mainLoop lexFuel fuel l
        = (mainLoopCalls lexFuel fuel l).map fun cs => makeCalls cs l.parser := by
  intro fuel
  induction fuel with
  | zero => intro l; rfl
  | succ fuel ih =>
    intro l
    unfold mainLoop mainLoopCalls
    by_cases h1 : l.tok = ocamlKeyword.Tok_EOF
    · simp [h1, makeCalls]
    · simp only [h1, if_false]
      by_cases h2 : l.nextTok = ocamlKeyword.Tok_EOF
      · simp [h2, makeCalls, makeCall]
      · simp only [h2, ne_eq, not_false_eq_true, if_true]
        rcases lex lexFuel l.rd l.nextSt with _ | ⟨t, nst, rd⟩
        · rfl
        · simp only [ih, Option.map_map]
          have e := mainLoopCalls_any_state lexFuel fuel
            ⟨l.parser, l.nextSt.name, nst, rd, l.nextTok, t⟩
            { callToDoNext l.stName l.tok l.nextTok l.parser with
              ocaLineNumber := l.rd.lineNumber }
          simp only at e
          rw [e]
          rfl

theorem lexCalls_succ (lexFuel fuel : Nat) (rd : Reader) (st : lexingState)
    (tok : ocaToken) (st1 : lexingState) (rd1 : Reader)
    (h : lex lexFuel rd st = some (tok, st1, rd1)) :
    lexCalls lexFuel (fuel + 1) rd st =
      if tok = ocamlKeyword.Tok_EOF then some []
      else (lexCalls lexFuel fuel rd1 st1).map fun rest => (tok, st1) :: rest := by
  simp only [lexCalls, h]

theorem mainLoopCalls_pairing (lexFuel : Nat) :
    ∀ (fuel : Nat) (l : LoopState) (toks : List (ocaToken × lexingState))
      (stCur : lexingState),
      l.tok ≠ ocamlKeyword.Tok_EOF → stCur.name = l.stName →
      (if l.nextTok = ocamlKeyword.Tok_EOF then some []
        else (lexCalls lexFuel fuel l.rd l.nextSt).map
          fun rest => (l.nextTok, l.nextSt) :: rest) = some toks →
      ∀ g, fuel < g →
        ∃ cs, mainLoopCalls lexFuel g l = some cs ∧
          cs.map (fun c => (c.ident, c.what, c.whatNext))
            = pairWithNext ((l.tok, stCur) :: toks) := by
  intro fuel
  induction fuel with
  | zero =>
    intro l toks stCur htok hname htail g hg
    obtain ⟨g, rfl⟩ : ∃ g1, g = g1 + 1 := ⟨g - 1, by omega⟩
    unfold mainLoopCalls
    by_cases h2 : l.nextTok = ocamlKeyword.Tok_EOF
    · simp only [h2, if_true, Option.some.injEq] at htail
      subst htail
      simp [htok, h2, pairWithNext, hname]
    · simp [h2, lexCalls] at htail
  | succ fuel ih =>
    intro l toks stCur htok hname htail g hg
    obtain ⟨g, rfl⟩ : ∃ g1, g = g1 + 1 := ⟨g - 1, by omega⟩
    unfold mainLoopCalls
    by_cases h2 : l.nextTok = ocamlKeyword.Tok_EOF
    · simp only [h2, if_true, Option.some.injEq] at htail
      subst htail
      simp [htok, h2, pairWithNext, hname]
    · simp only [h2, if_false] at htail
      rcases hlex : lex lexFuel l.rd l.nextSt with _ | ⟨t, nst, rd1⟩
      · simp [lexCalls, hlex] at htail
      · rw [lexCalls_succ lexFuel fuel l.rd l.nextSt t nst rd1 hlex] at htail
        simp only [htok, if_false, h2, ne_eq, not_false_eq_true, if_true]
        rcases hrest : (if t = ocamlKeyword.Tok_EOF then some []
            else (lexCalls lexFuel fuel rd1 nst).map fun rest => (t, nst) :: rest)
          with _ | rest
        · rw [hrest] at htail
          simp at htail
        · rw [hrest] at htail
          simp only [Option.map_some', Option.some.injEq] at htail
          subst htail
          obtain ⟨cs, hcs, hmap⟩ :=
            ih ⟨l.parser, l.nextSt.name, nst, rd1, l.nextTok, t⟩ rest l.nextSt h2 rfl hrest g
              (by omega)
          refine ⟨_ :: cs, by rw [hcs]; rfl, ?_⟩
          simp only [List.map_cons, hmap, pairWithNext, hname]

/-! ### What a call of `lex` does -/

theorem eatWhiteSpace_suffix (c : List Char) : List.IsSuffix (eatWhiteSpace c) c := by
  induction c with
  | nil => exact List.suffix_refl _
  | cons ch c ih =>
    unfold eatWhiteSpace
    split_ifs
    · exact ih.trans (List.suffix_cons ch c)
    · exact List.suffix_refl _

theorem eatNumber_suffix (c : List Char) : List.IsSuffix (eatNumber c) c := by
  induction c with
  | nil => exact List.suffix_refl _
  | cons ch c ih =>
    unfold eatNumber
    split_ifs
    · exact ih.trans (List.suffix_cons ch c)
    · exact List.suffix_refl _

theorem eatStringLoop_suffix (c : List Char) :
    ∀ b : Bool, List.IsSuffix (eatStringLoop c b) c := by
  induction c with
  | nil => intro b; exact List.suffix_refl _
  | cons ch c ih =>
    intro b
    unfold eatStringLoop
    split_ifs
    · exact List.suffix_refl _
    · exact List.suffix_cons ch c
    · exact (ih _).trans (List.suffix_cons ch c)

theorem eatString_suffix (c : List Char) : List.IsSuffix (eatString c) c :=
  (eatStringLoop_suffix c.tail false).trans (List.tail_suffix c)

theorem readIdentifier_suffix (c : List Char) : List.IsSuffix (readIdentifier c).2 c := by
  unfold readIdentifier
  rw [readIdentifierLoop_eq]
  exact (List.dropWhile_suffix _).trans (List.tail_suffix c)

theorem readIdentifier_letter (c : List Char) (h : isAlpha (cur c) = true) :
    readIdentifier c = (c.takeWhile isIdent, c.dropWhile isIdent) := by
  cases c with
  | nil => exact absurd h (by decide)
  | cons ch tl =>
    have hch : isAlpha ch = true := by simpa [cur] using h
    have hid : isIdent ch = true := isIdent_of_isAlpha ch hch
    simp [readIdentifier, readIdentifierLoop_eq, cur, hch, hid, List.takeWhile_cons,
      List.dropWhile_cons]

theorem eatOperator_run (c : List Char) :
    (eatOperator c).2 = (c.takeWhile isOperator, c.dropWhile isOperator) := by
  simp [eatOperator, eatOperatorLoop_eq]

open ocamlKeyword in
theorem lex_cases (fuel : Nat) (rd : Reader) (st : lexingState) (tok : ocaToken)
    (st1 : lexingState) (rd1 : Reader)
    (h : lex (fuel + 1) rd st = some (tok, st1, rd1)) :
    ((lexHead rd st.cp).1 = none ∧ tok = Tok_EOF) ∨
    ∃ cp rd0, lexHead rd st.cp = (some cp, rd0) ∧
      ((isAlpha (cur cp) = true ∧
          st1 = { name := (readIdentifier cp).1, cp := some (readIdentifier cp).2 } ∧
          rd1 = rd0) ∨
       (isAlpha (cur cp) = false ∧ isOperator (cur cp) = true ∧
          st1 = { name := (eatOperator cp).2.1, cp := some (eatOperator cp).2.2 } ∧
          rd1 = rd0) ∨
       lex fuel rd0 { st with cp := some (eatWhiteSpace cp) } = some (tok, st1, rd1) ∨
       (∃ cp2 rd2, eatComment fuel rd0 cp = some (cp2, rd2) ∧
          lex fuel rd2 { st with cp := cp2 } = some (tok, st1, rd1)) ∨
       (carriesLexeme tok = false ∧ rd1 = rd0 ∧
          ∃ c1, st1.cp = some c1 ∧ List.IsSuffix c1 cp)) := by
  unfold lex at h
  rcases hh : lexHead rd st.cp with ⟨_ | cp, rd0⟩
  · rw [hh] at h
    simp only [Option.some.injEq, Prod.mk.injEq] at h
    exact Or.inl ⟨rfl, h.1.symm⟩
  · rw [hh] at h
    simp only at h
    refine Or.inr ⟨cp, rd0, rfl, ?_⟩
    by_cases ha : isAlpha (cur cp) = true
    · simp only [ha, if_true] at h
      left
      cases hlk : lookupKeyword (readIdentifier cp).1 <;> rw [hlk] at h <;>
        simp only [Option.some.injEq, Prod.mk.injEq] at h <;>
        exact ⟨ha, h.2.1.symm, h.2.2.symm⟩
    · simp only [ha, Bool.false_eq_true, if_false] at h
      have ha0 : isAlpha (cur cp) = false := by simpa using ha
      by_cases hn : isNum (cur cp) = true
      · simp only [hn, if_true] at h
        try simp only [Option.some.injEq, Prod.mk.injEq] at h
        obtain ⟨rfl, rfl, rfl⟩ := h
        exact Or.inr (Or.inr (Or.inr (Or.inr ⟨rfl, rfl, _, rfl, eatNumber_suffix cp⟩)))
      · simp only [hn, Bool.false_eq_true, if_false] at h
        by_cases hs : isSpace (cur cp) = true
        · simp only [hs, if_true] at h
          exact Or.inr (Or.inr (Or.inl h))
        · simp only [hs, Bool.false_eq_true, if_false] at h
          by_cases hu : (cur cp == '_') = true
          · simp only [hu, if_true] at h
            try simp only [Option.some.injEq, Prod.mk.injEq] at h
            obtain ⟨rfl, rfl, rfl⟩ := h
            exact Or.inr (Or.inr (Or.inr (Or.inr
              ⟨rfl, rfl, _, rfl, readIdentifier_suffix cp⟩)))
          · simp only [hu, Bool.false_eq_true, if_false] at h
            by_cases ho : isOperator (cur cp) = true
            · simp only [ho, if_true] at h
              try simp only [Option.some.injEq, Prod.mk.injEq] at h
              exact Or.inr (Or.inl ⟨ha0, ho, h.2.1.symm, h.2.2.symm⟩)
            · simp only [ho, Bool.false_eq_true, if_false] at h
              by_cases hp : (cur cp == '(') = true
              · simp only [hp, if_true] at h
                by_cases hstar : (cur cp.tail == '*') = true
                · simp only [hstar, if_true] at h
                  rcases hc : eatComment fuel rd0 cp with _ | ⟨cp2, rd2⟩
                  · rw [hc] at h
                    exact absurd h (by simp)
                  · rw [hc] at h
                    exact Or.inr (Or.inr (Or.inr (Or.inl ⟨cp2, rd2, rfl, h⟩)))
                · simp only [hstar, Bool.false_eq_true, if_false] at h
                  try simp only [Option.some.injEq, Prod.mk.injEq] at h
                  obtain ⟨rfl, rfl, rfl⟩ := h
                  exact Or.inr (Or.inr (Or.inr (Or.inr
                    ⟨rfl, rfl, _, rfl, List.tail_suffix cp⟩)))
              · simp only [hp, Bool.false_eq_true, if_false] at h
                by_cases hc0 : (cur cp == ')') = true
                · simp only [hc0, if_true] at h
                  try simp only [Option.some.injEq, Prod.mk.injEq] at h
                  obtain ⟨rfl, rfl, rfl⟩ := h
                  exact Or.inr (Or.inr (Or.inr (Or.inr ⟨rfl, rfl, _, rfl, List.tail_suffix cp⟩)))
                · simp only [hc0, Bool.false_eq_true, if_false] at h
                  by_cases hc1 : (cur cp == '[') = true
                  · simp only [hc1, if_true] at h
                    try simp only [Option.some.injEq, Prod.mk.injEq] at h
                    obtain ⟨rfl, rfl, rfl⟩ := h
                    exact Or.inr (Or.inr (Or.inr (Or.inr ⟨rfl, rfl, _, rfl, List.tail_suffix cp⟩)))
                  · simp only [hc1, Bool.false_eq_true, if_false] at h
                    by_cases hc2 : (cur cp == ']') = true
                    · simp only [hc2, if_true] at h
                      try simp only [Option.some.injEq, Prod.mk.injEq] at h
                      obtain ⟨rfl, rfl, rfl⟩ := h
                      exact Or.inr (Or.inr (Or.inr (Or.inr ⟨rfl, rfl, _, rfl, List.tail_suffix cp⟩)))
                    · simp only [hc2, Bool.false_eq_true, if_false] at h
                      by_cases hc3 : (cur cp == chCurlL) = true
                      · simp only [hc3, if_true] at h
                        try simp only [Option.some.injEq, Prod.mk.injEq] at h
                        obtain ⟨rfl, rfl, rfl⟩ := h
                        exact Or.inr (Or.inr (Or.inr (Or.inr ⟨rfl, rfl, _, rfl, List.tail_suffix cp⟩)))
                      · simp only [hc3, Bool.false_eq_true, if_false] at h
                        by_cases hc4 : (cur cp == chCurlR) = true
                        · simp only [hc4, if_true] at h
                          try simp only [Option.some.injEq, Prod.mk.injEq] at h
                          obtain ⟨rfl, rfl, rfl⟩ := h
                          exact Or.inr (Or.inr (Or.inr (Or.inr ⟨rfl, rfl, _, rfl, List.tail_suffix cp⟩)))
                        · simp only [hc4, Bool.false_eq_true, if_false] at h
                          by_cases hc5 : (cur cp == chPrime) = true
                          · simp only [hc5, if_true] at h
                            try simp only [Option.some.injEq, Prod.mk.injEq] at h
                            obtain ⟨rfl, rfl, rfl⟩ := h
                            exact Or.inr (Or.inr (Or.inr (Or.inr ⟨rfl, rfl, _, rfl, List.tail_suffix cp⟩)))
                          · simp only [hc5, Bool.false_eq_true, if_false] at h
                            by_cases hc6 : (cur cp == ',') = true
                            · simp only [hc6, if_true] at h
                              try simp only [Option.some.injEq, Prod.mk.injEq] at h
                              obtain ⟨rfl, rfl, rfl⟩ := h
                              exact Or.inr (Or.inr (Or.inr (Or.inr ⟨rfl, rfl, _, rfl, List.tail_suffix cp⟩)))
                            · simp only [hc6, Bool.false_eq_true, if_false] at h
                              by_cases hc7 : (cur cp == '=') = true
                              · have e : cur cp = '=' := by simpa using hc7
                                exact absurd (by rw [e]; decide : isOperator (cur cp) = true) ho
                              · simp only [hc7, Bool.false_eq_true, if_false] at h
                                by_cases hc8 : (cur cp == ';') = true
                                · simp only [hc8, if_true] at h
                                  try simp only [Option.some.injEq, Prod.mk.injEq] at h
                                  obtain ⟨rfl, rfl, rfl⟩ := h
                                  exact Or.inr (Or.inr (Or.inr (Or.inr ⟨rfl, rfl, _, rfl, List.tail_suffix cp⟩)))
                                · simp only [hc8, Bool.false_eq_true, if_false] at h
                                  by_cases hc9 : (cur cp == chDQuote) = true
                                  · simp only [hc9, if_true] at h
                                    try simp only [Option.some.injEq, Prod.mk.injEq] at h
                                    obtain ⟨rfl, rfl, rfl⟩ := h
                                    exact Or.inr (Or.inr (Or.inr (Or.inr ⟨rfl, rfl, _, rfl, eatString_suffix cp⟩)))
                                  · simp only [hc9, Bool.false_eq_true, if_false] at h
                                    by_cases hc10 : (cur cp == '#') = true
                                    · simp only [hc10, if_true] at h
                                      try simp only [Option.some.injEq, Prod.mk.injEq] at h
                                      obtain ⟨rfl, rfl, rfl⟩ := h
                                      exact Or.inr (Or.inr (Or.inr (Or.inr ⟨rfl, rfl, _, rfl, List.tail_suffix cp⟩)))
                                    · simp only [hc10, Bool.false_eq_true, if_false] at h
                                      by_cases hc11 : (cur cp == chBackslash) = true
                                      · simp only [hc11, if_true] at h
                                        try simp only [Option.some.injEq, Prod.mk.injEq] at h
                                        obtain ⟨rfl, rfl, rfl⟩ := h
                                        exact Or.inr (Or.inr (Or.inr (Or.inr ⟨rfl, rfl, _, rfl, List.tail_suffix cp⟩)))
                                      · simp only [hc11, Bool.false_eq_true, if_false] at h
                                        try simp only [Option.some.injEq, Prod.mk.injEq] at h
                                        obtain ⟨rfl, rfl, rfl⟩ := h
                                        exact Or.inr (Or.inr (Or.inr (Or.inr ⟨rfl, rfl, _, rfl, List.tail_suffix cp⟩)))

/-! ### The text `lex` reads lies in the input -/

theorem InInput_shrink (rd rd1 : Reader) (cp cp1 : Option (List Char))
    (hcp : ∀ c1, cp1 = some c1 → InInput rd cp c1)
    (hl : ∀ l ∈ rd1.lines, l ∈ rd.lines) :
    ∀ x, InInput rd1 cp1 x → InInput rd cp x := by
  intro x hx
  rcases hx with ⟨c0, h0, hs⟩ | ⟨l, hmem, hs⟩
  · rcases hcp c0 h0 with ⟨c2, h2, hs2⟩ | ⟨l, hmem, hs2⟩
    · exact Or.inl ⟨c2, h2, hs.trans hs2⟩
    · exact Or.inr ⟨l, hmem, hs.trans hs2⟩
  · exact Or.inr ⟨l, hl l hmem, hs⟩

theorem InInput_suffix (rd : Reader) (c c1 : List Char) (h : List.IsSuffix c1 c) :
    ∀ x, InInput rd (some c1) x → InInput rd (some c) x :=
  InInput_shrink rd rd (some c) (some c1)
    (fun c2 h2 => Or.inl ⟨c, rfl, by cases h2; exact h⟩) (fun _ hl => hl)

theorem lexLoadLine_input (lines : List (List Char)) (b : Bool) :
    ∀ n : Nat, (∀ c, (lexLoadLine lines n b).1 = some c → c ∈ lines) ∧
      (∀ l ∈ (lexLoadLine lines n b).2.lines, l ∈ lines) := by
  induction lines with
  | nil => intro n; simp [lexLoadLine]
  | cons l rest ih =>
    intro n
    unfold lexLoadLine
    split_ifs
    · obtain ⟨h1, h2⟩ := ih (n + 1)
      exact ⟨fun c hc => List.mem_cons_of_mem _ (h1 c hc),
        fun x hx => List.mem_cons_of_mem _ (h2 x hx)⟩
    · refine ⟨fun c hc => ?_, fun x hx => List.mem_cons_of_mem _ hx⟩
      have : l = c := by simpa using hc
      simp [this]

theorem lexHead_input (rd rd0 : Reader) (cp : Option (List Char)) (c : List Char)
    (h : lexHead rd cp = (some c, rd0)) :
    ∀ x, InInput rd0 (some c) x → InInput rd cp x := by
  obtain ⟨h1, h2⟩ := lexLoadLine_input rd.lines rd.pastEnd rd.lineNumber
  have hload : lexLoadLine rd.lines rd.lineNumber rd.pastEnd = (some c, rd0) →
      ∀ x, InInput rd0 (some c) x → InInput rd cp x := by
    intro e
    rw [e] at h1 h2
    exact InInput_shrink rd rd0 cp (some c)
      (fun c1 hc1 => Or.inr ⟨c1, h1 c1 hc1, List.suffix_refl _⟩) h2
  cases cp with
  | none => exact hload h
  | some c0 =>
    simp only [lexHead] at h
    split_ifs at h
    · exact hload h
    · simp only [Prod.mk.injEq, Option.some.injEq] at h
      obtain ⟨rfl, rfl⟩ := h
      exact fun x hx => hx

theorem eatCommentLoop_input (fuel : Nat) :
    ∀ (rd : Reader) (c : List Char) (b : Bool) (cp2 : Option (List Char)) (rd2 : Reader),
      eatCommentLoop fuel rd c b = some (cp2, rd2) →
      ∀ x, InInput rd2 cp2 x → InInput rd (some c) x := by
  induction fuel with
  | zero => intro rd c b cp2 rd2 h; simp [eatCommentLoop] at h
  | succ fuel ih =>
    intro rd c b cp2 rd2 h
    unfold eatCommentLoop at h
    by_cases hnul : (cur c == chNUL) = true
    · simp only [hnul, if_true] at h
      cases hl : rd.lines with
      | nil =>
        simp only [readLineFromInputFile, hl, Option.some.injEq, Prod.mk.injEq] at h
        obtain ⟨rfl, rfl⟩ := h
        exact InInput_shrink rd rd (some c) none (fun c1 hc1 => by simp at hc1)
          (fun _ hx => hx)
      | cons l rest =>
        simp only [readLineFromInputFile, hl] at h
        have h3 := ih _ l b cp2 rd2 h
        intro x hx
        refine InInput_shrink rd { lines := rest, lineNumber := rd.lineNumber + 1 } (some c)
          (some l) (fun c1 hc1 => Or.inr ⟨l, by simp [hl], by cases hc1; exact List.suffix_refl _⟩)
          (fun y hy => by rw [hl]; exact List.mem_cons_of_mem _ hy) x (h3 x hx)
    · have hnul2 : (cur c == chNUL) = false := by simpa using hnul
      simp only [hnul2, Bool.false_eq_true, if_false] at h
      split_ifs at h with h1 h2 h3
      · simp only [Option.some.injEq, Prod.mk.injEq] at h
        obtain ⟨rfl, rfl⟩ := h
        exact InInput_suffix rd c c.tail (List.tail_suffix c)
      · rcases hin : eatCommentLoop fuel rd c.tail.tail false with _ | ⟨_ | c1, rd1⟩
        · rw [hin] at h
          simp at h
        · rw [hin] at h
          simp only [Option.some.injEq, Prod.mk.injEq] at h
          obtain ⟨rfl, rfl⟩ := h
          intro x hx
          exact InInput_suffix rd c c.tail.tail
            ((List.tail_suffix _).trans (List.tail_suffix c)) x
            (ih rd c.tail.tail false none rd1 hin x hx)
        · rw [hin] at h
          simp only at h
          intro x hx
          have a1 : InInput rd1 (some c1.tail) x :=
            ih { rd1 with pastEnd := rd1.pastEnd || cur c1 == chNUL } c1.tail false cp2 rd2
              h x hx
          have a2 := InInput_suffix rd1 c1 c1.tail (List.tail_suffix c1) x a1
          have a3 := ih rd c.tail.tail false (some c1) rd1 hin x a2
          exact InInput_suffix rd c c.tail.tail
            ((List.tail_suffix _).trans (List.tail_suffix c)) x a3
      · intro x hx
        exact InInput_suffix rd c (eatString c) (eatString_suffix c) x
          (ih rd (eatString c) b cp2 rd2 h x hx)
      · intro x hx
        exact InInput_suffix rd c c.tail (List.tail_suffix c) x
          (ih rd c.tail _ cp2 rd2 h x hx)

theorem lex_input (fuel : Nat) :
    ∀ (rd : Reader) (st : lexingState) (tok : ocaToken) (st1 : lexingState) (rd1 : Reader),
      lex fuel rd st = some (tok, st1, rd1) →
      ∀ x, InInput rd1 st1.cp x → InInput rd st.cp x := by
  induction fuel with
  | zero => intro rd st tok st1 rd1 h; simp [lex] at h
  | succ fuel ih =>
    intro rd st tok st1 rd1 h
    have hc := lex_cases fuel rd st tok st1 rd1 h
    rcases hc with ⟨hnone, _⟩ | ⟨cp, rd0, hh, hc⟩
    · unfold lex at h
      rcases hh : lexHead rd st.cp with ⟨_ | cp, rd0⟩
      · rw [hh] at h
        simp only [Option.some.injEq, Prod.mk.injEq] at h
        obtain ⟨_, rfl, rfl⟩ := h
        obtain ⟨_, h2⟩ := lexLoadLine_input rd.lines rd.pastEnd rd.lineNumber
        have hl : ∀ l ∈ rd0.lines, l ∈ rd.lines := by
          cases hcp : st.cp with
          | none =>
            rw [hcp] at hh
            simp only [lexHead] at hh
            rw [hh] at h2
            exact h2
          | some c0 =>
            rw [hcp] at hh
            simp only [lexHead] at hh
            split_ifs at hh
            · rw [hh] at h2
              exact h2
            · simp at hh
        exact InInput_shrink rd rd0 st.cp none (fun c1 hc1 => by simp at hc1) hl
      · rw [hh] at hnone
        simp at hnone
    · have hhead := lexHead_input rd rd0 st.cp cp hh
      rcases hc with ⟨_, rfl, rfl⟩ | ⟨_, _, rfl, rfl⟩ | hrec | ⟨cp2, rd2, hcom, hrec⟩ |
        ⟨_, rfl, c1, hc1, hsuf⟩
      · intro x hx
        exact hhead x (InInput_suffix rd1 cp _ (readIdentifier_suffix cp) x hx)
      · intro x hx
        refine hhead x (InInput_suffix rd1 cp _ ?_ x hx)
        rw [eatOperator_run]
        exact List.dropWhile_suffix _
      · intro x hx
        exact hhead x (InInput_suffix rd0 cp _ (eatWhiteSpace_suffix cp) x
          (ih rd0 _ tok st1 rd1 hrec x hx))
      · intro x hx
        have a1 := ih rd2 _ tok st1 rd1 hrec x hx
        have a2 := eatCommentLoop_input fuel rd0 cp.tail.tail false cp2 rd2 hcom x a1
        exact hhead x (InInput_suffix rd0 cp _
          ((List.tail_suffix _).trans (List.tail_suffix cp)) x a2)
      · intro x hx
        rw [hc1] at hx
        exact hhead x (InInput_suffix rd1 cp c1 hsuf x hx)

open ocamlKeyword in
theorem lex_lexeme (fuel : Nat) :
    ∀ (rd : Reader) (st : lexingState) (tok : ocaToken) (st1 : lexingState) (rd1 : Reader),
      lex fuel rd st = some (tok, st1, rd1) → carriesLexeme tok = true →
      ∃ c rest, InInput rd st.cp c ∧
        (isAlpha (cur c) = true ∨ isOperator (cur c) = true) ∧
        st1.name = lexemeAt c ∧ st1.cp = some rest ∧ c = st1.name ++ rest := by
  induction fuel with
  | zero => intro rd st tok st1 rd1 h; simp [lex] at h
  | succ fuel ih =>
    intro rd st tok st1 rd1 h hcar
    rcases lex_cases fuel rd st tok st1 rd1 h with ⟨_, rfl⟩ | ⟨cp, rd0, hh, hc⟩
    · exact absurd hcar (by decide)
    · have hhead := lexHead_input rd rd0 st.cp cp hh
      have hcp : InInput rd st.cp cp := hhead cp (Or.inl ⟨cp, rfl, List.suffix_refl _⟩)
      rcases hc with ⟨ha, rfl, rfl⟩ | ⟨ha, ho, rfl, rfl⟩ | hrec | ⟨cp2, rd2, hcom, hrec⟩ |
        ⟨hno, _⟩
      · refine ⟨cp, cp.dropWhile isIdent, hcp, Or.inl ha, ?_, ?_, ?_⟩
        · simp [readIdentifier_letter cp ha, lexemeAt, ha]
        · simp [readIdentifier_letter cp ha]
        · simp [readIdentifier_letter cp ha, List.takeWhile_append_dropWhile]
      · refine ⟨cp, cp.dropWhile isOperator, hcp, Or.inr ho, ?_, ?_, ?_⟩
        · simp [eatOperator_run, lexemeAt, ha]
        · simp [eatOperator_run]
        · simp [eatOperator_run, List.takeWhile_append_dropWhile]
      · obtain ⟨c, rest, h1, h2, h3, h4, h5⟩ := ih rd0 _ tok st1 rd1 hrec hcar
        exact ⟨c, rest, hhead c (InInput_suffix rd0 cp _ (eatWhiteSpace_suffix cp) c h1),
          h2, h3, h4, h5⟩
      · obtain ⟨c, rest, h1, h2, h3, h4, h5⟩ := ih rd2 _ tok st1 rd1 hrec hcar
        have a2 := eatCommentLoop_input fuel rd0 cp.tail.tail false cp2 rd2 hcom c h1
        exact ⟨c, rest, hhead c (InInput_suffix rd0 cp _
          ((List.tail_suffix _).trans (List.tail_suffix cp)) c a2), h2, h3, h4, h5⟩
      · rw [hno] at hcar
        exact absurd hcar (by decide)

theorem lexCalls_spec (lexFuel : Nat) :
    ∀ (fuel : Nat) (rd : Reader) (st : lexingState) (calls : List (ocaToken × lexingState)),
      lexCalls lexFuel fuel rd st = some calls →
      ∀ e ∈ calls, e.1 ≠ ocamlKeyword.Tok_EOF ∧
        (carriesLexeme e.1 = true →
          ∃ c rest, InInput rd st.cp c ∧
            (isAlpha (cur c) = true ∨ isOperator (cur c) = true) ∧
            e.2.name = lexemeAt c ∧ e.2.cp = some rest ∧ c = e.2.name ++ rest) := by
  intro fuel
  induction fuel with
  | zero => intro rd st calls h; simp [lexCalls] at h
  | succ fuel ih =>
    intro rd st calls h e he
    rcases hlex : lex lexFuel rd st with _ | ⟨tok, st1, rd1⟩
    · simp [lexCalls, hlex] at h
    · rw [lexCalls_succ lexFuel fuel rd st tok st1 rd1 hlex] at h
      by_cases ht : tok = ocamlKeyword.Tok_EOF
      · simp only [ht, if_true, Option.some.injEq] at h
        subst h
        simp at he
      · simp only [ht, if_false] at h
        rcases hrest : lexCalls lexFuel fuel rd1 st1 with _ | rest
        · rw [hrest] at h
          simp at h
        · rw [hrest] at h
          simp only [Option.map_some', Option.some.injEq] at h
          subst h
          rcases List.mem_cons.mp he with rfl | hin
          · exact ⟨ht, fun hcar => lex_lexeme lexFuel rd st tok st1 rd1 hlex hcar⟩
          · obtain ⟨h1, h2⟩ := ih rd1 st1 rest hrest e hin
            refine ⟨h1, fun hcar => ?_⟩
            obtain ⟨c, r, a1, a2, a3, a4, a5⟩ := h2 hcar
            exact ⟨c, r, lex_input lexFuel rd st tok st1 rd1 hlex c a1, a2, a3, a4, a5⟩

theorem lexCalls_returns (lexFuel fuel : Nat) :
    ∀ (rd : Reader) (st : lexingState), inputSize rd st.cp < fuel →
      inputSize rd st.cp < lexFuel →
      ∃ calls, lexCalls lexFuel fuel rd st = some calls := by
  induction fuel with
  | zero => intro rd st h; omega
  | succ fuel ih =>
    intro rd st h hl
    obtain ⟨tok, st1, rd1, e1, _, e3, _⟩ := lex_returns lexFuel rd st hl
    rw [lexCalls_succ lexFuel fuel rd st tok st1 rd1 e1]
    by_cases ht : tok = ocamlKeyword.Tok_EOF
    · exact ⟨[], by simp [ht]⟩
    · have hlt := e3 ht
      obtain ⟨rest, r1⟩ := ih rd1 st1 (by omega) (by omega)
      exact ⟨(tok, st1) :: rest, by simp [ht, r1]⟩

theorem pairWithNext_length :
    ∀ toks : List (ocaToken × lexingState), (pairWithNext toks).length = toks.length
  | [] => rfl
  | [(_, _)] => rfl
  | (_, _) :: (t2, st2) :: rest => by
    simp only [pairWithNext, List.length_cons, pairWithNext_length ((t2, st2) :: rest)]

theorem InInput_start (lines : List (List Char)) (c : List Char)
    (h : InInput (readLineFromInputFile { lines := lines, lineNumber := 0 }).2
      (readLineFromInputFile { lines := lines, lineNumber := 0 }).1 c) :
    ∃ line ∈ lines, List.IsSuffix c line := by
  cases lines with
  | nil =>
    rcases h with ⟨c0, h0, _⟩ | ⟨l, hl, _⟩
    · simp [readLineFromInputFile] at h0
    · simp [readLineFromInputFile] at hl
  | cons l rest =>
    rcases h with ⟨c0, h0, hs⟩ | ⟨l1, hl, hs⟩
    · simp only [readLineFromInputFile, Option.some.injEq] at h0
      subst h0
      exact ⟨l, by simp, hs⟩
    · simp only [readLineFromInputFile] at hl
      exact ⟨l1, List.mem_cons_of_mem _ hl, hs⟩

theorem inputSize_start (lines : List (List Char)) :
    inputSize (readLineFromInputFile { lines := lines, lineNumber := 0 }).2
      (readLineFromInputFile { lines := lines, lineNumber := 0 }).1
      ≤ inputSize { lines := lines, lineNumber := 0 } none := by
  cases lines with
  | nil => simp [readLineFromInputFile]
  | cons l rest =>
    simp only [readLineFromInputFile, inputSize_some, inputSize_none, List.map_cons,
      List.sum_cons]
    omega

theorem loopStart_of_lex (fuel : Nat) (filename : List Char) (lines : List (List Char))
    (s : ParserState) (tok nextTok : ocaToken) (nextSt nextSt2 : lexingState)
    (rd rd2 : Reader)
    (e1 : lex fuel (readLineFromInputFile { lines := lines, lineNumber := 0 }).2
      { name := [], cp := (readLineFromInputFile { lines := lines, lineNumber := 0 }).1 }
        = some (tok, nextSt, rd))
    (e5 : lex fuel rd nextSt = some (nextTok, nextSt2, rd2)) :
    ∃ p, loopStart fuel filename lines s = some ⟨p, nextSt.name, nextSt2, rd2, tok, nextTok⟩ := by
  unfold loopStart
  simp only [e1, e5]
  exact ⟨_, rfl⟩

open ocamlKeyword in
/-- C31. Lookahead pairing.  On any input, given more fuel than the input has
characters and lines, tokenizing yields tokens `t0 … tn`, none of them
`Tok_EOF`, each with the lexing state its call of `lex` left, and
`findOcamlTags` returns after having called the active handler exactly once
per token, in order: the call for `tk` receives `what = tk`, `whatNext` the
kind of the next token (`Tok_EOF` for the last one) and as `ident` the name
buffer the call of `lex` that returned `tk` left.  For every word or operator
token that buffer is the token's own lexeme: the longest run of identifier
(operator) characters at a place `start` of an input line, the lexer's
pointer standing right after it. -/
theorem lookahead_pairing (fuel : Nat) (filename : List Char) (lines : List (List Char))
    (s : ParserState) (hfuel : inputSize { lines := lines, lineNumber := 0 } none < fuel) :
    ∃ toks cs l0,
      inputTokens fuel lines = some toks ∧
      loopStart fuel filename lines s = some l0 ∧
      handlerCalls fuel filename lines s = some cs ∧
      findOcamlTags fuel filename lines s = some (makeCalls cs l0.parser) ∧
      cs.length = toks.length ∧
      cs.map (fun c => (c.ident, c.what, c.whatNext)) = pairWithNext toks ∧
      ∀ e ∈ toks, e.1 ≠ Tok_EOF ∧
        (carriesLexeme e.1 = true →
          ∃ line start rest, line ∈ lines ∧ List.IsSuffix start line ∧
            (isAlpha (cur start) = true ∨ isOperator (cur start) = true) ∧
            e.2.name = lexemeAt start ∧ e.2.cp = some rest ∧
            start = e.2.name ++ rest) := by
  obtain ⟨f, rfl⟩ : ∃ f, fuel = f + 1 := ⟨fuel - 1, by omega⟩
  have hsz := inputSize_start lines
  have hsz0 : inputSize (readLineFromInputFile { lines := lines, lineNumber := 0 }).2
      ({ name := [], cp := (readLineFromInputFile { lines := lines, lineNumber := 0 }).1 } :
        lexingState).cp < f + 1 := by
    simp only
    omega
  obtain ⟨toks, htoks⟩ := lexCalls_returns (f + 1) (f + 1) _ _ hsz0 hsz0
  have hspec := lexCalls_spec (f + 1) (f + 1) _ _ toks htoks
  have hlast : ∀ e ∈ toks, e.1 ≠ Tok_EOF ∧
      (carriesLexeme e.1 = true →
        ∃ line start rest, line ∈ lines ∧ List.IsSuffix start line ∧
          (isAlpha (cur start) = true ∨ isOperator (cur start) = true) ∧
          e.2.name = lexemeAt start ∧ e.2.cp = some rest ∧
          start = e.2.name ++ rest) := by
    intro e he
    obtain ⟨h1, h2⟩ := hspec e he
    refine ⟨h1, fun hcar => ?_⟩
    obtain ⟨c, rest, a1, a2, a3, a4, a5⟩ := h2 hcar
    obtain ⟨line, hl, hs⟩ := InInput_start lines c a1
    exact ⟨line, c, rest, hl, hs, a2, a3, a4, a5⟩
  obtain ⟨tok, nextSt, rd, e1, e2, e3, e4⟩ := lex_returns (f + 1) _ _ hsz0
  simp only at e2 e3
  have hfind := findOcamlTags_eq_loopStart (f + 1) filename lines s
  by_cases ht : tok = Tok_EOF
  · subst ht
    obtain ⟨hcp, hlines⟩ := e4 rfl
    have e5 := lex_at_end f rd nextSt hcp hlines
    have htoks0 : toks = [] := by
      have := htoks
      rw [lexCalls_succ (f + 1) f _ _ _ _ _ e1] at this
      simpa using this.symm
    subst htoks0
    obtain ⟨p, hstart⟩ := loopStart_of_lex (f + 1) filename lines s _ _ _ _ _ _ e1 e5
    refine ⟨[], [], _, htoks, hstart, ?_, ?_, rfl, rfl, hlast⟩
    · simp [handlerCalls, hstart, mainLoopCalls]
    · rw [hfind, hstart]
      simp [mainLoop, makeCalls]
  · have hlt := e3 ht
    obtain ⟨nextTok, nextSt2, rd2, e5, _, _, _⟩ := lex_returns (f + 1) rd nextSt (by omega)
    have hcalls := htoks
    rw [lexCalls_succ (f + 1) f _ _ _ _ _ e1] at hcalls
    simp only [ht, if_false] at hcalls
    rcases hrest : lexCalls (f + 1) f rd nextSt with _ | rest
    · rw [hrest] at hcalls
      simp at hcalls
    · rw [hrest] at hcalls
      simp only [Option.map_some', Option.some.injEq] at hcalls
      subst hcalls
      obtain ⟨f1, rfl⟩ : ∃ f1, f = f1 + 1 := by
        cases f with
        | zero => simp [lexCalls] at hrest
        | succ f1 => exact ⟨f1, rfl⟩
      rw [lexCalls_succ (f1 + 1 + 1) f1 rd nextSt nextTok nextSt2 rd2 e5] at hrest
      obtain ⟨p, hstart⟩ :=
        loopStart_of_lex (f1 + 1 + 1) filename lines s _ _ _ _ _ _ e1 e5
      obtain ⟨cs, hcs, hmap⟩ := mainLoopCalls_pairing (f1 + 1 + 1) f1
        ⟨p, nextSt.name, nextSt2, rd2, tok, nextTok⟩
        rest nextSt ht rfl hrest (f1 + 1 + 1) (by omega)
      refine ⟨_, cs, _, htoks, hstart, ?_, ?_, ?_, hmap, hlast⟩
      · simp only [handlerCalls, hstart, Option.some_bind]
        exact hcs
      · rw [hfind, hstart]
        simp only [Option.some_bind, mainLoop_eq_makeCalls, hcs, Option.map_some']
      · have := congrArg List.length hmap
        simpa [pairWithNext_length] using this

open ocamlKeyword in
/-- The calls of the handlers on the one-line file `let x = y + z`: each
token comes with its own text and with the kind of the token after it. -/
theorem handlerCalls_example :
    (handlerCalls 100 "t.ml".toList ["let x = y + z".toList] (initialStatics OcamlKinds)).map
        (fun cs => cs.map fun c => (String.mk c.ident, c.what, c.whatNext))
      = some [("let", OcaKEYWORD_let, OcaIDENTIFIER), ("x", OcaIDENTIFIER, Tok_EQ),
              ("=", Tok_EQ, OcaIDENTIFIER), ("y", OcaIDENTIFIER, Tok_Op),
              ("+", Tok_Op, OcaIDENTIFIER), ("z", OcaIDENTIFIER, Tok_EOF)] := by
  decide

open ocamlKeyword in
theorem lookahead_pairing_witness :
    inputSize { lines := ["let x = y + z".toList], lineNumber := 0 } none < 100 ∧
    ∃ toks cs l0,
      inputTokens 100 ["let x = y + z".toList] = some toks ∧
      loopStart 100 "t.ml".toList ["let x = y + z".toList] (initialStatics OcamlKinds)
        = some l0 ∧
      handlerCalls 100 "t.ml".toList ["let x = y + z".toList] (initialStatics OcamlKinds)
        = some cs ∧
      findOcamlTags 100 "t.ml".toList ["let x = y + z".toList] (initialStatics OcamlKinds)
        = some (makeCalls cs l0.parser) ∧
      cs.length = toks.length ∧
      cs.map (fun c => (c.ident, c.what, c.whatNext)) = pairWithNext toks ∧
      ∀ e ∈ toks, e.1 ≠ Tok_EOF ∧
        (carriesLexeme e.1 = true →
          ∃ line start rest, line ∈ ["let x = y + z".toList] ∧ List.IsSuffix start line ∧
            (isAlpha (cur start) = true ∨ isOperator (cur start) = true) ∧
            e.2.name = lexemeAt start ∧ e.2.cp = some rest ∧
            start = e.2.name ++ rest) :=
  ⟨by decide,
    lookahead_pairing 100 "t.ml".toList ["let x = y + z".toList] (initialStatics OcamlKinds)
      (by decide)⟩

/-! ## What the handlers do to the stack and the tags -/

theorem stackReach_trans {a b c : stackAndTags} (h1 : stackReach a b) (h2 : stackReach b c) :
    stackReach a c := by
  induction h2 with
  | refl => exact h1
  | step _ hs ih => exact stackReach.step ih hs

theorem reach_push {a : stackAndTags} {S : ParserState} (kind : contextKind)
    (type : contextType) (after : parseNext) (name : Option vString)
    (hadm : describableName name type = true) (h : stackReach a (core S)) :
    stackReach a (core (pushContext kind type after name S)) :=
  stackReach.step h (stackStep.push S kind type after name hadm)

theorem reach_popLastNamed {a : stackAndTags} {S : ParserState}
    (h : stackReach a (core S)) : stackReach a (core (popLastNamed S)) :=
  stackReach.step h (stackStep.popLastNamed S)

theorem reach_popSoftContext {a : stackAndTags} {S : ParserState}
    (h : stackReach a (core S)) : stackReach a (core (popSoftContext S)) :=
  stackReach.step h (stackStep.popSoftContext S)

theorem reach_popStrongContext {a : stackAndTags} {S : ParserState}
    (h : stackReach a (core S)) : stackReach a (core (popStrongContext S).2) :=
  stackReach.step h (stackStep.popStrongContext S)

theorem reach_jumpToMatchContext {a : stackAndTags} {S : ParserState}
    (h : stackReach a (core S)) : stackReach a (core (jumpToMatchContext S)) :=
  stackReach.step h (stackStep.jumpToMatchContext S)

theorem reach_addTag {a : stackAndTags} {S : ParserState} (ident : vString)
    (kind : ocamlKind) (h : stackReach a (core S)) :
    stackReach a (core (addTag ident kind S)) :=
  stackReach.step h (stackStep.addTag S ident kind)

theorem reach_stage {a : stackAndTags} {S : ParserState} (ident : vString)
    (h : stackReach a (core S)) :
    stackReach a (core { S with
      tempIdent := ident
      tempTag := prepareTag ident ocamlKind.K_CONSTRUCTOR S }) :=
  stackReach.step h (stackStep.stage S ident)

theorem reach_unstage {a : stackAndTags} {S : ParserState}
    (h : stackReach a (core S)) : stackReach a (core { S with tempIdent := [] }) :=
  stackReach.step h (stackStep.unstage S)

theorem reach_emitTempTag {a : stackAndTags} {S : ParserState}
    (h : stackReach a (core S)) : stackReach a (core (emitTempTag S)) :=
  stackReach.step h (stackStep.emitTempTag S)

theorem reach_killCurrentState {a : stackAndTags} {S : ParserState}
    (h : stackReach a (core S)) : stackReach a (core (killCurrentState S).2) := by
  unfold killCurrentState
  have h1 := reach_popStrongContext h
  have h2 := reach_popStrongContext (S := (popStrongContext S).2) h1
  cases hr : (popStrongContext S).1 with
  | none =>
    simp only [hr]
    exact h1
  | some c => cases c <;> simp only [hr] <;> first | exact h1 | exact h2

theorem globalScope_reach {a : stackAndTags} {S : ParserState} (ident : vString)
    (what whatNext : ocaToken) (h : stackReach a (core S)) :
    stackReach a (core (globalScope ident what whatNext S)) := by
  cases what <;>
    (try simp only [globalScope, exportLocalInfo, cleanupPreviousParser, requestStrongPoping,
      pushStrongContext, pushSoftContext, pushEmptyContext, Bool.false_eq_true, if_false]) <;>
    (try split_ifs) <;>
    repeat (first
      | exact h
      | rfl
      | apply reach_push
      | apply reach_popLastNamed
      | apply reach_popSoftContext
      | apply reach_popStrongContext
      | apply reach_jumpToMatchContext
      | apply reach_addTag
      | apply reach_emitTempTag
      | apply reach_stage
      | apply reach_unstage
      | apply reach_killCurrentState)

theorem tillToken_reach {a : stackAndTags} {S : ParserState} (ident : vString)
    (what whatNext : ocaToken) (h : stackReach a (core S)) :
    stackReach a (core (tillToken ident what whatNext S)) := by
  cases what <;>
    (try simp only [tillToken, exportLocalInfo, cleanupPreviousParser, requestStrongPoping,
      pushStrongContext, pushSoftContext, pushEmptyContext, Bool.false_eq_true, if_false]) <;>
    (try split_ifs) <;>
    repeat (first
      | exact h
      | rfl
      | apply reach_push
      | apply reach_popLastNamed
      | apply reach_popSoftContext
      | apply reach_popStrongContext
      | apply reach_jumpToMatchContext
      | apply reach_addTag
      | apply reach_emitTempTag
      | apply reach_stage
      | apply reach_unstage
      | apply reach_killCurrentState)

theorem contextualTillToken_reach {a : stackAndTags} {S : ParserState} (ident : vString)
    (what whatNext : ocaToken) (h : stackReach a (core S)) :
    stackReach a (core (contextualTillToken ident what whatNext S)) := by
  cases what <;>
    (try simp only [contextualTillToken, exportLocalInfo, cleanupPreviousParser, requestStrongPoping,
      pushStrongContext, pushSoftContext, pushEmptyContext, Bool.false_eq_true, if_false]) <;>
    (try split_ifs) <;>
    repeat (first
      | exact h
      | rfl
      | apply reach_push
      | apply reach_popLastNamed
      | apply reach_popSoftContext
      | apply reach_popStrongContext
      | apply reach_jumpToMatchContext
      | apply reach_addTag
      | apply reach_emitTempTag
      | apply reach_stage
      | apply reach_unstage
      | apply reach_killCurrentState
      | apply globalScope_reach)

theorem tillTokenOrFallback_reach {a : stackAndTags} {S : ParserState} (ident : vString)
    (what whatNext : ocaToken) (h : stackReach a (core S)) :
    stackReach a (core (tillTokenOrFallback ident what whatNext S)) := by
  cases what <;>
    (try simp only [tillTokenOrFallback, exportLocalInfo, cleanupPreviousParser, requestStrongPoping,
      pushStrongContext, pushSoftContext, pushEmptyContext, Bool.false_eq_true, if_false]) <;>
    (try split_ifs) <;>
    repeat (first
      | exact h
      | rfl
      | apply reach_push
      | apply reach_popLastNamed
      | apply reach_popSoftContext
      | apply reach_popStrongContext
      | apply reach_jumpToMatchContext
      | apply reach_addTag
      | apply reach_emitTempTag
      | apply reach_stage
      | apply reach_unstage
      | apply reach_killCurrentState
      | apply globalScope_reach)

theorem tillTokenOrTerminatingOrFallback_reach {a : stackAndTags} {S : ParserState} (ident : vString)
    (what whatNext : ocaToken) (h : stackReach a (core S)) :
    stackReach a (core (tillTokenOrTerminatingOrFallback ident what whatNext S)) := by
  cases what <;>
    (try simp only [tillTokenOrTerminatingOrFallback, exportLocalInfo, cleanupPreviousParser, requestStrongPoping,
      pushStrongContext, pushSoftContext, pushEmptyContext, Bool.false_eq_true, if_false]) <;>
    (try split_ifs) <;>
    repeat (first
      | exact h
      | rfl
      | apply reach_push
      | apply reach_popLastNamed
      | apply reach_popSoftContext
      | apply reach_popStrongContext
      | apply reach_jumpToMatchContext
      | apply reach_addTag
      | apply reach_emitTempTag
      | apply reach_stage
      | apply reach_unstage
      | apply reach_killCurrentState
      | apply globalScope_reach)

theorem ignoreToken_reach {a : stackAndTags} {S : ParserState} (ident : vString)
    (what whatNext : ocaToken) (h : stackReach a (core S)) :
    stackReach a (core (ignoreToken ident what whatNext S)) := by
  cases what <;>
    (try simp only [ignoreToken, exportLocalInfo, cleanupPreviousParser, requestStrongPoping,
      pushStrongContext, pushSoftContext, pushEmptyContext, Bool.false_eq_true, if_false]) <;>
    (try split_ifs) <;>
    repeat (first
      | exact h
      | rfl
      | apply reach_push
      | apply reach_popLastNamed
      | apply reach_popSoftContext
      | apply reach_popStrongContext
      | apply reach_jumpToMatchContext
      | apply reach_addTag
      | apply reach_emitTempTag
      | apply reach_stage
      | apply reach_unstage
      | apply reach_killCurrentState)

theorem typeRecord_reach {a : stackAndTags} {S : ParserState} (ident : vString)
    (what whatNext : ocaToken) (h : stackReach a (core S)) :
    stackReach a (core (typeRecord ident what whatNext S)) := by
  cases what <;>
    (try simp only [typeRecord, exportLocalInfo, cleanupPreviousParser, requestStrongPoping,
      pushStrongContext, pushSoftContext, pushEmptyContext, Bool.false_eq_true, if_false]) <;>
    (try split_ifs) <;>
    repeat (first
      | exact h
      | rfl
      | apply reach_push
      | apply reach_popLastNamed
      | apply reach_popSoftContext
      | apply reach_popStrongContext
      | apply reach_jumpToMatchContext
      | apply reach_addTag
      | apply reach_emitTempTag
      | apply reach_stage
      | apply reach_unstage
      | apply reach_killCurrentState)

theorem exceptionDecl_reach {a : stackAndTags} {S : ParserState} (ident : vString)
    (what whatNext : ocaToken) (h : stackReach a (core S)) :
    stackReach a (core (exceptionDecl ident what whatNext S)) := by
  cases what <;>
    (try simp only [exceptionDecl, exportLocalInfo, cleanupPreviousParser, requestStrongPoping,
      pushStrongContext, pushSoftContext, pushEmptyContext, Bool.false_eq_true, if_false]) <;>
    (try split_ifs) <;>
    repeat (first
      | exact h
      | rfl
      | apply reach_push
      | apply reach_popLastNamed
      | apply reach_popSoftContext
      | apply reach_popStrongContext
      | apply reach_jumpToMatchContext
      | apply reach_addTag
      | apply reach_emitTempTag
      | apply reach_stage
      | apply reach_unstage
      | apply reach_killCurrentState
      | apply globalScope_reach)

theorem constructorValidation_reach {a : stackAndTags} {S : ParserState} (ident : vString)
    (what whatNext : ocaToken) (h : stackReach a (core S)) :
    stackReach a (core (constructorValidation ident what whatNext S)) := by
  cases what <;>
    (try simp only [constructorValidation, exportLocalInfo, cleanupPreviousParser, requestStrongPoping,
      pushStrongContext, pushSoftContext, pushEmptyContext, Bool.false_eq_true, if_false]) <;>
    (try split_ifs) <;>
    repeat (first
      | exact h
      | rfl
      | apply reach_push
      | apply reach_popLastNamed
      | apply reach_popSoftContext
      | apply reach_popStrongContext
      | apply reach_jumpToMatchContext
      | apply reach_addTag
      | apply reach_emitTempTag
      | apply reach_stage
      | apply reach_unstage
      | apply reach_killCurrentState
      | apply globalScope_reach)

theorem typeDecl_reach {a : stackAndTags} {S : ParserState} (ident : vString)
    (what whatNext : ocaToken) (h : stackReach a (core S)) :
    stackReach a (core (typeDecl ident what whatNext S)) := by
  cases what <;>
    (try simp only [typeDecl, exportLocalInfo, cleanupPreviousParser, requestStrongPoping,
      pushStrongContext, pushSoftContext, pushEmptyContext, Bool.false_eq_true, if_false]) <;>
    (try split_ifs) <;>
    repeat (first
      | exact h
      | rfl
      | apply reach_push
      | apply reach_popLastNamed
      | apply reach_popSoftContext
      | apply reach_popStrongContext
      | apply reach_jumpToMatchContext
      | apply reach_addTag
      | apply reach_emitTempTag
      | apply reach_stage
      | apply reach_unstage
      | apply reach_killCurrentState
      | apply globalScope_reach)

theorem val_reach {a : stackAndTags} {S : ParserState} (ident : vString)
    (what whatNext : ocaToken) (h : stackReach a (core S)) :
    stackReach a (core (val ident what whatNext S)) := by
  cases what <;>
    (try simp only [val, exportLocalInfo, cleanupPreviousParser, requestStrongPoping,
      pushStrongContext, pushSoftContext, pushEmptyContext, Bool.false_eq_true, if_false]) <;>
    (try split_ifs) <;>
    repeat (first
      | exact h
      | rfl
      | apply reach_push
      | apply reach_popLastNamed
      | apply reach_popSoftContext
      | apply reach_popStrongContext
      | apply reach_jumpToMatchContext
      | apply reach_addTag
      | apply reach_emitTempTag
      | apply reach_stage
      | apply reach_unstage
      | apply reach_killCurrentState)

theorem typeSpecification_reach {a : stackAndTags} {S : ParserState} (ident : vString)
    (what whatNext : ocaToken) (h : stackReach a (core S)) :
    stackReach a (core (typeSpecification ident what whatNext S)) := by
  cases what <;>
    (try simp only [typeSpecification, exportLocalInfo, cleanupPreviousParser, requestStrongPoping,
      pushStrongContext, pushSoftContext, pushEmptyContext, Bool.false_eq_true, if_false]) <;>
    (try split_ifs) <;>
    repeat (first
      | exact h
      | rfl
      | apply reach_push
      | apply reach_popLastNamed
      | apply reach_popSoftContext
      | apply reach_popStrongContext
      | apply reach_jumpToMatchContext
      | apply reach_addTag
      | apply reach_emitTempTag
      | apply reach_stage
      | apply reach_unstage
      | apply reach_killCurrentState)

theorem letParam_reach {a : stackAndTags} {S : ParserState} (ident : vString)
    (what whatNext : ocaToken) (h : stackReach a (core S)) :
    stackReach a (core (letParam ident what whatNext S)) := by
  cases what <;>
    (try simp only [letParam, exportLocalInfo, cleanupPreviousParser, requestStrongPoping,
      pushStrongContext, pushSoftContext, pushEmptyContext, Bool.false_eq_true, if_false]) <;>
    (try split_ifs) <;>
    repeat (first
      | exact h
      | rfl
      | apply reach_push
      | apply reach_popLastNamed
      | apply reach_popSoftContext
      | apply reach_popStrongContext
      | apply reach_jumpToMatchContext
      | apply reach_addTag
      | apply reach_emitTempTag
      | apply reach_stage
      | apply reach_unstage
      | apply reach_killCurrentState)

theorem parseLabel_reach {a : stackAndTags} {S : ParserState} (ident : vString)
    (what whatNext : ocaToken) (h : stackReach a (core S)) :
    stackReach a (core (parseLabel ident what whatNext S)) := by
  cases what <;>
    (try simp only [parseLabel, exportLocalInfo, cleanupPreviousParser, requestStrongPoping,
      pushStrongContext, pushSoftContext, pushEmptyContext, Bool.false_eq_true, if_false]) <;>
    (try split_ifs) <;>
    repeat (first
      | exact h
      | rfl
      | apply reach_push
      | apply reach_popLastNamed
      | apply reach_popSoftContext
      | apply reach_popStrongContext
      | apply reach_jumpToMatchContext
      | apply reach_addTag
      | apply reach_emitTempTag
      | apply reach_stage
      | apply reach_unstage
      | apply reach_killCurrentState
      | apply letParam_reach)

theorem parseOptionnal_reach {a : stackAndTags} {S : ParserState} (ident : vString)
    (what whatNext : ocaToken) (h : stackReach a (core S)) :
    stackReach a (core (parseOptionnal ident what whatNext S)) := by
  cases what <;>
    (try simp only [parseOptionnal, exportLocalInfo, cleanupPreviousParser, requestStrongPoping,
      pushStrongContext, pushSoftContext, pushEmptyContext, Bool.false_eq_true, if_false]) <;>
    (try split_ifs) <;>
    repeat (first
      | exact h
      | rfl
      | apply reach_push
      | apply reach_popLastNamed
      | apply reach_popSoftContext
      | apply reach_popStrongContext
      | apply reach_jumpToMatchContext
      | apply reach_addTag
      | apply reach_emitTempTag
      | apply reach_stage
      | apply reach_unstage
      | apply reach_killCurrentState)

theorem localScope_reach {a : stackAndTags} {S : ParserState} (ident : vString)
    (what whatNext : ocaToken) (h : stackReach a (core S)) :
    stackReach a (core (localScope ident what whatNext S)) := by
  cases what <;>
    (try simp only [localScope, exportLocalInfo, cleanupPreviousParser, requestStrongPoping,
      pushStrongContext, pushSoftContext, pushEmptyContext, Bool.false_eq_true, if_false]) <;>
    (try split_ifs) <;>
    repeat (first
      | exact h
      | rfl
      | apply reach_push
      | apply reach_popLastNamed
      | apply reach_popSoftContext
      | apply reach_popStrongContext
      | apply reach_jumpToMatchContext
      | apply reach_addTag
      | apply reach_emitTempTag
      | apply reach_stage
      | apply reach_unstage
      | apply reach_killCurrentState
      | apply globalScope_reach
      | apply contextualTillToken_reach)

theorem localLet_reach {a : stackAndTags} {S : ParserState} (ident : vString)
    (what whatNext : ocaToken) (h : stackReach a (core S)) :
    stackReach a (core (localLet ident what whatNext S)) := by
  cases what <;>
    (try simp only [localLet, exportLocalInfo, cleanupPreviousParser, requestStrongPoping,
      pushStrongContext, pushSoftContext, pushEmptyContext, Bool.false_eq_true, if_false]) <;>
    (try split_ifs) <;>
    repeat (first
      | exact h
      | rfl
      | apply reach_push
      | apply reach_popLastNamed
      | apply reach_popSoftContext
      | apply reach_popStrongContext
      | apply reach_jumpToMatchContext
      | apply reach_addTag
      | apply reach_emitTempTag
      | apply reach_stage
      | apply reach_unstage
      | apply reach_killCurrentState
      | apply localScope_reach)

theorem matchPattern_reach {a : stackAndTags} {S : ParserState} (ident : vString)
    (what whatNext : ocaToken) (h : stackReach a (core S)) :
    stackReach a (core (matchPattern ident what whatNext S)) := by
  cases what <;>
    (try simp only [matchPattern, exportLocalInfo, cleanupPreviousParser, requestStrongPoping,
      pushStrongContext, pushSoftContext, pushEmptyContext, Bool.false_eq_true, if_false]) <;>
    (try split_ifs) <;>
    repeat (first
      | exact h
      | rfl
      | apply reach_push
      | apply reach_popLastNamed
      | apply reach_popSoftContext
      | apply reach_popStrongContext
      | apply reach_jumpToMatchContext
      | apply reach_addTag
      | apply reach_emitTempTag
      | apply reach_stage
      | apply reach_unstage
      | apply reach_killCurrentState
      | apply localScope_reach)

theorem mayRedeclare_reach {a : stackAndTags} {S : ParserState} (ident : vString)
    (what whatNext : ocaToken) (h : stackReach a (core S)) :
    stackReach a (core (mayRedeclare ident what whatNext S)) := by
  cases what <;>
    (try simp only [mayRedeclare, exportLocalInfo, cleanupPreviousParser, requestStrongPoping,
      pushStrongContext, pushSoftContext, pushEmptyContext, Bool.false_eq_true, if_false]) <;>
    (try split_ifs) <;>
    repeat (first
      | exact h
      | rfl
      | apply reach_push
      | apply reach_popLastNamed
      | apply reach_popSoftContext
      | apply reach_popStrongContext
      | apply reach_jumpToMatchContext
      | apply reach_addTag
      | apply reach_emitTempTag
      | apply reach_stage
      | apply reach_unstage
      | apply reach_killCurrentState
      | apply globalScope_reach
      | apply localScope_reach)

theorem classSpecif_reach {a : stackAndTags} {S : ParserState} (ident : vString)
    (what whatNext : ocaToken) (h : stackReach a (core S)) :
    stackReach a (core (classSpecif ident what whatNext S)) := by
  cases what <;>
    (try simp only [classSpecif, exportLocalInfo, cleanupPreviousParser, requestStrongPoping,
      pushStrongContext, pushSoftContext, pushEmptyContext, Bool.false_eq_true, if_false]) <;>
    (try split_ifs) <;>
    repeat (first
      | exact h
      | rfl
      | apply reach_push
      | apply reach_popLastNamed
      | apply reach_popSoftContext
      | apply reach_popStrongContext
      | apply reach_jumpToMatchContext
      | apply reach_addTag
      | apply reach_emitTempTag
      | apply reach_stage
      | apply reach_unstage
      | apply reach_killCurrentState)

theorem methodDecl_reach {a : stackAndTags} {S : ParserState} (ident : vString)
    (what whatNext : ocaToken) (h : stackReach a (core S)) :
    stackReach a (core (methodDecl ident what whatNext S)) := by
  cases what <;>
    (try simp only [methodDecl, exportLocalInfo, cleanupPreviousParser, requestStrongPoping,
      pushStrongContext, pushSoftContext, pushEmptyContext, Bool.false_eq_true, if_false]) <;>
    (try split_ifs) <;>
    repeat (first
      | exact h
      | rfl
      | apply reach_push
      | apply reach_popLastNamed
      | apply reach_popSoftContext
      | apply reach_popStrongContext
      | apply reach_jumpToMatchContext
      | apply reach_addTag
      | apply reach_emitTempTag
      | apply reach_stage
      | apply reach_unstage
      | apply reach_killCurrentState
      | apply localScope_reach)

theorem moduleSpecif_reach {a : stackAndTags} {S : ParserState} (ident : vString)
    (what whatNext : ocaToken) (h : stackReach a (core S)) :
    stackReach a (core (moduleSpecif ident what whatNext S)) := by
  cases what <;>
    (try simp only [moduleSpecif, exportLocalInfo, cleanupPreviousParser, requestStrongPoping,
      pushStrongContext, pushSoftContext, pushEmptyContext, Bool.false_eq_true, if_false]) <;>
    (try split_ifs) <;>
    repeat (first
      | exact h
      | rfl
      | apply reach_push
      | apply reach_popLastNamed
      | apply reach_popSoftContext
      | apply reach_popStrongContext
      | apply reach_jumpToMatchContext
      | apply reach_addTag
      | apply reach_emitTempTag
      | apply reach_stage
      | apply reach_unstage
      | apply reach_killCurrentState
      | apply contextualTillToken_reach)

theorem moduleDecl_reach {a : stackAndTags} {S : ParserState} (ident : vString)
    (what whatNext : ocaToken) (h : stackReach a (core S)) :
    stackReach a (core (moduleDecl ident what whatNext S)) := by
  cases what <;>
    (try simp only [moduleDecl, exportLocalInfo, cleanupPreviousParser, requestStrongPoping,
      pushStrongContext, pushSoftContext, pushEmptyContext, Bool.false_eq_true, if_false]) <;>
    (try split_ifs) <;>
    repeat (first
      | exact h
      | rfl
      | apply reach_push
      | apply reach_popLastNamed
      | apply reach_popSoftContext
      | apply reach_popStrongContext
      | apply reach_jumpToMatchContext
      | apply reach_addTag
      | apply reach_emitTempTag
      | apply reach_stage
      | apply reach_unstage
      | apply reach_killCurrentState)

theorem classDecl_reach {a : stackAndTags} {S : ParserState} (ident : vString)
    (what whatNext : ocaToken) (h : stackReach a (core S)) :
    stackReach a (core (classDecl ident what whatNext S)) := by
  cases what <;>
    (try simp only [classDecl, exportLocalInfo, cleanupPreviousParser, requestStrongPoping,
      pushStrongContext, pushSoftContext, pushEmptyContext, Bool.false_eq_true, if_false]) <;>
    (try split_ifs) <;>
    repeat (first
      | exact h
      | rfl
      | apply reach_push
      | apply reach_popLastNamed
      | apply reach_popSoftContext
      | apply reach_popStrongContext
      | apply reach_jumpToMatchContext
      | apply reach_addTag
      | apply reach_emitTempTag
      | apply reach_stage
      | apply reach_unstage
      | apply reach_killCurrentState)

theorem globalLet_reach {a : stackAndTags} {S : ParserState} (ident : vString)
    (what whatNext : ocaToken) (h : stackReach a (core S)) :
    stackReach a (core (globalLet ident what whatNext S)) := by
  cases what <;>
    (try simp only [globalLet, exportLocalInfo, cleanupPreviousParser, requestStrongPoping,
      pushStrongContext, pushSoftContext, pushEmptyContext, Bool.false_eq_true, if_false]) <;>
    (try split_ifs) <;>
    repeat (first
      | exact h
      | rfl
      | apply reach_push
      | apply reach_popLastNamed
      | apply reach_popSoftContext
      | apply reach_popStrongContext
      | apply reach_jumpToMatchContext
      | apply reach_addTag
      | apply reach_emitTempTag
      | apply reach_stage
      | apply reach_unstage
      | apply reach_killCurrentState
      | apply globalScope_reach)

theorem callToDoNext_reach {a : stackAndTags} {S : ParserState} (ident : vString)
    (what whatNext : ocaToken) (h : stackReach a (core S)) :
    stackReach a (core (callToDoNext ident what whatNext S)) := by
  unfold callToDoNext
  cases S.toDoNext
  case null => exact h
  all_goals first
    | exact globalScope_reach ident what whatNext h
    | exact tillToken_reach ident what whatNext h
    | exact contextualTillToken_reach ident what whatNext h
    | exact tillTokenOrFallback_reach ident what whatNext h
    | exact tillTokenOrTerminatingOrFallback_reach ident what whatNext h
    | exact ignoreToken_reach ident what whatNext h
    | exact typeRecord_reach ident what whatNext h
    | exact exceptionDecl_reach ident what whatNext h
    | exact constructorValidation_reach ident what whatNext h
    | exact typeDecl_reach ident what whatNext h
    | exact val_reach ident what whatNext h
    | exact typeSpecification_reach ident what whatNext h
    | exact letParam_reach ident what whatNext h
    | exact parseLabel_reach ident what whatNext h
    | exact parseOptionnal_reach ident what whatNext h
    | exact localScope_reach ident what whatNext h
    | exact localLet_reach ident what whatNext h
    | exact matchPattern_reach ident what whatNext h
    | exact mayRedeclare_reach ident what whatNext h
    | exact classSpecif_reach ident what whatNext h
    | exact methodDecl_reach ident what whatNext h
    | exact moduleSpecif_reach ident what whatNext h
    | exact moduleDecl_reach ident what whatNext h
    | exact classDecl_reach ident what whatNext h
    | exact globalLet_reach ident what whatNext h

theorem runTokensThen_reach {a : stackAndTags} (toks : List (vString × ocaToken))
    (last : ocaToken) :
    ∀ S : ParserState, stackReach a (core S) →
      stackReach a (core (runTokensThen toks last S)) := by
  induction toks with
  | nil => intro S h; exact h
  | cons e rest ih =>
    intro S h
    obtain ⟨ident, what⟩ := e
    cases rest with
    | nil => exact callToDoNext_reach ident what last h
    | cons b q =>
      obtain ⟨bi, bt⟩ := b
      simp only [runTokensThen]
      exact ih _ (callToDoNext_reach ident what bt h)

theorem makeCalls_reach {a : stackAndTags} (cs : List handlerCall) :
    ∀ S : ParserState, stackReach a (core S) → stackReach a (core (makeCalls cs S)) := by
  induction cs with
  | nil => intro S h; exact h
  | cons c rest ih =>
    intro S h
    exact ih (makeCall c S) (callToDoNext_reach c.ident c.what c.whatNext h)

/-! ### What one call does to the frames -/

theorem getLastNamedIndexFrom_some (stack : Nat → ocamlContext) (n p : Nat)
    (h : getLastNamedIndexFrom stack n = some p) :
    p < n ∧ (stack p).contextName ≠ [] ∧
      ∀ i, p < i → i < n → (stack i).contextName = [] := by
  induction n with
  | zero => simp [getLastNamedIndexFrom] at h
  | succ k ih =>
    unfold getLastNamedIndexFrom at h
    split_ifs at h with hk
    · have e : k = p := by simpa using h
      subst e
      exact ⟨by omega, List.length_pos.mp hk, fun i h1 h2 => by omega⟩
    · obtain ⟨h1, h2, h3⟩ := ih h
      refine ⟨by omega, h2, fun i hi1 hi2 => ?_⟩
      by_cases hik : i = k
      · subst hik
        exact List.length_eq_zero.mp (Nat.eq_zero_of_not_pos hk)
      · exact h3 i hi1 (by omega)

theorem getLastNamedIndexFrom_congr (st st1 : Nat → ocamlContext) (n : Nat)
    (h : ∀ i, i < n → st1 i = st i) :
    getLastNamedIndexFrom st1 n = getLastNamedIndexFrom st n := by
  induction n with
  | zero => rfl
  | succ k ih =>
    unfold getLastNamedIndexFrom
    rw [h k (by omega), ih (fun i hi => h i (by omega))]

theorem clearName_lower (stack : Nat → ocamlContext) (i j : Nat) (h : j < i) :
    clearName stack i j = stack j := by
  unfold clearName
  exact Function.update_noteq (by omega) _ _

theorem popLastNamed_lower (s : ParserState) :
    (popLastNamed s).stackIndex ≤ s.stackIndex ∧
      ∀ j, j < (popLastNamed s).stackIndex → (popLastNamed s).stack j = s.stack j := by
  unfold popLastNamed
  cases h : getLastNamedIndex s with
  | none => exact ⟨Nat.zero_le _, fun j hj => absurd hj (Nat.not_lt_zero j)⟩
  | some i =>
    obtain ⟨h1, _, _⟩ := getLastNamedIndexFrom_some s.stack s.stackIndex i h
    exact ⟨by simp only; omega, fun j hj => clearName_lower s.stack i j hj⟩

theorem popSoftContext_lower (s : ParserState) :
    (popSoftContext s).stackIndex ≤ s.stackIndex ∧
      ∀ j, j < (popSoftContext s).stackIndex → (popSoftContext s).stack j = s.stack j := by
  unfold popSoftContext
  split_ifs
  · exact ⟨le_refl _, fun j _ => rfl⟩
  · exact ⟨by simp only; omega, fun j hj => clearName_lower s.stack _ j hj⟩

theorem popStrongContextFrom_lower (s : ParserState) (n : Nat) :
    (popStrongContextFrom s n).2.stackIndex ≤ n ∧
      ∀ j, j < (popStrongContextFrom s n).2.stackIndex →
        (popStrongContextFrom s n).2.stack j = s.stack j := by
  induction n with
  | zero => exact ⟨le_refl _, fun j hj => absurd hj (Nat.not_lt_zero j)⟩
  | succ k ih =>
    unfold popStrongContextFrom
    split_ifs
    · exact ⟨by simp only; omega, fun j hj => clearName_lower s.stack k j hj⟩
    · exact ⟨by omega, ih.2⟩

theorem jumpToMatchContextFrom_lower (s : ParserState) (n : Nat) (hn : n ≤ s.stackIndex) :
    (jumpToMatchContextFrom s n).stackIndex ≤ s.stackIndex ∧
      ∀ j, j < (jumpToMatchContextFrom s n).stackIndex →
        (jumpToMatchContextFrom s n).stack j = s.stack j := by
  induction n with
  | zero => exact ⟨le_refl _, fun j _ => rfl⟩
  | succ k ih =>
    unfold jumpToMatchContextFrom
    split_ifs
    · exact ⟨hn, fun j hj => Function.update_noteq (by simp only at hj; omega) _ _⟩
    · exact ih (by omega)

theorem prims_keep_tags (s : ParserState) (kind : contextKind) (type : contextType)
    (after : parseNext) (name : Option vString) :
    ((pushContext kind type after name s).tags = s.tags ∧
      (pushContext kind type after name s).tempIdent = s.tempIdent ∧
      (pushContext kind type after name s).tempTag = s.tempTag) ∧
    ((popLastNamed s).tags = s.tags ∧ (popLastNamed s).tempIdent = s.tempIdent ∧
      (popLastNamed s).tempTag = s.tempTag) ∧
    ((popSoftContext s).tags = s.tags ∧ (popSoftContext s).tempIdent = s.tempIdent ∧
      (popSoftContext s).tempTag = s.tempTag) ∧
    (∀ n, (popStrongContextFrom s n).2.tags = s.tags ∧
      (popStrongContextFrom s n).2.tempIdent = s.tempIdent ∧
      (popStrongContextFrom s n).2.tempTag = s.tempTag) ∧
    (∀ n, (jumpToMatchContextFrom s n).tags = s.tags ∧
      (jumpToMatchContextFrom s n).tempIdent = s.tempIdent ∧
      (jumpToMatchContextFrom s n).tempTag = s.tempTag) := by
  refine ⟨?_, ?_, ?_, ?_, ?_⟩
  · unfold pushContext
    split_ifs <;> exact ⟨rfl, rfl, rfl⟩
  · unfold popLastNamed
    cases getLastNamedIndex s <;> exact ⟨rfl, rfl, rfl⟩
  · unfold popSoftContext
    split_ifs <;> exact ⟨rfl, rfl, rfl⟩
  · intro n
    induction n with
    | zero => exact ⟨rfl, rfl, rfl⟩
    | succ k ih =>
      unfold popStrongContextFrom
      split_ifs
      · exact ⟨rfl, rfl, rfl⟩
      · exact ih
  · intro n
    induction n with
    | zero => exact ⟨rfl, rfl, rfl⟩
    | succ k ih =>
      unfold jumpToMatchContextFrom
      split_ifs
      · exact ⟨rfl, rfl, rfl⟩
      · exact ih

/-- What one step does: a push adds one frame on top of a stack that is not
full and leaves the tags alone; every other step leaves the frames below the
new `stackIndex` untouched, does not raise `stackIndex`, and adds to the
tags, or stages, only a tag prepared in the stack before the step or the tag
that was staged. -/
theorem stackStep_cases {b c : stackAndTags} (h : stackStep b c) :
    (∃ f : ocamlContext,
      b.stackIndex < OCAML_MAX_STACK_SIZE ∧ c.stackIndex = b.stackIndex + 1 ∧
      c.stack = Function.update b.stack b.stackIndex f ∧
      (f.contextName ≠ [] → (contextDescription f.type).isSome = true) ∧
      (∀ p, getLastNamedIndexFrom b.stack b.stackIndex = some p → f.contextName ≠ [] →
        ∃ n, f.contextName =
          (b.stack p).contextName ++ [contextTypeSuffix (b.stack p).type] ++ n) ∧
      c.tags = b.tags ∧ c.tempIdent = b.tempIdent ∧ c.tempTag = b.tempTag) ∨
    (c.stackIndex ≤ b.stackIndex ∧ (∀ j, j < c.stackIndex → c.stack j = b.stack j) ∧
      (∀ t ∈ c.tags, t ∈ b.tags ∨ (b.tempIdent ≠ [] ∧ t = b.tempTag) ∨
        ∃ name kind ln, t = prepareTag name kind
          { initialStatics OcamlKinds with
            stack := b.stack, stackIndex := b.stackIndex, ocaLineNumber := ln }) ∧
      (c.tempIdent ≠ [] → (b.tempIdent ≠ [] ∧ c.tempTag = b.tempTag) ∨
        ∃ name kind ln, c.tempTag = prepareTag name kind
          { initialStatics OcamlKinds with
            stack := b.stack, stackIndex := b.stackIndex, ocaLineNumber := ln })) := by
  have hprep : ∀ (s : ParserState) (name : vString) (kind : ocamlKind),
      prepareTag name kind s = prepareTag name kind
        { initialStatics OcamlKinds with
          stack := s.stack, stackIndex := s.stackIndex, ocaLineNumber := s.ocaLineNumber } :=
    fun s name kind => rfl
  cases h with
  | push s kind type after name hadm =>
    obtain ⟨hk, _⟩ := prims_keep_tags s kind type after name
    by_cases hfull : s.stackIndex ≥ OCAML_MAX_STACK_SIZE
    · right
      have e : pushContext kind type after name s = s := by simp [pushContext, hfull]
      rw [e]
      exact ⟨le_refl _, fun j _ => rfl, fun t ht => Or.inl ht,
        fun hne => Or.inl ⟨hne, rfl⟩⟩
    · left
      refine ⟨((pushContext kind type after name s).stack s.stackIndex), ?_, ?_, ?_, ?_, ?_,
        hk.1, hk.2.1, hk.2.2⟩
      · exact Nat.lt_of_not_ge hfull
      · simp [core, pushContext, hfull]
      · simp [core, pushContext, hfull]
      · intro hne
        cases name with
        | none => simp [pushContext, hfull] at hne
        | some n =>
          simp only [describableName, Option.isNone_some, Bool.false_or] at hadm
          simpa [pushContext, hfull] using hadm
      · intro p hp hne
        cases name with
        | none => simp [pushContext, hfull] at hne
        | some n =>
          refine ⟨n, ?_⟩
          have hp2 : getLastNamedIndex s = some p := hp
          simp [pushContext, hfull, hp2, core]
  | popLastNamed s =>
    obtain ⟨_, hk, _⟩ := prims_keep_tags s contextKind.ContextSoft contextType.ContextValue
      parseNext.null none
    obtain ⟨h1, h2⟩ := popLastNamed_lower s
    exact Or.inr ⟨h1, h2, fun t ht => Or.inl (by simpa [core, hk.1] using ht),
      fun hne => Or.inl ⟨by simpa [core, hk.2.1] using hne, hk.2.2⟩⟩
  | popSoftContext s =>
    obtain ⟨_, _, hk, _⟩ := prims_keep_tags s contextKind.ContextSoft contextType.ContextValue
      parseNext.null none
    obtain ⟨h1, h2⟩ := popSoftContext_lower s
    exact Or.inr ⟨h1, h2, fun t ht => Or.inl (by simpa [core, hk.1] using ht),
      fun hne => Or.inl ⟨by simpa [core, hk.2.1] using hne, hk.2.2⟩⟩
  | popStrongContext s =>
    obtain ⟨_, _, _, hk, _⟩ := prims_keep_tags s contextKind.ContextSoft
      contextType.ContextValue parseNext.null none
    have hk := hk s.stackIndex
    obtain ⟨h1, h2⟩ := popStrongContextFrom_lower s s.stackIndex
    exact Or.inr ⟨h1, h2,
      fun t ht => Or.inl (by simpa [core, popStrongContext, hk.1] using ht),
      fun hne => Or.inl ⟨by simpa [core, popStrongContext, hk.2.1] using hne, hk.2.2⟩⟩
  | jumpToMatchContext s =>
    obtain ⟨_, _, _, _, hk⟩ := prims_keep_tags s contextKind.ContextSoft
      contextType.ContextValue parseNext.null none
    have hk := hk s.stackIndex
    obtain ⟨h1, h2⟩ := jumpToMatchContextFrom_lower s s.stackIndex (le_refl _)
    exact Or.inr ⟨h1, h2,
      fun t ht => Or.inl (by simpa [core, jumpToMatchContext, hk.1] using ht),
      fun hne => Or.inl ⟨by simpa [core, jumpToMatchContext, hk.2.1] using hne, hk.2.2⟩⟩
  | addTag s ident kind =>
    right
    unfold addTag
    split_ifs
    · refine ⟨le_refl _, fun j _ => rfl, fun t ht => ?_, fun hne => Or.inl ⟨hne, rfl⟩⟩
      simp only [core, makeTagEntry, List.mem_append, List.mem_singleton] at ht
      rcases ht with ht | ht
      · exact Or.inl ht
      · exact Or.inr (Or.inr ⟨ident, kind, s.ocaLineNumber, ht.trans (hprep s ident kind)⟩)
    · exact ⟨le_refl _, fun j _ => rfl, fun t ht => Or.inl ht,
        fun hne => Or.inl ⟨hne, rfl⟩⟩
  | stage s ident =>
    exact Or.inr ⟨le_refl _, fun j _ => rfl, fun t ht => Or.inl ht,
      fun _ => Or.inr ⟨ident, ocamlKind.K_CONSTRUCTOR, s.ocaLineNumber, hprep s ident _⟩⟩
  | unstage s =>
    exact Or.inr ⟨le_refl _, fun j _ => rfl, fun t ht => Or.inl ht,
      fun hne => absurd rfl hne⟩
  | emitTempTag s =>
    right
    unfold emitTempTag
    split_ifs with hlen
    · refine ⟨le_refl _, fun j _ => rfl, fun t ht => ?_, fun hne => absurd rfl hne⟩
      simp only [core, makeTagEntry, List.mem_append, List.mem_singleton] at ht
      rcases ht with ht | ht
      · exact Or.inl ht
      · exact Or.inr (Or.inl ⟨List.length_pos.mp hlen, ht⟩)
    · exact ⟨le_refl _, fun j _ => rfl, fun t ht => Or.inl ht,
        fun hne => Or.inl ⟨hne, rfl⟩⟩

/-! ### The stack index stays in the array -/

theorem pushContext_stackIndex_le (kind : contextKind) (type : contextType)
    (after : parseNext) (name : Option vString) (s : ParserState)
    (h : s.stackIndex ≤ OCAML_MAX_STACK_SIZE) :
    (pushContext kind type after name s).stackIndex ≤ OCAML_MAX_STACK_SIZE := by
  unfold pushContext
  split_ifs with hfull
  · exact h
  · simp only
    omega

theorem doStackCall_stackIndex_le (c : stackCall) (s : ParserState)
    (h : s.stackIndex ≤ OCAML_MAX_STACK_SIZE) :
    (doStackCall c s).stackIndex ≤ OCAML_MAX_STACK_SIZE := by
  cases c with
  | pushContext kind type after name => exact pushContext_stackIndex_le kind type after name s h
  | popLastNamed => exact le_trans (popLastNamed_lower s).1 h
  | popSoftContext => exact le_trans (popSoftContext_lower s).1 h
  | popStrongContext => exact le_trans (popStrongContextFrom_lower s s.stackIndex).1 h
  | jumpToMatchContext =>
    exact le_trans (jumpToMatchContextFrom_lower s s.stackIndex (le_refl _)).1 h

theorem doStackCalls_stackIndex_le (cs : List stackCall) :
    ∀ s : ParserState, s.stackIndex ≤ OCAML_MAX_STACK_SIZE →
      (doStackCalls cs s).stackIndex ≤ OCAML_MAX_STACK_SIZE := by
  induction cs with
  | nil => intro s h; exact h
  | cons c rest ih => intro s h; exact ih _ (doStackCall_stackIndex_le c s h)

theorem stackReach_stackIndex_le {a c : stackAndTags} (h : stackReach a c)
    (ha : a.stackIndex ≤ OCAML_MAX_STACK_SIZE) : c.stackIndex ≤ OCAML_MAX_STACK_SIZE := by
  induction h with
  | refl => exact ha
  | step _ hs ih =>
    rcases stackStep_cases hs with ⟨f, h1, h2, _⟩ | ⟨h1, _⟩
    · omega
    · omega

/-- C32. Stack index invariant.  After `initStack`, whatever the other
variables hold, every sequence of calls of `pushContext` (with any
arguments), `popLastNamed`, `popSoftContext`, `popStrongContext` and
`jumpToMatchContext` leaves `stackIndex` between 0 and
`OCAML_MAX_STACK_SIZE`; so does every run of the automaton, on any token
sequence with any lookahead after it, and every sequence of iterations of the
main loop. -/
theorem stackIndex_in_bounds :
    (∀ (cs : List stackCall) (s : ParserState),
      0 ≤ (doStackCalls cs (initStack s)).stackIndex ∧
        (doStackCalls cs (initStack s)).stackIndex ≤ OCAML_MAX_STACK_SIZE) ∧
    (∀ (toks : List (vString × ocaToken)) (last : ocaToken) (s : ParserState),
      0 ≤ (runTokensThen toks last (initStack s)).stackIndex ∧
        (runTokensThen toks last (initStack s)).stackIndex ≤ OCAML_MAX_STACK_SIZE) ∧
    (∀ (cs : List handlerCall) (s : ParserState),
      0 ≤ (makeCalls cs (initStack s)).stackIndex ∧
        (makeCalls cs (initStack s)).stackIndex ≤ OCAML_MAX_STACK_SIZE) := by
  refine ⟨fun cs s => ⟨Nat.zero_le _, ?_⟩, fun toks last s => ⟨Nat.zero_le _, ?_⟩,
    fun cs s => ⟨Nat.zero_le _, ?_⟩⟩
  · exact doStackCalls_stackIndex_le cs (initStack s) (Nat.zero_le _)
  · exact stackReach_stackIndex_le
      (runTokensThen_reach toks last (initStack s) stackReach.refl) (Nat.zero_le _)
  · exact stackReach_stackIndex_le
      (makeCalls_reach cs (initStack s) stackReach.refl) (Nat.zero_le _)

/-! ### Named frames have a describable role -/

theorem contextDescription_described (t : contextType) (k : ocamlKind)
    (h : contextDescription t = some k) : k ∈ describedKinds := by
  cases t <;> simp [contextDescription] at h <;> subst h <;> decide

open contextType in
theorem contextDescription_isSome (t : contextType)
    (h : (contextDescription t).isSome = true) :
    t ∈ [ContextType, ContextModule, ContextClass, ContextValue, ContextFunction,
      ContextMethod] := by
  cases t <;> first | decide | exact absurd h (by decide)

theorem prepareTag_wellScoped (name : vString) (kind : ocamlKind) (s : ParserState)
    (hframes : ∀ i, i < s.stackIndex → (s.stack i).contextName ≠ [] →
      (contextDescription (s.stack i).type).isSome = true) :
    wellScoped (prepareTag name kind s) := by
  unfold prepareTag
  cases h : getLastNamedIndex s with
  | none => intro hne; exact absurd rfl hne
  | some p =>
    obtain ⟨h1, h2, _⟩ := getLastNamedIndexFrom_some s.stack s.stackIndex p h
    have h3 := hframes p h1 h2
    intro _
    obtain ⟨k, hk⟩ := Option.isSome_iff_exists.mp h3
    exact ⟨k, contextDescription_described _ k hk, hk⟩

theorem stackReach_describable {a c : stackAndTags} (h : stackReach a c)
    (ha0 : a.stackIndex = 0) (ha1 : a.tempIdent = []) :
    (∀ i, i < c.stackIndex → (c.stack i).contextName ≠ [] →
      (contextDescription (c.stack i).type).isSome = true) ∧
    (∀ t ∈ c.tags, t ∈ a.tags ∨ wellScoped t) ∧
    (c.tempIdent ≠ [] → wellScoped c.tempTag) := by
  induction h with
  | refl =>
    exact ⟨fun i hi => by omega, fun t ht => Or.inl ht, fun hne => absurd ha1 hne⟩
  | @step b c _ hs ih =>
    obtain ⟨hf, ht, hst⟩ := ih
    have hprep : ∀ name kind ln, wellScoped (prepareTag name kind
        { initialStatics OcamlKinds with
          stack := b.stack, stackIndex := b.stackIndex, ocaLineNumber := ln }) :=
      fun name kind ln => prepareTag_wellScoped name kind _ hf
    rcases stackStep_cases hs with ⟨f, h1, h2, h3, h4, _, h6, h7, h8⟩ | ⟨h1, h2, h3, h4⟩
    · refine ⟨fun i hi hne => ?_, fun t htc => ht t (h6 ▸ htc), fun hne => ?_⟩
      · rw [h3] at hne ⊢
        by_cases hik : i = b.stackIndex
        · subst hik
          simp only [Function.update_same] at hne ⊢
          exact h4 hne
        · simp only [Function.update_noteq hik] at hne ⊢
          exact hf i (by omega) hne
      · rw [h8]
        exact hst (h7 ▸ hne)
    · refine ⟨fun i hi hne => ?_, fun t htc => ?_, fun hne => ?_⟩
      · rw [h2 i hi] at hne ⊢
        exact hf i (by omega) hne
      · rcases h3 t htc with h | ⟨h, rfl⟩ | ⟨name, kind, ln, rfl⟩
        · exact ht t h
        · exact Or.inr (hst h)
        · exact Or.inr (hprep name kind ln)
      · rcases h4 hne with ⟨h, e⟩ | ⟨name, kind, ln, e⟩
        · rw [e]
          exact hst h
        · rw [e]
          exact hprep name kind ln

theorem describableState_of_reach (s r : ParserState)
    (h : stackReach (core (runStart s)) (core r)) : describableState s.tags r := by
  obtain ⟨hf, ht, _⟩ := stackReach_describable h rfl rfl
  have hf2 : ∀ i, i < r.stackIndex → (r.stack i).contextName ≠ [] →
      (contextDescription (r.stack i).type).isSome = true := hf
  refine ⟨fun i hi hne => contextDescription_isSome _ (hf2 i hi hne), fun p hp => ?_,
    fun name kind => prepareTag_wellScoped name kind r hf2, ht⟩
  obtain ⟨h1, h2, _⟩ := getLastNamedIndexFrom_some r.stack r.stackIndex p hp
  have h3 := hf2 p h1 h2
  intro hnone
  rw [hnone] at h3
  exact absurd h3 (by decide)

/-- C33. Named frames have a describable role.  In every state the
automaton reaches from the start of a run (`initStack ()`, `tempIdent`
empty, the other variables arbitrary), on any token sequence with any
lookahead after it and through any iterations of the main loop, every frame
below `stackIndex` whose name is not empty has a role among Type, Module,
Class, Value, Function and Method; the frame `prepareTag` takes the scope
from is described by `contextDescription` (the `AssertNotReached` branch is
not reached); and every tag the run hands to the sink that has a scope has a
scope kind among function, method, val, module, type and class. -/
theorem named_frames_describable (s : ParserState) :
    (∀ (toks : List (vString × ocaToken)) (last : ocaToken),
      describableState s.tags (runTokensThen toks last (runStart s))) ∧
    (∀ cs : List handlerCall, describableState s.tags (makeCalls cs (runStart s))) :=
  ⟨fun toks last => describableState_of_reach s _
      (runTokensThen_reach toks last (runStart s) stackReach.refl),
    fun cs => describableState_of_reach s _ (makeCalls_reach cs (runStart s) stackReach.refl)⟩

/-! ### The scope paths are nested -/

theorem stackReach_nested {a c : stackAndTags} (h : stackReach a c)
    (ha0 : a.stackIndex = 0) :
    ∀ j, j < c.stackIndex → (c.stack j).contextName ≠ [] →
      ∀ p, getLastNamedIndexFrom c.stack j = some p →
        ∃ n, (c.stack j).contextName =
          (c.stack p).contextName ++ [contextTypeSuffix (c.stack p).type] ++ n := by
  induction h with
  | refl => intro j hj; omega
  | @step b c _ hs ih =>
    rcases stackStep_cases hs with ⟨f, h1, h2, h3, _, h5, _⟩ | ⟨h1, h2, _⟩
    · intro j hj hne p hp
      have hlow : ∀ i, i < j → c.stack i = b.stack i := by
        intro i hi
        rw [h3]
        exact Function.update_noteq (by omega) _ _
      rw [getLastNamedIndexFrom_congr b.stack c.stack j hlow] at hp
      obtain ⟨hpj, _, _⟩ := getLastNamedIndexFrom_some b.stack j p hp
      rw [hlow p hpj]
      by_cases hjk : j = b.stackIndex
      · subst hjk
        rw [h3] at hne ⊢
        simp only [Function.update_same] at hne ⊢
        exact h5 p hp hne
      · have hjb : j < b.stackIndex := by omega
        have e : c.stack j = b.stack j := by
          rw [h3]
          exact Function.update_noteq hjk _ _
        rw [e] at hne ⊢
        exact ih j hjb hne p hp
    · intro j hj hne p hp
      have hlow : ∀ i, i < j → c.stack i = b.stack i := fun i hi => h2 i (by omega)
      rw [getLastNamedIndexFrom_congr b.stack c.stack j hlow] at hp
      obtain ⟨hpj, _, _⟩ := getLastNamedIndexFrom_some b.stack j p hp
      rw [hlow p hpj, h2 j hj] at *
      exact ih j (by omega) hne p hp

theorem scopePathsNested_of_reach (s r : ParserState)
    (h : stackReach (core (initStack s)) (core r)) : scopePathsNested r := by
  intro j p hj hne hpj hpne hgap
  have hlast := getLastNamedIndexFrom_eq_some r.stack j p hpj hpne hgap
  obtain ⟨n, hn⟩ := stackReach_nested h rfl j hj hne p hlast
  exact ⟨n, hn.symm⟩

/-- C34. Scope-path prefix invariant.  In every state the automaton reaches
after `initStack`, on any token sequence with any lookahead after it and
through any iterations of the main loop, the name of a frame below
`stackIndex` that is not empty starts with the name of the nearest named frame
below it followed by `contextTypeSuffix` of that frame's role.  A frame
pushed with a name when no frame below it is named gets exactly that name.
The four functions that pop leave every frame below the new `stackIndex` as
it was. -/
theorem scope_path_prefix :
    (∀ (s : ParserState) (toks : List (vString × ocaToken)) (last : ocaToken),
      scopePathsNested (runTokensThen toks last (initStack s))) ∧
    (∀ (s : ParserState) (cs : List handlerCall),
      scopePathsNested (makeCalls cs (initStack s))) ∧
    (∀ (s : ParserState) (kind : contextKind) (type : contextType) (after : parseNext)
        (n : vString),
      s.stackIndex < OCAML_MAX_STACK_SIZE →
      (∀ i, i < s.stackIndex → (s.stack i).contextName = []) →
      ((pushContext kind type after (some n) s).stack s.stackIndex).contextName = n) ∧
    (∀ (s : ParserState) (j : Nat),
      (j < (popLastNamed s).stackIndex → (popLastNamed s).stack j = s.stack j) ∧
      (j < (popSoftContext s).stackIndex → (popSoftContext s).stack j = s.stack j) ∧
      (j < (popStrongContext s).2.stackIndex → (popStrongContext s).2.stack j = s.stack j) ∧
      (j < (jumpToMatchContext s).stackIndex → (jumpToMatchContext s).stack j = s.stack j))
    := by
  refine ⟨fun s toks last => scopePathsNested_of_reach s _
      (runTokensThen_reach toks last (initStack s) stackReach.refl),
    fun s cs => scopePathsNested_of_reach s _
      (makeCalls_reach cs (initStack s) stackReach.refl), ?_, ?_⟩
  · intro s kind type after n hlt hall
    have hnone : getLastNamedIndex s = none :=
      getLastNamedIndexFrom_eq_none s.stack s.stackIndex hall
    have hfull : ¬ s.stackIndex ≥ OCAML_MAX_STACK_SIZE := by omega
    simp [pushContext, hfull, hnone]
  · intro s j
    exact ⟨(popLastNamed_lower s).2 j, (popSoftContext_lower s).2 j,
      (popStrongContextFrom_lower s s.stackIndex).2 j,
      (jumpToMatchContextFrom_lower s s.stackIndex (le_refl _)).2 j⟩

/-! ## The pointer past the end of a line -/

open ocamlKeyword in
/-- C14. On the file whose only line is `(* (* *)` the first call of `lex`
leaves the line: the inner comment ends with the line, so the recursive call
of `eatComment` returns with the pointer on the terminating NUL, and the
`c++` that follows moves it past that NUL (`pastEnd`); what the call reads
from there on is not part of the input.  The same happens on the first of
two lines.  Without the inner comment, or when text follows the inner `*)`,
the pointer stays inside its line. -/
theorem lex_steps_past_line_end :
    eatComment 100 { lines := [], lineNumber := 1 } "(* *)".toList =
      some (some [], { lines := [], lineNumber := 1 }) ∧
    (lex 100 { lines := ["(* (* *)".toList], lineNumber := 0 }
        { name := [], cp := none }).map (fun r => r.2.2.pastEnd) = some true ∧
    (lex 100 { lines := ["(* (* a *)".toList, " b *) x".toList], lineNumber := 0 }
        { name := [], cp := none }).map (fun r => r.2.2.pastEnd) = some true ∧
    (lex 100 { lines := ["(* *)".toList], lineNumber := 0 }
        { name := [], cp := none }).map (fun r => r.2.2.pastEnd) = some false ∧
    (lex 100 { lines := ["(* (* a *) b *) x".toList], lineNumber := 0 }
        { name := [], cp := none }).map (fun r => r.2.2.pastEnd) = some false := by
  refine ⟨?_, ?_, ?_, ?_, ?_⟩ <;> decide

/-! ## The tokens of a text of words -/

theorem run_of_all (p : Char → Bool) (tl rest : List Char)
    (hall : tl.all p = true) (hrest : p (cur rest) = false) :
    (tl ++ rest).takeWhile p = tl ∧ (tl ++ rest).dropWhile p = rest := by
  induction tl with
  | nil =>
    cases rest with
    | nil => simp
    | cons c r =>
      have hc : p c = false := by simpa [cur] using hrest
      simp [List.takeWhile_cons, List.dropWhile_cons, hc]
  | cons a tl ih =>
    simp only [List.all_cons, Bool.and_eq_true] at hall
    obtain ⟨h1, h2⟩ := ih hall.2
    simp [List.takeWhile_cons, List.dropWhile_cons, hall.1, h1, h2]

theorem isWord_cases (w : vString) (h : isWord w = true) :
    (∃ ch tl, w = ch :: tl ∧ isAlpha ch = true ∧ tl.all isIdent = true) ∨
    (∃ ch tl, w = ch :: tl ∧ isOperator ch = true ∧ tl.all isOperator = true) ∨
    w = [chCurlL] ∨ w = [chCurlR] ∨ w = [';'] := by
  simp only [isWord, Bool.or_eq_true, Bool.and_eq_true, beq_iff_eq] at h
  rcases h with (((⟨h1, h2⟩ | ⟨h1, h2⟩) | h) | h) | h
  · left
    cases w with
    | nil => exact absurd h1 (by decide)
    | cons ch tl =>
      simp only [List.all_cons, Bool.and_eq_true] at h2
      exact ⟨ch, tl, rfl, by simpa [cur] using h1, h2.2⟩
  · right; left
    cases w with
    | nil => simp at h1
    | cons ch tl =>
      simp only [List.all_cons, Bool.and_eq_true] at h2
      exact ⟨ch, tl, rfl, h2.1, h2.2⟩
  · exact Or.inr (Or.inr (Or.inl h))
  · exact Or.inr (Or.inr (Or.inr (Or.inl h)))
  · exact Or.inr (Or.inr (Or.inr (Or.inr h)))

open ocamlKeyword in
/-- The call of `lex` at the start of a word that ends where the text ends
or where a character follows that is neither an identifier character nor an
operator character: the token and the lexeme are those of `wordEntry`, the
name buffer is the lexeme (unchanged when the word has none), and the pointer
is just after the word. -/
theorem lex_word (fuel : Nat) (rd : Reader) (prev w rest : List Char)
    (hw : isWord w = true)
    (hid : isIdent (cur rest) = false) (hop : isOperator (cur rest) = false) :
    lex (fuel + 1) rd { name := prev, cp := some (w ++ rest) } =
      some ((wordEntry w).2,
        { name := (wordEntry w).1.getD prev, cp := some rest }, rd) := by
  rcases isWord_cases w hw with
    ⟨ch, tl, rfl, hch, hall⟩ | ⟨ch, tl, rfl, hch, hall⟩ | rfl | rfl | rfl
  · obtain ⟨ht, hd⟩ := run_of_all isIdent tl rest hall hid
    have hidc : isIdent ch = true := isIdent_of_isAlpha ch hch
    have hnul : (ch == chNUL) = false := by
      cases hz : (ch == chNUL)
      · rfl
      · have : ch = chNUL := by simpa using hz
        rw [this] at hch
        exact absurd hch (by decide)
    have hcur : cur (ch :: (tl ++ rest)) = ch := rfl
    have hcur2 : cur (ch :: tl) = ch := rfl
    have e1 : ch :: tl ≠ [chCurlL] := by
      intro h; injection h with h1 _; rw [h1] at hch; exact absurd hch (by decide)
    have e2 : ch :: tl ≠ [chCurlR] := by
      intro h; injection h with h1 _; rw [h1] at hch; exact absurd hch (by decide)
    have e3 : ch :: tl ≠ [';'] := by
      intro h; injection h with h1 _; rw [h1] at hch; exact absurd hch (by decide)
    unfold lex
    simp only [List.cons_append, lexHead, hcur, hnul, hch, if_true, Bool.false_eq_true,
      if_false]
    simp only [readIdentifier, hcur, hch, Bool.true_or, if_true, List.tail_cons,
      readIdentifierLoop_eq, ht, hd, List.singleton_append, wordEntry, e1, e2, e3, hcur2,
      if_false]
    cases lookupKeyword (ch :: tl) <;> rfl
  · obtain ⟨ht, hd⟩ := run_of_all isOperator tl rest hall hop
    obtain ⟨ha, hn, hs, hu, hz⟩ := isOperator_not_other ch hch
    have hcur : cur (ch :: (tl ++ rest)) = ch := rfl
    have hcur2 : cur (ch :: tl) = ch := rfl
    have e1 : ch :: tl ≠ [chCurlL] := by
      intro h; injection h with h1 _; rw [h1] at hch; exact absurd hch (by decide)
    have e2 : ch :: tl ≠ [chCurlR] := by
      intro h; injection h with h1 _; rw [h1] at hch; exact absurd hch (by decide)
    have e3 : ch :: tl ≠ [';'] := by
      intro h; injection h with h1 _; rw [h1] at hch; exact absurd hch (by decide)
    have htw : (ch :: (tl ++ rest)).takeWhile isOperator = ch :: tl := by
      simp [List.takeWhile_cons, hch, ht]
    have hdw : (ch :: (tl ++ rest)).dropWhile isOperator = rest := by
      simp [List.dropWhile_cons, hch, hd]
    have heat : eatOperator (ch :: (tl ++ rest)) =
        (operatorRunToken (ch :: tl), ch :: tl, rest) := by
      have h1 := eatOperator_token ch (tl ++ rest) hch
      have h2 : (eatOperator (ch :: (tl ++ rest))).2 =
          ((ch :: (tl ++ rest)).takeWhile isOperator,
            (ch :: (tl ++ rest)).dropWhile isOperator) := by
        simp [eatOperator, eatOperatorLoop_eq]
      rw [htw] at h1
      rw [htw, hdw] at h2
      exact Prod.ext h1 h2
    unfold lex
    simp only [List.cons_append, lexHead, hcur, hz, ha, hn, hs, hu, hch, Bool.false_eq_true,
      if_false, if_true, heat, wordEntry, e1, e2, e3, hcur2, Option.getD_some]
  · have hcur : cur (chCurlL :: rest) = chCurlL := rfl
    have hw : wordEntry [chCurlL] = (none, Tok_CurlL) := by decide
    unfold lex
    simp +decide only [List.singleton_append, lexHead, hcur, hw, Option.getD_none,
      Bool.false_eq_true, if_false, if_true, List.tail_cons]
  · have hcur : cur (chCurlR :: rest) = chCurlR := rfl
    have hw : wordEntry [chCurlR] = (none, Tok_CurlR) := by decide
    unfold lex
    simp +decide only [List.singleton_append, lexHead, hcur, hw, Option.getD_none,
      Bool.false_eq_true, if_false, if_true, List.tail_cons]
  · have hcur : cur (';' :: rest) = ';' := rfl
    have hw : wordEntry [';'] = (none, Tok_semi) := by decide
    unfold lex
    simp +decide only [List.singleton_append, lexHead, hcur, hw, Option.getD_none,
      Bool.false_eq_true, if_false, if_true, List.tail_cons]

theorem isSpace_of_isAlpha (ch : Char) (h : isAlpha ch = true) : isSpace ch = false := by
  cases hs : isSpace ch
  · rfl
  · simp only [isSpace, Bool.or_eq_true, beq_iff_eq] at hs
    rcases hs with ((rfl | rfl) | rfl) | rfl <;> exact absurd h (by decide)

theorem isWord_head (w : vString) (h : isWord w = true) :
    ∃ ch tl, w = ch :: tl ∧ isSpace ch = false ∧ (ch == chNUL) = false := by
  rcases isWord_cases w h with
    ⟨ch, tl, rfl, hch, _⟩ | ⟨ch, tl, rfl, hch, _⟩ | rfl | rfl | rfl
  · refine ⟨ch, tl, rfl, isSpace_of_isAlpha ch hch, ?_⟩
    cases hz : (ch == chNUL)
    · rfl
    · have : ch = chNUL := by simpa using hz
      rw [this] at hch
      exact absurd hch (by decide)
  · obtain ⟨_, _, hs, _, hz⟩ := isOperator_not_other ch hch
    exact ⟨ch, tl, rfl, hs, hz⟩
  · exact ⟨chCurlL, [], rfl, by decide, by decide⟩
  · exact ⟨chCurlR, [], rfl, by decide, by decide⟩
  · exact ⟨';', [], rfl, by decide, by decide⟩

open ocamlKeyword in
/-- The call of `lex` at a blank that a word follows: the blank is skipped
and the word is read. -/
theorem lex_blank_word (fuel : Nat) (rd : Reader) (prev w rest : List Char)
    (hw : isWord w = true)
    (hid : isIdent (cur rest) = false) (hop : isOperator (cur rest) = false) :
    lex (fuel + 2) rd { name := prev, cp := some (' ' :: (w ++ rest)) } =
      some ((wordEntry w).2,
        { name := (wordEntry w).1.getD prev, cp := some rest }, rd) := by
  obtain ⟨ch, tl, hwe, hs, _⟩ := isWord_head w hw
  have hcur : cur (' ' :: (w ++ rest)) = ' ' := rfl
  have hskip : eatWhiteSpace (' ' :: (w ++ rest)) = w ++ rest := by
    subst hwe
    have h1 : isSpace ' ' = true := by decide
    simp only [List.cons_append, eatWhiteSpace, h1, hs, if_true, Bool.false_eq_true, if_false]
    rfl
  have h := lex_word fuel rd prev w rest hw hid hop
  rw [← h]
  conv_lhs => unfold lex
  simp +decide only [lexHead, hcur, hskip, Bool.false_eq_true, if_false, if_true]

open ocamlKeyword in
/-- The first call of `lex` on a file of one line, which the head of `lex`
reads, is the call with the pointer at the start of that line. -/
theorem lex_first_line (fuel : Nat) (l : List Char) (n : Nat) (b : Bool) (name : vString)
    (h : (cur l == chNUL) = false) :
    lex (fuel + 1) { lines := [l], lineNumber := n, pastEnd := b }
        { name := name, cp := none } =
      lex (fuel + 1) { lines := [], lineNumber := n + 1, pastEnd := b }
        { name := name, cp := some l } := by
  unfold lex
  simp only [lexHead, lexLoadLine, h, Bool.false_eq_true, if_false]

open ocamlKeyword in
theorem wordEntry_ne_EOF (w : vString) : (wordEntry w).2 ≠ Tok_EOF := by
  unfold wordEntry
  split_ifs with h1 h2 h3 h4
  · decide
  · decide
  · decide
  · cases hk : lookupKeyword w with
    | none => simp
    | some t => simpa using lookupKeyword_ne_EOF w t hk
  · simp only [operatorRunToken]
    split_ifs <;> decide

theorem spacedTail_sep (ws : List vString) :
    isIdent (cur (spacedTail ws)) = false ∧ isOperator (cur (spacedTail ws)) = false := by
  cases ws with
  | nil => exact ⟨by decide, by decide⟩
  | cons w ws =>
    exact ⟨(by decide : isIdent ' ' = false), (by decide : isOperator ' ' = false)⟩

theorem nameBuffers_cons (prev : vString) (e : Option vString × ocaToken)
    (rest : List (Option vString × ocaToken)) :
    nameBuffers prev (e :: rest) = (e.1.getD prev, e.2) :: nameBuffers (e.1.getD prev) rest := by
  obtain ⟨n, t⟩ := e
  cases n <;> rfl

/-- The tokens of the words that follow, each after its blank, to the end of
the line. -/
theorem lexAll_spacedTail (F : Nat) (ws : List vString) (hws : ∀ w ∈ ws, isWord w = true) :
    ∀ (G : Nat) (rd : Reader) (prev : vString), rd.lines = [] → ws.length < G →
      lexAll (F + 2) G rd { name := prev, cp := some (spacedTail ws) } =
        some (nameBuffers prev (ws.map wordEntry)) := by
  induction ws with
  | nil =>
    intro G rd prev hrd hG
    obtain ⟨G1, rfl⟩ : ∃ G1, G = G1 + 1 := ⟨G - 1, by simp at hG; omega⟩
    obtain ⟨lines, n, b⟩ := rd
    simp only at hrd
    subst hrd
    simp [lexAll, lex, lexHead, lexLoadLine, spacedTail, cur, nameBuffers]
  | cons w ws ih =>
    intro G rd prev hrd hG
    obtain ⟨G1, rfl⟩ : ∃ G1, G = G1 + 1 := ⟨G - 1, by simp at hG; omega⟩
    have hw : isWord w = true := hws w (List.mem_cons_self _ _)
    obtain ⟨hid, hop⟩ := spacedTail_sep ws
    have hlex := lex_blank_word F rd prev w (spacedTail ws) hw hid hop
    have hne := wordEntry_ne_EOF w
    have hrec := ih (fun v hv => hws v (List.mem_cons_of_mem _ hv)) G1 rd
      ((wordEntry w).1.getD prev) hrd (by simp at hG; omega)
    simp only [spacedTail, List.map_cons, nameBuffers_cons]
    unfold lexAll
    simp only [hlex, hne, if_false, hrec, Option.map_some']

theorem length_spacedTail (ws : List vString) : ws.length ≤ (spacedTail ws).length := by
  induction ws with
  | nil => simp [spacedTail]
  | cons w ws ih => simp only [spacedTail, List.length_cons, List.length_append]; omega

/-- The tokens of a line of words separated by blanks: `lex` returns, word
after word, the token `wordEntry` tells, with the name buffers of
`nameBuffers`. -/
theorem lexText_spaced (ws : List vString) (hws : ∀ w ∈ ws, isWord w = true) :
    lexText (spaced ws) = some (nameBuffers [] (ws.map wordEntry)) := by
  cases ws with
  | nil => decide
  | cons w ws =>
    have hw : isWord w = true := hws w (List.mem_cons_self _ _)
    obtain ⟨ch, tl, hwe, _, hz⟩ := isWord_head w hw
    obtain ⟨hid, hop⟩ := spacedTail_sep ws
    have hcurz : (cur (w ++ spacedTail ws) == chNUL) = false := by
      subst hwe
      exact hz
    have hfirst := lex_first_line ((spaced (w :: ws)).length + 1) (w ++ spacedTail ws) 0 false []
      hcurz
    have hlex := lex_word ((spaced (w :: ws)).length + 1)
      { lines := [], lineNumber := 0 + 1, pastEnd := false } [] w (spacedTail ws) hw hid hop
    have hne := wordEntry_ne_EOF w
    have hlen : ws.length < (spaced (w :: ws)).length + 1 := by
      have := length_spacedTail ws
      simp only [spaced, List.length_append]
      omega
    have hrec := lexAll_spacedTail (spaced (w :: ws)).length ws
      (fun v hv => hws v (List.mem_cons_of_mem _ hv)) ((spaced (w :: ws)).length + 1)
      { lines := [], lineNumber := 0 + 1, pastEnd := false } ((wordEntry w).1.getD []) rfl hlen
    simp only [List.map_cons, nameBuffers_cons]
    unfold lexText
    unfold lexAll
    simp only [spaced] at hfirst hlex hrec ⊢
    simp only [hfirst, hlex, hne, if_false, hrec, Option.map_some']

theorem isIdentifierToken_spec (w : vString) (h : isIdentifierToken w = true) :
    isWord w = true ∧ wordEntry w = (some w, ocamlKeyword.OcaIDENTIFIER) ∧ w ≠ [] := by
  simp only [isIdentifierToken, Bool.and_eq_true, Option.isNone_iff_eq_none] at h
  obtain ⟨⟨h1, h2⟩, h3⟩ := h
  have e1 : w ≠ [chCurlL] := by intro e; rw [e] at h1; exact absurd h1 (by decide)
  have e2 : w ≠ [chCurlR] := by intro e; rw [e] at h1; exact absurd h1 (by decide)
  have e3 : w ≠ [';'] := by intro e; rw [e] at h1; exact absurd h1 (by decide)
  have e4 : w ≠ [] := by intro e; rw [e] at h1; exact absurd h1 (by decide)
  refine ⟨by simp [isWord, h1, h2], ?_, e4⟩
  simp [wordEntry, e1, e2, e3, h1, h3]

/-! ## The examples on names that are identifier tokens -/

theorem wordEntry_keywords :
    wordEntry "module".toList = (some "module".toList, ocamlKeyword.OcaKEYWORD_module) ∧
    wordEntry "struct".toList = (some "struct".toList, ocamlKeyword.OcaKEYWORD_struct) ∧
    wordEntry "let".toList = (some "let".toList, ocamlKeyword.OcaKEYWORD_let) ∧
    wordEntry "end".toList = (some "end".toList, ocamlKeyword.OcaKEYWORD_end) ∧
    wordEntry "class".toList = (some "class".toList, ocamlKeyword.OcaKEYWORD_class) ∧
    wordEntry "object".toList = (some "object".toList, ocamlKeyword.OcaKEYWORD_object) ∧
    wordEntry "method".toList = (some "method".toList, ocamlKeyword.OcaKEYWORD_method) ∧
    wordEntry "type".toList = (some "type".toList, ocamlKeyword.OcaKEYWORD_type) ∧
    wordEntry "mutable".toList = (some "mutable".toList, ocamlKeyword.OcaKEYWORD_mutable) ∧
    wordEntry "=".toList = (some "=".toList, ocamlKeyword.Tok_EQ) ∧
    wordEntry ":".toList = (some ":".toList, ocamlKeyword.Tok_Of) ∧
    wordEntry [chCurlL] = (none, ocamlKeyword.Tok_CurlL) ∧
    wordEntry [chCurlR] = (none, ocamlKeyword.Tok_CurlR) ∧
    wordEntry [';'] = (none, ocamlKeyword.Tok_semi) := by
  refine ⟨?_, ?_, ?_, ?_, ?_, ?_, ?_, ?_, ?_, ?_, ?_, ?_, ?_, ?_⟩ <;> decide

theorem isWord_keywords :
    isWord "module".toList = true ∧ isWord "struct".toList = true ∧
    isWord "let".toList = true ∧ isWord "end".toList = true ∧
    isWord "class".toList = true ∧ isWord "object".toList = true ∧
    isWord "method".toList = true ∧ isWord "type".toList = true ∧
    isWord "mutable".toList = true ∧ isWord "=".toList = true ∧
    isWord ":".toList = true ∧ isWord [chCurlL] = true ∧ isWord [chCurlR] = true ∧
    isWord [';'] = true := by
  refine ⟨?_, ?_, ?_, ?_, ?_, ?_, ?_, ?_, ?_, ?_, ?_, ?_, ?_, ?_⟩ <;> decide

/-- The tokens `lex` yields on the line `module M = struct let f x = x end`
when the three names are identifier tokens. -/
theorem moduleExampleWords_lexed (M f x : vString)
    (hM : isIdentifierToken M = true) (hf : isIdentifierToken f = true)
    (hx : isIdentifierToken x = true) :
    lexText (spaced (moduleExampleWords M f x)) = some (moduleExampleTokens M f x) := by
  obtain ⟨wM, eM, _⟩ := isIdentifierToken_spec M hM
  obtain ⟨wf, ef, _⟩ := isIdentifierToken_spec f hf
  obtain ⟨wx, ex, _⟩ := isIdentifierToken_spec x hx
  obtain ⟨k1, k2, k3, k4, k5, k6, k7, k8, k9, k10, k11, k12, k13, k14⟩ := wordEntry_keywords
  obtain ⟨w1, w2, w3, w4, w5, w6, w7, w8, w9, w10, w11, w12, w13, w14⟩ := isWord_keywords
  rw [lexText_spaced]
  · simp only [moduleExampleWords, List.map_cons, List.map_nil, eM, ef, ex, k1, k2, k3, k4,
      k10]
    rfl
  · intro w hw
    simp only [moduleExampleWords, List.mem_cons, List.mem_singleton, List.not_mem_nil,
      or_false] at hw
    rcases hw with rfl | rfl | rfl | rfl | rfl | rfl | rfl | rfl | rfl | rfl <;> assumption

/-- The tokens `lex` yields on the line `class c = object method m x = x end`
when the three names are identifier tokens. -/
theorem classExampleWords_lexed (c m x : vString)
    (hc : isIdentifierToken c = true) (hm : isIdentifierToken m = true)
    (hx : isIdentifierToken x = true) :
    lexText (spaced (classExampleWords c m x)) = some (classExampleTokens c m x) := by
  obtain ⟨wc, ec, _⟩ := isIdentifierToken_spec c hc
  obtain ⟨wm, em, _⟩ := isIdentifierToken_spec m hm
  obtain ⟨wx, ex, _⟩ := isIdentifierToken_spec x hx
  obtain ⟨k1, k2, k3, k4, k5, k6, k7, k8, k9, k10, k11, k12, k13, k14⟩ := wordEntry_keywords
  obtain ⟨w1, w2, w3, w4, w5, w6, w7, w8, w9, w10, w11, w12, w13, w14⟩ := isWord_keywords
  rw [lexText_spaced]
  · simp only [classExampleWords, List.map_cons, List.map_nil, ec, em, ex, k4, k5, k6, k7,
      k10]
    rfl
  · intro w hw
    simp only [classExampleWords, List.mem_cons, List.mem_singleton, List.not_mem_nil,
      or_false] at hw
    rcases hw with rfl | rfl | rfl | rfl | rfl | rfl | rfl | rfl | rfl | rfl <;> assumption

theorem nameBuffers_some (prev n : vString) (t : ocaToken)
    (rest : List (Option vString × ocaToken)) :
    nameBuffers prev ((some n, t) :: rest) = (n, t) :: nameBuffers n rest := rfl

theorem nameBuffers_none (prev : vString) (t : ocaToken)
    (rest : List (Option vString × ocaToken)) :
    nameBuffers prev ((none, t) :: rest) = (prev, t) :: nameBuffers prev rest := rfl

theorem nameBuffers_nil (prev : vString) : nameBuffers prev [] = [] := rfl

theorem nameBuffers_identifiers (prev : vString) (ps : List vString) (n : vString)
    (t : ocaToken) (rest : List (Option vString × ocaToken)) :
    nameBuffers prev ((ps.map fun p => (some p, ocamlKeyword.OcaIDENTIFIER)) ++
        (some n, t) :: rest) =
      (ps.map fun p => (p, ocamlKeyword.OcaIDENTIFIER)) ++ (n, t) :: nameBuffers n rest := by
  induction ps generalizing prev with
  | nil => rfl
  | cons p ps ih => simp only [List.map_cons, List.cons_append, nameBuffers_some, ih]

theorem map_wordEntry_identifiers (ps : List vString)
    (hps : ∀ p ∈ ps, isIdentifierToken p = true) :
    ps.map wordEntry = ps.map fun p => (some p, ocamlKeyword.OcaIDENTIFIER) := by
  apply List.map_congr_left
  intro p hp
  exact (isIdentifierToken_spec p (hps p hp)).2.1

/-- The tokens `lex` yields on the line `let name p1 ... pk =` when the name
and the parameters are identifier tokens, and on the line `let name`. -/
theorem letBindingWords_lexed (name : vString) (params : List vString)
    (hname : isIdentifierToken name = true)
    (hparams : ∀ p ∈ params, isIdentifierToken p = true) :
    lexText (spaced (letBindingWords name params)) = some (letIdentParamsTokens name params) ∧
    lexText (spaced ["let".toList, name]) = some (letHeadTokens name) := by
  obtain ⟨wn, en, _⟩ := isIdentifierToken_spec name hname
  obtain ⟨k1, k2, k3, k4, k5, k6, k7, k8, k9, k10, k11, k12, k13, k14⟩ := wordEntry_keywords
  obtain ⟨w1, w2, w3, w4, w5, w6, w7, w8, w9, w10, w11, w12, w13, w14⟩ := isWord_keywords
  constructor
  · rw [lexText_spaced]
    · simp only [letBindingWords, List.cons_append, List.nil_append, List.map_cons,
        List.map_append, List.map_nil, en, k3, k10, map_wordEntry_identifiers params hparams]
      simp only [nameBuffers_some, nameBuffers_identifiers, nameBuffers_nil,
        letIdentParamsTokens, letHeadTokens, List.cons_append, List.nil_append,
        List.append_assoc]
    · intro w hw
      simp only [letBindingWords, List.cons_append, List.nil_append, List.mem_cons,
        List.mem_append, List.mem_singleton, List.not_mem_nil, or_false] at hw
      rcases hw with rfl | rfl | hw | rfl
      · assumption
      · assumption
      · exact (isIdentifierToken_spec w (hparams w hw)).1
      · assumption
  · rw [lexText_spaced]
    · simp only [List.map_cons, List.map_nil, en, k3]
      rfl
    · intro w hw
      simp only [List.mem_cons, List.mem_singleton, List.not_mem_nil, or_false] at hw
      rcases hw with rfl | rfl <;> assumption

theorem fieldWords_spec (f : recordField) (hf : isIdentifierField f = true) :
    (fieldWords f).map wordEntry = fieldTokens f ∧ ∀ w ∈ fieldWords f, isWord w = true := by
  simp only [isIdentifierField, Bool.and_eq_true, List.all_eq_true] at hf
  obtain ⟨hn, ht⟩ := hf
  obtain ⟨wn, en, _⟩ := isIdentifierToken_spec f.name hn
  obtain ⟨k1, k2, k3, k4, k5, k6, k7, k8, k9, k10, k11, k12, k13, k14⟩ := wordEntry_keywords
  obtain ⟨w1, w2, w3, w4, w5, w6, w7, w8, w9, w10, w11, w12, w13, w14⟩ := isWord_keywords
  constructor
  · cases hmut : f.isMutable <;>
    simp only [fieldWords, fieldTokens, hmut, if_true, if_false, Bool.false_eq_true,
      List.nil_append, List.cons_append, List.map_cons, List.map_append, List.map_nil, en, k9,
      k11, map_wordEntry_identifiers f.types ht]
  · intro w hw
    simp only [fieldWords, List.mem_append, List.mem_cons, List.mem_singleton,
      List.not_mem_nil, or_false] at hw
    rcases hw with (hw | rfl | rfl) | hw
    · cases hmut : f.isMutable
      · simp [hmut] at hw
      · simp only [hmut, if_true, List.mem_singleton] at hw
        rw [hw]; exact w9
    · exact wn
    · exact w11
    · exact (isIdentifierToken_spec w (ht w hw)).1

theorem recordBodyWords_spec (trailing : Bool) (fields : List recordField)
    (hfields : ∀ f ∈ fields, isIdentifierField f = true) :
    (recordBodyWords fields trailing).map wordEntry = recordBodyTokens fields trailing ∧
    ∀ w ∈ recordBodyWords fields trailing, isWord w = true := by
  obtain ⟨k1, k2, k3, k4, k5, k6, k7, k8, k9, k10, k11, k12, k13, k14⟩ := wordEntry_keywords
  obtain ⟨w1, w2, w3, w4, w5, w6, w7, w8, w9, w10, w11, w12, w13, w14⟩ := isWord_keywords
  induction fields with
  | nil =>
    refine ⟨by simp only [recordBodyWords, recordBodyTokens, List.map_cons, List.map_nil, k13],
      ?_⟩
    intro w hw
    simp only [recordBodyWords, List.mem_singleton] at hw
    rw [hw]; exact w13
  | cons f rest ih =>
    obtain ⟨e1, e2⟩ := fieldWords_spec f (hfields f (List.mem_cons_self _ _))
    cases rest with
    | nil =>
      constructor
      · cases trailing <;>
        simp only [recordBodyWords, recordBodyTokens, List.map_append, List.map_cons,
          List.map_nil, e1, k13, k14, if_true, if_false, Bool.false_eq_true, List.nil_append,
          List.cons_append]
      · intro w hw
        simp only [recordBodyWords, List.mem_append, List.mem_singleton] at hw
        rcases hw with hw | hw | rfl
        · exact e2 w hw
        · cases trailing
          · simp at hw
          · simp only [if_true, List.mem_singleton] at hw
            rw [hw]; exact w14
        · exact w13
    | cons g rest2 =>
      obtain ⟨i1, i2⟩ := ih (fun h hh => hfields h (List.mem_cons_of_mem _ hh))
      constructor
      · simp only [recordBodyWords, recordBodyTokens, List.map_append, List.map_cons, e1, k14,
          i1]
      · intro w hw
        simp only [recordBodyWords, List.mem_append, List.mem_cons] at hw
        rcases hw with hw | rfl | hw
        · exact e2 w hw
        · exact w14
        · exact i2 w hw

/-- The tokens `lex` yields on the line of a record type whose names are
identifier tokens. -/
theorem recordTypeWords_lexed (r : vString) (fields : List recordField) (trailing : Bool)
    (hr : isIdentifierToken r = true)
    (hfields : ∀ f ∈ fields, isIdentifierField f = true) :
    lexText (spaced (recordTypeWords r fields trailing)) =
      some (nameBuffers [] (recordTypeTokens r fields trailing)) := by
  obtain ⟨wr, er, _⟩ := isIdentifierToken_spec r hr
  obtain ⟨k1, k2, k3, k4, k5, k6, k7, k8, k9, k10, k11, k12, k13, k14⟩ := wordEntry_keywords
  obtain ⟨w1, w2, w3, w4, w5, w6, w7, w8, w9, w10, w11, w12, w13, w14⟩ := isWord_keywords
  obtain ⟨b1, b2⟩ := recordBodyWords_spec trailing fields hfields
  rw [lexText_spaced]
  · simp only [recordTypeWords, recordTypeTokens, List.cons_append, List.nil_append,
      List.map_cons, er, k8, k10, k12, b1]
  · intro w hw
    simp only [recordTypeWords, List.cons_append, List.nil_append, List.mem_cons] at hw
    rcases hw with rfl | rfl | rfl | rfl | hw
    · assumption
    · assumption
    · assumption
    · assumption
    · exact b2 w hw

/-- Outside the identifier tokens a top-level binding is tagged otherwise:
`let _foo = 1` gives a Function record `_foo` (a name that starts with `_` is
a `Tok_Val`, and the `Tok_Val` case of `globalLet` adds a Function record
whatever follows), `let f _x = 1` gives a Variable record `f` although `_x`
is a parameter, and `let value = 1` gives no record (`value` is an entry of
the keyword table). -/
theorem toplevel_let_outside_identifier_tokens :
    tagNamesAndKinds (automatonOnLine "let _foo = 1") =
      some [("_foo", ocamlKind.K_FUNCTION)] ∧
    tagNamesAndKinds (automatonOnLine "let f _x = 1") = some [("f", ocamlKind.K_VARIABLE)] ∧
    tagNamesAndKinds (automatonOnLine "let value = 1") = some [] := by
  refine ⟨?_, ?_, ?_⟩ <;> decide

open ocamlKind in
/-- C2, counterexample. On the line `module M = struct let f _x = _x end`,
whose parameter is the identifier `_x`, the tokens `lex` yields make the
automaton, run from the initial state, emit the Module record `M` and then a
record `f` of kind Variable, not Function; so does the line with the
parameter `value`, and so does the whole run of `findOcamlTags`, after the
module record of the file. -/
theorem module_example_underscore_parameter :
    tagNamesAndKinds (automatonOnLine "module M = struct let f _x = _x end") =
      some [("M", K_MODULE), ("f", K_VARIABLE)] ∧
    tagNamesAndKinds (automatonOnLine "module M = struct let f value = value end") =
      some [("M", K_MODULE), ("f", K_VARIABLE)] ∧
    tagNamesAndKinds (findOcamlTags 100 "t.ml".toList
        ["module M = struct let f _x = _x end".toList] (initialStatics OcamlKinds)) =
      some [("T", K_MODULE), ("M", K_MODULE), ("f", K_VARIABLE)] := by
  refine ⟨?_, ?_, ?_⟩ <;> decide

open ocamlKeyword ocamlKind in
/-- C2, amended. Let `M`, `f` and `x` be names that `lex` returns as
identifier tokens: each starts with a letter, is made of identifier
characters and is not an entry of the keyword table (`isIdentifierToken`).
The tokens `lex` yields on the line `module M = struct let f x = x end` are
`moduleExampleTokens M f x`; from a state whose active handler is
`globalScope` and whose stack is empty they make the automaton emit exactly a
Module record `M` without scope and then a Function record `f` whose scope is
the module `M`, and the stack is empty at the end. -/
theorem module_example_identifier_tokens (M f x : vString) (s : ParserState)
    (hM : isIdentifierToken M = true) (hf : isIdentifierToken f = true)
    (hx : isIdentifierToken x = true)
    (hstate : s.toDoNext = parseNext.globalScope) (hempty : s.stackIndex = 0)
    (hkm : s.kindEnabled K_MODULE = true) (hkf : s.kindEnabled K_FUNCTION = true) :
    lexText (spaced (moduleExampleWords M f x)) = some (moduleExampleTokens M f x) ∧
    (runTokens (moduleExampleTokens M f x) s).tags = s.tags ++
      [ { name := M, kindIndex := K_MODULE, lineNumber := s.ocaLineNumber,
          scopeKindIndex := none, scopeName := none },
        { name := f, kindIndex := K_FUNCTION, lineNumber := s.ocaLineNumber,
          scopeKindIndex := some K_MODULE, scopeName := some M } ] ∧
    (runTokens (moduleExampleTokens M f x) s).stackIndex = 0 :=
  ⟨moduleExampleWords_lexed M f x hM hf hx,
    module_example_on_tokens M f x s (isIdentifierToken_spec M hM).2.2
      (isIdentifierToken_spec f hf).2.2 hstate hempty hkm hkf⟩

open ocamlKeyword ocamlKind in
/-- A witness of the amended C2, at the names `Map`, `find`, `key'` and the
initial state of a fresh process; the line is
`module Map = struct let find key' = key' end`. -/
theorem module_example_identifier_tokens_witness :
    spaced (moduleExampleWords "Map".toList "find".toList "key'".toList) =
      "module Map = struct let find key' = key' end".toList ∧
    lexText (spaced (moduleExampleWords "Map".toList "find".toList "key'".toList)) =
      some (moduleExampleTokens "Map".toList "find".toList "key'".toList) ∧
    (runTokens (moduleExampleTokens "Map".toList "find".toList "key'".toList)
        (initialState OcamlKinds)).tags =
      (initialState OcamlKinds).tags ++
      [ { name := "Map".toList, kindIndex := K_MODULE,
          lineNumber := (initialState OcamlKinds).ocaLineNumber,
          scopeKindIndex := none, scopeName := none },
        { name := "find".toList, kindIndex := K_FUNCTION,
          lineNumber := (initialState OcamlKinds).ocaLineNumber,
          scopeKindIndex := some K_MODULE, scopeName := some "Map".toList } ] ∧
    (runTokens (moduleExampleTokens "Map".toList "find".toList "key'".toList)
        (initialState OcamlKinds)).stackIndex = 0 :=
  ⟨by decide,
    module_example_identifier_tokens "Map".toList "find".toList "key'".toList
      (initialState OcamlKinds) (by decide) (by decide) (by decide) rfl rfl rfl rfl⟩

open ocamlKind in
/-- C4, counterexample. On the line `class c = object method _m x = x end`,
whose method is the identifier `_m`, the tokens `lex` yields make the
automaton, run from the initial state, emit the Class record `c` and no
Method record; so does the whole run of `findOcamlTags`, after the module
record of the file.  On the line `class _c = object method m x = x end` the
only record is `m`, of kind Class. -/
theorem class_example_underscore_method :
    tagNamesAndKinds (automatonOnLine "class c = object method _m x = x end") =
      some [("c", K_CLASS)] ∧
    tagNamesAndKinds (findOcamlTags 100 "t.ml".toList
        ["class c = object method _m x = x end".toList] (initialStatics OcamlKinds)) =
      some [("T", K_MODULE), ("c", K_CLASS)] ∧
    tagNamesAndKinds (automatonOnLine "class _c = object method m x = x end") =
      some [("m", K_CLASS)] := by
  refine ⟨?_, ?_, ?_⟩ <;> decide

open ocamlKeyword ocamlKind in
/-- C4, amended. Let `c`, `m` and `x` be names that `lex` returns as
identifier tokens: each starts with a letter, is made of identifier
characters and is not an entry of the keyword table (`isIdentifierToken`).
The tokens `lex` yields on the line `class c = object method m x = x end` are
`classExampleTokens c m x`; from a state whose active handler is
`globalScope`, whose stack is empty and whose bracket counters are zero they
make the automaton emit exactly a Class record `c` and then a Method record
`m` whose scope is the class `c`; the frame pushed for `m` (the second frame,
once `m` is read) is named `c#m`. -/
theorem class_example_identifier_tokens (c m x : vString) (s : ParserState)
    (hc : isIdentifierToken c = true) (hm : isIdentifierToken m = true)
    (hx : isIdentifierToken x = true)
    (hstate : s.toDoNext = parseNext.globalScope) (hempty : s.stackIndex = 0)
    (hpar : s.parentheses = 0) (hbr : s.bracket = 0) (hcu : s.curly = 0)
    (hkc : s.kindEnabled K_CLASS = true) (hkm : s.kindEnabled K_METHOD = true) :
    lexText (spaced (classExampleWords c m x)) = some (classExampleTokens c m x) ∧
    (runTokens (classExampleTokens c m x) s).tags = s.tags ++
      [ { name := c, kindIndex := K_CLASS, lineNumber := s.ocaLineNumber,
          scopeKindIndex := none, scopeName := none },
        { name := m, kindIndex := K_METHOD, lineNumber := s.ocaLineNumber,
          scopeKindIndex := some K_CLASS, scopeName := some c } ] ∧
    (runTokensThen (classExampleHead c m) OcaIDENTIFIER s).stackIndex = 2 ∧
    (runTokensThen (classExampleHead c m) OcaIDENTIFIER s).stack 1 =
      { kind := contextKind.ContextStrong, type := contextType.ContextMethod,
        callback := parseNext.globalScope, contextName := c ++ ['#'] ++ m } :=
  ⟨classExampleWords_lexed c m x hc hm hx,
    class_example_on_tokens c m x s (isIdentifierToken_spec c hc).2.2
      (isIdentifierToken_spec m hm).2.2 hstate hempty hpar hbr hcu hkc hkm⟩

open ocamlKeyword ocamlKind in
/-- A witness of the amended C4, at the names `point`, `move`, `dx` and the
initial state of a fresh process; the line is
`class point = object method move dx = dx end`. -/
theorem class_example_identifier_tokens_witness :
    spaced (classExampleWords "point".toList "move".toList "dx".toList) =
      "class point = object method move dx = dx end".toList ∧
    lexText (spaced (classExampleWords "point".toList "move".toList "dx".toList)) =
      some (classExampleTokens "point".toList "move".toList "dx".toList) ∧
    (runTokens (classExampleTokens "point".toList "move".toList "dx".toList)
        (initialState OcamlKinds)).tags =
      (initialState OcamlKinds).tags ++
      [ { name := "point".toList, kindIndex := K_CLASS,
          lineNumber := (initialState OcamlKinds).ocaLineNumber,
          scopeKindIndex := none, scopeName := none },
        { name := "move".toList, kindIndex := K_METHOD,
          lineNumber := (initialState OcamlKinds).ocaLineNumber,
          scopeKindIndex := some K_CLASS, scopeName := some "point".toList } ] ∧
    (runTokensThen (classExampleHead "point".toList "move".toList) OcaIDENTIFIER
      (initialState OcamlKinds)).stackIndex = 2 ∧
    (runTokensThen (classExampleHead "point".toList "move".toList) OcaIDENTIFIER
      (initialState OcamlKinds)).stack 1 =
      { kind := contextKind.ContextStrong, type := contextType.ContextMethod,
        callback := parseNext.globalScope,
        contextName := "point".toList ++ ['#'] ++ "move".toList } :=
  ⟨by decide,
    class_example_identifier_tokens "point".toList "move".toList "dx".toList
      (initialState OcamlKinds) (by decide) (by decide) (by decide) rfl rfl rfl rfl rfl rfl
      rfl⟩

open ocamlKeyword ocamlKind in
/-- C5, amended. Let `name` be a name that `lex` returns as an identifier
token: it starts with a letter, is made of identifier characters and is not
an entry of the keyword table (`isIdentifierToken`).  The tokens `lex` yields
on the line `let name` are `letHeadTokens name`; from a state whose active
handler is `globalScope` and whose stack is empty, `let name` followed by a
token of kind `L` emits exactly one record, named `name` and without scope,
whose kind is Function if and only if `L` is an identifier token or an
opening parenthesis, and Variable otherwise.  When the `k` parameters are
identifier tokens as well, the tokens `lex` yields on the line
`let name p1 ... pk =` are `letIdentParamsTokens name params`, they emit
exactly that one record, and its kind is Function if and only if `k` is not
zero. -/
theorem toplevel_let_kind_identifier_tokens (name : vString) (s : ParserState)
    (hname : isIdentifierToken name = true)
    (hstate : s.toDoNext = parseNext.globalScope) (hempty : s.stackIndex = 0)
    (hkf : s.kindEnabled K_FUNCTION = true) (hkv : s.kindEnabled K_VARIABLE = true) :
    lexText (spaced ["let".toList, name]) = some (letHeadTokens name) ∧
    (∀ L : ocaToken, (runTokensThen (letHeadTokens name) L s).tags = s.tags ++
      [ { name := name,
          kindIndex := if L = OcaIDENTIFIER ∨ L = Tok_PARL then K_FUNCTION else K_VARIABLE,
          lineNumber := s.ocaLineNumber, scopeKindIndex := none, scopeName := none } ]) ∧
    (∀ params : List vString, (∀ p ∈ params, isIdentifierToken p = true) →
      lexText (spaced (letBindingWords name params)) =
        some (letIdentParamsTokens name params) ∧
      ∀ nxt : ocaToken,
        (runTokensThen (letIdentParamsTokens name params) nxt s).tags = s.tags ++
        [ { name := name,
            kindIndex := if params ≠ [] then K_FUNCTION else K_VARIABLE,
            lineNumber := s.ocaLineNumber, scopeKindIndex := none, scopeName := none } ]) :=
  ⟨(letBindingWords_lexed name [] hname (by simp)).2,
    (toplevel_let_kind_on_tokens name s (isIdentifierToken_spec name hname).2.2 hstate hempty
      hkf hkv).1,
    fun params hparams =>
      ⟨(letBindingWords_lexed name params hname hparams).1,
        fun nxt =>
          (toplevel_let_kind_on_tokens name s (isIdentifierToken_spec name hname).2.2 hstate
            hempty hkf hkv).2 params nxt⟩⟩

open ocamlKeyword ocamlKind in
/-- A witness of the amended C5, at the name `f` and the initial state of a
fresh process: `let f` before a wildcard (a `Tok_Val`) emits one Variable
record `f`, and the line `let f x y =` emits one Function record `f`. -/
theorem toplevel_let_kind_identifier_tokens_witness :
    (runTokensThen (letHeadTokens ['f']) Tok_Val (initialState OcamlKinds)).tags =
      (initialState OcamlKinds).tags ++
      [ { name := ['f'],
          kindIndex := if Tok_Val = OcaIDENTIFIER ∨ Tok_Val = Tok_PARL then K_FUNCTION
            else K_VARIABLE,
          lineNumber := (initialState OcamlKinds).ocaLineNumber,
          scopeKindIndex := none, scopeName := none } ] ∧
    spaced (letBindingWords ['f'] [['x'], ['y']]) = "let f x y =".toList ∧
    lexText (spaced (letBindingWords ['f'] [['x'], ['y']])) =
      some (letIdentParamsTokens ['f'] [['x'], ['y']]) ∧
    (runTokensThen (letIdentParamsTokens ['f'] [['x'], ['y']]) Tok_Val
        (initialState OcamlKinds)).tags =
      (initialState OcamlKinds).tags ++
      [ { name := ['f'],
          kindIndex := if [['x'], ['y']] ≠ ([] : List vString) then K_FUNCTION
            else K_VARIABLE,
          lineNumber := (initialState OcamlKinds).ocaLineNumber,
          scopeKindIndex := none, scopeName := none } ] :=
  ⟨(toplevel_let_kind_identifier_tokens ['f'] (initialState OcamlKinds) (by decide) rfl rfl
      rfl rfl).2.1 Tok_Val,
    by decide,
    ((toplevel_let_kind_identifier_tokens ['f'] (initialState OcamlKinds) (by decide) rfl rfl
      rfl rfl).2.2 [['x'], ['y']] (by decide)).1,
    ((toplevel_let_kind_identifier_tokens ['f'] (initialState OcamlKinds) (by decide) rfl rfl
      rfl rfl).2.2 [['x'], ['y']] (by decide)).2 Tok_Val⟩

open ocamlKind in
/-- C29, counterexample. On the line of a record type whose only field is
the identifier `_a`, of type `int`, the tokens `lex` yields make the
automaton, run from the initial state, emit the Type record `r` and then a
RecordField record named `int`, the type of the field, and none named `_a`;
so does the whole run of `findOcamlTags`, after the module record of the
file, and so does the line whose field is `value`.  When the name of the type
is `_r` the only record is the field `a`, of kind Type. -/
theorem record_type_underscore_field :
    tagNamesAndScopes (automatonOnLine "type r = { _a : int }") =
      some [("r", K_TYPE, none), ("int", K_RECORDFIELD, some "r")] ∧
    tagNamesAndScopes (findOcamlTags 100 "t.ml".toList ["type r = { _a : int }".toList]
        (initialStatics OcamlKinds)) =
      some [("T", K_MODULE, none), ("r", K_TYPE, none), ("int", K_RECORDFIELD, some "r")] ∧
    tagNamesAndScopes (automatonOnLine "type r = { value : int }") =
      some [("r", K_TYPE, none), ("int", K_RECORDFIELD, some "r")] ∧
    tagNamesAndScopes (automatonOnLine "type _r = { a : int }") =
      some [("a", K_TYPE, none)] := by
  refine ⟨?_, ?_, ?_, ?_⟩ <;> decide

open ocamlKeyword ocamlKind in
/-- C29, amended. Let the name `r` of the type, the names of the fields and
the words of their types be names that `lex` returns as identifier tokens:
each starts with a letter, is made of identifier characters and is not an
entry of the keyword table (`isIdentifierToken`, `isIdentifierField`).  The
tokens `lex` yields on the line of the record type
`type r = { [mutable] f1 : t1 ; ... ; fn : tn [;] }` with at least one field
are `recordTypeTokens r fields trailing`, with the name buffers of
`nameBuffers`; from a state whose handler is `globalScope` and whose stack is
empty they make the automaton emit exactly the Type record `r` and then the
RecordField records `f1` ... `fn` in order, each with scope kind type and
scope name `r`; `mutable` emits nothing; after the closing brace
`globalScope` is the next handler. -/
theorem record_type_fields_identifier_tokens (r : vString) (fields : List recordField)
    (trailing : Bool) (s : ParserState)
    (hr : isIdentifierToken r = true) (hfields : fields ≠ [])
    (hnames : ∀ f ∈ fields, isIdentifierField f = true)
    (hstate : s.toDoNext = parseNext.globalScope) (hempty : s.stackIndex = 0)
    (hkt : s.kindEnabled K_TYPE = true) (hkr : s.kindEnabled K_RECORDFIELD = true) :
    lexText (spaced (recordTypeWords r fields trailing)) =
      some (nameBuffers [] (recordTypeTokens r fields trailing)) ∧
    (runTokens (nameBuffers [] (recordTypeTokens r fields trailing)) s).tags =
      s.tags ++
        { name := r, kindIndex := K_TYPE, lineNumber := s.ocaLineNumber,
          scopeKindIndex := none, scopeName := none } ::
        fields.map (recordFieldTag r s.ocaLineNumber) ∧
    (runTokens (nameBuffers [] (recordTypeTokens r fields trailing)) s).toDoNext =
      parseNext.globalScope :=
  ⟨recordTypeWords_lexed r fields trailing hr hnames,
    record_type_fields_on_tokens r fields trailing s (isIdentifierToken_spec r hr).2.2 hfields
      (fun f hf => by
        have h := hnames f hf
        simp only [isIdentifierField, Bool.and_eq_true] at h
        exact (isIdentifierToken_spec f.name h.1).2.2)
      hstate hempty hkt hkr⟩

open ocamlKeyword ocamlKind in
/-- A witness of the amended C29, on the line
`type r = { mutable a : int ; b : string list }` and the initial state of a
fresh process. -/
theorem record_type_fields_identifier_tokens_witness :
    spaced (recordTypeWords ['r']
        [{ isMutable := true, name := ['a'], types := ["int".toList] },
         { isMutable := false, name := ['b'], types := ["string".toList, "list".toList] }]
        false) = "type r = { mutable a : int ; b : string list }".toList ∧
    lexText (spaced (recordTypeWords ['r']
        [{ isMutable := true, name := ['a'], types := ["int".toList] },
         { isMutable := false, name := ['b'], types := ["string".toList, "list".toList] }]
        false)) =
      some (nameBuffers [] (recordTypeTokens ['r']
        [{ isMutable := true, name := ['a'], types := ["int".toList] },
         { isMutable := false, name := ['b'], types := ["string".toList, "list".toList] }]
        false)) ∧
    (runTokens (nameBuffers [] (recordTypeTokens ['r']
        [{ isMutable := true, name := ['a'], types := ["int".toList] },
         { isMutable := false, name := ['b'], types := ["string".toList, "list".toList] }]
        false)) (initialState OcamlKinds)).tags =
      (initialState OcamlKinds).tags ++
        { name := ['r'], kindIndex := K_TYPE,
          lineNumber := (initialState OcamlKinds).ocaLineNumber,
          scopeKindIndex := none, scopeName := none } ::
        [{ isMutable := true, name := ['a'], types := ["int".toList] },
         { isMutable := false, name := ['b'],
           types := ["string".toList, "list".toList] }].map
          (recordFieldTag ['r'] (initialState OcamlKinds).ocaLineNumber) ∧
    (runTokens (nameBuffers [] (recordTypeTokens ['r']
        [{ isMutable := true, name := ['a'], types := ["int".toList] },
         { isMutable := false, name := ['b'], types := ["string".toList, "list".toList] }]
        false)) (initialState OcamlKinds)).toDoNext = parseNext.globalScope :=
  ⟨by decide,
    record_type_fields_identifier_tokens ['r']
      [{ isMutable := true, name := ['a'], types := ["int".toList] },
       { isMutable := false, name := ['b'], types := ["string".toList, "list".toList] }]
      false (initialState OcamlKinds) (by decide) (by simp)
      (by
        intro f hf
        simp only [List.mem_cons, List.mem_singleton, List.not_mem_nil, or_false] at hf
        rcases hf with rfl | rfl <;> decide)
      rfl rfl rfl rfl⟩

end Ocaml
